import Mathlib

/-!
Shallow embedding of the half-edge triangulation in
`src/umeshu/Triangulation.h` (class `Triangulation`, which derives from the
entity store `hds::HDS`).  Handles are natural numbers; the four entity maps
are association lists keyed by handle.  Exceptions are modelled by a result
type that carries the state at the throw site, matching C++ semantics where
a throw leaves prior mutations visible.
-/

namespace Umeshu

/-- Modelled from the spec: the geometric kernel is external
(`Exact_adaptive_kernel` is out of scope); it provides exact 2D points and an
exact orientation predicate.  Points carry integer coordinates so that the
predicate is exact. -/
structure Point2 where
  x : Int
  y : Int
deriving DecidableEq, Repr

inductive Oriented_side where
  | ON_POSITIVE_SIDE
  | ON_ORIENTED_BOUNDARY
  | ON_NEGATIVE_SIDE
deriving DecidableEq, Repr

/-- Modelled from the spec: `oriented_side(A, B, P)` reports whether `P` lies
strictly to the left of the directed line `AB` (positive side), strictly to
the right (negative side), or exactly on the line. -/
def oriented_side (a b p : Point2) : Oriented_side :=
  let det := (b.x - a.x) * (p.y - a.y) - (b.y - a.y) * (p.x - a.x)
  if 0 < det then .ON_POSITIVE_SIDE
  else if det < 0 then .ON_NEGATIVE_SIDE
  else .ON_ORIENTED_BOUNDARY

/-- Data record of a `Node`: a 2D position and an outgoing-halfedge handle
(`none` when the node is isolated). -/
structure NodeD where
  position : Point2
  halfedge : Option Nat
deriving DecidableEq, Repr

/-- Data record of a `Halfedge`: origin node, opposite halfedge, next and
previous halfedges in face traversal, owning edge, and incident face
(`none` for a boundary halfedge). -/
structure HalfedgeD where
  origin : Option Nat
  pair : Nat
  next : Nat
  prev : Nat
  edge : Nat
  face : Option Nat
deriving DecidableEq, Repr

/-- Data record of an `Edge`: its two halfedges. -/
structure EdgeD where
  he1 : Nat
  he2 : Nat
deriving DecidableEq, Repr

/-- Data record of a `Face`: one halfedge on its boundary. -/
structure FaceD where
  halfedge : Nat
deriving DecidableEq, Repr

/-- Finite map from handles to entity data, as an association list.
`fresh` in `HDS` bounds all allocated keys. -/
def mget {α : Type} (m : List (Nat × α)) (k : Nat) : Option α :=
  match m with
  | [] => none
  | (k', v) :: r => if k' = k then some v else mget r k

/-- Update the (first) entry at key `k` by `f`; no-op when absent. -/
def mmod {α : Type} (m : List (Nat × α)) (k : Nat) (f : α → α) : List (Nat × α) :=
  match m with
  | [] => []
  | (k', v) :: r => if k' = k then (k', f v) :: r else (k', v) :: mmod r k f

/-- Remove the (first) entry at key `k`. -/
def merase {α : Type} (m : List (Nat × α)) (k : Nat) : List (Nat × α) :=
  match m with
  | [] => []
  | (k', v) :: r => if k' = k then r else (k', v) :: merase r k

/-- The state of the `hds::HDS` entity store: the four entity maps and a
fresh-handle counter (all allocated handles are `< fresh`). -/
structure HDS where
  nodes : List (Nat × NodeD)
  halfedges : List (Nat × HalfedgeD)
  edges : List (Nat × EdgeD)
  faces : List (Nat × FaceD)
  fresh : Nat
deriving DecidableEq, Repr

/-- Discriminator of `add_face_error` (the spec's `FaceError` reasons). -/
inductive FaceReason where
  | notFree
  | notChain
  | nonManifold
deriving DecidableEq, Repr

/-- Exceptions: `bad_topology_error` (TopologyError) and `add_face_error`
(FaceError with its discriminator). -/
inductive Err where
  | topo
  | face (r : FaceReason)
deriving DecidableEq, Repr

/-- Result of running an operation: normal return, a thrown exception
together with the state at the throw site (C++ exceptions leave prior
mutations visible), or undefined behaviour / divergence (dangling handle
dereference, failed `BOOST_ASSERT`, or a non-terminating loop). -/
inductive Res (α : Type) where
  | ok : α → Res α
  | err : Err → HDS → Res α
  | div : Res α
deriving DecidableEq, Repr

def Res.bind {α β : Type} : Res α → (α → Res β) → Res β
  | .ok a, f => f a
  | .err e s, _ => .err e s
  | .div, _ => .div

instance : Monad Res where
  pure := Res.ok
  bind := Res.bind

@[simp] theorem Res.bind_ok {α β : Type} (a : α) (f : α → Res β) :
    Res.bind (Res.ok a) f = f a := rfl

@[simp] theorem Res.bind_err {α β : Type} (e : Err) (s : HDS) (f : α → Res β) :
    Res.bind (Res.err e s) f = Res.err e s := rfl

@[simp] theorem Res.bind_div {α β : Type} (f : α → Res β) :
    Res.bind (Res.div : Res α) f = Res.div := rfl

@[simp] theorem Res.monad_bind {α β : Type} (x : Res α) (f : α → Res β) :
    x >>= f = Res.bind x f := rfl

@[simp] theorem Res.monad_pure {α : Type} (a : α) : (pure a : Res α) = Res.ok a := rfl

/-- Dereference a halfedge handle; dangling handles are undefined behaviour. -/
def HDS.he? (s : HDS) (h : Nat) : Res HalfedgeD :=
  match mget s.halfedges h with
  | some d => .ok d
  | none => .div

def HDS.node? (s : HDS) (n : Nat) : Res NodeD :=
  match mget s.nodes n with
  | some d => .ok d
  | none => .div

def HDS.edge? (s : HDS) (e : Nat) : Res EdgeD :=
  match mget s.edges e with
  | some d => .ok d
  | none => .div

def HDS.face? (s : HDS) (f : Nat) : Res FaceD :=
  match mget s.faces f with
  | some d => .ok d
  | none => .div

def HDS.set_origin (s : HDS) (h : Nat) (v : Option Nat) : HDS :=
  { s with halfedges := mmod s.halfedges h (fun d => { d with origin := v }) }

def HDS.set_next (s : HDS) (h : Nat) (v : Nat) : HDS :=
  { s with halfedges := mmod s.halfedges h (fun d => { d with next := v }) }

def HDS.set_prev (s : HDS) (h : Nat) (v : Nat) : HDS :=
  { s with halfedges := mmod s.halfedges h (fun d => { d with prev := v }) }

def HDS.set_face (s : HDS) (h : Nat) (v : Option Nat) : HDS :=
  { s with halfedges := mmod s.halfedges h (fun d => { d with face := v }) }

def HDS.set_node_halfedge (s : HDS) (n : Nat) (v : Option Nat) : HDS :=
  { s with nodes := mmod s.nodes n (fun d => { d with halfedge := v }) }

def HDS.set_position (s : HDS) (n : Nat) (p : Point2) : HDS :=
  { s with nodes := mmod s.nodes n (fun d => { d with position := p }) }

def HDS.set_face_halfedge (s : HDS) (f : Nat) (v : Nat) : HDS :=
  { s with faces := mmod s.faces f (fun d => { d with halfedge := v }) }

/-- Modelled from the spec: `allocate_node()` of the entity store returns a
fresh node handle; the node is isolated. -/
def HDS.get_new_node (s : HDS) : HDS × Nat :=
  let n := s.fresh
  ({ s with nodes := (n, ⟨⟨0, 0⟩, none⟩) :: s.nodes, fresh := s.fresh + 1 }, n)

/-- Modelled from the spec: `allocate_edge()` returns a new edge with both
halfedges pre-linked as a stub: `he1.pair = he2`, `he2.pair = he1`,
`he1.next = he2`, `he2.next = he1`, `he1.prev = he2`, `he2.prev = he1`,
`face = null`, `origin = null`. -/
def HDS.get_new_edge (s : HDS) : HDS × Nat :=
  let h1 := s.fresh
  let h2 := s.fresh + 1
  let e := s.fresh + 2
  ({ s with
      halfedges :=
        (h1, ⟨none, h2, h2, h2, e, none⟩) :: (h2, ⟨none, h1, h1, h1, e, none⟩) :: s.halfedges,
      edges := (e, ⟨h1, h2⟩) :: s.edges,
      fresh := s.fresh + 3 }, e)

/-- Modelled from the spec: `allocate_face()` returns a fresh face handle. -/
def HDS.get_new_face (s : HDS) : HDS × Nat :=
  let f := s.fresh
  ({ s with faces := (f, ⟨0⟩) :: s.faces, fresh := s.fresh + 1 }, f)

/-- Modelled from the spec: `delete_node(h)` removes the node from the store. -/
def HDS.delete_node (s : HDS) (n : Nat) : HDS :=
  { s with nodes := merase s.nodes n }

/-- Modelled from the spec: `delete_edge(h)` removes the edge and the two
halfedges it owns. -/
def HDS.delete_edge (s : HDS) (e : Nat) : HDS :=
  match mget s.edges e with
  | none => { s with edges := merase s.edges e }
  | some ed =>
      { s with
          edges := merase s.edges e,
          halfedges := merase (merase s.halfedges ed.he1) ed.he2 }

/-- Modelled from the spec: `delete_face(h)` removes the face from the store. -/
def HDS.delete_face (s : HDS) (f : Nat) : HDS :=
  { s with faces := merase s.faces f }

/-- The empty store. -/
def HDS.empty : HDS := ⟨[], [], [], [], 0⟩

/-- Dereference a possibly-null handle; dereferencing the null handle is
undefined behaviour. -/
def nonNull : Option Nat → Res Nat
  | some n => .ok n
  | none => .div

/-- Loop body of `find_free_incident_halfedge(Node_handle)`
(Triangulation.h:395-404): a do-while that returns the current halfedge when
it is boundary, steps by `next().pair()`, and throws `bad_topology_error`
when the walk comes back to `he_start`.  The fuel only cuts genuinely
diverging walks. -/
def ffih_node_go (s : HDS) (start : Nat) : Nat → Nat → Res Nat
  | _, 0 => .div
  | cur, fuel+1 => do
    let cd ← s.he? cur
    if cd.face = none then pure cur
    else do
      let nd ← s.he? cd.next
      if nd.pair = start then Res.err .topo s
      else ffih_node_go s start nd.pair fuel

/-- `find_free_incident_halfedge(Node_handle n)` (Triangulation.h:388-408):
asserts `!n->is_isolated()`, starts at `n->halfedge()->pair()`. -/
def find_free_incident_halfedge_n (s : HDS) (n : Nat) : Res Nat := do
  let nd ← s.node? n
  match nd.halfedge with
  | none => Res.div
  | some nh => do
      let nhd ← s.he? nh
      ffih_node_go s nhd.pair nhd.pair (s.halfedges.length + 1)

/-- Loop body of `find_free_incident_halfedge(Halfedge_handle, Halfedge_handle)`
(Triangulation.h:414-423): same walk, bounded by `he2` instead of the start. -/
def ffih_bounded_go (s : HDS) (stop : Nat) : Nat → Nat → Res Nat
  | _, 0 => .div
  | cur, fuel+1 => do
    let cd ← s.he? cur
    if cd.face = none then pure cur
    else do
      let nd ← s.he? cd.next
      if nd.pair = stop then Res.err .topo s
      else ffih_bounded_go s stop nd.pair fuel

/-- `find_free_incident_halfedge(Halfedge_handle he1, Halfedge_handle he2)`
(Triangulation.h:410-427), with its `BOOST_ASSERT` on the two pairs' origins. -/
def find_free_incident_halfedge_from (s : HDS) (he1 he2 : Nat) : Res Nat := do
  let d1 ← s.he? he1
  let p1 ← s.he? d1.pair
  let d2 ← s.he? he2
  let p2 ← s.he? d2.pair
  if p1.origin ≠ p2.origin then Res.div
  else ffih_bounded_go s he2 he1 (s.halfedges.length + 1)

/-- `attach_halfedge_to_node` (Triangulation.h:341-361). -/
def attach_halfedge_to_node (s : HDS) (he n : Nat) : Res HDS := do
  let hd ← s.he? he
  let s := s.set_origin he (some n)
  let nd ← s.node? n
  match nd.halfedge with
  | none =>
      let s := s.set_node_halfedge n (some he)
      let s := s.set_prev he hd.pair
      let s := s.set_next hd.pair he
      pure s
  | some _ => do
      let g ← find_free_incident_halfedge_n s n
      let gd ← s.he? g
      let s := s.set_next g he
      let s := s.set_prev he g
      let s := s.set_next hd.pair gd.next
      let s := s.set_prev gd.next hd.pair
      pure s

/-- `make_adjacent` (Triangulation.h:363-386). -/
def make_adjacent (s : HDS) (inh outh : Nat) : Res (HDS × Bool) := do
  let ind ← s.he? inh
  if ind.next = outh then pure (s, true)
  else do
    let b := ind.next
    let outd ← s.he? outh
    let d := outd.prev
    let g ← find_free_incident_halfedge_from s outd.pair inh
    let gd ← s.he? g
    let h := gd.next
    let s := s.set_next inh outh
    let s := s.set_prev outh inh
    let s := s.set_next g b
    let s := s.set_prev b g
    let s := s.set_next d h
    let s := s.set_prev h d
    pure (s, true)

/-- `detach_edge` (Triangulation.h:430-448). -/
def detach_edge (s : HDS) (he : Nat) : Res HDS := do
  let hd ← s.he? he
  let n ← nonNull hd.origin
  let nd ← s.node? n
  let pd ← s.he? hd.pair
  let s :=
    if nd.halfedge = some he then
      if pd.next ≠ he then s.set_node_halfedge n (some pd.next)
      else s.set_node_halfedge n none
    else s
  let s := s.set_next hd.prev pd.next
  let s := s.set_prev pd.next hd.prev
  pure s

/-- `add_node` (Triangulation.h:69-74). -/
def add_node (s : HDS) (p : Point2) : HDS × Nat :=
  let (s, n) := s.get_new_node
  (s.set_position n p, n)

/-- `add_edge` (Triangulation.h:90-111): asserts `n1 != n2`, allocates an
edge, attaches both halfedges (the catch block only decorates and rethrows),
returns `he1`. -/
def add_edge (s : HDS) (n1 n2 : Nat) : Res (HDS × Nat) := do
  if n1 = n2 then Res.div
  else do
    let (s, e) := s.get_new_edge
    let ed ← s.edge? e
    let s ← attach_halfedge_to_node s ed.he1 n1
    let s ← attach_halfedge_to_node s ed.he2 n2
    pure (s, ed.he1)

/-- `remove_face` (Triangulation.h:166-172). -/
def remove_face (s : HDS) (f : Nat) : Res HDS := do
  let fd ← s.face? f
  let hd ← s.he? fd.halfedge
  let s := s.set_face fd.halfedge none
  let s := s.set_face hd.next none
  let s := s.set_face hd.prev none
  pure (s.delete_face f)

/-- `remove_edge` (Triangulation.h:113-129); note that `he2`'s boundary flag
is re-read after the first face removal, as in the source. -/
def remove_edge (s : HDS) (e : Nat) : Res HDS := do
  let ed ← s.edge? e
  let d1 ← s.he? ed.he1
  let s ← match d1.face with
    | some f => remove_face s f
    | none => pure s
  let d2 ← s.he? ed.he2
  let s ← match d2.face with
    | some f => remove_face s f
    | none => pure s
  let s ← detach_edge s ed.he1
  let s ← detach_edge s ed.he2
  pure (s.delete_edge e)

/-- `add_face` (Triangulation.h:132-164), with the three checks in source
order and the short-circuit evaluation of the three `make_adjacent` calls. -/
def add_face (s : HDS) (h1 h2 h3 : Nat) : Res (HDS × Nat) := do
  let d1 ← s.he? h1
  let d2 ← s.he? h2
  let d3 ← s.he? h3
  if ¬(d1.face = none ∧ d2.face = none ∧ d3.face = none) then
    Res.err (.face .notFree) s
  else do
    let p1 ← s.he? d1.pair
    let p2 ← s.he? d2.pair
    let p3 ← s.he? d3.pair
    if ¬(p1.origin = d2.origin ∧ p2.origin = d3.origin ∧ p3.origin = d1.origin) then
      Res.err (.face .notChain) s
    else do
      let (s, b1) ← make_adjacent s h1 h2
      let (s, b2) ← if b1 then make_adjacent s h2 h3 else pure (s, false)
      let (s, b3) ← if b1 ∧ b2 then make_adjacent s h3 h1 else pure (s, false)
      if ¬(b1 ∧ b2 ∧ b3) then Res.err (.face .nonManifold) s
      else do
        let (s, f) := s.get_new_face
        let s := s.set_face_halfedge f h1
        let s := s.set_face h1 (some f)
        let s := s.set_face h2 (some f)
        let s := s.set_face h3 (some f)
        pure (s, f)

/-- Loop of `remove_node` (Triangulation.h:76-88): `next` is computed from
`cur->pair()->next()` before the edge removal, as in the source. -/
def remove_node_go (s : HDS) (n : Nat) : Option Nat → Nat → Res HDS
  | _, 0 => Res.div
  | nxt, fuel+1 => do
    let nd ← s.node? n
    match nd.halfedge with
    | none => pure (s.delete_node n)
    | some _ => do
        let cur ← nonNull nxt
        let cd ← s.he? cur
        let pd ← s.he? cd.pair
        let s ← remove_edge s cd.edge
        remove_node_go s n (some pd.next) fuel

/-- `remove_node` (Triangulation.h:76-88). -/
def remove_node (s : HDS) (n : Nat) : Res HDS := do
  let nd ← s.node? n
  remove_node_go s n nd.halfedge (s.edges.length + 1)

/-- `split_edge` (Triangulation.h:174-219). -/
def split_edge (s : HDS) (e : Nat) (p : Point2) : Res (HDS × Nat) := do
  let ed ← s.edge? e
  let d1 ← s.he? ed.he1
  let d2 ← s.he? ed.he2
  let n1 ← nonNull d1.origin
  let n2 ← nonNull d2.origin
  let f1data ← (if d1.face ≠ none then do
      let d6 ← s.he? d1.prev
      pure (some (d1.next, d1.prev, d6.origin))
    else pure none)
  let f2data ← (if d2.face ≠ none then do
      let d8 ← s.he? d2.prev
      pure (some (d2.next, d2.prev, d8.origin))
    else pure none)
  let s ← remove_edge s e
  let (s, n_new) := add_node s p
  let (s, h1) ← add_edge s n_new n1
  let (s, h2) ← add_edge s n_new n2
  let s ← (match f1data with
    | none => pure s
    | some (h5, h6, n3o) => do
        let n3 ← nonNull n3o
        let (s, h3) ← add_edge s n_new n3
        let d3 ← s.he? h3
        let (s, _) ← add_face s h2 h5 d3.pair
        let dh1 ← s.he? h1
        let (s, _) ← add_face s h3 h6 dh1.pair
        pure s)
  let s ← (match f2data with
    | none => pure s
    | some (h7, h8, n4o) => do
        let n4 ← nonNull n4o
        let (s, h4) ← add_edge s n_new n4
        let d4 ← s.he? h4
        let (s, _) ← add_face s h1 h7 d4.pair
        let dh2 ← s.he? h2
        let (s, _) ← add_face s h4 h8 dh2.pair
        pure s)
  pure (s, n_new)

/-- `split_face` (Triangulation.h:221-235). -/
def split_face (s : HDS) (f : Nat) (p : Point2) : Res (HDS × Nat) := do
  let fd ← s.face? f
  let h1 := fd.halfedge
  let d1 ← s.he? h1
  let h2 := d1.next
  let h3 := d1.prev
  let s ← remove_face s f
  let (s, n_new) := add_node s p
  let o1 ← s.he? h1
  let m1 ← nonNull o1.origin
  let (s, h4) ← add_edge s n_new m1
  let o2 ← s.he? h2
  let m2 ← nonNull o2.origin
  let (s, h5) ← add_edge s n_new m2
  let o3 ← s.he? h3
  let m3 ← nonNull o3.origin
  let (s, h6) ← add_edge s n_new m3
  let d5 ← s.he? h5
  let (s, _) ← add_face s h4 h1 d5.pair
  let d6 ← s.he? h6
  let (s, _) ← add_face s h5 h2 d6.pair
  let d4 ← s.he? h4
  let (s, _) ← add_face s h6 h3 d4.pair
  pure (s, n_new)

/-- Result of `locate` (Triangulation.h:267-337): the `Point_location`
discriminator together with the returned face / out-parameter handle. -/
inductive LocRes where
  | inFace (f : Option Nat)
  | onEdge (e : Nat)
  | onNode (n : Option Nat)
  | outside (e : Nat)
deriving DecidableEq, Repr

/-- Loop of `locate` (Triangulation.h:282-336).  The `ON_ORIENTED_BOUNDARY`
case has no `break` and falls through into `ON_NEGATIVE_SIDE` when the point
is collinear but outside the edge's extent. -/
def locate_go (s : HDS) (p : Point2) : Nat → Nat → Nat → Res LocRes
  | _, _, 0 => Res.div
  | he_start, he_iter, fuel+1 => do
    let hd ← s.he? he_iter
    let n1 ← nonNull hd.origin
    let od ← s.node? n1
    let p1 := od.position
    let pd ← s.he? hd.pair
    let n2 ← nonNull pd.origin
    let pod ← s.node? n2
    let p2 := pod.position
    match oriented_side p1 p2 p with
    | .ON_POSITIVE_SIDE =>
        if hd.next = he_start then do
          let nd ← s.he? hd.next
          pure (LocRes.inFace nd.face)
        else locate_go s p he_start hd.next fuel
    | .ON_ORIENTED_BOUNDARY =>
        if (min p1.x p2.x < p.x ∧ p.x < max p1.x p2.x) ∨
           (min p1.y p2.y < p.y ∧ p.y < max p1.y p2.y) then
          pure (LocRes.onEdge hd.edge)
        else if p = p1 then pure (LocRes.onNode hd.origin)
        else if p = p2 then pure (LocRes.onNode pd.origin)
        else
          if pd.face = none then pure (LocRes.outside hd.edge)
          else locate_go s p hd.pair pd.next fuel
    | .ON_NEGATIVE_SIDE =>
        if pd.face = none then pure (LocRes.outside hd.edge)
        else locate_go s p hd.pair pd.next fuel

/-- `locate` (Triangulation.h:267-337): the start halfedge comes from the
given start face, or from `faces_begin()` when absent.  The `while (true)`
loop is given explicit fuel. -/
def locate (s : HDS) (p : Point2) (start_face : Option Nat) (fuel : Nat) : Res LocRes := do
  let he_start ← (match start_face with
    | none =>
        match s.faces with
        | [] => Res.div
        | (_, fd) :: _ => pure fd.halfedge
    | some f => do
        let fd ← s.face? f
        pure fd.halfedge)
  locate_go s p he_start he_start fuel

/-- Extract the state from a result (used to name concrete states built by
running the public operations; the default is never reached on the concrete
runs below). -/
def stateOf : Res HDS → HDS
  | .ok s => s
  | .err _ s => s
  | .div => HDS.empty

def stateOf2 : Res (HDS × Nat) → HDS
  | .ok (s, _) => s
  | .err _ s => s
  | .div => HDS.empty

/-- Scenario S1 of the spec: a single triangle on nodes `0 = (0,0)`,
`1 = (2,0)`, `2 = (0,2)`; interior halfedges `3` (0→1), `6` (1→2), `9` (2→0)
carry face `12`; boundary halfedges are `4`, `7`, `10`. -/
def buildTri : Res (HDS × Nat) := do
  let (s, _) := add_node HDS.empty ⟨0, 0⟩
  let (s, _) := add_node s ⟨2, 0⟩
  let (s, _) := add_node s ⟨0, 2⟩
  let (s, _) ← add_edge s 0 1
  let (s, _) ← add_edge s 1 2
  let (s, _) ← add_edge s 2 0
  add_face s 3 6 9

def Tri : HDS := stateOf2 buildTri

/-- The triangle `Tri` with one extra edge attached at node `1` (to node
`13 = (4,4)`), so that node `1` keeps no free halfedge between `pair 4 = 3`
and `7`.  Built by the public operations, hence reachable. -/
def buildTriPlus : Res HDS := do
  let (s, z) := add_node Tri ⟨4, 4⟩
  let (s, _) ← add_edge s 1 z
  pure s

def TriPlus : HDS := stateOf buildTriPlus

/-- Two nodes joined by two parallel edges (`add_edge` twice); halfedges
`2` (0→1) and `3` (1→0) belong to edge `4`, halfedges `5` (0→1) and
`6` (1→0) to edge `7`.  Reachable, since edge simplicity is not enforced. -/
def buildPar : Res HDS := do
  let (s, _) := add_node HDS.empty ⟨0, 0⟩
  let (s, _) := add_node s ⟨1, 0⟩
  let (s, _) ← add_edge s 0 1
  let (s, _) ← add_edge s 0 1
  pure s

def Par : HDS := stateOf buildPar

/-- One isolated node `0` plus a freshly allocated edge stub (halfedges `1`,
`2`, edge `3`), not yet attached anywhere. -/
def NodeStub : HDS :=
  ((add_node HDS.empty ⟨0, 0⟩).1.get_new_edge).1

/-- The state returned by `make_adjacent Par 3 2` (used to exhibit the
clobbered relink). -/
def ParAfter : HDS :=
  match make_adjacent Par 3 2 with
  | .ok (t, _) => t
  | _ => HDS.empty

/-- A fan of three boundary edges around node `1`: edges `0–1` (halfedges
`4`, `5`), `1–2` (halfedges `7`, `8`) and `1–3` (halfedges `10`, `11`).
Here `make_adjacent 4 7` performs an actual splice. -/
def buildFan : Res HDS := do
  let (s, _) := add_node HDS.empty ⟨0, 0⟩
  let (s, _) := add_node s ⟨2, 0⟩
  let (s, _) := add_node s ⟨0, 2⟩
  let (s, _) := add_node s ⟨2, 2⟩
  let (s, _) ← add_edge s 0 1
  let (s, _) ← add_edge s 1 2
  let (s, _) ← add_edge s 1 3
  pure s

def Fan : HDS := stateOf buildFan

/-- The state returned by `make_adjacent Fan 4 7`. -/
def FanAfter : HDS :=
  match make_adjacent Fan 4 7 with
  | .ok (t, _) => t
  | _ => HDS.empty

/-- The state after splitting the triangle's bottom edge `5` at `(1,0)`. -/
def TriSplit : HDS :=
  match split_edge Tri 5 ⟨1, 0⟩ with
  | .ok (s, _) => s
  | _ => HDS.empty

/-- One step of the around-a-node walk used by both overloads of
`find_free_incident_halfedge`: `cur ↦ cur->next()->pair()`. -/
def walk_step (s : HDS) (h : Nat) : Option Nat :=
  match mget s.halfedges h with
  | none => none
  | some d =>
      match mget s.halfedges d.next with
      | none => none
      | some nd => some nd.pair

/-- Whether halfedge `h` is a boundary halfedge of `s` (`is_boundary`:
its incident face is null). -/
def boundaryB (s : HDS) (h : Nat) : Bool :=
  match mget s.halfedges h with
  | none => false
  | some d => d.face.isNone

/-- `walkCycle s start cur L`: `L` lists the walk positions starting at
`cur`, stepping by `walk_step`, up to (and excluding) the first return to
`start`; the walk does return to `start` right after the last element.  With
`cur = start` this says the walk orbit of `start` is exactly the cycle `L`. -/
def walkCycle (s : HDS) (start : Nat) : Nat → List Nat → Bool
  | _, [] => false
  | cur, [a] => decide (a = cur) && decide (walk_step s cur = some start)
  | cur, a :: b :: rest =>
      decide (a = cur) && decide (walk_step s cur = some b) &&
        decide (b ≠ start) && walkCycle s start b (b :: rest)

/-- The keys of an entity map. -/
def keysOf {α : Type} (m : List (Nat × α)) : List Nat := m.map Prod.fst

/-- The next-field of the halfedge store, as a partial function on handles. -/
def nextF (s : HDS) (h : Nat) : Option Nat :=
  (mget s.halfedges h).map (fun r => r.next)

/-- The prev-field of the halfedge store, as a partial function on handles. -/
def prevF (s : HDS) (h : Nat) : Option Nat :=
  (mget s.halfedges h).map (fun r => r.prev)

/-- The pair-field of the halfedge store, as a partial function on handles. -/
def pairF (s : HDS) (h : Nat) : Option Nat :=
  (mget s.halfedges h).map (fun r => r.pair)

/-- The origin-field of the halfedge store, as a partial function on
handles. -/
def origF (s : HDS) (h : Nat) : Option (Option Nat) :=
  (mget s.halfedges h).map (fun r => r.origin)

/-- Halfedge `x` is incoming at node `n`: its pair originates at `n`
(`x == x->pair()->origin()`-incidence, the set walked by both overloads of
`find_free_incident_halfedge`). -/
def Incoming (s : HDS) (n x : Nat) : Prop :=
  ∃ dx, mget s.halfedges x = some dx ∧
    ∃ dpx, mget s.halfedges dx.pair = some dpx ∧ dpx.origin = some n

/-- Consecutive elements of `L` are successive values of the step function
`f` (no wrap-around). -/
def stepsOK (f : Nat → Option Nat) (L : List Nat) : Prop :=
  List.Chain' (fun a b => f a = some b) L

/-- `L` is a closed cycle of the step function `f`: consecutive steps hold
along `L` and the last element steps back to the head. -/
def cycOK (f : Nat → Option Nat) (L : List Nat) : Prop :=
  L ≠ [] ∧ stepsOK f (L ++ [L.headI])

/-- The vertex fans are single cycles: every incoming halfedge of a node
lies on a closed `next()->pair()` cycle that covers exactly the incoming
halfedges of that node. -/
def FanOK (s : HDS) : Prop :=
  ∀ n x, Incoming s n x →
    ∃ L, cycOK (walk_step s) L ∧ L.Nodup ∧ L.headI = x ∧
      ∀ y, Incoming s n y ↔ y ∈ L

/-- Well-formedness of the store, relative to a set `U` of halfedges that
are allocated but not yet attached (their origin is still null).  Reachable
states satisfy `WFU s (fun _ => False)`; the intermediate states inside
`add_edge` satisfy it with `U` the not-yet-attached stub halfedges. -/
structure WFU (s : HDS) (U : Nat → Prop) : Prop where
  ndN : (keysOf s.nodes).Nodup
  ndH : (keysOf s.halfedges).Nodup
  ndE : (keysOf s.edges).Nodup
  ltN : ∀ k, k ∈ keysOf s.nodes → k < s.fresh
  ltH : ∀ k, k ∈ keysOf s.halfedges → k < s.fresh
  ltE : ∀ k, k ∈ keysOf s.edges → k < s.fresh
  pairI : ∀ h d, mget s.halfedges h = some d →
    ∃ dp, mget s.halfedges d.pair = some dp ∧ dp.pair = h
  pairN : ∀ h d, mget s.halfedges h = some d → d.pair ≠ h
  npI : ∀ h d, mget s.halfedges h = some d →
    ∃ dn, mget s.halfedges d.next = some dn ∧ dn.prev = h
  pnI : ∀ h d, mget s.halfedges h = some d →
    ∃ dv, mget s.halfedges d.prev = some dv ∧ dv.next = h
  orK : ∀ h d, mget s.halfedges h = some d → (d.origin = none ↔ U h)
  orL : ∀ h d, mget s.halfedges h = some d → ∀ n, d.origin = some n →
    ∃ nd, mget s.nodes n = some nd
  coh : ∀ h d dn dp, mget s.halfedges h = some d →
    mget s.halfedges d.next = some dn → mget s.halfedges d.pair = some dp →
    dn.origin = dp.origin
  noL : ∀ h d dp, mget s.halfedges h = some d →
    mget s.halfedges d.pair = some dp →
    d.origin = none ∨ dp.origin = none ∨ d.origin ≠ dp.origin
  edO : ∀ h d, mget s.halfedges h = some d →
    ∃ edd, mget s.edges d.edge = some edd ∧
      (edd.he1 = h ∧ edd.he2 = d.pair ∨ edd.he1 = d.pair ∧ edd.he2 = h)
  edH : ∀ e edd, mget s.edges e = some edd →
    ∃ d1 d2, mget s.halfedges edd.he1 = some d1 ∧
      mget s.halfedges edd.he2 = some d2 ∧ d1.pair = edd.he2 ∧
      d2.pair = edd.he1 ∧ d1.edge = e ∧ d2.edge = e
  ndHe : ∀ n nd, mget s.nodes n = some nd → ∀ nh, nd.halfedge = some nh →
    ∃ nhd, mget s.halfedges nh = some nhd ∧ nhd.origin = some n
  iso : ∀ n nd, mget s.nodes n = some nd → nd.halfedge = none →
    ∀ h d, mget s.halfedges h = some d → d.origin ≠ some n
  fan : FanOK s

/-- Well-formedness of a fully linked store: no unattached halfedges. -/
abbrev WF (s : HDS) : Prop := WFU s (fun _ => False)

/-- One successful public mutation of the triangulation. -/
inductive MStep : HDS → HDS → Prop where
  | addNode (s : HDS) (p : Point2) : MStep s (add_node s p).1
  | removeNode (s : HDS) (n : Nat) (t : HDS) :
      remove_node s n = Res.ok t → MStep s t
  | addEdge (s : HDS) (n1 n2 : Nat) (t : HDS) (h : Nat) :
      add_edge s n1 n2 = Res.ok (t, h) → MStep s t
  | removeEdge (s : HDS) (e : Nat) (t : HDS) :
      remove_edge s e = Res.ok t → MStep s t
  | addFace (s : HDS) (h1 h2 h3 : Nat) (t : HDS) (f : Nat) :
      add_face s h1 h2 h3 = Res.ok (t, f) → MStep s t
  | removeFace (s : HDS) (f : Nat) (t : HDS) :
      remove_face s f = Res.ok t → MStep s t
  | splitEdge (s : HDS) (e : Nat) (p : Point2) (t : HDS) (n : Nat) :
      split_edge s e p = Res.ok (t, n) → MStep s t
  | splitFace (s : HDS) (f : Nat) (p : Point2) (t : HDS) (n : Nat) :
      split_face s f p = Res.ok (t, n) → MStep s t

/-- The states reachable from the empty store by successful public
mutations. -/
inductive Reachable : HDS → Prop where
  | empty : Reachable HDS.empty
  | step (s t : HDS) : Reachable s → MStep s t → Reachable t

/-- Two nodes joined by a single edge: node `0 = (0,0)` and node `1 = (1,0)`,
halfedges `2` (0→1) and `3` (1→0), edge `4`.  Built by the public
operations `add_node`, `add_node`, `add_edge`. -/
def buildOneEdge : Res HDS := do
  let (s, _) := add_node HDS.empty ⟨0, 0⟩
  let (s, _) := add_node s ⟨1, 0⟩
  let (s, _) ← add_edge s 0 1
  pure s

def OneEdge : HDS := stateOf buildOneEdge

/-! ### Map lemmas -/

theorem mget_mmod_self {α : Type} (m : List (Nat × α)) (k : Nat) (f : α → α) :
    mget (mmod m k f) k = (mget m k).map f := by
  induction m with
  | nil => rfl
  | cons a r ih =>
      obtain ⟨k', v⟩ := a
      by_cases h : k' = k
      · simp [mmod, mget, h]
      · simp [mmod, mget, h, ih]

theorem mget_mmod_ne {α : Type} (m : List (Nat × α)) (k k' : Nat) (f : α → α)
    (h : k' ≠ k) : mget (mmod m k f) k' = mget m k' := by
  induction m with
  | nil => rfl
  | cons a r ih =>
      obtain ⟨k'', v⟩ := a
      by_cases hk : k'' = k
      · subst hk
        have hne : ¬(k'' = k') := fun hh => h hh.symm
        simp [mmod, mget, hne]
      · simp [mmod, mget, hk, ih]

theorem mget_merase_ne {α : Type} (m : List (Nat × α)) (k k' : Nat)
    (h : k' ≠ k) : mget (merase m k) k' = mget m k' := by
  induction m with
  | nil => rfl
  | cons a r ih =>
      obtain ⟨k'', v⟩ := a
      by_cases hk : k'' = k
      · subst hk
        have hne : ¬(k'' = k') := fun hh => h hh.symm
        simp [merase, mget, hne]
      · simp [merase, mget, hk, ih]

theorem length_mmod {α : Type} (m : List (Nat × α)) (k : Nat) (f : α → α) :
    (mmod m k f).length = m.length := by
  induction m with
  | nil => rfl
  | cons a r ih =>
      obtain ⟨k', v⟩ := a
      by_cases h : k' = k <;> simp [mmod, h, ih]

theorem length_merase {α : Type} (m : List (Nat × α)) (k : Nat) (v : α)
    (h : mget m k = some v) : m.length = (merase m k).length + 1 := by
  induction m with
  | nil => simp [mget] at h
  | cons a r ih =>
      obtain ⟨k', w⟩ := a
      by_cases hk : k' = k
      · simp [merase, hk]
      · simp only [mget, if_neg hk] at h
        simp [merase, hk, ih h]

/-! ### Projection lemmas for the state mutators -/

@[simp] theorem set_origin_nodes (s : HDS) (h : Nat) (v : Option Nat) :
    (HDS.set_origin s h v).nodes = s.nodes := rfl

@[simp] theorem set_next_nodes (s : HDS) (h v : Nat) :
    (HDS.set_next s h v).nodes = s.nodes := rfl

@[simp] theorem set_prev_nodes (s : HDS) (h v : Nat) :
    (HDS.set_prev s h v).nodes = s.nodes := rfl

@[simp] theorem set_face_nodes (s : HDS) (h : Nat) (v : Option Nat) :
    (HDS.set_face s h v).nodes = s.nodes := rfl

@[simp] theorem set_origin_faces (s : HDS) (h : Nat) (v : Option Nat) :
    (HDS.set_origin s h v).faces = s.faces := rfl

@[simp] theorem set_next_faces (s : HDS) (h v : Nat) :
    (HDS.set_next s h v).faces = s.faces := rfl

@[simp] theorem set_prev_faces (s : HDS) (h v : Nat) :
    (HDS.set_prev s h v).faces = s.faces := rfl

@[simp] theorem set_face_faces (s : HDS) (h : Nat) (v : Option Nat) :
    (HDS.set_face s h v).faces = s.faces := rfl

@[simp] theorem set_node_halfedge_faces (s : HDS) (n : Nat) (v : Option Nat) :
    (HDS.set_node_halfedge s n v).faces = s.faces := rfl

@[simp] theorem set_position_faces (s : HDS) (n : Nat) (p : Point2) :
    (HDS.set_position s n p).faces = s.faces := rfl

@[simp] theorem set_node_halfedge_halfedges (s : HDS) (n : Nat) (v : Option Nat) :
    (HDS.set_node_halfedge s n v).halfedges = s.halfedges := rfl

@[simp] theorem set_position_halfedges (s : HDS) (n : Nat) (p : Point2) :
    (HDS.set_position s n p).halfedges = s.halfedges := rfl

@[simp] theorem set_origin_fresh (s : HDS) (h : Nat) (v : Option Nat) :
    (HDS.set_origin s h v).fresh = s.fresh := rfl

@[simp] theorem set_next_fresh (s : HDS) (h v : Nat) :
    (HDS.set_next s h v).fresh = s.fresh := rfl

@[simp] theorem set_prev_fresh (s : HDS) (h v : Nat) :
    (HDS.set_prev s h v).fresh = s.fresh := rfl

@[simp] theorem set_face_fresh (s : HDS) (h : Nat) (v : Option Nat) :
    (HDS.set_face s h v).fresh = s.fresh := rfl

@[simp] theorem set_node_halfedge_fresh (s : HDS) (n : Nat) (v : Option Nat) :
    (HDS.set_node_halfedge s n v).fresh = s.fresh := rfl

@[simp] theorem set_position_fresh (s : HDS) (n : Nat) (p : Point2) :
    (HDS.set_position s n p).fresh = s.fresh := rfl

@[simp] theorem set_face_halfedge_faces (s : HDS) (f v : Nat) :
    (HDS.set_face_halfedge s f v).faces = mmod s.faces f (fun d => { d with halfedge := v }) := rfl

@[simp] theorem set_face_halfedge_fresh (s : HDS) (f v : Nat) :
    (HDS.set_face_halfedge s f v).fresh = s.fresh := rfl

@[simp] theorem delete_face_faces (s : HDS) (f : Nat) :
    (HDS.delete_face s f).faces = merase s.faces f := rfl

@[simp] theorem delete_face_halfedges (s : HDS) (f : Nat) :
    (HDS.delete_face s f).halfedges = s.halfedges := rfl

@[simp] theorem delete_face_fresh (s : HDS) (f : Nat) :
    (HDS.delete_face s f).fresh = s.fresh := rfl

/-! ### Claim theorems -/

/-- Claim C3: `add_face(h1, h2, h3)` fails with `FaceError` "not free" when
some `hi` is not boundary; otherwise, when the chain condition
`h1.pair.origin = h2.origin ∧ h2.pair.origin = h3.origin ∧
h3.pair.origin = h1.origin` fails, it fails with `FaceError` "not a chain";
in both cases the returned error state is exactly the input state: no face
is created and no halfedge field is modified. -/
theorem add_face_rejects (s : HDS) (h1 h2 h3 : Nat) (d1 d2 d3 : HalfedgeD)
    (hd1 : mget s.halfedges h1 = some d1)
    (hd2 : mget s.halfedges h2 = some d2)
    (hd3 : mget s.halfedges h3 = some d3) :
    (¬(d1.face = none ∧ d2.face = none ∧ d3.face = none) →
        add_face s h1 h2 h3 = Res.err (Err.face FaceReason.notFree) s) ∧
    (∀ p1 p2 p3 : HalfedgeD,
        mget s.halfedges d1.pair = some p1 →
        mget s.halfedges d2.pair = some p2 →
        mget s.halfedges d3.pair = some p3 →
        (d1.face = none ∧ d2.face = none ∧ d3.face = none) →
        ¬(p1.origin = d2.origin ∧ p2.origin = d3.origin ∧ p3.origin = d1.origin) →
        add_face s h1 h2 h3 = Res.err (Err.face FaceReason.notChain) s) := by
  constructor
  · intro hnf
    simp only [add_face, HDS.he?, hd1, hd2, hd3, Res.monad_bind, Res.bind_ok]
    rw [if_pos hnf]
  · intro p1 p2 p3 hp1 hp2 hp3 hfree hnc
    simp only [add_face, HDS.he?, hd1, hd2, hd3, hp1, hp2, hp3,
      Res.monad_bind, Res.bind_ok]
    rw [if_neg (not_not_intro hfree), if_pos hnc]

/-- Witness for C3: on the single triangle, `add_face` on the three interior
halfedges fails with `FaceError` "not free" and leaves the state unchanged. -/
theorem add_face_rejects_check :
    add_face Tri 3 6 9 = Res.err (Err.face FaceReason.notFree) Tri :=
  (add_face_rejects Tri 3 6 9
      ⟨some 0, 4, 6, 9, 5, some 12⟩ ⟨some 1, 7, 9, 3, 8, some 12⟩
      ⟨some 2, 10, 3, 6, 11, some 12⟩
      (by decide) (by decide) (by decide)).1 (by decide)

/-- The do-while loop of the one-argument `find_free_incident_halfedge`
returns the first boundary halfedge on the walk cycle `L`, or throws
`bad_topology_error` when the full turn `L` contains none. -/
theorem ffih_go_spec (s : HDS) (start : Nat) :
    ∀ (L : List Nat) (cur fuel : Nat), walkCycle s start cur L = true →
    L.length ≤ fuel →
    ffih_node_go s start cur fuel =
      (match L.find? (boundaryB s) with
       | some g => Res.ok g
       | none => Res.err Err.topo s) := by
  intro L
  induction L with
  | nil => intro cur fuel hw _; simp [walkCycle] at hw
  | cons a rest ih =>
      intro cur fuel hw hlen
      cases fuel with
      | zero => exact absurd hlen (by simp)
      | succ f =>
          cases rest with
          | nil =>
              simp only [walkCycle, Bool.and_eq_true, decide_eq_true_eq] at hw
              obtain ⟨ha, hws⟩ := hw
              subst ha
              cases hcd : mget s.halfedges a with
              | none => simp [walk_step, hcd] at hws
              | some cd =>
                  cases hcf : cd.face with
                  | none =>
                      simp [ffih_node_go, HDS.he?, hcd, hcf, List.find?, boundaryB]
                  | some fv =>
                      cases hnd : mget s.halfedges cd.next with
                      | none => simp [walk_step, hcd, hnd] at hws
                      | some ndd =>
                          simp only [walk_step, hcd, hnd, Option.some.injEq] at hws
                          simp [ffih_node_go, HDS.he?, hcd, hnd, hcf, hws,
                            List.find?, boundaryB]
          | cons b rest' =>
              simp only [walkCycle, Bool.and_eq_true, decide_eq_true_eq] at hw
              obtain ⟨⟨⟨ha, hws⟩, hbs⟩, hw'⟩ := hw
              subst ha
              cases hcd : mget s.halfedges a with
              | none => simp [walk_step, hcd] at hws
              | some cd =>
                  cases hcf : cd.face with
                  | none =>
                      simp [ffih_node_go, HDS.he?, hcd, hcf, List.find?, boundaryB]
                  | some fv =>
                      cases hnd : mget s.halfedges cd.next with
                      | none => simp [walk_step, hcd, hnd] at hws
                      | some ndd =>
                          simp only [walk_step, hcd, hnd, Option.some.injEq] at hws
                          have hrec := ih b f hw' (by
                            simp only [List.length_cons] at hlen ⊢
                            omega)
                          simp only [ffih_node_go, HDS.he?, hcd, hnd, hcf,
                            Res.monad_bind, Res.bind_ok, hws, if_neg hbs, hrec]
                          simp [List.find?, boundaryB, hcd, hcf]

/-- Claim C5: for a non-isolated node `n`, `find_free_incident_halfedge(n)`
starts at `n.halfedge.pair` and repeatedly applies `next.pair`; given that
this walk comes back to its start after visiting exactly the cycle `L`, the
function returns the first halfedge of `L` whose face is null, and throws
`bad_topology_error` (TopologyError) when the full turn `L` contains none. -/
theorem find_free_incident_spec (s : HDS) (n : Nat) (nd : NodeD) (nh : Nat)
    (nhd : HalfedgeD) (L : List Nat)
    (hn : mget s.nodes n = some nd)
    (hh : nd.halfedge = some nh)
    (hhd : mget s.halfedges nh = some nhd)
    (hw : walkCycle s nhd.pair nhd.pair L = true)
    (hlen : L.length ≤ s.halfedges.length) :
    find_free_incident_halfedge_n s n =
      (match L.find? (boundaryB s) with
       | some g => Res.ok g
       | none => Res.err Err.topo s) := by
  simp only [find_free_incident_halfedge_n, HDS.node?, hn, hh, HDS.he?, hhd,
    Res.monad_bind, Res.bind_ok]
  exact ffih_go_spec s nhd.pair L nhd.pair (s.halfedges.length + 1) hw (by omega)

/-- Witness for C5: at node `0` of the triangle the walk cycle is `[4, 9]`
and the first boundary halfedge on it is `4`. -/
theorem find_free_incident_spec_check :
    find_free_incident_halfedge_n Tri 0 = Res.ok 4 :=
  (find_free_incident_spec Tri 0 ⟨⟨0, 0⟩, some 3⟩ 3 ⟨some 0, 4, 6, 9, 5, some 12⟩
      [4, 9] (by decide) (by decide) (by decide) (by decide) (by decide)).trans
    (by decide)

/-- Claim C4: `attach_halfedge_to_node(h, n)` sets `h.origin = n` and then:
if `n` is isolated it sets `n.halfedge = h`, `h.prev = h.pair`,
`h.pair.next = h`; otherwise it finds a free incident halfedge `g` at `n`
and splices `h` between `g` and the old `g.next` (`g.next = h`, `h.prev = g`,
`h.pair.next = old g.next`, `old g.next.prev = h.pair`); and it fails with
TopologyError exactly when `n` is not isolated and the free-incident-halfedge
search fails (no free incident halfedge exists at `n`). -/
theorem attach_halfedge_spec (s : HDS) (he n : Nat) (hd : HalfedgeD) (nd : NodeD)
    (hhd : mget s.halfedges he = some hd)
    (hnd : mget s.nodes n = some nd) :
    (nd.halfedge = none →
      attach_halfedge_to_node s he n =
        Res.ok ((((s.set_origin he (some n)).set_node_halfedge n (some he)).set_prev he
          hd.pair).set_next hd.pair he)) ∧
    (∀ nh g gd, nd.halfedge = some nh →
      find_free_incident_halfedge_n (s.set_origin he (some n)) n = Res.ok g →
      mget (s.set_origin he (some n)).halfedges g = some gd →
      attach_halfedge_to_node s he n =
        Res.ok (((((s.set_origin he (some n)).set_next g he).set_prev he g).set_next
          hd.pair gd.next).set_prev gd.next hd.pair)) ∧
    ((∃ t, attach_halfedge_to_node s he n = Res.err Err.topo t) ↔
      (nd.halfedge ≠ none ∧
        ∃ t, find_free_incident_halfedge_n (s.set_origin he (some n)) n =
          Res.err Err.topo t)) := by
  refine ⟨?_, ?_, ?_⟩
  · intro hiso
    simp only [attach_halfedge_to_node, HDS.he?, hhd, Res.monad_bind, Res.bind_ok,
      HDS.node?, set_origin_nodes, hnd, hiso, Res.monad_pure]
  · intro nh g gd hniso hffi hgd
    simp only [attach_halfedge_to_node, HDS.he?, hhd, Res.monad_bind, Res.bind_ok,
      HDS.node?, set_origin_nodes, hnd, hniso, hffi, hgd, Res.monad_pure]
  · constructor
    · rintro ⟨t, ht⟩
      simp only [attach_halfedge_to_node, HDS.he?, hhd, Res.monad_bind, Res.bind_ok,
        HDS.node?, set_origin_nodes, hnd] at ht
      cases hniso : nd.halfedge with
      | none => simp [hniso, Res.monad_pure] at ht
      | some nh =>
          simp only [hniso] at ht
          cases hffi : find_free_incident_halfedge_n (s.set_origin he (some n)) n with
          | ok g =>
              rw [hffi] at ht
              simp only [Res.bind_ok] at ht
              cases hgd : mget (s.set_origin he (some n)).halfedges g with
              | none => simp [HDS.he?, hgd] at ht
              | some gd => simp [HDS.he?, hgd] at ht
          | err e t' =>
              rw [hffi] at ht
              simp only [Res.bind_err, Res.err.injEq] at ht
              obtain ⟨he1, he2⟩ := ht
              subst he1
              subst he2
              exact ⟨by simp [hniso], t', rfl⟩
          | div =>
              rw [hffi] at ht
              simp at ht
    · rintro ⟨hniso, t, hffi⟩
      obtain ⟨nh, hnh⟩ := Option.ne_none_iff_exists'.mp hniso
      refine ⟨t, ?_⟩
      simp only [attach_halfedge_to_node, HDS.he?, hhd, Res.monad_bind, Res.bind_ok,
        HDS.node?, set_origin_nodes, hnd, hnh, hffi, Res.bind_err]

/-- Witness for C4: attaching halfedge `1` of a fresh edge stub to the
isolated node `0` takes the isolated branch. -/
theorem attach_halfedge_spec_check :
    attach_halfedge_to_node NodeStub 1 0 =
      Res.ok ((((NodeStub.set_origin 1 (some 0)).set_node_halfedge 0
        (some 1)).set_prev 1 2).set_next 2 1) :=
  (attach_halfedge_spec NodeStub 1 0 ⟨none, 2, 2, 2, 3, none⟩ ⟨⟨0, 0⟩, none⟩
      (by decide) (by decide)).1 rfl

/-! ### Projection invariance through single-field updates -/

@[simp] theorem set_next_halfedges (s : HDS) (h v : Nat) :
    (HDS.set_next s h v).halfedges = mmod s.halfedges h (fun d => { d with next := v }) := rfl

@[simp] theorem set_prev_halfedges (s : HDS) (h v : Nat) :
    (HDS.set_prev s h v).halfedges = mmod s.halfedges h (fun d => { d with prev := v }) := rfl

@[simp] theorem set_origin_halfedges (s : HDS) (h : Nat) (v : Option Nat) :
    (HDS.set_origin s h v).halfedges = mmod s.halfedges h (fun d => { d with origin := v }) := rfl

@[simp] theorem set_face_halfedges (s : HDS) (h : Nat) (v : Option Nat) :
    (HDS.set_face s h v).halfedges = mmod s.halfedges h (fun d => { d with face := v }) := rfl

theorem mapconst_mmod {α β : Type} (m : List (Nat × α)) (k : Nat) (f : α → α)
    (k' : Nat) (c : β) :
    (mget (mmod m k f) k').map (fun _ => c) = (mget m k').map (fun _ => c) := by
  by_cases h : k' = k
  · subst h; rw [mget_mmod_self, Option.map_map]; rfl
  · rw [mget_mmod_ne _ _ _ _ h]

theorem mapnext_setprev (m : List (Nat × HalfedgeD)) (k v k' : Nat) :
    (mget (mmod m k (fun d => { d with prev := v })) k').map (fun d => d.next) =
      (mget m k').map (fun d => d.next) := by
  by_cases h : k' = k
  · subst h; rw [mget_mmod_self, Option.map_map]; rfl
  · rw [mget_mmod_ne _ _ _ _ h]

theorem mapprev_setnext (m : List (Nat × HalfedgeD)) (k v k' : Nat) :
    (mget (mmod m k (fun d => { d with next := v })) k').map (fun d => d.prev) =
      (mget m k').map (fun d => d.prev) := by
  by_cases h : k' = k
  · subst h; rw [mget_mmod_self, Option.map_map]; rfl
  · rw [mget_mmod_ne _ _ _ _ h]

theorem mapnext_setnext_self (m : List (Nat × HalfedgeD)) (k v : Nat) :
    (mget (mmod m k (fun d => { d with next := v })) k).map (fun d => d.next) =
      (mget m k).map (fun _ => v) := by
  rw [mget_mmod_self, Option.map_map]; rfl

theorem mapprev_setprev_self (m : List (Nat × HalfedgeD)) (k v : Nat) :
    (mget (mmod m k (fun d => { d with prev := v })) k).map (fun d => d.prev) =
      (mget m k).map (fun _ => v) := by
  rw [mget_mmod_self, Option.map_map]; rfl

theorem mapnext_setnext_ne (m : List (Nat × HalfedgeD)) (k v k' : Nat) (h : k' ≠ k) :
    (mget (mmod m k (fun d => { d with next := v })) k').map (fun d => d.next) =
      (mget m k').map (fun d => d.next) := by
  rw [mget_mmod_ne _ _ _ _ h]

theorem mapprev_setprev_ne (m : List (Nat × HalfedgeD)) (k v k' : Nat) (h : k' ≠ k) :
    (mget (mmod m k (fun d => { d with prev := v })) k').map (fun d => d.prev) =
      (mget m k').map (fun d => d.prev) := by
  rw [mget_mmod_ne _ _ _ _ h]

/-- Counterexample to C6 as stated: in the reachable two-parallel-edge state
`Par`, `in = 3` and `out = 2` satisfy `in.pair.origin = out.origin` (both
node `0`) and are not adjacent; `make_adjacent` performs its reassignments
and returns `true`, but afterwards `in.next = 5 ≠ out`: the free halfedge
found by the bounded walk is `in` itself, so the later reassignment
`g.next = b` overwrites `in.next = out`. -/
theorem make_adjacent_counterexample :
    mget Par.halfedges 3 = some ⟨some 1, 2, 5, 5, 4, none⟩ ∧
    mget Par.halfedges 2 = some ⟨some 0, 3, 6, 6, 4, none⟩ ∧
    find_free_incident_halfedge_from Par 3 3 = Res.ok 3 ∧
    make_adjacent Par 3 2 = Res.ok (ParAfter, true) ∧
    mget ParAfter.halfedges 3 = some ⟨some 1, 2, 5, 5, 4, none⟩ ∧
    (5 : Nat) ≠ 2 := by decide

/-- Claim C6 (amended): for halfedges `in`, `out` with
`in.pair.origin = out.origin`: if `in.next = out`, `make_adjacent` succeeds
without modifying any link; otherwise, with `b = old in.next`,
`d = old out.prev`, `g` the free incident halfedge found by walking from
`out.pair` bounded by `in`, and `h = old g.next`, it performs exactly the
reassignments `in.next = out`, `out.prev = in`, `g.next = b`, `b.prev = g`,
`d.next = h`, `h.prev = d`; and provided `g ≠ in`, `d ≠ in` and `h ≠ out`
(no later reassignment overwrites an earlier one), afterwards
`in.next = out` and `out.prev = in` hold. -/
theorem make_adjacent_spec (s : HDS) (inh outh : Nat) (ind outd pnd : HalfedgeD)
    (hin : mget s.halfedges inh = some ind)
    (hout : mget s.halfedges outh = some outd)
    (hpnd : mget s.halfedges ind.pair = some pnd)
    (hchain : pnd.origin = outd.origin) :
    (ind.next = outh → make_adjacent s inh outh = Res.ok (s, true)) ∧
    (∀ g gd, ind.next ≠ outh →
      find_free_incident_halfedge_from s outd.pair inh = Res.ok g →
      mget s.halfedges g = some gd →
      make_adjacent s inh outh =
        Res.ok ((((((s.set_next inh outh).set_prev outh inh).set_next g
          ind.next).set_prev ind.next g).set_next outd.prev gd.next).set_prev
            gd.next outd.prev, true)) ∧
    (∀ g gd t, ind.next ≠ outh →
      find_free_incident_halfedge_from s outd.pair inh = Res.ok g →
      mget s.halfedges g = some gd →
      g ≠ inh → outd.prev ≠ inh → gd.next ≠ outh →
      make_adjacent s inh outh = Res.ok (t, true) →
      (mget t.halfedges inh).map (fun d => d.next) = some outh ∧
      (mget t.halfedges outh).map (fun d => d.prev) = some inh) := by
  refine ⟨?_, ?_, ?_⟩
  · intro hadj
    simp only [make_adjacent, HDS.he?, hin, Res.monad_bind, Res.bind_ok, hadj,
      eq_self_iff_true, if_true, Res.monad_pure]
  · intro g gd hnadj hffi hgd
    simp only [make_adjacent, HDS.he?, hin, Res.monad_bind, Res.bind_ok,
      if_neg hnadj, hout, hffi, hgd, Res.monad_pure]
  · intro g gd t hnadj hffi hgd hgi hdi hho hma
    have heq : make_adjacent s inh outh =
        Res.ok ((((((s.set_next inh outh).set_prev outh inh).set_next g
          ind.next).set_prev ind.next g).set_next outd.prev gd.next).set_prev
            gd.next outd.prev, true) := by
      simp only [make_adjacent, HDS.he?, hin, Res.monad_bind, Res.bind_ok,
        if_neg hnadj, hout, hffi, hgd, Res.monad_pure]
    rw [hma] at heq
    have ht : t = (((((s.set_next inh outh).set_prev outh inh).set_next g
        ind.next).set_prev ind.next g).set_next outd.prev gd.next).set_prev
          gd.next outd.prev := by
      have := heq
      simp only [Res.ok.injEq, Prod.mk.injEq] at this
      exact this.1
    subst ht
    constructor
    · simp only [set_next_halfedges, set_prev_halfedges]
      rw [mapnext_setprev, mapnext_setnext_ne _ _ _ _ (Ne.symm hdi),
        mapnext_setprev, mapnext_setnext_ne _ _ _ _ (Ne.symm hgi),
        mapnext_setprev, mapnext_setnext_self, hin]
      rfl
    · simp only [set_next_halfedges, set_prev_halfedges]
      rw [mapprev_setprev_ne _ _ _ _ (fun hh => hho hh.symm),
        mapprev_setnext, mapprev_setprev_ne _ _ _ _ (Ne.symm hnadj),
        mapprev_setnext, mapprev_setprev_self, mapconst_mmod, hout]
      rfl

/-- Witness for C6 (amended): in the three-edge fan around node `1`,
`make_adjacent 4 7` is not the adjacent case; the bounded walk finds
`g = 8`, and after the six reassignments `in.next = out` and
`out.prev = in` hold. -/
theorem make_adjacent_spec_check :
    (mget FanAfter.halfedges 4).map (fun d => d.next) = some 7 ∧
    (mget FanAfter.halfedges 7).map (fun d => d.prev) = some 4 :=
  (make_adjacent_spec Fan 4 7 ⟨some 0, 5, 10, 5, 6, none⟩
      ⟨some 1, 8, 8, 11, 9, none⟩ ⟨some 1, 4, 4, 8, 6, none⟩
      (by decide) (by decide) (by decide) (by decide)).2.2 8
    ⟨some 2, 7, 5, 7, 9, none⟩ FanAfter
    (by decide) (by decide) (by decide) (by decide) (by decide) (by decide)
    (by decide)

/-! ### Failure modes of the bounded free-halfedge search and make_adjacent -/

theorem ffih_bounded_err (s : HDS) (stop : Nat) :
    ∀ (fuel cur : Nat) (e : Err) (t : HDS),
      ffih_bounded_go s stop cur fuel = Res.err e t → e = Err.topo ∧ t = s := by
  intro fuel
  induction fuel with
  | zero => intro cur e t h; simp [ffih_bounded_go] at h
  | succ f ih =>
      intro cur e t h
      cases hcd : mget s.halfedges cur with
      | none => simp [ffih_bounded_go, HDS.he?, hcd] at h
      | some cd =>
          cases hcf : cd.face with
          | none => simp [ffih_bounded_go, HDS.he?, hcd, hcf] at h
          | some fv =>
              cases hnd : mget s.halfedges cd.next with
              | none => simp [ffih_bounded_go, HDS.he?, hcd, hcf, hnd] at h
              | some ndd =>
                  by_cases hst : ndd.pair = stop
                  · simp only [ffih_bounded_go, HDS.he?, hcd, hcf, hnd,
                      Res.monad_bind, Res.bind_ok,
                      if_neg (Option.some_ne_none fv), if_pos hst,
                      Res.err.injEq] at h
                    exact ⟨h.1.symm, h.2.symm⟩
                  · simp only [ffih_bounded_go, HDS.he?, hcd, hcf, hnd,
                      Res.monad_bind, Res.bind_ok,
                      if_neg (Option.some_ne_none fv), if_neg hst] at h
                    exact ih ndd.pair e t h

theorem ffih_from_err (s : HDS) (a b : Nat) (e : Err) (t : HDS)
    (h : find_free_incident_halfedge_from s a b = Res.err e t) :
    e = Err.topo ∧ t = s := by
  unfold find_free_incident_halfedge_from at h
  cases hda : mget s.halfedges a with
  | none => simp [HDS.he?, hda] at h
  | some da =>
      cases hpa : mget s.halfedges da.pair with
      | none => simp [HDS.he?, hda, hpa] at h
      | some pa =>
          cases hdb : mget s.halfedges b with
          | none => simp [HDS.he?, hda, hpa, hdb] at h
          | some db =>
              cases hpb : mget s.halfedges db.pair with
              | none => simp [HDS.he?, hda, hpa, hdb, hpb] at h
              | some pb =>
                  by_cases hor : pa.origin ≠ pb.origin
                  · simp [HDS.he?, hda, hpa, hdb, hpb, hor] at h
                  · simp only [HDS.he?, hda, hpa, hdb, hpb, Res.monad_bind,
                      Res.bind_ok, if_neg hor] at h
                    exact ffih_bounded_err s b (s.halfedges.length + 1) a e t h

theorem ma_ok_true (s : HDS) (a b : Nat) (t : HDS) (bl : Bool)
    (h : make_adjacent s a b = Res.ok (t, bl)) : bl = true := by
  unfold make_adjacent at h
  cases hda : mget s.halfedges a with
  | none => simp [HDS.he?, hda] at h
  | some da =>
      by_cases hadj : da.next = b
      · simp only [HDS.he?, hda, Res.monad_bind, Res.bind_ok, if_pos hadj,
          Res.monad_pure, Res.ok.injEq, Prod.mk.injEq] at h
        exact h.2.symm
      · cases hdb : mget s.halfedges b with
        | none => simp [HDS.he?, hda, hdb, hadj] at h
        | some db =>
            cases hffi : find_free_incident_halfedge_from s db.pair a with
            | ok g =>
                cases hgd : mget s.halfedges g with
                | none => simp [HDS.he?, hda, hdb, hadj, hffi, hgd] at h
                | some gd =>
                    simp only [HDS.he?, hda, hdb, Res.monad_bind, Res.bind_ok,
                      if_neg hadj, hffi, hgd, Res.monad_pure, Res.ok.injEq,
                      Prod.mk.injEq] at h
                    exact h.2.symm
            | err e' t' => simp [HDS.he?, hda, hdb, hadj, hffi] at h
            | div => simp [HDS.he?, hda, hdb, hadj, hffi] at h

theorem ma_err_topo (s : HDS) (a b : Nat) (e : Err) (t : HDS)
    (h : make_adjacent s a b = Res.err e t) : e = Err.topo := by
  unfold make_adjacent at h
  cases hda : mget s.halfedges a with
  | none => simp [HDS.he?, hda] at h
  | some da =>
      by_cases hadj : da.next = b
      · simp [HDS.he?, hda, hadj] at h
      · cases hdb : mget s.halfedges b with
        | none => simp [HDS.he?, hda, hdb, hadj] at h
        | some db =>
            cases hffi : find_free_incident_halfedge_from s db.pair a with
            | ok g =>
                cases hgd : mget s.halfedges g with
                | none => simp [HDS.he?, hda, hdb, hadj, hffi, hgd] at h
                | some gd => simp [HDS.he?, hda, hdb, hadj, hffi, hgd] at h
            | err e' t' =>
                simp only [HDS.he?, hda, hdb, Res.monad_bind, Res.bind_ok,
                  if_neg hadj, hffi, Res.bind_err, Res.err.injEq] at h
                exact h.1 ▸ (ffih_from_err s db.pair a e' t' hffi).1
            | div => simp [HDS.he?, hda, hdb, hadj, hffi] at h

/-- Claim C10: whenever `make_adjacent` returns normally it returns `true`
(its only failure mode is the `bad_topology_error` thrown inside
`find_free_incident_halfedge`), so `add_face` can never fail with the
non-manifold `FaceError`; a non-manifold `add_face` attempt — concretely,
closing the back face of the triangle inside `TriPlus` — instead propagates
a TopologyError to the caller. -/
theorem make_adjacent_never_false :
    (∀ (s : HDS) (a b : Nat) (t : HDS) (bl : Bool),
        make_adjacent s a b = Res.ok (t, bl) → bl = true) ∧
    (∀ (s : HDS) (h1 h2 h3 : Nat) (e : Err) (t : HDS),
        add_face s h1 h2 h3 = Res.err e t → e ≠ Err.face FaceReason.nonManifold) ∧
    add_face TriPlus 7 4 10 = Res.err Err.topo TriPlus := by
  refine ⟨ma_ok_true, ?_, by decide⟩
  intro s h1 h2 h3 e t h
  unfold add_face at h
  cases hd1 : mget s.halfedges h1 with
  | none => simp [HDS.he?, hd1] at h
  | some d1 =>
    cases hd2 : mget s.halfedges h2 with
    | none => simp [HDS.he?, hd1, hd2] at h
    | some d2 =>
      cases hd3 : mget s.halfedges h3 with
      | none => simp [HDS.he?, hd1, hd2, hd3] at h
      | some d3 =>
        simp only [HDS.he?, hd1, hd2, hd3, Res.monad_bind, Res.bind_ok] at h
        by_cases hfree : d1.face = none ∧ d2.face = none ∧ d3.face = none
        · rw [if_neg (not_not_intro hfree)] at h
          cases hp1 : mget s.halfedges d1.pair with
          | none => simp [HDS.he?, hp1] at h
          | some p1 =>
            cases hp2 : mget s.halfedges d2.pair with
            | none => simp [HDS.he?, hp1, hp2] at h
            | some p2 =>
              cases hp3 : mget s.halfedges d3.pair with
              | none => simp [HDS.he?, hp1, hp2, hp3] at h
              | some p3 =>
                simp only [HDS.he?, hp1, hp2, hp3, Res.monad_bind, Res.bind_ok] at h
                by_cases hchain : p1.origin = d2.origin ∧ p2.origin = d3.origin ∧
                    p3.origin = d1.origin
                · rw [if_neg (not_not_intro hchain)] at h
                  cases hma1 : make_adjacent s h1 h2 with
                  | err e1 t1 =>
                      rw [hma1] at h
                      simp only [Res.bind_err, Res.err.injEq] at h
                      rw [← h.1, ma_err_topo _ _ _ _ _ hma1]
                      simp
                  | div => rw [hma1] at h; simp at h
                  | ok pr1 =>
                      obtain ⟨s1, b1⟩ := pr1
                      have hb1 := ma_ok_true _ _ _ _ _ hma1
                      subst hb1
                      rw [hma1] at h
                      simp only [Res.bind_ok, eq_self_iff_true, if_true] at h
                      cases hma2 : make_adjacent s1 h2 h3 with
                      | err e2 t2 =>
                          rw [hma2] at h
                          simp only [Res.bind_err, Res.err.injEq] at h
                          rw [← h.1, ma_err_topo _ _ _ _ _ hma2]
                          simp
                      | div => rw [hma2] at h; simp at h
                      | ok pr2 =>
                          obtain ⟨s2, b2⟩ := pr2
                          have hb2 := ma_ok_true _ _ _ _ _ hma2
                          subst hb2
                          rw [hma2] at h
                          simp only [Res.bind_ok, eq_self_iff_true, and_self,
                            if_true] at h
                          cases hma3 : make_adjacent s2 h3 h1 with
                          | err e3 t3 =>
                              rw [hma3] at h
                              simp only [Res.bind_err, Res.err.injEq] at h
                              rw [← h.1, ma_err_topo _ _ _ _ _ hma3]
                              simp
                          | div => rw [hma3] at h; simp at h
                          | ok pr3 =>
                              obtain ⟨s3, b3⟩ := pr3
                              have hb3 := ma_ok_true _ _ _ _ _ hma3
                              subst hb3
                              rw [hma3] at h
                              simp at h
                · rw [if_pos hchain] at h
                  simp only [Res.err.injEq] at h
                  rw [← h.1]
                  simp
        · rw [if_pos hfree] at h
          simp only [Res.err.injEq] at h
          rw [← h.1]
          simp

/-- Witness for C10: the first component applied to the adjacent-case call
`make_adjacent Par 6 2` (which succeeds without mutating), and the second to
the concrete failing `add_face` on `TriPlus`. -/
theorem make_adjacent_never_false_check :
    (true = true) ∧ Err.topo ≠ Err.face FaceReason.nonManifold :=
  ⟨make_adjacent_never_false.1 Par 6 2 Par true (by decide),
   make_adjacent_never_false.2.1 TriPlus 7 4 10 Err.topo TriPlus (by decide)⟩

/-- Counterexample to C2 as stated: in the reachable state `TriPlus`
(triangle `0-1-2` with face `12` plus a dangling edge at node `1`), the
boundary halfedges `7, 4, 10` form a closed chain, the first
`make_adjacent` call fails (throws TopologyError), and `add_face` fails
with that TopologyError — not with `FaceError` "non-manifold". -/
theorem add_face_nonmanifold_counterexample :
    mget TriPlus.halfedges 7 = some ⟨some 2, 6, 14, 10, 8, none⟩ ∧
    mget TriPlus.halfedges 4 = some ⟨some 1, 3, 10, 15, 5, none⟩ ∧
    mget TriPlus.halfedges 10 = some ⟨some 0, 9, 7, 4, 11, none⟩ ∧
    mget TriPlus.halfedges 6 = some ⟨some 1, 7, 9, 3, 8, some 12⟩ ∧
    mget TriPlus.halfedges 3 = some ⟨some 0, 4, 6, 9, 5, some 12⟩ ∧
    mget TriPlus.halfedges 9 = some ⟨some 2, 10, 3, 6, 11, some 12⟩ ∧
    make_adjacent TriPlus 7 4 = Res.err Err.topo TriPlus ∧
    add_face TriPlus 7 4 10 = Res.err Err.topo TriPlus ∧
    Err.topo ≠ Err.face FaceReason.nonManifold := by decide

/-- Claim C2 (amended): for `add_face(h1, h2, h3)` on three boundary
halfedges forming a closed chain, if any of the three `make_adjacent` calls
fails, the failure is the TopologyError thrown inside
`find_free_incident_halfedge` and `add_face` fails by propagating that
TopologyError (the `FaceError` "non-manifold" branch is not taken). -/
theorem add_face_topo_propagation (s : HDS) (h1 h2 h3 : Nat)
    (d1 d2 d3 p1 p2 p3 : HalfedgeD)
    (hd1 : mget s.halfedges h1 = some d1)
    (hd2 : mget s.halfedges h2 = some d2)
    (hd3 : mget s.halfedges h3 = some d3)
    (hfree : d1.face = none ∧ d2.face = none ∧ d3.face = none)
    (hp1 : mget s.halfedges d1.pair = some p1)
    (hp2 : mget s.halfedges d2.pair = some p2)
    (hp3 : mget s.halfedges d3.pair = some p3)
    (hchain : p1.origin = d2.origin ∧ p2.origin = d3.origin ∧
      p3.origin = d1.origin) :
    (∀ e t, make_adjacent s h1 h2 = Res.err e t →
        e = Err.topo ∧ add_face s h1 h2 h3 = Res.err Err.topo t) ∧
    (∀ s1 b1 e t, make_adjacent s h1 h2 = Res.ok (s1, b1) →
        make_adjacent s1 h2 h3 = Res.err e t →
        e = Err.topo ∧ add_face s h1 h2 h3 = Res.err Err.topo t) ∧
    (∀ s1 b1 s2 b2 e t, make_adjacent s h1 h2 = Res.ok (s1, b1) →
        make_adjacent s1 h2 h3 = Res.ok (s2, b2) →
        make_adjacent s2 h3 h1 = Res.err e t →
        e = Err.topo ∧ add_face s h1 h2 h3 = Res.err Err.topo t) := by
  refine ⟨?_, ?_, ?_⟩
  · intro e t hma1
    have he := ma_err_topo _ _ _ _ _ hma1
    subst he
    refine ⟨rfl, ?_⟩
    simp only [add_face, HDS.he?, hd1, hd2, hd3, Res.monad_bind, Res.bind_ok,
      if_neg (not_not_intro hfree), hp1, hp2, hp3,
      if_neg (not_not_intro hchain), hma1, Res.bind_err]
  · intro s1 b1 e t hma1 hma2
    have he := ma_err_topo _ _ _ _ _ hma2
    subst he
    have hb1 := ma_ok_true _ _ _ _ _ hma1
    subst hb1
    refine ⟨rfl, ?_⟩
    simp only [add_face, HDS.he?, hd1, hd2, hd3, Res.monad_bind, Res.bind_ok,
      if_neg (not_not_intro hfree), hp1, hp2, hp3,
      if_neg (not_not_intro hchain), hma1, eq_self_iff_true, if_true, hma2,
      Res.bind_err]
  · intro s1 b1 s2 b2 e t hma1 hma2 hma3
    have he := ma_err_topo _ _ _ _ _ hma3
    subst he
    have hb1 := ma_ok_true _ _ _ _ _ hma1
    subst hb1
    have hb2 := ma_ok_true _ _ _ _ _ hma2
    subst hb2
    refine ⟨rfl, ?_⟩
    simp only [add_face, HDS.he?, hd1, hd2, hd3, Res.monad_bind, Res.bind_ok,
      if_neg (not_not_intro hfree), hp1, hp2, hp3,
      if_neg (not_not_intro hchain), hma1, eq_self_iff_true, and_self, if_true,
      hma2, hma3, Res.bind_err]

/-- Witness for C2 (amended): applied to the concrete non-manifold attempt
in `TriPlus`, whose first `make_adjacent` call throws. -/
theorem add_face_topo_propagation_check :
    Err.topo = Err.topo ∧ add_face TriPlus 7 4 10 = Res.err Err.topo TriPlus :=
  (add_face_topo_propagation TriPlus 7 4 10
      ⟨some 2, 6, 14, 10, 8, none⟩ ⟨some 1, 3, 10, 15, 5, none⟩
      ⟨some 0, 9, 7, 4, 11, none⟩ ⟨some 1, 7, 9, 3, 8, some 12⟩
      ⟨some 0, 4, 6, 9, 5, some 12⟩ ⟨some 2, 10, 3, 6, 11, some 12⟩
      (by decide) (by decide) (by decide) (by decide) (by decide) (by decide)
      (by decide) (by decide)).1 Err.topo TriPlus (by decide)

/-- Claim C7: in an iteration of the locate walk where the query point `p`
is collinear with the current halfedge's endpoints (`ON_ORIENTED_BOUNDARY`):
the walk declares `ON_EDGE` with that halfedge's edge iff `p` lies strictly
between the endpoints by x-interval or y-interval; otherwise it declares
`ON_NODE` with the matching node iff `p` equals an endpoint's position;
otherwise control falls through to the negative-side branch (crossing the
edge, or `OUTSIDE_MESH` when its pair is boundary). -/
theorem locate_collinear_spec (s : HDS) (p : Point2) (hs hi fuel : Nat)
    (hd pd : HalfedgeD) (a b : Nat) (ad bd : NodeD)
    (hhd : mget s.halfedges hi = some hd)
    (hor : hd.origin = some a)
    (had : mget s.nodes a = some ad)
    (hpd : mget s.halfedges hd.pair = some pd)
    (hpo : pd.origin = some b)
    (hbd : mget s.nodes b = some bd)
    (hcol : oriented_side ad.position bd.position p =
      Oriented_side.ON_ORIENTED_BOUNDARY) :
    (((min ad.position.x bd.position.x < p.x ∧
        p.x < max ad.position.x bd.position.x) ∨
      (min ad.position.y bd.position.y < p.y ∧
        p.y < max ad.position.y bd.position.y)) →
      locate_go s p hs hi (fuel + 1) = Res.ok (LocRes.onEdge hd.edge)) ∧
    (¬((min ad.position.x bd.position.x < p.x ∧
        p.x < max ad.position.x bd.position.x) ∨
      (min ad.position.y bd.position.y < p.y ∧
        p.y < max ad.position.y bd.position.y)) →
      p = ad.position →
      locate_go s p hs hi (fuel + 1) = Res.ok (LocRes.onNode hd.origin)) ∧
    (¬((min ad.position.x bd.position.x < p.x ∧
        p.x < max ad.position.x bd.position.x) ∨
      (min ad.position.y bd.position.y < p.y ∧
        p.y < max ad.position.y bd.position.y)) →
      p ≠ ad.position → p = bd.position →
      locate_go s p hs hi (fuel + 1) = Res.ok (LocRes.onNode pd.origin)) ∧
    (¬((min ad.position.x bd.position.x < p.x ∧
        p.x < max ad.position.x bd.position.x) ∨
      (min ad.position.y bd.position.y < p.y ∧
        p.y < max ad.position.y bd.position.y)) →
      p ≠ ad.position → p ≠ bd.position →
      locate_go s p hs hi (fuel + 1) =
        (if pd.face = none then Res.ok (LocRes.outside hd.edge)
         else locate_go s p hd.pair pd.next fuel)) := by
  refine ⟨?_, ?_, ?_, ?_⟩
  · intro hbetween
    simp only [locate_go, HDS.he?, hhd, hor, nonNull, HDS.node?, had, hpd, hpo,
      hbd, Res.monad_bind, Res.bind_ok, hcol, if_pos hbetween, Res.monad_pure]
  · intro hnb hp1
    simp only [locate_go, HDS.he?, hhd, hor, nonNull, HDS.node?, had, hpd, hpo,
      hbd, Res.monad_bind, Res.bind_ok, hcol, if_neg hnb, if_pos hp1,
      Res.monad_pure]
  · intro hnb hp1 hp2
    simp only [locate_go, HDS.he?, hhd, hor, nonNull, HDS.node?, had, hpd, hpo,
      hbd, Res.monad_bind, Res.bind_ok, hcol, if_neg hnb, if_neg hp1,
      if_pos hp2, Res.monad_pure]
  · intro hnb hp1 hp2
    simp only [locate_go, HDS.he?, hhd, hor, nonNull, HDS.node?, had, hpd, hpo,
      hbd, Res.monad_bind, Res.bind_ok, hcol, if_neg hnb, if_neg hp1,
      if_neg hp2, Res.monad_pure]

/-- Witness for C7: on the triangle's bottom edge (halfedge `3` from `(0,0)`
to `(2,0)`), the collinear point `(1,0)` is strictly between by x-interval
and the step declares `ON_EDGE` with edge `5`. -/
theorem locate_collinear_spec_check :
    locate_go Tri ⟨1, 0⟩ 3 3 1 = Res.ok (LocRes.onEdge 5) :=
  ((locate_collinear_spec Tri ⟨1, 0⟩ 3 3 0 ⟨some 0, 4, 6, 9, 5, some 12⟩
      ⟨some 1, 3, 10, 7, 5, none⟩ 0 1 ⟨⟨0, 0⟩, some 3⟩ ⟨⟨2, 0⟩, some 4⟩
      (by decide) (by decide) (by decide) (by decide) (by decide) (by decide)
      (by decide)).1 (by decide)).trans (by decide)

/-- In any run of the locate loop, a result `OUTSIDE_MESH` carries the edge
of a halfedge whose pair is boundary. -/
theorem locate_go_outside (s : HDS) (p : Point2) :
    ∀ (fuel hs hi : Nat) (e : Nat),
      locate_go s p hs hi fuel = Res.ok (LocRes.outside e) →
      ∃ hh hd pd, mget s.halfedges hh = some hd ∧
        mget s.halfedges hd.pair = some pd ∧ pd.face = none ∧ e = hd.edge := by
  intro fuel
  induction fuel with
  | zero => intro hs hi e h; simp [locate_go] at h
  | succ f ih =>
      intro hs hi e h
      cases hhd : mget s.halfedges hi with
      | none => simp [locate_go, HDS.he?, hhd] at h
      | some hd =>
        cases hor : hd.origin with
        | none => simp [locate_go, HDS.he?, hhd, hor, nonNull] at h
        | some a =>
          cases had : mget s.nodes a with
          | none => simp [locate_go, HDS.he?, hhd, hor, nonNull, HDS.node?, had] at h
          | some ad =>
            cases hpd : mget s.halfedges hd.pair with
            | none =>
                simp [locate_go, HDS.he?, hhd, hor, nonNull, HDS.node?, had,
                  hpd] at h
            | some pd =>
              cases hpo : pd.origin with
              | none =>
                  simp [locate_go, HDS.he?, hhd, hor, nonNull, HDS.node?, had,
                    hpd, hpo] at h
              | some b =>
                cases hbd : mget s.nodes b with
                | none =>
                    simp [locate_go, HDS.he?, hhd, hor, nonNull, HDS.node?, had,
                      hpd, hpo, hbd] at h
                | some bd =>
                  simp only [locate_go, HDS.he?, hhd, hor, nonNull, HDS.node?,
                    had, hpd, hpo, hbd, Res.monad_bind, Res.bind_ok] at h
                  cases hos : oriented_side ad.position bd.position p with
                  | ON_POSITIVE_SIDE =>
                      rw [hos] at h
                      by_cases hnext : hd.next = hs
                      · rw [if_pos hnext] at h
                        cases hnd : mget s.halfedges hd.next with
                        | none => simp [HDS.he?, hnd] at h
                        | some nd => simp [HDS.he?, hnd] at h
                      · rw [if_neg hnext] at h
                        exact ih hs hd.next e h
                  | ON_ORIENTED_BOUNDARY =>
                      rw [hos] at h
                      by_cases hbet : (min ad.position.x bd.position.x < p.x ∧
                          p.x < max ad.position.x bd.position.x) ∨
                          (min ad.position.y bd.position.y < p.y ∧
                          p.y < max ad.position.y bd.position.y)
                      · rw [if_pos hbet] at h; simp at h
                      · rw [if_neg hbet] at h
                        by_cases hp1 : p = ad.position
                        · rw [if_pos hp1] at h; simp at h
                        · rw [if_neg hp1] at h
                          by_cases hp2 : p = bd.position
                          · rw [if_pos hp2] at h; simp at h
                          · rw [if_neg hp2] at h
                            by_cases hbf : pd.face = none
                            · rw [if_pos hbf] at h
                              simp only [Res.monad_pure, Res.ok.injEq,
                                LocRes.outside.injEq] at h
                              exact ⟨hi, hd, pd, hhd, hpd, hbf, h.symm⟩
                            · rw [if_neg hbf] at h
                              exact ih hd.pair pd.next e h
                  | ON_NEGATIVE_SIDE =>
                      rw [hos] at h
                      by_cases hbf : pd.face = none
                      · rw [if_pos hbf] at h
                        simp only [Res.monad_pure, Res.ok.injEq,
                          LocRes.outside.injEq] at h
                        exact ⟨hi, hd, pd, hhd, hpd, hbf, h.symm⟩
                      · rw [if_neg hbf] at h
                        exact ih hd.pair pd.next e h

/-- Claim C8: whenever `locate` returns `OUTSIDE_MESH` with edge `e`, the
step that declared it was looking at a halfedge whose pair is a boundary
halfedge (face = null), and `e` is that halfedge's edge — the walk only
declares `OUTSIDE_MESH` when it would cross a boundary halfedge. -/
theorem locate_outside_boundary (s : HDS) (p : Point2) (sf : Option Nat)
    (fuel e : Nat)
    (h : locate s p sf fuel = Res.ok (LocRes.outside e)) :
    ∃ hh hd pd, mget s.halfedges hh = some hd ∧
      mget s.halfedges hd.pair = some pd ∧ pd.face = none ∧ e = hd.edge := by
  unfold locate at h
  cases sf with
  | none =>
      cases hfl : s.faces with
      | nil => rw [hfl] at h; simp at h
      | cons ff r =>
          rw [hfl] at h
          obtain ⟨fk, fd⟩ := ff
          simp only [Res.monad_bind, Res.bind_ok, Res.monad_pure] at h
          exact locate_go_outside s p fuel fd.halfedge fd.halfedge e h
  | some f =>
      cases hfd : mget s.faces f with
      | none => simp [HDS.face?, hfd] at h
      | some fd =>
          simp only [HDS.face?, hfd, Res.monad_bind, Res.bind_ok,
            Res.monad_pure] at h
          exact locate_go_outside s p fuel fd.halfedge fd.halfedge e h

/-- Witness for C8: locating `(0,3)` in the triangle returns `OUTSIDE_MESH`
with edge `8`, whose interior side `6` has the boundary pair `7`. -/
theorem locate_outside_boundary_check :
    ∃ hh hd pd, mget Tri.halfedges hh = some hd ∧
      mget Tri.halfedges hd.pair = some pd ∧ pd.face = none ∧ 8 = hd.edge :=
  locate_outside_boundary Tri ⟨0, 3⟩ none 20 8 (by decide)

/-! ### Effect lemmas used for the split_edge face-count argument -/

theorem mappos_sethalfedge (m : List (Nat × NodeD)) (k : Nat) (v : Option Nat)
    (k' : Nat) :
    (mget (mmod m k (fun d => { d with halfedge := v })) k').map
        (fun nd => nd.position) =
      (mget m k').map (fun nd => nd.position) := by
  by_cases h : k' = k
  · subst h; rw [mget_mmod_self, Option.map_map]; rfl
  · rw [mget_mmod_ne _ _ _ _ h]

theorem attach_ok_effects (s : HDS) (he n : Nat) (s' : HDS)
    (h : attach_halfedge_to_node s he n = Res.ok s') :
    s'.faces = s.faces ∧ s'.edges = s.edges ∧ s'.fresh = s.fresh ∧
    (∀ k, (mget s'.nodes k).map (fun nd => nd.position) =
      (mget s.nodes k).map (fun nd => nd.position)) := by
  unfold attach_halfedge_to_node at h
  cases hhd : mget s.halfedges he with
  | none => simp [HDS.he?, hhd] at h
  | some hd =>
    cases hnd : mget s.nodes n with
    | none => simp [HDS.he?, hhd, HDS.node?, hnd] at h
    | some nd =>
      cases hniso : nd.halfedge with
      | none =>
          simp only [HDS.he?, hhd, HDS.node?, set_origin_nodes, hnd, hniso,
            Res.monad_bind, Res.bind_ok, Res.monad_pure, Res.ok.injEq] at h
          subst h
          refine ⟨rfl, rfl, rfl, ?_⟩
          intro k
          simp only [HDS.set_next, HDS.set_prev, HDS.set_node_halfedge,
            HDS.set_origin]
          exact mappos_sethalfedge s.nodes n (some he) k
      | some nh =>
          cases hffi : find_free_incident_halfedge_n (s.set_origin he (some n)) n with
          | ok g =>
              cases hgd : mget (s.set_origin he (some n)).halfedges g with
              | none =>
                  simp only [HDS.he?, hhd, HDS.node?, set_origin_nodes, hnd,
                    hniso, hffi, hgd, Res.monad_bind, Res.bind_ok,
                    Res.bind_div] at h
                  exact absurd h (by simp)
              | some gd =>
                  simp only [HDS.he?, hhd, HDS.node?, set_origin_nodes, hnd,
                    hniso, hffi, hgd, Res.monad_bind, Res.bind_ok,
                    Res.monad_pure, Res.ok.injEq] at h
                  subst h
                  exact ⟨rfl, rfl, rfl, fun k => rfl⟩
          | err e' t' => simp [HDS.he?, hhd, HDS.node?, hnd, hniso, hffi] at h
          | div => simp [HDS.he?, hhd, HDS.node?, hnd, hniso, hffi] at h

theorem make_adjacent_ok_effects (s : HDS) (a b : Nat) (t : HDS) (bl : Bool)
    (h : make_adjacent s a b = Res.ok (t, bl)) :
    t.faces = s.faces ∧ t.fresh = s.fresh ∧ t.nodes = s.nodes := by
  unfold make_adjacent at h
  cases hda : mget s.halfedges a with
  | none => simp [HDS.he?, hda] at h
  | some da =>
      by_cases hadj : da.next = b
      · simp only [HDS.he?, hda, Res.monad_bind, Res.bind_ok, if_pos hadj,
          Res.monad_pure, Res.ok.injEq, Prod.mk.injEq] at h
        rw [← h.1]
        exact ⟨rfl, rfl, rfl⟩
      · cases hdb : mget s.halfedges b with
        | none => simp [HDS.he?, hda, hdb, hadj] at h
        | some db =>
            cases hffi : find_free_incident_halfedge_from s db.pair a with
            | ok g =>
                cases hgd : mget s.halfedges g with
                | none => simp [HDS.he?, hda, hdb, hadj, hffi, hgd] at h
                | some gd =>
                    simp only [HDS.he?, hda, hdb, Res.monad_bind, Res.bind_ok,
                      if_neg hadj, hffi, hgd, Res.monad_pure, Res.ok.injEq,
                      Prod.mk.injEq] at h
                    rw [← h.1]
                    exact ⟨rfl, rfl, rfl⟩
            | err e' t' => simp [HDS.he?, hda, hdb, hadj, hffi] at h
            | div => simp [HDS.he?, hda, hdb, hadj, hffi] at h

theorem add_edge_ok_effects (s : HDS) (n1 n2 : Nat) (t : HDS) (hres : Nat)
    (h : add_edge s n1 n2 = Res.ok (t, hres)) :
    t.faces = s.faces ∧ t.fresh = s.fresh + 3 ∧ hres = s.fresh ∧
    (∀ k, (mget t.nodes k).map (fun nd => nd.position) =
      (mget s.nodes k).map (fun nd => nd.position)) := by
  unfold add_edge at h
  by_cases hne : n1 = n2
  · rw [if_pos hne] at h; simp at h
  · rw [if_neg hne] at h
    have hge : s.get_new_edge =
        ({ s with
            halfedges := (s.fresh, ⟨none, s.fresh + 1, s.fresh + 1, s.fresh + 1,
              s.fresh + 2, none⟩) :: (s.fresh + 1, ⟨none, s.fresh, s.fresh,
              s.fresh, s.fresh + 2, none⟩) :: s.halfedges,
            edges := (s.fresh + 2, ⟨s.fresh, s.fresh + 1⟩) :: s.edges,
            fresh := s.fresh + 3 }, s.fresh + 2) := rfl
    rw [hge] at h
    simp only [HDS.edge?, mget, eq_self_iff_true, if_true, Res.monad_bind,
      Res.bind_ok] at h
    cases hat1 : attach_halfedge_to_node
        ({ s with
            halfedges := (s.fresh, ⟨none, s.fresh + 1, s.fresh + 1, s.fresh + 1,
              s.fresh + 2, none⟩) :: (s.fresh + 1, ⟨none, s.fresh, s.fresh,
              s.fresh, s.fresh + 2, none⟩) :: s.halfedges,
            edges := (s.fresh + 2, ⟨s.fresh, s.fresh + 1⟩) :: s.edges,
            fresh := s.fresh + 3 }) s.fresh n1 with
    | ok s1 =>
        rw [hat1] at h
        simp only [Res.bind_ok] at h
        cases hat2 : attach_halfedge_to_node s1 (s.fresh + 1) n2 with
        | ok s2 =>
            rw [hat2] at h
            simp only [Res.bind_ok, Res.monad_pure, Res.ok.injEq,
              Prod.mk.injEq] at h
            obtain ⟨ht, hh⟩ := h
            subst ht
            obtain ⟨hf1, he1, hfr1, hp1⟩ := attach_ok_effects _ _ _ _ hat1
            obtain ⟨hf2, he2, hfr2, hp2⟩ := attach_ok_effects _ _ _ _ hat2
            refine ⟨?_, ?_, hh.symm, ?_⟩
            · rw [hf2, hf1]
            · rw [hfr2, hfr1]
            · intro k
              rw [hp2 k, hp1 k]
        | err e' t' => rw [hat2] at h; simp at h
        | div => rw [hat2] at h; simp at h
    | err e' t' => rw [hat1] at h; simp at h
    | div => rw [hat1] at h; simp at h

theorem remove_face_ok_shape (s : HDS) (f : Nat) (s' : HDS)
    (h : remove_face s f = Res.ok s') :
    ∃ fd hd, mget s.faces f = some fd ∧ mget s.halfedges fd.halfedge = some hd ∧
      s' = (((s.set_face fd.halfedge none).set_face hd.next none).set_face
        hd.prev none).delete_face f := by
  unfold remove_face at h
  cases hfd : mget s.faces f with
  | none => simp [HDS.face?, hfd] at h
  | some fd =>
    cases hhd : mget s.halfedges fd.halfedge with
    | none => simp [HDS.face?, hfd, HDS.he?, hhd] at h
    | some hd =>
        simp only [HDS.face?, hfd, HDS.he?, hhd, Res.monad_bind, Res.bind_ok,
          Res.monad_pure, Res.ok.injEq] at h
        exact ⟨fd, hd, rfl, hhd, h.symm⟩

theorem delete_edge_effects (s : HDS) (e : Nat) :
    (HDS.delete_edge s e).faces = s.faces ∧ (HDS.delete_edge s e).fresh = s.fresh ∧
    (HDS.delete_edge s e).nodes = s.nodes := by
  cases h : mget s.edges e <;> simp [HDS.delete_edge, h]

theorem detach_ok_effects (s : HDS) (he : Nat) (s' : HDS)
    (h : detach_edge s he = Res.ok s') :
    s'.faces = s.faces ∧ s'.fresh = s.fresh ∧
    (∀ k, (mget s'.nodes k).map (fun nd => nd.position) =
      (mget s.nodes k).map (fun nd => nd.position)) := by
  unfold detach_edge at h
  cases hhd : mget s.halfedges he with
  | none => simp [HDS.he?, hhd] at h
  | some hd =>
    cases hor : hd.origin with
    | none => simp [HDS.he?, hhd, hor, nonNull] at h
    | some n =>
      cases hnd : mget s.nodes n with
      | none => simp [HDS.he?, hhd, hor, nonNull, HDS.node?, hnd] at h
      | some nd =>
        cases hpd : mget s.halfedges hd.pair with
        | none => simp [HDS.he?, hhd, hor, nonNull, HDS.node?, hnd, hpd] at h
        | some pd =>
            simp only [HDS.he?, hhd, hor, nonNull, HDS.node?, hnd, hpd,
              Res.monad_bind, Res.bind_ok, Res.monad_pure, Res.ok.injEq] at h
            subst h
            by_cases hb : nd.halfedge = some he
            · by_cases hb2 : pd.next ≠ he
              · simp only [if_pos hb, if_pos hb2, set_next_faces, set_prev_faces,
                  set_node_halfedge_faces, set_next_fresh, set_prev_fresh,
                  set_node_halfedge_fresh, set_next_nodes, set_prev_nodes,
                  HDS.set_node_halfedge]
                exact ⟨by trivial, by trivial, fun k =>
                  mappos_sethalfedge s.nodes n (some pd.next) k⟩
              · simp only [if_pos hb, if_neg hb2, set_next_faces, set_prev_faces,
                  set_node_halfedge_faces, set_next_fresh, set_prev_fresh,
                  set_node_halfedge_fresh, set_next_nodes, set_prev_nodes,
                  HDS.set_node_halfedge]
                exact ⟨by trivial, by trivial, fun k =>
                  mappos_sethalfedge s.nodes n none k⟩
            · simp only [if_neg hb, set_next_faces, set_prev_faces,
                set_next_fresh, set_prev_fresh, set_next_nodes, set_prev_nodes]
              exact ⟨by trivial, by trivial, fun _ => trivial⟩

theorem face_none_after_clear (m : List (Nat × HalfedgeD)) (k k' : Nat)
    (d : HalfedgeD) (hd : mget m k' = some d) (hf : d.face = none) :
    ∃ d', mget (mmod m k (fun x => { x with face := none })) k' = some d' ∧
      d'.face = none := by
  by_cases h : k' = k
  · subst h
    rw [mget_mmod_self, hd]
    exact ⟨_, rfl, rfl⟩
  · rw [mget_mmod_ne _ _ _ _ h]
    exact ⟨d, hd, hf⟩

theorem remove_edge_ok_count (s : HDS) (e : Nat) (ed : EdgeD) (d1 d2 : HalfedgeD)
    (s' : HDS)
    (hed : mget s.edges e = some ed)
    (hd1 : mget s.halfedges ed.he1 = some d1)
    (hd2 : mget s.halfedges ed.he2 = some d2)
    (hV : ∀ f1, d1.face = some f1 → d2.face ≠ none →
      ∃ fd1 fhd1, mget s.faces f1 = some fd1 ∧
        mget s.halfedges fd1.halfedge = some fhd1 ∧
        ed.he2 ≠ fd1.halfedge ∧ ed.he2 ≠ fhd1.next ∧ ed.he2 ≠ fhd1.prev)
    (h : remove_edge s e = Res.ok s') :
    s'.fresh = s.fresh ∧
    (∀ k, (mget s'.nodes k).map (fun nd => nd.position) =
      (mget s.nodes k).map (fun nd => nd.position)) ∧
    s'.faces.length + ((if d1.face = none then 0 else 1) +
      (if d2.face = none then 0 else 1)) = s.faces.length := by
  unfold remove_edge at h
  simp only [HDS.edge?, hed, HDS.he?, hd1, Res.monad_bind, Res.bind_ok] at h
  cases hf1 : d1.face with
  | none =>
      simp only [hf1, Res.monad_pure, Res.monad_bind, Res.bind_ok, hd2] at h
      cases hf2 : d2.face with
      | none =>
          simp only [hf2, Res.monad_pure, Res.monad_bind, Res.bind_ok] at h
          cases hdet1 : detach_edge s ed.he1 with
          | ok s3 =>
              rw [hdet1] at h
              simp only [Res.bind_ok] at h
              cases hdet2 : detach_edge s3 ed.he2 with
              | ok s4 =>
                  rw [hdet2] at h
                  simp only [Res.bind_ok, Res.monad_pure, Res.ok.injEq] at h
                  subst h
                  obtain ⟨hf3, hr3, hp3⟩ := detach_ok_effects _ _ _ hdet1
                  obtain ⟨hf4, hr4, hp4⟩ := detach_ok_effects _ _ _ hdet2
                  obtain ⟨hfE, hrE, hnE⟩ := delete_edge_effects s4 e
                  refine ⟨by rw [hrE, hr4, hr3], ?_, ?_⟩
                  · intro k
                    rw [hnE, hp4 k, hp3 k]
                  · simp [hfE, hf4, hf3]
              | err e' t' => rw [hdet2] at h; simp at h
              | div => rw [hdet2] at h; simp at h
          | err e' t' => rw [hdet1] at h; simp at h
          | div => rw [hdet1] at h; simp at h
      | some f2 =>
          simp only [hf2, Res.monad_pure, Res.monad_bind, Res.bind_ok] at h
          cases hrf2 : remove_face s f2 with
          | ok s2 =>
              rw [hrf2] at h
              simp only [Res.bind_ok] at h
              obtain ⟨fd2, fhd2, hfd2, hfhd2, hs2⟩ := remove_face_ok_shape _ _ _ hrf2
              have hfaces2 : s2.faces = merase s.faces f2 := by
                simp [hs2]
              have hlen2 : s.faces.length = (merase s.faces f2).length + 1 :=
                length_merase _ _ _ hfd2
              cases hdet1 : detach_edge s2 ed.he1 with
              | ok s3 =>
                  rw [hdet1] at h
                  simp only [Res.bind_ok] at h
                  cases hdet2 : detach_edge s3 ed.he2 with
                  | ok s4 =>
                      rw [hdet2] at h
                      simp only [Res.bind_ok, Res.monad_pure, Res.ok.injEq] at h
                      subst h
                      obtain ⟨hf3, hr3, hp3⟩ := detach_ok_effects _ _ _ hdet1
                      obtain ⟨hf4, hr4, hp4⟩ := detach_ok_effects _ _ _ hdet2
                      obtain ⟨hfE, hrE, hnE⟩ := delete_edge_effects s4 e
                      have hrs2 : s2.fresh = s.fresh := by simp [hs2]
                      have hns2 : ∀ k, (mget s2.nodes k).map (fun nd => nd.position) =
                          (mget s.nodes k).map (fun nd => nd.position) := by
                        intro k; simp [hs2, HDS.delete_face]
                      refine ⟨by rw [hrE, hr4, hr3, hrs2], ?_, ?_⟩
                      · intro k
                        rw [hnE, hp4 k, hp3 k, hns2 k]
                      · simp [hfE, hf4, hf3, hfaces2]
                        omega
                  | err e' t' => rw [hdet2] at h; simp at h
                  | div => rw [hdet2] at h; simp at h
              | err e' t' => rw [hdet1] at h; simp at h
              | div => rw [hdet1] at h; simp at h
          | err e' t' => rw [hrf2] at h; simp at h
          | div => rw [hrf2] at h; simp at h
  | some f1 =>
      simp only [hf1] at h
      cases hrf1 : remove_face s f1 with
      | ok s1 =>
          rw [hrf1] at h
          simp only [Res.bind_ok] at h
          obtain ⟨fd1, fhd1, hfd1, hfhd1, hs1⟩ := remove_face_ok_shape _ _ _ hrf1
          have hfaces1 : s1.faces = merase s.faces f1 := by
            simp [hs1]
          have hrs1 : s1.fresh = s.fresh := by simp [hs1]
          have hns1 : ∀ k, (mget s1.nodes k).map (fun nd => nd.position) =
              (mget s.nodes k).map (fun nd => nd.position) := by
            intro k; simp [hs1, HDS.delete_face]
          have hlen1 : s.faces.length = (merase s.faces f1).length + 1 :=
            length_merase _ _ _ hfd1
          cases hf2 : d2.face with
          | none =>
              obtain ⟨d2a, hd2a, hfa⟩ := face_none_after_clear s.halfedges
                fd1.halfedge ed.he2 d2 hd2 hf2
              obtain ⟨d2b, hd2b, hfb⟩ := face_none_after_clear _
                fhd1.next ed.he2 d2a hd2a hfa
              obtain ⟨d2c, hd2c, hfc⟩ := face_none_after_clear _
                fhd1.prev ed.he2 d2b hd2b hfb
              have hre : mget s1.halfedges ed.he2 = some d2c := by
                rw [hs1]
                simp only [delete_face_halfedges, set_face_halfedges]
                exact hd2c
              simp only [hre, hfc, Res.monad_pure, Res.bind_ok] at h
              cases hdet1 : detach_edge s1 ed.he1 with
              | ok s3 =>
                  rw [hdet1] at h
                  simp only [Res.bind_ok] at h
                  cases hdet2 : detach_edge s3 ed.he2 with
                  | ok s4 =>
                      rw [hdet2] at h
                      simp only [Res.bind_ok, Res.monad_pure, Res.ok.injEq] at h
                      subst h
                      obtain ⟨hf3, hr3, hp3⟩ := detach_ok_effects _ _ _ hdet1
                      obtain ⟨hf4, hr4, hp4⟩ := detach_ok_effects _ _ _ hdet2
                      obtain ⟨hfE, hrE, hnE⟩ := delete_edge_effects s4 e
                      refine ⟨by rw [hrE, hr4, hr3, hrs1], ?_, ?_⟩
                      · intro k
                        rw [hnE, hp4 k, hp3 k, hns1 k]
                      · simp [hfE, hf4, hf3, hfaces1]
                        omega
                  | err e' t' => rw [hdet2] at h; simp at h
                  | div => rw [hdet2] at h; simp at h
              | err e' t' => rw [hdet1] at h; simp at h
              | div => rw [hdet1] at h; simp at h
          | some f2 =>
              obtain ⟨fdV, fhV, hfdV, hfhV, hne1, hne2, hne3⟩ :=
                hV f1 hf1 (by rw [hf2]; exact Option.some_ne_none f2)
              have hfd1e : fdV = fd1 := Option.some.inj (hfdV.symm.trans hfd1)
              subst hfd1e
              have hfhd1e : fhV = fhd1 := Option.some.inj (hfhV.symm.trans hfhd1)
              subst hfhd1e
              have hre : mget s1.halfedges ed.he2 = some d2 := by
                rw [hs1]
                simp only [delete_face_halfedges, set_face_halfedges]
                rw [mget_mmod_ne _ _ _ _ hne3, mget_mmod_ne _ _ _ _ hne2,
                  mget_mmod_ne _ _ _ _ hne1]
                exact hd2
              simp only [hre, hf2, Res.bind_ok] at h
              cases hrf2 : remove_face s1 f2 with
              | ok s2 =>
                  rw [hrf2] at h
                  simp only [Res.bind_ok] at h
                  obtain ⟨fd2, fhd2, hfd2, hfhd2, hs2⟩ :=
                    remove_face_ok_shape _ _ _ hrf2
                  have hfaces2 : s2.faces = merase s1.faces f2 := by
                    simp [hs2]
                  have hrs2 : s2.fresh = s1.fresh := by simp [hs2]
                  have hns2 : ∀ k, (mget s2.nodes k).map (fun nd => nd.position) =
                      (mget s1.nodes k).map (fun nd => nd.position) := by
                    intro k; simp [hs2, HDS.delete_face]
                  have hlen2 : s1.faces.length = (merase s1.faces f2).length + 1 :=
                    length_merase _ _ _ hfd2
                  cases hdet1 : detach_edge s2 ed.he1 with
                  | ok s3 =>
                      rw [hdet1] at h
                      simp only [Res.bind_ok] at h
                      cases hdet2 : detach_edge s3 ed.he2 with
                      | ok s4 =>
                          rw [hdet2] at h
                          simp only [Res.bind_ok, Res.monad_pure,
                            Res.ok.injEq] at h
                          subst h
                          obtain ⟨hf3, hr3, hp3⟩ := detach_ok_effects _ _ _ hdet1
                          obtain ⟨hf4, hr4, hp4⟩ := detach_ok_effects _ _ _ hdet2
                          obtain ⟨hfE, hrE, hnE⟩ := delete_edge_effects s4 e
                          refine ⟨by rw [hrE, hr4, hr3, hrs2, hrs1], ?_, ?_⟩
                          · intro k
                            rw [hnE, hp4 k, hp3 k, hns2 k, hns1 k]
                          · rw [hfaces1] at hlen2
                            simp [hfE, hf4, hf3, hfaces2, hfaces1]
                            omega
                      | err e' t' => rw [hdet2] at h; simp at h
                      | div => rw [hdet2] at h; simp at h
                  | err e' t' => rw [hdet1] at h; simp at h
                  | div => rw [hdet1] at h; simp at h
              | err e' t' => rw [hrf2] at h; simp at h
              | div => rw [hrf2] at h; simp at h
      | err e' t' => rw [hrf1] at h; simp at h
      | div => rw [hrf1] at h; simp at h

theorem bind_ok_inv {α β : Type} {x : Res α} {k : α → Res β} {r : β}
    (h : Res.bind x k = Res.ok r) : ∃ a, x = Res.ok a ∧ k a = Res.ok r := by
  cases x with
  | ok a => exact ⟨a, rfl, h⟩
  | err e t => simp at h
  | div => simp at h

theorem he_ok_inv {s : HDS} {h : Nat} {d : HalfedgeD}
    (hh : HDS.he? s h = Res.ok d) : mget s.halfedges h = some d := by
  unfold HDS.he? at hh
  cases hm : mget s.halfedges h with
  | none => rw [hm] at hh; simp at hh
  | some d' => rw [hm] at hh; simp at hh; rw [hh]

theorem edge_ok_inv {s : HDS} {e : Nat} {d : EdgeD}
    (hh : HDS.edge? s e = Res.ok d) : mget s.edges e = some d := by
  unfold HDS.edge? at hh
  cases hm : mget s.edges e with
  | none => rw [hm] at hh; simp at hh
  | some d' => rw [hm] at hh; simp at hh; rw [hh]

theorem nonNull_ok_inv {o : Option Nat} {n : Nat}
    (hh : nonNull o = Res.ok n) : o = some n := by
  cases o with
  | none => simp [nonNull] at hh
  | some m => simp [nonNull] at hh; rw [hh]

@[simp] theorem set_face_halfedge_nodes (s : HDS) (f v : Nat) :
    (HDS.set_face_halfedge s f v).nodes = s.nodes := rfl

theorem mmod_head {α : Type} (k : Nat) (v : α) (r : List (Nat × α)) (f : α → α) :
    mmod ((k, v) :: r) k f = (k, f v) :: r := by
  simp [mmod]

theorem add_face_ok_count (s : HDS) (h1 h2 h3 : Nat) (t : HDS) (f : Nat)
    (h : add_face s h1 h2 h3 = Res.ok (t, f)) :
    t.faces.length = s.faces.length + 1 ∧ t.fresh = s.fresh + 1 ∧
    t.nodes = s.nodes := by
  unfold add_face at h
  simp only [Res.monad_bind] at h
  obtain ⟨d1, hx1, h⟩ := bind_ok_inv h
  obtain ⟨d2, hx2, h⟩ := bind_ok_inv h
  obtain ⟨d3, hx3, h⟩ := bind_ok_inv h
  by_cases hfree : d1.face = none ∧ d2.face = none ∧ d3.face = none
  · rw [if_neg (not_not_intro hfree)] at h
    obtain ⟨p1, hp1, h⟩ := bind_ok_inv h
    obtain ⟨p2, hp2, h⟩ := bind_ok_inv h
    obtain ⟨p3, hp3, h⟩ := bind_ok_inv h
    by_cases hchain : p1.origin = d2.origin ∧ p2.origin = d3.origin ∧
        p3.origin = d1.origin
    · rw [if_neg (not_not_intro hchain)] at h
      obtain ⟨pr1, hma1, h⟩ := bind_ok_inv h
      obtain ⟨s1, b1⟩ := pr1
      have hb1 := ma_ok_true _ _ _ _ _ hma1
      subst hb1
      obtain ⟨hfc1, hfr1, hnd1⟩ := make_adjacent_ok_effects _ _ _ _ _ hma1
      dsimp only at h
      rw [if_pos rfl] at h
      obtain ⟨pr2, hma2, h⟩ := bind_ok_inv h
      obtain ⟨s2, b2⟩ := pr2
      have hb2 := ma_ok_true _ _ _ _ _ hma2
      subst hb2
      obtain ⟨hfc2, hfr2, hnd2⟩ := make_adjacent_ok_effects _ _ _ _ _ hma2
      dsimp only at h
      rw [if_pos ⟨rfl, rfl⟩] at h
      obtain ⟨pr3, hma3, h⟩ := bind_ok_inv h
      obtain ⟨s3, b3⟩ := pr3
      have hb3 := ma_ok_true _ _ _ _ _ hma3
      subst hb3
      obtain ⟨hfc3, hfr3, hnd3⟩ := make_adjacent_ok_effects _ _ _ _ _ hma3
      dsimp only at h
      rw [if_neg (by simp)] at h
      have hgf : s3.get_new_face =
          ({ s3 with
              faces := (s3.fresh, ⟨0⟩) :: s3.faces,
              fresh := s3.fresh + 1 }, s3.fresh) := rfl
      rw [hgf] at h
      simp only [Res.monad_pure, Res.ok.injEq, Prod.mk.injEq] at h
      obtain ⟨ht, _⟩ := h
      subst ht
      refine ⟨?_, ?_, ?_⟩
      · simp only [set_face_faces, set_face_halfedge_faces, length_mmod]
        simp [hfc3, hfc2, hfc1]
      · simp only [set_face_fresh, set_face_halfedge_fresh]
        simp [hfr3, hfr2, hfr1]
      · simp only [set_face_nodes, set_face_halfedge_nodes]
        simp [hnd3, hnd2, hnd1]
    · rw [if_pos hchain] at h
      simp at h
  · rw [if_pos hfree] at h
    simp at h

theorem split_block_effects (s0 : HDS) (n_new u v a b : Nat) (no : Option Nat)
    (t : HDS)
    (h : (do
        let n3 ← nonNull no
        let (s, h3) ← add_edge s0 n_new n3
        let d3 ← s.he? h3
        let (s, _) ← add_face s u a d3.pair
        let dh1 ← s.he? v
        let (s, _) ← add_face s h3 b dh1.pair
        pure s : Res HDS) = Res.ok t) :
    t.faces.length = s0.faces.length + 2 ∧
    (∀ k, (mget t.nodes k).map (fun nd => nd.position) =
      (mget s0.nodes k).map (fun nd => nd.position)) := by
  simp only [Res.monad_bind] at h
  obtain ⟨n3, hn3, h⟩ := bind_ok_inv h
  obtain ⟨prE, hae, h⟩ := bind_ok_inv h
  obtain ⟨sE, h3⟩ := prE
  dsimp only at h
  obtain ⟨hfE, hfrE, hheE, hposE⟩ := add_edge_ok_effects _ _ _ _ _ hae
  obtain ⟨d3, hd3, h⟩ := bind_ok_inv h
  obtain ⟨prF1, haf1, h⟩ := bind_ok_inv h
  obtain ⟨sF1, f1⟩ := prF1
  dsimp only at h
  obtain ⟨hcF1, hfrF1, hndF1⟩ := add_face_ok_count _ _ _ _ _ _ haf1
  obtain ⟨dh1, hdh1, h⟩ := bind_ok_inv h
  obtain ⟨prF2, haf2, h⟩ := bind_ok_inv h
  obtain ⟨sF2, f2⟩ := prF2
  dsimp only at h
  obtain ⟨hcF2, hfrF2, hndF2⟩ := add_face_ok_count _ _ _ _ _ _ haf2
  simp only [Res.monad_pure, Res.ok.injEq] at h
  subst h
  have hlE := congrArg List.length hfE
  constructor
  · omega
  · intro k
    rw [hndF2, hndF1]
    exact hposE k

/-- Claim C9: for an edge `e` with `k` sides carrying a face
(`k ∈ {0, 1, 2}`) and a point `p`, a successful `split_edge(e, p)` returns
the newly added node (the fresh handle, previously absent, holding position
`p`) and the total number of faces grows by exactly `k`. -/
theorem split_edge_spec (s : HDS) (e : Nat) (p : Point2) (ed : EdgeD)
    (d1 d2 : HalfedgeD) (s' : HDS) (nNew : Nat)
    (hed : mget s.edges e = some ed)
    (hd1 : mget s.halfedges ed.he1 = some d1)
    (hd2 : mget s.halfedges ed.he2 = some d2)
    (hV : ∀ f1, d1.face = some f1 → d2.face ≠ none →
      ∃ fd1 fhd1, mget s.faces f1 = some fd1 ∧
        mget s.halfedges fd1.halfedge = some fhd1 ∧
        ed.he2 ≠ fd1.halfedge ∧ ed.he2 ≠ fhd1.next ∧ ed.he2 ≠ fhd1.prev)
    (hfresh : mget s.nodes s.fresh = none)
    (hrun : split_edge s e p = Res.ok (s', nNew)) :
    nNew = s.fresh ∧ mget s.nodes nNew = none ∧
    (mget s'.nodes nNew).map (fun nd => nd.position) = some p ∧
    s'.faces.length = s.faces.length +
      ((if d1.face = none then 0 else 1) + (if d2.face = none then 0 else 1)) := by
  unfold split_edge at hrun
  simp only [Res.monad_bind] at hrun
  obtain ⟨ed', hed', hrun⟩ := bind_ok_inv hrun
  have hede : ed = ed' := Option.some.inj (hed.symm.trans (edge_ok_inv hed'))
  subst hede
  obtain ⟨d1', hd1', hrun⟩ := bind_ok_inv hrun
  have hde1 : d1 = d1' := Option.some.inj (hd1.symm.trans (he_ok_inv hd1'))
  subst hde1
  obtain ⟨d2', hd2', hrun⟩ := bind_ok_inv hrun
  have hde2 : d2 = d2' := Option.some.inj (hd2.symm.trans (he_ok_inv hd2'))
  subst hde2
  obtain ⟨n1, hn1, hrun⟩ := bind_ok_inv hrun
  obtain ⟨n2, hn2, hrun⟩ := bind_ok_inv hrun
  obtain ⟨f1data, hf1d, hrun⟩ := bind_ok_inv hrun
  obtain ⟨f2data, hf2d, hrun⟩ := bind_ok_inv hrun
  obtain ⟨sR, hrem, hrun⟩ := bind_ok_inv hrun
  obtain ⟨hRfr, hRpos, hRcount⟩ :=
    remove_edge_ok_count s e ed d1 d2 sR hed hd1 hd2 hV hrem
  have hAN : add_node sR p =
      ({ sR with
          nodes := mmod ((sR.fresh, ⟨⟨0, 0⟩, none⟩) :: sR.nodes) sR.fresh
            (fun d => { d with position := p }),
          fresh := sR.fresh + 1 }, sR.fresh) := rfl
  rw [hAN] at hrun
  dsimp only at hrun
  obtain ⟨prE1, hae1, hrun⟩ := bind_ok_inv hrun
  obtain ⟨sE1, h1'⟩ := prE1
  dsimp only at hrun
  obtain ⟨hfE1, hfrE1, hheE1, hposE1⟩ := add_edge_ok_effects _ _ _ _ _ hae1
  obtain ⟨prE2, hae2, hrun⟩ := bind_ok_inv hrun
  obtain ⟨sE2, h2'⟩ := prE2
  dsimp only at hrun
  obtain ⟨hfE2, hfrE2, hheE2, hposE2⟩ := add_edge_ok_effects _ _ _ _ _ hae2
  have hposAN : ∀ k, (mget sE2.nodes k).map (fun nd => nd.position) =
      (mget (mmod ((sR.fresh, ⟨⟨0, 0⟩, none⟩) :: sR.nodes) sR.fresh
        (fun d => { d with position := p })) k).map (fun nd => nd.position) := by
    intro k
    rw [hposE2 k, hposE1 k]
  have hposNew : (mget sE2.nodes sR.fresh).map (fun nd => nd.position) = some p := by
    rw [hposAN sR.fresh, mmod_head]
    simp [mget]
  have hfAN : sE2.faces = sR.faces := by
    rw [hfE2, hfE1]
  cases hf1 : d1.face with
  | none =>
      rw [if_neg (by simp [hf1])] at hf1d
      simp only [Res.monad_pure, Res.ok.injEq] at hf1d
      subst hf1d
      dsimp only at hrun
      simp only [Res.monad_pure, Res.bind_ok] at hrun
      cases hf2 : d2.face with
      | none =>
          rw [if_neg (by simp [hf2])] at hf2d
          simp only [Res.monad_pure, Res.ok.injEq] at hf2d
          subst hf2d
          dsimp only at hrun
          simp only [Res.monad_pure, Res.bind_ok, Res.ok.injEq,
            Prod.mk.injEq] at hrun
          obtain ⟨hs', hn'⟩ := hrun
          subst hs'
          subst hn'
          rw [hf1, hf2] at hRcount
          refine ⟨hRfr, by rw [hRfr]; exact hfresh, ?_, ?_⟩
          · exact hposNew
          · have := congrArg List.length hfAN
            simp [hf1, hf2]
            simp at hRcount
            omega
      | some f2 =>
          rw [if_pos (by simp [hf2])] at hf2d
          obtain ⟨d8, hd8, hf2d⟩ := bind_ok_inv hf2d
          simp only [Res.monad_pure, Res.ok.injEq] at hf2d
          subst hf2d
          dsimp only at hrun
          obtain ⟨tB2, hblk2, hrun⟩ := bind_ok_inv hrun
          obtain ⟨hB2count, hB2pos⟩ := split_block_effects sE2 sR.fresh h1' h2'
            d2.next d2.prev d8.origin tB2 hblk2
          simp only [Res.monad_pure, Res.ok.injEq, Prod.mk.injEq] at hrun
          obtain ⟨hs', hn'⟩ := hrun
          subst hs'
          subst hn'
          rw [hf1, hf2] at hRcount
          refine ⟨hRfr, by rw [hRfr]; exact hfresh, ?_, ?_⟩
          · rw [hB2pos sR.fresh]
            exact hposNew
          · have := congrArg List.length hfAN
            simp [hf1, hf2]
            simp at hRcount
            omega
  | some f1 =>
      rw [if_pos (by simp [hf1])] at hf1d
      obtain ⟨d6, hd6, hf1d⟩ := bind_ok_inv hf1d
      simp only [Res.monad_pure, Res.ok.injEq] at hf1d
      subst hf1d
      dsimp only at hrun
      obtain ⟨tB1, hblk1, hrun⟩ := bind_ok_inv hrun
      obtain ⟨hB1count, hB1pos⟩ := split_block_effects sE2 sR.fresh h2' h1'
        d1.next d1.prev d6.origin tB1 hblk1
      cases hf2 : d2.face with
      | none =>
          rw [if_neg (by simp [hf2])] at hf2d
          simp only [Res.monad_pure, Res.ok.injEq] at hf2d
          subst hf2d
          dsimp only at hrun
          simp only [Res.monad_pure, Res.bind_ok, Res.ok.injEq,
            Prod.mk.injEq] at hrun
          obtain ⟨hs', hn'⟩ := hrun
          subst hs'
          subst hn'
          rw [hf1, hf2] at hRcount
          refine ⟨hRfr, by rw [hRfr]; exact hfresh, ?_, ?_⟩
          · rw [hB1pos sR.fresh]
            exact hposNew
          · have := congrArg List.length hfAN
            simp [hf1, hf2]
            simp at hRcount
            omega
      | some f2 =>
          rw [if_pos (by simp [hf2])] at hf2d
          obtain ⟨d8, hd8, hf2d⟩ := bind_ok_inv hf2d
          simp only [Res.monad_pure, Res.ok.injEq] at hf2d
          subst hf2d
          dsimp only at hrun
          obtain ⟨tB2, hblk2, hrun⟩ := bind_ok_inv hrun
          obtain ⟨hB2count, hB2pos⟩ := split_block_effects tB1 sR.fresh h1' h2'
            d2.next d2.prev d8.origin tB2 hblk2
          simp only [Res.monad_pure, Res.ok.injEq, Prod.mk.injEq] at hrun
          obtain ⟨hs', hn'⟩ := hrun
          subst hs'
          subst hn'
          rw [hf1, hf2] at hRcount
          refine ⟨hRfr, by rw [hRfr]; exact hfresh, ?_, ?_⟩
          · rw [hB2pos sR.fresh, hB1pos sR.fresh]
            exact hposNew
          · have := congrArg List.length hfAN
            simp [hf1, hf2]
            simp at hRcount
            omega

/-- Witness for C9: splitting the triangle's boundary edge `5` (one incident
face) at `(1,0)` returns the fresh node `13` carrying position `(1,0)`, and
the face count grows from `1` by exactly `1`. -/
theorem split_edge_spec_check :
    (13 : Nat) = Tri.fresh ∧ mget Tri.nodes 13 = none ∧
    (mget TriSplit.nodes 13).map (fun nd => nd.position) = some ⟨1, 0⟩ ∧
    TriSplit.faces.length = Tri.faces.length +
      ((if (⟨some 0, 4, 6, 9, 5, some 12⟩ : HalfedgeD).face = none then 0 else 1) +
       (if (⟨some 1, 3, 10, 7, 5, none⟩ : HalfedgeD).face = none then 0 else 1)) :=
  split_edge_spec Tri 5 ⟨1, 0⟩ ⟨3, 4⟩ ⟨some 0, 4, 6, 9, 5, some 12⟩
    ⟨some 1, 3, 10, 7, 5, none⟩ TriSplit 13 (by decide) (by decide) (by decide)
    (fun f1 _ h => absurd rfl h) (by decide) (by decide)

/-! ### Key-set lemmas for the entity maps -/

theorem mem_keysOf_of_mget {α : Type} {m : List (Nat × α)} {k : Nat} {v : α}
    (h : mget m k = some v) : k ∈ keysOf m := by
  induction m with
  | nil => simp [mget] at h
  | cons p r ih =>
      obtain ⟨k', v'⟩ := p
      by_cases hk : k' = k
      · subst hk; simp [keysOf]
      · simp only [mget, if_neg hk] at h
        simp [keysOf] at ih ⊢
        exact Or.inr (ih h)

theorem mget_eq_none_of_not_mem {α : Type} {m : List (Nat × α)} {k : Nat}
    (h : k ∉ keysOf m) : mget m k = none := by
  cases hm : mget m k with
  | none => rfl
  | some v => exact absurd (mem_keysOf_of_mget hm) h

theorem keysOf_mmod {α : Type} (m : List (Nat × α)) (k : Nat) (f : α → α) :
    keysOf (mmod m k f) = keysOf m := by
  induction m with
  | nil => rfl
  | cons p r ih =>
      obtain ⟨k', v'⟩ := p
      by_cases hk : k' = k
      · simp [mmod, if_pos hk, keysOf]
      · simp [mmod, if_neg hk, keysOf] at ih ⊢
        exact ih

theorem merase_sublist {α : Type} (m : List (Nat × α)) (k : Nat) :
    List.Sublist (merase m k) m := by
  induction m with
  | nil => simp [merase]
  | cons p r ih =>
      obtain ⟨k', v'⟩ := p
      by_cases hk : k' = k
      · simp only [merase, if_pos hk]
        exact List.sublist_cons_self _ _
      · simp only [merase, if_neg hk]
        exact List.Sublist.cons₂ _ ih

theorem keysOf_merase_nodup {α : Type} {m : List (Nat × α)} (k : Nat)
    (h : (keysOf m).Nodup) : (keysOf (merase m k)).Nodup :=
  List.Nodup.sublist (List.Sublist.map Prod.fst (merase_sublist m k)) h

theorem mget_merase_self {α : Type} {m : List (Nat × α)} {k : Nat}
    (h : (keysOf m).Nodup) : mget (merase m k) k = none := by
  induction m with
  | nil => rfl
  | cons p r ih =>
      obtain ⟨k', v'⟩ := p
      simp only [keysOf, List.map_cons, List.nodup_cons] at h
      by_cases hk : k' = k
      · subst hk
        simp only [merase, if_pos rfl]
        exact mget_eq_none_of_not_mem h.1
      · simp only [merase, if_neg hk, mget, if_neg hk]
        exact ih h.2

theorem mem_keysOf_merase {α : Type} {m : List (Nat × α)} {k k' : Nat}
    (h : k' ∈ keysOf (merase m k)) : k' ∈ keysOf m :=
  (List.Sublist.map Prod.fst (merase_sublist m k)).mem h

/-! ### Basic lemmas on step lists and cycles -/

theorem stepsOK_nil (f : Nat → Option Nat) : stepsOK f [] := List.chain'_nil

theorem stepsOK_single (f : Nat → Option Nat) (a : Nat) : stepsOK f [a] :=
  List.chain'_singleton a

theorem stepsOK_cons {f : Nat → Option Nat} {a b : Nat} {r : List Nat} :
    stepsOK f (a :: b :: r) ↔ f a = some b ∧ stepsOK f (b :: r) := by
  unfold stepsOK
  exact List.chain'_cons

theorem stepsOK_congr {f g : Nat → Option Nat} {L : List Nat}
    (h : ∀ x ∈ L, f x = g x) (hs : stepsOK f L) : stepsOK g L := by
  induction L with
  | nil => exact stepsOK_nil g
  | cons a r ih =>
      cases r with
      | nil => exact stepsOK_single g a
      | cons b r2 =>
          rw [stepsOK_cons] at hs
          rw [stepsOK_cons]
          refine ⟨(h a (by simp)).symm.trans hs.1, ih ?_ hs.2⟩
          intro x hx
          exact h x (by simp [hx])

theorem stepsOK_append {f : Nat → Option Nat} {A B : List Nat} :
    stepsOK f (A ++ B) ↔ stepsOK f A ∧ stepsOK f B ∧
      ∀ x ∈ A.getLast?, ∀ y ∈ B.head?, f x = some y := by
  unfold stepsOK
  exact List.chain'_append

theorem dropLast_ne_getLast {T : List Nat} (hT : T ≠ []) (hnd : T.Nodup)
    {x : Nat} (hx : x ∈ T.dropLast) : x ≠ T.getLast hT := by
  intro he
  subst he
  have h2 := List.dropLast_append_getLast hT
  rw [← h2] at hnd
  exact List.disjoint_of_nodup_append hnd hx (by simp)

theorem stepsOK_congr2 {f g : Nat → Option Nat} : ∀ {L : List Nat},
    (∀ x ∈ L.dropLast, f x = g x) → stepsOK f L → stepsOK g L
  | [], _, _ => stepsOK_nil g
  | [a], _, _ => stepsOK_single g a
  | a :: b :: r, h, hs => by
      rw [stepsOK_cons] at hs ⊢
      refine ⟨(h a (by simp)).symm.trans hs.1, stepsOK_congr2 ?_ hs.2⟩
      intro x hx
      apply h
      rw [List.dropLast_cons₂]
      exact List.mem_cons_of_mem a hx

theorem stepsOK_take_eq (f : Nat → Option Nat) :
    ∀ (P Q : List Nat), stepsOK f P → stepsOK f Q → P.headI = Q.headI →
      P.length ≤ Q.length → P ≠ [] → P = Q.take P.length
  | [], _, _, _, _, _, hne => absurd rfl hne
  | [a], Q, _, _, hh, hlen, _ => by
      cases Q with
      | nil => simp at hlen
      | cons b Q2 =>
          simp only [List.headI] at hh
          subst hh
          simp
  | a :: c :: P2, Q, hP, hQ, hh, hlen, _ => by
      cases Q with
      | nil => simp at hlen
      | cons b Q2 =>
          cases Q2 with
          | nil => simp at hlen
          | cons d Q3 =>
              simp only [List.headI] at hh
              subst hh
              have h1 : f a = some c := (stepsOK_cons.mp hP).1
              have h2 : f a = some d := (stepsOK_cons.mp hQ).1
              rw [h1] at h2
              have hcd : c = d := Option.some.inj h2
              subst hcd
              have hrec := stepsOK_take_eq f (c :: P2) (c :: Q3)
                (stepsOK_cons.mp hP).2 (stepsOK_cons.mp hQ).2 rfl
                (by simpa using hlen) (by simp)
              simp only [List.length_cons, List.take_succ_cons] at hrec ⊢
              exact congrArg (List.cons a) hrec

theorem rotate_mem {L1 L2 : List Nat} {x y : Nat} :
    y ∈ x :: (L2 ++ L1) ↔ y ∈ L1 ++ x :: L2 := by
  simp only [List.mem_cons, List.mem_append]
  tauto

theorem rotate_nodup {L1 L2 : List Nat} {x : Nat}
    (h : (L1 ++ x :: L2).Nodup) : (x :: (L2 ++ L1)).Nodup := by
  have hp : (L1 ++ x :: L2).Perm (x :: (L2 ++ L1)) := by
    refine List.Perm.trans List.perm_middle ?_
    exact List.Perm.cons x List.perm_append_comm
  exact hp.nodup h

theorem cycOK_rotate {f : Nat → Option Nat} {L : List Nat} {x : Nat}
    (hc : cycOK f L) (hx : x ∈ L) :
    ∃ L1 L2, L = L1 ++ x :: L2 ∧ cycOK f (x :: (L2 ++ L1)) := by
  obtain ⟨L1, L2, rfl⟩ := List.append_of_mem hx
  obtain ⟨hne, hsteps⟩ := hc
  refine ⟨L1, L2, rfl, ?_⟩
  cases L1 with
  | nil =>
      simp only [List.nil_append] at hsteps ⊢
      exact ⟨by simp, by simpa using hsteps⟩
  | cons a L1' =>
      have hh : ((a :: L1') ++ x :: L2).headI = a := rfl
      rw [hh, List.append_assoc] at hsteps
      obtain ⟨s1, s23, link1⟩ := stepsOK_append.mp hsteps
      obtain ⟨s2, s3, link2⟩ := stepsOK_append.mp s23
      refine ⟨by simp, ?_⟩
      have hsh : (x :: (L2 ++ a :: L1')) ++ [x] =
          (x :: L2) ++ ((a :: L1') ++ [x]) := by simp
      rw [List.headI, hsh]
      apply stepsOK_append.mpr
      refine ⟨s2, stepsOK_append.mpr ⟨s1, stepsOK_single f x, ?_⟩, ?_⟩
      · intro u hu v hv
        simp only [List.head?_cons, Option.mem_def, Option.some.injEq] at hv
        subst hv
        exact link1 u hu x (by simp)
      · intro u hu v hv
        simp only [List.cons_append, List.head?_cons, Option.mem_def,
          Option.some.injEq] at hv
        subst hv
        exact link2 u hu a (by simp)

theorem headI_append {A : List Nat} (B : List Nat) (h : A ≠ []) :
    (A ++ B).headI = A.headI := by
  cases A with
  | nil => exact absurd rfl h
  | cons a t => rfl

theorem headI_mid {R1 X : List Nat} {z : Nat} :
    (R1 ++ z :: X).headI = (R1 ++ [z]).headI := by
  cases R1 <;> rfl

theorem cycOK_insert {fo fn : Nat → Option Nat} {g w : Nat} {T : List Nat}
    (hc : cycOK fo (g :: T)) (hnd : (g :: T).Nodup)
    (h1 : fn g = some w) (h2 : fn w = fo g)
    (h3 : ∀ x ∈ T, fn x = fo x) :
    cycOK fn (g :: w :: T) := by
  obtain ⟨-, hsteps⟩ := hc
  refine ⟨by simp, ?_⟩
  simp only [List.cons_append, List.headI] at hsteps ⊢
  refine stepsOK_cons.mpr ⟨h1, ?_⟩
  cases T with
  | nil =>
      have h4 : fo g = some g := (stepsOK_cons.mp hsteps).1
      exact stepsOK_cons.mpr ⟨h2.trans h4, stepsOK_single fn g⟩
  | cons t T2 =>
      have h4 : fo g = some t := (stepsOK_cons.mp hsteps).1
      have h5 : stepsOK fo (t :: (T2 ++ [g])) := (stepsOK_cons.mp hsteps).2
      refine stepsOK_cons.mpr ⟨h2.trans h4, ?_⟩
      have h5' : stepsOK fo ((t :: T2) ++ [g]) := h5
      have h6 : stepsOK fn ((t :: T2) ++ [g]) := by
        refine stepsOK_congr2 ?_ h5'
        intro x hx
        rw [List.dropLast_concat] at hx
        exact (h3 x hx).symm
      exact h6

theorem cycOK_delete {fo fn : Nat → Option Nat} {w : Nat} {T : List Nat}
    (hc : cycOK fo (w :: T)) (hT : T ≠ [])
    (ha : fn (T.getLast hT) = fo w)
    (h3 : ∀ x ∈ T.dropLast, fn x = fo x) :
    cycOK fn T := by
  obtain ⟨-, hsteps⟩ := hc
  refine ⟨hT, ?_⟩
  cases T with
  | nil => exact absurd rfl hT
  | cons t T2 =>
      simp only [List.cons_append, List.headI] at hsteps
      have h4 : fo w = some t := (stepsOK_cons.mp hsteps).1
      have h5 : stepsOK fo ((t :: T2) ++ [w]) := (stepsOK_cons.mp hsteps).2
      obtain ⟨s1, -, link⟩ := stepsOK_append.mp h5
      refine stepsOK_append.mpr ⟨stepsOK_congr2 (fun x hx => (h3 x hx).symm) s1,
        stepsOK_single fn t, ?_⟩
      intro u hu v hv
      rw [List.getLast?_eq_getLast _ (by simp)] at hu
      simp only [Option.mem_def, Option.some.injEq] at hu
      simp only [List.head?_cons, Option.mem_def, Option.some.injEq] at hv
      subst hu
      subst hv
      exact ha.trans h4

theorem splice_perm {B R1 R2 : List Nat} {inh d : Nat} :
    (inh :: (B ++ ((R2 ++ [d]) ++ R1))).Perm
      (B ++ (R1 ++ inh :: (R2 ++ [d]))) := by
  have p1 : (R1 ++ inh :: (R2 ++ [d])).Perm (inh :: (R1 ++ (R2 ++ [d]))) :=
    List.perm_middle
  have p2 : (B ++ (R1 ++ inh :: (R2 ++ [d]))).Perm
      (B ++ inh :: (R1 ++ (R2 ++ [d]))) := List.Perm.append_left B p1
  have p3 : (B ++ inh :: (R1 ++ (R2 ++ [d]))).Perm
      (inh :: (B ++ (R1 ++ (R2 ++ [d])))) := List.perm_middle
  refine List.Perm.symm (List.Perm.trans (List.Perm.trans p2 p3) ?_)
  refine List.Perm.cons inh (List.Perm.append_left B ?_)
  exact List.perm_append_comm

theorem cycOK_splice {fo fn : Nat → Option Nat} {B R1 R2 : List Nat}
    {inh d : Nat} (hB : B ≠ [])
    (hc : cycOK fo (B ++ (R1 ++ inh :: (R2 ++ [d]))))
    (hnd : (B ++ (R1 ++ inh :: (R2 ++ [d]))).Nodup)
    (h1 : fn inh = some B.headI)
    (h2 : fn (B.getLast hB) = fo inh)
    (h3 : fn d = fo (B.getLast hB))
    (h4 : ∀ x ∈ B ++ (R1 ++ inh :: (R2 ++ [d])),
      x ≠ inh → x ≠ B.getLast hB → x ≠ d → fn x = fo x) :
    cycOK fn (inh :: (B ++ ((R2 ++ [d]) ++ R1))) := by
  obtain ⟨-, hsteps⟩ := hc
  have hndB : B.Nodup := List.Nodup.of_append_left hnd
  have hndRest : (R1 ++ inh :: (R2 ++ [d])).Nodup := List.Nodup.of_append_right hnd
  have disjB : List.Disjoint B (R1 ++ inh :: (R2 ++ [d])) :=
    List.disjoint_of_nodup_append hnd
  have hndIn : (inh :: (R2 ++ [d])).Nodup := List.Nodup.of_append_right hndRest
  have disjR1 : List.Disjoint R1 (inh :: (R2 ++ [d])) :=
    List.disjoint_of_nodup_append hndRest
  have hinR2 : inh ∉ R2 ++ [d] := (List.nodup_cons.mp hndIn).1
  have hndR2d : (R2 ++ [d]).Nodup := (List.nodup_cons.mp hndIn).2
  have hdR2 : d ∉ R2 := fun hmem =>
    List.disjoint_of_nodup_append hndR2d hmem (by simp)
  -- membership helpers for applying h4
  have hlastB : B.getLast hB ∈ B := List.getLast_mem hB
  have hBne : ∀ x ∈ B, x ≠ inh ∧ x ≠ d := by
    intro x hx
    constructor
    · exact fun he => disjB hx (by rw [he]; simp)
    · exact fun he => disjB hx (by rw [he]; simp)
  have hR1ne : ∀ x ∈ R1, x ≠ inh ∧ x ≠ d ∧ x ≠ B.getLast hB := by
    intro x hx
    refine ⟨fun he => disjR1 hx (by rw [he]; simp), ?_, ?_⟩
    · exact fun he => disjR1 hx (by rw [he]; simp)
    · exact fun he => disjB (he ▸ hlastB) (by simp [hx])
  have hR2ne : ∀ x ∈ R2, x ≠ inh ∧ x ≠ d ∧ x ≠ B.getLast hB := by
    intro x hx
    refine ⟨fun he => hinR2 (he ▸ (by simp [hx] : x ∈ R2 ++ [d])), ?_, ?_⟩
    · exact fun he => hdR2 (he ▸ hx)
    · intro he
      exact disjB (he ▸ hlastB) (by simp [hx])
  -- decompose the old cycle
  have h0 : (B ++ (R1 ++ inh :: (R2 ++ [d]))).headI = B.headI := headI_append _ hB
  rw [h0] at hsteps
  have e1 : (B ++ (R1 ++ inh :: (R2 ++ [d]))) ++ [B.headI]
      = B ++ (R1 ++ inh :: ((R2 ++ [d]) ++ [B.headI])) := by simp
  rw [e1] at hsteps
  obtain ⟨sB, sRest, linkB⟩ := stepsOK_append.mp hsteps
  obtain ⟨sR1, sIn, linkR1⟩ := stepsOK_append.mp sRest
  have foIn : fo inh = some ((R2 ++ [d]).headI) := by
    cases hR2 : R2 ++ [d] with
    | nil => exact absurd hR2 (by simp)
    | cons r X =>
        rw [hR2] at sIn
        have := (stepsOK_cons.mp (by simpa using sIn)).1
        simpa using this
  have sRd : stepsOK fo ((R2 ++ [d]) ++ [B.headI]) := by
    cases hR2 : R2 ++ [d] with
    | nil => exact absurd hR2 (by simp)
    | cons r X =>
        rw [hR2] at sIn
        exact (stepsOK_cons.mp (by simpa using sIn)).2
  have sR2d : stepsOK fo (R2 ++ [d]) := (stepsOK_append.mp sRd).1
  have hlast? : B.getLast hB ∈ B.getLast? := by
    rw [List.getLast?_eq_getLast _ hB]; rfl
  have folastB : fo (B.getLast hB) = some ((R1 ++ [inh]).headI) := by
    cases R1 with
    | nil => exact linkB _ hlast? inh rfl
    | cons r R1' => exact linkB _ hlast? r rfl
  -- assemble the new cycle
  refine ⟨by simp, ?_⟩
  have e2 : (inh :: (B ++ ((R2 ++ [d]) ++ R1))) ++
      [(inh :: (B ++ ((R2 ++ [d]) ++ R1))).headI]
      = inh :: (B ++ ((R2 ++ [d]) ++ (R1 ++ [inh]))) := by simp
  rw [e2]
  have fnB : stepsOK fn B := by
    refine stepsOK_congr2 ?_ sB
    intro x hx
    have hxB : x ∈ B := (List.dropLast_sublist B).subset hx
    exact (h4 x (by simp [hxB]) (hBne x hxB).1 (dropLast_ne_getLast hB hndB hx)
      (hBne x hxB).2).symm
  have fnR2d : stepsOK fn (R2 ++ [d]) := by
    refine stepsOK_congr2 ?_ sR2d
    intro x hx
    rw [List.dropLast_concat] at hx
    exact (h4 x (by simp [hx]) (hR2ne x hx).1 (hR2ne x hx).2.2
      (hR2ne x hx).2.1).symm
  have fnR1 : stepsOK fn R1 := by
    refine stepsOK_congr2 ?_ sR1
    intro x hx
    have hxR : x ∈ R1 := (List.dropLast_sublist R1).subset hx
    exact (h4 x (by simp [hxR]) (hR1ne x hxR).1 (hR1ne x hxR).2.2
      (hR1ne x hxR).2.1).symm
  have fnR1in : stepsOK fn (R1 ++ [inh]) := by
    refine stepsOK_append.mpr ⟨fnR1, stepsOK_single fn inh, ?_⟩
    intro u hu v hv
    simp only [List.head?_cons, Option.mem_def, Option.some.injEq] at hv
    subst hv
    cases hR1 : R1 with
    | nil => rw [hR1] at hu; simp at hu
    | cons r R1' =>
        have huR : u ∈ R1 := by
          rw [hR1] at hu
          rw [List.getLast?_eq_getLast _ (by simp)] at hu
          simp only [Option.mem_def, Option.some.injEq] at hu
          subst hu
          rw [hR1]
          exact List.getLast_mem _
        have h5 : fo u = some inh := linkR1 u hu inh rfl
        rw [h4 u (by simp [huR]) (hR1ne u huR).1 (hR1ne u huR).2.2
          (hR1ne u huR).2.1]
        exact h5
  have hv2 : ((R2 ++ [d]) ++ (R1 ++ [inh])).head? = some ((R2 ++ [d]).headI) := by
    cases R2 <;> rfl
  have fnX : stepsOK fn ((R2 ++ [d]) ++ (R1 ++ [inh])) := by
    refine stepsOK_append.mpr ⟨fnR2d, fnR1in, ?_⟩
    intro u hu v hv
    rw [List.getLast?_concat] at hu
    simp only [Option.mem_def, Option.some.injEq] at hu
    subst hu
    have hv3 : (R1 ++ [inh]).head? = some ((R1 ++ [inh]).headI) := by
      cases R1 <;> rfl
    rw [hv3] at hv
    simp only [Option.mem_def, Option.some.injEq] at hv
    subst hv
    exact h3.trans folastB
  have fnBX : stepsOK fn (B ++ ((R2 ++ [d]) ++ (R1 ++ [inh]))) := by
    refine stepsOK_append.mpr ⟨fnB, fnX, ?_⟩
    intro u hu v hv
    rw [hv2] at hv
    simp only [Option.mem_def, Option.some.injEq] at hv
    subst hv
    rw [List.getLast?_eq_getLast _ hB] at hu
    simp only [Option.mem_def, Option.some.injEq] at hu
    subst hu
    exact h2.trans foIn
  cases hBc : B with
  | nil => exact absurd hBc hB
  | cons b B' =>
      rw [hBc] at fnBX h1
      exact stepsOK_cons.mpr ⟨h1, fnBX⟩

theorem cycOK_congr {f g : Nat → Option Nat} {L : List Nat}
    (h : ∀ x ∈ L, f x = g x) (hc : cycOK f L) : cycOK g L := by
  refine ⟨hc.1, stepsOK_congr ?_ hc.2⟩
  intro x hx
  simp only [List.mem_append, List.mem_singleton] at hx
  rcases hx with hx | hx
  · exact h x hx
  · subst hx
    cases L with
    | nil => exact absurd rfl hc.1
    | cons a r => exact h a (by simp [List.headI])

/-! ### Frame lemmas for the around-a-node walk step -/

theorem mget_cons_ne {α : Type} (k0 : Nat) (v : α) (m : List (Nat × α))
    (k : Nat) (h : k0 ≠ k) : mget ((k0, v) :: m) k = mget m k := by
  simp [mget, h]

theorem walk_step_none {s : HDS} {x : Nat} (h : mget s.halfedges x = none) :
    walk_step s x = none := by
  unfold walk_step
  rw [h]

theorem walk_step_some {s : HDS} {x : Nat} {d : HalfedgeD}
    (h : mget s.halfedges x = some d) :
    walk_step s x = (mget s.halfedges d.next).map (fun nd => nd.pair) := by
  unfold walk_step
  rw [h]
  show (match mget s.halfedges d.next with
        | none => none
        | some nd => some nd.pair) =
      (mget s.halfedges d.next).map (fun nd => nd.pair)
  cases mget s.halfedges d.next <;> rfl

theorem walk_step_mmod_keep (s : HDS) (k : Nat) (f : HalfedgeD → HalfedgeD)
    (hf : ∀ d, (f d).next = d.next ∧ (f d).pair = d.pair) (x : Nat) :
    walk_step { s with halfedges := mmod s.halfedges k f } x = walk_step s x := by
  have hmap : ∀ y : Nat,
      (mget (mmod s.halfedges k f) y).map (fun nd => nd.pair) =
        (mget s.halfedges y).map (fun nd => nd.pair) := by
    intro y
    by_cases hy : y = k
    · subst hy
      rw [mget_mmod_self]
      cases mget s.halfedges y with
      | none => rfl
      | some dk =>
          simp only [Option.map_some']
          rw [(hf dk).2]
    · rw [mget_mmod_ne _ _ _ _ hy]
  by_cases hx : x = k
  · subst hx
    cases hm : mget s.halfedges x with
    | none =>
        rw [walk_step_none hm, walk_step_none]
        show mget (mmod s.halfedges x f) x = none
        rw [mget_mmod_self, hm]
        rfl
    | some d =>
        have hm' : mget (mmod s.halfedges x f) x = some (f d) := by
          rw [mget_mmod_self, hm]
          rfl
        rw [walk_step_some hm', walk_step_some hm, (hf d).1]
        exact hmap d.next
  · cases hm : mget s.halfedges x with
    | none =>
        rw [walk_step_none hm, walk_step_none]
        show mget (mmod s.halfedges k f) x = none
        rw [mget_mmod_ne _ _ _ _ hx, hm]
    | some d =>
        have hm' : mget (mmod s.halfedges k f) x = some d := by
          rw [mget_mmod_ne _ _ _ _ hx, hm]
        rw [walk_step_some hm', walk_step_some hm]
        exact hmap d.next

theorem walk_step_set_prev (s : HDS) (k v x : Nat) :
    walk_step (s.set_prev k v) x = walk_step s x :=
  walk_step_mmod_keep s k (fun d => { d with prev := v })
    (fun _ => ⟨rfl, rfl⟩) x

theorem walk_step_set_origin (s : HDS) (k : Nat) (v : Option Nat) (x : Nat) :
    walk_step (s.set_origin k v) x = walk_step s x :=
  walk_step_mmod_keep s k (fun d => { d with origin := v })
    (fun _ => ⟨rfl, rfl⟩) x

theorem walk_step_set_face (s : HDS) (k : Nat) (v : Option Nat) (x : Nat) :
    walk_step (s.set_face k v) x = walk_step s x :=
  walk_step_mmod_keep s k (fun d => { d with face := v })
    (fun _ => ⟨rfl, rfl⟩) x

theorem walk_step_mmod_pairkeep (s : HDS) (k : Nat) (f : HalfedgeD → HalfedgeD)
    (hf : ∀ d, (f d).pair = d.pair) (x : Nat) (hx : x ≠ k) :
    walk_step { s with halfedges := mmod s.halfedges k f } x = walk_step s x := by
  have hmap : ∀ y : Nat,
      (mget (mmod s.halfedges k f) y).map (fun nd => nd.pair) =
        (mget s.halfedges y).map (fun nd => nd.pair) := by
    intro y
    by_cases hy : y = k
    · subst hy
      rw [mget_mmod_self]
      cases mget s.halfedges y with
      | none => rfl
      | some dk =>
          simp only [Option.map_some']
          rw [hf dk]
    · rw [mget_mmod_ne _ _ _ _ hy]
  cases hm : mget s.halfedges x with
  | none =>
      rw [walk_step_none hm, walk_step_none]
      show mget (mmod s.halfedges k f) x = none
      rw [mget_mmod_ne _ _ _ _ hx, hm]
  | some d =>
      have hm' : mget (mmod s.halfedges k f) x = some d := by
        rw [mget_mmod_ne _ _ _ _ hx, hm]
      rw [walk_step_some hm', walk_step_some hm]
      exact hmap d.next

theorem walk_step_set_next_ne (s : HDS) (k v x : Nat) (hx : x ≠ k) :
    walk_step (s.set_next k v) x = walk_step s x :=
  walk_step_mmod_pairkeep s k (fun d => { d with next := v })
    (fun _ => rfl) x hx

theorem walk_step_set_next_self (s : HDS) (k v : Nat) (d : HalfedgeD)
    (hk : mget s.halfedges k = some d) :
    walk_step (s.set_next k v) k =
      (mget s.halfedges v).map (fun nd => nd.pair) := by
  have hm' : mget (s.set_next k v).halfedges k = some { d with next := v } := by
    simp only [set_next_halfedges]
    rw [mget_mmod_self, hk]
    rfl
  rw [walk_step_some hm']
  show (mget (mmod s.halfedges k _) v).map (fun nd => nd.pair) = _
  by_cases hv : v = k
  · subst hv
    rw [mget_mmod_self, hk]
    rfl
  · rw [mget_mmod_ne _ _ _ _ hv]

theorem walk_step_halfedges_congr (s s' : HDS)
    (h : s'.halfedges = s.halfedges) (x : Nat) :
    walk_step s' x = walk_step s x := by
  unfold walk_step
  rw [h]

theorem Incoming_halfedges_congr (s s' : HDS)
    (h : s'.halfedges = s.halfedges) (n x : Nat) :
    Incoming s' n x ↔ Incoming s n x := by
  unfold Incoming
  rw [h]

/-! ### Facts derived from the store invariant -/

theorem wf_next_inj {s : HDS} {U : Nat → Prop} (w : WFU s U) {h h' : Nat}
    {d d' : HalfedgeD} (hd : mget s.halfedges h = some d)
    (hd' : mget s.halfedges h' = some d') (he : d.next = d'.next) : h = h' := by
  obtain ⟨dn, hdn, hp⟩ := w.npI h d hd
  obtain ⟨dn', hdn', hp'⟩ := w.npI h' d' hd'
  rw [he] at hdn
  rw [hdn] at hdn'
  have hdd : dn = dn' := Option.some.inj hdn'
  subst hdd
  rw [← hp, ← hp']

theorem wf_pair_inj {s : HDS} {U : Nat → Prop} (w : WFU s U) {h h' : Nat}
    {d d' : HalfedgeD} (hd : mget s.halfedges h = some d)
    (hd' : mget s.halfedges h' = some d') (he : d.pair = d'.pair) : h = h' := by
  obtain ⟨dp, hdp, hp⟩ := w.pairI h d hd
  obtain ⟨dp', hdp', hp'⟩ := w.pairI h' d' hd'
  rw [he] at hdp
  rw [hdp] at hdp'
  have hdd : dp = dp' := Option.some.inj hdp'
  subst hdd
  rw [← hp, ← hp']

theorem wf_walk_step {s : HDS} {U : Nat → Prop} (w : WFU s U) {h : Nat}
    {d : HalfedgeD} (hd : mget s.halfedges h = some d) :
    ∃ dn, mget s.halfedges d.next = some dn ∧ walk_step s h = some dn.pair := by
  obtain ⟨dn, hdn, -⟩ := w.npI h d hd
  refine ⟨dn, hdn, ?_⟩
  rw [walk_step_some hd, hdn]
  rfl

theorem wf_ws_inj {s : HDS} {U : Nat → Prop} (w : WFU s U) {h h' : Nat}
    {d d' : HalfedgeD} (hd : mget s.halfedges h = some d)
    (hd' : mget s.halfedges h' = some d')
    (he : walk_step s h = walk_step s h') : h = h' := by
  obtain ⟨dn, hdn, hw⟩ := wf_walk_step w hd
  obtain ⟨dn', hdn', hw'⟩ := wf_walk_step w hd'
  rw [hw, hw'] at he
  have hpp : dn.pair = dn'.pair := Option.some.inj he
  exact wf_next_inj w hd hd' (wf_pair_inj w hdn hdn' hpp)

theorem incoming_step {s : HDS} {U : Nat → Prop} (w : WFU s U) {n x : Nat}
    (hx : Incoming s n x) : ∃ y, walk_step s x = some y ∧ Incoming s n y := by
  obtain ⟨dx, hdx, dpx, hdpx, ho⟩ := hx
  obtain ⟨dn, hdn, hw⟩ := wf_walk_step w hdx
  refine ⟨dn.pair, hw, ?_⟩
  obtain ⟨dz, hdz, hzp⟩ := w.pairI dx.next dn hdn
  refine ⟨dz, hdz, ?_⟩
  rw [hzp]
  exact ⟨dn, hdn, (w.coh x dx dn dpx hdx hdn hdpx).trans ho⟩

theorem incoming_unique {s : HDS} {n m x : Nat} (h1 : Incoming s n x)
    (h2 : Incoming s m x) : n = m := by
  obtain ⟨dx, hdx, dpx, hdpx, ho⟩ := h1
  obtain ⟨dx', hdx', dpx', hdpx', ho'⟩ := h2
  rw [hdx] at hdx'
  have he : dx = dx' := Option.some.inj hdx'
  subst he
  rw [hdpx] at hdpx'
  have he2 : dpx = dpx' := Option.some.inj hdpx'
  subst he2
  rw [ho] at ho'
  exact Option.some.inj ho'

theorem ffih_node_go_ok (s : HDS) (start : Nat) (Q : Nat → Prop)
    (hQ : ∀ x, Q x → ∀ y, walk_step s x = some y → Q y) :
    ∀ (fuel cur g : Nat), Q cur → ffih_node_go s start cur fuel = Res.ok g →
      Q g ∧ ∃ gd, mget s.halfedges g = some gd ∧ gd.face = none := by
  intro fuel
  induction fuel with
  | zero => intro cur g _ h; simp [ffih_node_go] at h
  | succ m ih =>
      intro cur g hcur h
      unfold ffih_node_go at h
      cases hcd : mget s.halfedges cur with
      | none => simp [HDS.he?, hcd] at h
      | some cd =>
          by_cases hb : cd.face = none
          · simp only [HDS.he?, hcd, Res.monad_bind, Res.bind_ok, if_pos hb,
              Res.monad_pure, Res.ok.injEq] at h
            subst h
            exact ⟨hcur, cd, hcd, hb⟩
          · cases hnd : mget s.halfedges cd.next with
            | none => simp [HDS.he?, hcd, hnd, hb] at h
            | some nd =>
                by_cases hstop : nd.pair = start
                · simp [HDS.he?, hcd, hnd, hb, hstop] at h
                · simp only [HDS.he?, hcd, hnd, Res.monad_bind, Res.bind_ok,
                    if_neg hb, if_neg hstop] at h
                  have hws : walk_step s cur = some nd.pair := by
                    rw [walk_step_some hcd, hnd]
                    rfl
                  exact ih nd.pair g (hQ cur hcur nd.pair hws) h

theorem ffih_bounded_go_path (s : HDS) (stop : Nat) :
    ∀ (fuel cur g : Nat), ffih_bounded_go s stop cur fuel = Res.ok g →
      ∃ P, P ≠ [] ∧ P.headI = cur ∧ P.getLast? = some g ∧
        stepsOK (walk_step s) P ∧
        (∃ gd, mget s.halfedges g = some gd ∧ gd.face = none) ∧
        (∀ x ∈ P, x ≠ cur → x ≠ stop) := by
  intro fuel
  induction fuel with
  | zero => intro cur g h; simp [ffih_bounded_go] at h
  | succ m ih =>
      intro cur g h
      unfold ffih_bounded_go at h
      cases hcd : mget s.halfedges cur with
      | none => simp [HDS.he?, hcd] at h
      | some cd =>
          by_cases hb : cd.face = none
          · simp only [HDS.he?, hcd, Res.monad_bind, Res.bind_ok, if_pos hb,
              Res.monad_pure, Res.ok.injEq] at h
            subst h
            exact ⟨[cur], by simp, rfl, rfl, stepsOK_single _ cur,
              ⟨cd, hcd, hb⟩, by simp⟩
          · cases hnd : mget s.halfedges cd.next with
            | none => simp [HDS.he?, hcd, hnd, hb] at h
            | some nd =>
                by_cases hstop : nd.pair = stop
                · simp [HDS.he?, hcd, hnd, hb, hstop] at h
                · simp only [HDS.he?, hcd, hnd, Res.monad_bind, Res.bind_ok,
                    if_neg hb, if_neg hstop] at h
                  obtain ⟨P, hne, hhead, hlast, hsteps, hgd, havoid⟩ :=
                    ih nd.pair g h
                  have hws : walk_step s cur = some nd.pair := by
                    rw [walk_step_some hcd, hnd]
                    rfl
                  refine ⟨cur :: P, by simp, rfl, ?_, ?_, hgd, ?_⟩
                  · cases P with
                    | nil => exact absurd rfl hne
                    | cons p0 P' =>
                        rw [List.getLast?_cons_cons]
                        exact hlast
                  · cases P with
                    | nil => exact absurd rfl hne
                    | cons p0 P' =>
                        refine stepsOK_cons.mpr ⟨?_, hsteps⟩
                        simp only [List.headI] at hhead
                        rw [hhead]
                        exact hws
                  · intro x hx hxc
                    rcases List.mem_cons.mp hx with hx1 | hx2
                    · exact absurd hx1 hxc
                    · by_cases hxp : x = nd.pair
                      · subst hxp; exact hstop
                      · exact havoid x hx2 hxp

theorem wf_next_ne_self {s : HDS} {U : Nat → Prop} (w : WFU s U) {h : Nat}
    {d : HalfedgeD} (hd : mget s.halfedges h = some d)
    (hor : d.origin ≠ none) : d.next ≠ h := by
  intro he
  obtain ⟨dp, hdp, -⟩ := w.pairI h d hd
  have hcoh := w.coh h d d dp hd (by rw [he]; exact hd) hdp
  rcases w.noL h d dp hd hdp with h1 | h1 | h1
  · exact hor h1
  · rw [h1] at hcoh
    exact hor hcoh
  · exact h1 (by rw [hcoh])

/-! ### Preservation of the invariant by the public mutations -/

theorem FanOK_congr {s s' : HDS} (h : s'.halfedges = s.halfedges)
    (hf : FanOK s) : FanOK s' := by
  intro n x hx
  obtain ⟨L, hc, hnd, hh, hcov⟩ :=
    hf n x ((Incoming_halfedges_congr s s' h n x).mp hx)
  refine ⟨L, cycOK_congr (fun y _ => (walk_step_halfedges_congr s s' h y).symm)
    hc, hnd, hh, ?_⟩
  intro y
  rw [Incoming_halfedges_congr s s' h n y]
  exact hcov y

/-- Transfer of the invariant along a state change that rewrites each
halfedge record without touching its origin, pair, next, prev or edge
fields (only the face flag may change), keeps the key set, the nodes and
the edges, and does not lower the fresh bound. -/
theorem wfu_transfer {s s' : HDS} {U : Nat → Prop} (w : WFU s U)
    (F : Nat → HalfedgeD → HalfedgeD)
    (hFo : ∀ k d, (F k d).origin = d.origin)
    (hFp : ∀ k d, (F k d).pair = d.pair)
    (hFn : ∀ k d, (F k d).next = d.next)
    (hFv : ∀ k d, (F k d).prev = d.prev)
    (hFe : ∀ k d, (F k d).edge = d.edge)
    (hmap : ∀ k, mget s'.halfedges k = (mget s.halfedges k).map (F k))
    (hkeys : keysOf s'.halfedges = keysOf s.halfedges)
    (hnodes : s'.nodes = s.nodes) (hedges : s'.edges = s.edges)
    (hfresh : s.fresh ≤ s'.fresh) : WFU s' U := by
  have hex : ∀ {h : Nat} {d : HalfedgeD}, mget s'.halfedges h = some d →
      ∃ d0, mget s.halfedges h = some d0 ∧ d = F h d0 := by
    intro h d hd
    rw [hmap h] at hd
    cases hm : mget s.halfedges h with
    | none => rw [hm] at hd; exact absurd hd (by simp)
    | some d0 =>
        rw [hm] at hd
        simp only [Option.map_some', Option.some.injEq] at hd
        exact ⟨d0, rfl, hd.symm⟩
  have hfwd : ∀ {h : Nat} {d0 : HalfedgeD}, mget s.halfedges h = some d0 →
      mget s'.halfedges h = some (F h d0) := by
    intro h d0 hm
    rw [hmap h, hm]
    rfl
  have hws : ∀ x, walk_step s' x = walk_step s x := by
    intro x
    cases hm : mget s.halfedges x with
    | none =>
        rw [walk_step_none hm, walk_step_none]
        rw [hmap x, hm]
        rfl
    | some d0 =>
        rw [walk_step_some (hfwd hm), walk_step_some hm, hFn]
        cases hm2 : mget s.halfedges d0.next with
        | none => rw [hmap _, hm2]; rfl
        | some d2 =>
            rw [hfwd hm2]
            simp only [Option.map_some', hFp]
  have hinc : ∀ n x, Incoming s' n x ↔ Incoming s n x := by
    intro n x
    constructor
    · rintro ⟨d, hd, dp, hdp, ho⟩
      obtain ⟨d0, hd0, rfl⟩ := hex hd
      rw [hFp] at hdp
      obtain ⟨dp0, hdp0, rfl⟩ := hex hdp
      rw [hFo] at ho
      exact ⟨d0, hd0, dp0, hdp0, ho⟩
    · rintro ⟨d0, hd0, dp0, hdp0, ho⟩
      refine ⟨F x d0, hfwd hd0, F d0.pair dp0, ?_, ?_⟩
      · rw [hFp]
        exact hfwd hdp0
      · rw [hFo]
        exact ho
  refine
    { ndN := by rw [hnodes]; exact w.ndN
      ndH := by rw [hkeys]; exact w.ndH
      ndE := by rw [hedges]; exact w.ndE
      ltN := by
        rw [hnodes]
        intro k hk
        exact lt_of_lt_of_le (w.ltN k hk) hfresh
      ltH := by
        rw [hkeys]
        intro k hk
        exact lt_of_lt_of_le (w.ltH k hk) hfresh
      ltE := by
        rw [hedges]
        intro k hk
        exact lt_of_lt_of_le (w.ltE k hk) hfresh
      pairI := ?_
      pairN := ?_
      npI := ?_
      pnI := ?_
      orK := ?_
      orL := ?_
      coh := ?_
      noL := ?_
      edO := ?_
      edH := ?_
      ndHe := ?_
      iso := ?_
      fan := ?_ }
  · intro h d hd
    obtain ⟨d0, hd0, rfl⟩ := hex hd
    obtain ⟨dp0, hdp0, hpp⟩ := w.pairI h d0 hd0
    refine ⟨F d0.pair dp0, ?_, ?_⟩
    · rw [hFp]
      exact hfwd hdp0
    · rw [hFp]
      exact hpp
  · intro h d hd
    obtain ⟨d0, hd0, rfl⟩ := hex hd
    rw [hFp]
    exact w.pairN h d0 hd0
  · intro h d hd
    obtain ⟨d0, hd0, rfl⟩ := hex hd
    obtain ⟨dn0, hdn0, hpp⟩ := w.npI h d0 hd0
    refine ⟨F d0.next dn0, ?_, ?_⟩
    · rw [hFn]
      exact hfwd hdn0
    · rw [hFv]
      exact hpp
  · intro h d hd
    obtain ⟨d0, hd0, rfl⟩ := hex hd
    obtain ⟨dv0, hdv0, hpp⟩ := w.pnI h d0 hd0
    refine ⟨F d0.prev dv0, ?_, ?_⟩
    · rw [hFv]
      exact hfwd hdv0
    · rw [hFn]
      exact hpp
  · intro h d hd
    obtain ⟨d0, hd0, rfl⟩ := hex hd
    rw [hFo]
    exact w.orK h d0 hd0
  · intro h d hd n ho
    obtain ⟨d0, hd0, rfl⟩ := hex hd
    rw [hFo] at ho
    obtain ⟨nd, hnd⟩ := w.orL h d0 hd0 n ho
    exact ⟨nd, by rw [hnodes]; exact hnd⟩
  · intro h d dn dp hd hdn hdp
    obtain ⟨d0, hd0, rfl⟩ := hex hd
    rw [hFn] at hdn
    rw [hFp] at hdp
    obtain ⟨dn0, hdn0, rfl⟩ := hex hdn
    obtain ⟨dp0, hdp0, rfl⟩ := hex hdp
    rw [hFo, hFo]
    exact w.coh h d0 dn0 dp0 hd0 hdn0 hdp0
  · intro h d dp hd hdp
    obtain ⟨d0, hd0, rfl⟩ := hex hd
    rw [hFp] at hdp
    obtain ⟨dp0, hdp0, rfl⟩ := hex hdp
    rw [hFo, hFo]
    exact w.noL h d0 dp0 hd0 hdp0
  · intro h d hd
    obtain ⟨d0, hd0, rfl⟩ := hex hd
    obtain ⟨edd, hedd, hca⟩ := w.edO h d0 hd0
    refine ⟨edd, ?_, ?_⟩
    · rw [hFe, hedges]
      exact hedd
    · rw [hFp]
      exact hca
  · intro e edd hedd
    rw [hedges] at hedd
    obtain ⟨d1, d2, h1, h2, hp1, hp2, he1, he2⟩ := w.edH e edd hedd
    exact ⟨F edd.he1 d1, F edd.he2 d2, hfwd h1, hfwd h2,
      by rw [hFp]; exact hp1, by rw [hFp]; exact hp2,
      by rw [hFe]; exact he1, by rw [hFe]; exact he2⟩
  · intro n nd hnd nh hh
    rw [hnodes] at hnd
    obtain ⟨nhd, hnhd, ho⟩ := w.ndHe n nd hnd nh hh
    exact ⟨F nh nhd, hfwd hnhd, by rw [hFo]; exact ho⟩
  · intro n nd hnd hni h d hd
    rw [hnodes] at hnd
    obtain ⟨d0, hd0, rfl⟩ := hex hd
    rw [hFo]
    exact w.iso n nd hnd hni h d0 hd0
  · intro n x hx
    obtain ⟨L, hc, hnd, hh, hcov⟩ := w.fan n x ((hinc n x).mp hx)
    exact ⟨L, cycOK_congr (fun y _ => (hws y).symm) hc, hnd, hh,
      fun y => (hinc n y).trans (hcov y)⟩

theorem wf_add_node (s : HDS) (p : Point2) (w : WF s) : WF (add_node s p).1 := by
  have hhe : (add_node s p).1.halfedges = s.halfedges := rfl
  have hed : (add_node s p).1.edges = s.edges := rfl
  have hfr : (add_node s p).1.fresh = s.fresh + 1 := rfl
  have hkeys : keysOf (add_node s p).1.nodes = s.fresh :: keysOf s.nodes := by
    show keysOf (mmod ((s.fresh, ⟨⟨0, 0⟩, none⟩) :: s.nodes) s.fresh
      (fun d => { d with position := p })) = _
    rw [keysOf_mmod]
    rfl
  have hfm : s.fresh ∉ keysOf s.nodes := fun hmem =>
    absurd (w.ltN s.fresh hmem) (by omega)
  have hmg : ∀ k, mget (add_node s p).1.nodes k =
      if k = s.fresh then some ⟨p, none⟩ else mget s.nodes k := by
    intro k
    show mget (mmod ((s.fresh, ⟨⟨0, 0⟩, none⟩) :: s.nodes) s.fresh
      (fun d => { d with position := p })) k = _
    by_cases hk : k = s.fresh
    · subst hk
      rw [mget_mmod_self, if_pos rfl]
      simp [mget]
    · rw [mget_mmod_ne _ _ _ _ hk, if_neg hk]
      exact mget_cons_ne _ _ _ _ (fun hh => hk hh.symm)
  refine
    { ndN := by rw [hkeys]; exact List.nodup_cons.mpr ⟨hfm, w.ndN⟩
      ndH := by rw [hhe]; exact w.ndH
      ndE := by rw [hed]; exact w.ndE
      ltN := by
        rw [hkeys, hfr]
        intro k hk
        rcases List.mem_cons.mp hk with hk1 | hk2
        · omega
        · have := w.ltN k hk2
          omega
      ltH := by
        rw [hhe, hfr]
        intro k hk
        have := w.ltH k hk
        omega
      ltE := by
        rw [hed, hfr]
        intro k hk
        have := w.ltE k hk
        omega
      pairI := by rw [hhe]; exact w.pairI
      pairN := by rw [hhe]; exact w.pairN
      npI := by rw [hhe]; exact w.npI
      pnI := by rw [hhe]; exact w.pnI
      orK := by rw [hhe]; exact w.orK
      orL := ?_
      coh := by rw [hhe]; exact w.coh
      noL := by rw [hhe]; exact w.noL
      edO := by rw [hhe, hed]; exact w.edO
      edH := by rw [hhe, hed]; exact w.edH
      ndHe := ?_
      iso := ?_
      fan := FanOK_congr hhe w.fan }
  · intro h d hd n ho
    rw [hhe] at hd
    obtain ⟨nd, hnd⟩ := w.orL h d hd n ho
    refine ⟨nd, ?_⟩
    rw [hmg n, if_neg ?_]
    · exact hnd
    · intro he
      exact hfm (he ▸ mem_keysOf_of_mget hnd)
  · intro n nd hnd nh hh
    rw [hmg n] at hnd
    by_cases hn : n = s.fresh
    · rw [if_pos hn] at hnd
      have : nd = ⟨p, none⟩ := Option.some.inj hnd.symm
      rw [this] at hh
      exact absurd hh (by simp)
    · rw [if_neg hn] at hnd
      obtain ⟨nhd, h1, h2⟩ := w.ndHe n nd hnd nh hh
      exact ⟨nhd, by rw [hhe]; exact h1, h2⟩
  · intro n nd hnd hni h d hd
    rw [hhe] at hd
    rw [hmg n] at hnd
    by_cases hn : n = s.fresh
    · intro ho
      rw [hn] at ho
      obtain ⟨nd2, hnd2⟩ := w.orL h d hd s.fresh ho
      exact hfm (mem_keysOf_of_mget hnd2)
    · rw [if_neg hn] at hnd
      exact w.iso n nd hnd hni h d hd

theorem wf_remove_face (s : HDS) (f : Nat) (s' : HDS) (w : WF s)
    (h : remove_face s f = Res.ok s') : WF s' := by
  obtain ⟨fd, hd, hfd, hhd, hshape⟩ := remove_face_ok_shape s f s' h
  subst hshape
  have step : ∀ (m : List (Nat × HalfedgeD)) (a k : Nat),
      mget (mmod m a (fun d => { d with face := none })) k =
        if k = a then (mget m k).map (fun d => { d with face := none })
        else mget m k := by
    intro m a k
    by_cases hk : k = a
    · subst hk
      rw [mget_mmod_self, if_pos rfl]
    · rw [mget_mmod_ne _ _ _ _ hk, if_neg hk]
  refine wfu_transfer w
    (fun k d => if k = fd.halfedge ∨ k = hd.next ∨ k = hd.prev
      then { d with face := none } else d)
    (by intro k d; dsimp only; split <;> rfl)
    (by intro k d; dsimp only; split <;> rfl)
    (by intro k d; dsimp only; split <;> rfl)
    (by intro k d; dsimp only; split <;> rfl)
    (by intro k d; dsimp only; split <;> rfl) ?_ ?_ rfl rfl (le_of_eq rfl)
  · intro k
    show mget (mmod (mmod (mmod s.halfedges fd.halfedge
      (fun d => { d with face := none })) hd.next
      (fun d => { d with face := none })) hd.prev
      (fun d => { d with face := none })) k = _
    rw [step, step, step]
    cases hm : mget s.halfedges k with
    | none => split_ifs <;> rfl
    | some v =>
        simp only [Option.map_some']
        split_ifs <;> first | rfl | tauto
  · show keysOf (mmod (mmod (mmod s.halfedges fd.halfedge
      (fun d => { d with face := none })) hd.next
      (fun d => { d with face := none })) hd.prev
      (fun d => { d with face := none })) = _
    rw [keysOf_mmod, keysOf_mmod, keysOf_mmod]

theorem stepsOK_take {f : Nat → Option Nat} :
    ∀ (L : List Nat) (n : Nat), stepsOK f L → stepsOK f (L.take n)
  | [], n, _ => by rw [List.take_nil]; exact stepsOK_nil f
  | [a], n, _ => by
      cases n with
      | zero => exact stepsOK_nil f
      | succ m =>
          simp only [List.take_succ_cons, List.take_nil]
          exact stepsOK_single f a
  | a :: b :: r, 0, _ => stepsOK_nil f
  | a :: b :: r, 1, _ => stepsOK_single f a
  | a :: b :: r, n+2, hs =>
      stepsOK_cons.mpr ⟨(stepsOK_cons.mp hs).1,
        stepsOK_take (b :: r) (n+1) (stepsOK_cons.mp hs).2⟩

theorem option_map_some_inv {α β : Type} {o o' : Option α} {f : α → β}
    (h : o.map f = o'.map f) {a : α} (ha : o = some a) :
    ∃ a', o' = some a' ∧ f a' = f a := by
  subst ha
  cases ho : o' with
  | none => rw [ho] at h; exact absurd h (by simp)
  | some a' =>
      rw [ho] at h
      simp only [Option.map_some', Option.some.injEq] at h
      exact ⟨a', rfl, h.symm⟩

theorem wf_prev_inj {s : HDS} {U : Nat → Prop} (w : WFU s U) {h h' : Nat}
    {d d' : HalfedgeD} (hd : mget s.halfedges h = some d)
    (hd' : mget s.halfedges h' = some d') (he : d.prev = d'.prev) : h = h' := by
  obtain ⟨dv, hdv, hp⟩ := w.pnI h d hd
  obtain ⟨dv', hdv', hp'⟩ := w.pnI h' d' hd'
  rw [he] at hdv
  rw [hdv] at hdv'
  have hdd : dv = dv' := Option.some.inj hdv'
  subst hdd
  rw [← hp, ← hp']

/-- Transfer of the invariant along a state change that preserves the pair,
origin and edge fields and the liveness of every halfedge record pointwise
(next and prev may be rewired); the rewired next/prev structure and the fan
condition are supplied as explicit hypotheses. -/
theorem wfu_of_pointwise {s t : HDS} {U : Nat → Prop} (w : WFU s U)
    (hpair : ∀ y, (mget t.halfedges y).map (fun r => r.pair) =
      (mget s.halfedges y).map (fun r => r.pair))
    (horig : ∀ y, (mget t.halfedges y).map (fun r => r.origin) =
      (mget s.halfedges y).map (fun r => r.origin))
    (hedgef : ∀ y, (mget t.halfedges y).map (fun r => r.edge) =
      (mget s.halfedges y).map (fun r => r.edge))
    (hkeys : keysOf t.halfedges = keysOf s.halfedges)
    (hnodes : t.nodes = s.nodes) (hedges : t.edges = s.edges)
    (hfresh : s.fresh ≤ t.fresh)
    (hnpI : ∀ h d, mget t.halfedges h = some d →
      ∃ dn, mget t.halfedges d.next = some dn ∧ dn.prev = h)
    (hpnI : ∀ h d, mget t.halfedges h = some d →
      ∃ dv, mget t.halfedges d.prev = some dv ∧ dv.next = h)
    (hcoh : ∀ h d dn dp, mget t.halfedges h = some d →
      mget t.halfedges d.next = some dn → mget t.halfedges d.pair = some dp →
      dn.origin = dp.origin)
    (hfan : FanOK t) : WFU t U := by
  have hext : ∀ {y : Nat} {dt : HalfedgeD}, mget t.halfedges y = some dt →
      ∃ ds, mget s.halfedges y = some ds ∧ dt.pair = ds.pair ∧
        dt.origin = ds.origin ∧ dt.edge = ds.edge := by
    intro y dt hy
    obtain ⟨ds, hds, hp⟩ := option_map_some_inv (hpair y) hy
    obtain ⟨ds2, hds2, ho⟩ := option_map_some_inv (horig y) hy
    obtain ⟨ds3, hds3, he⟩ := option_map_some_inv (hedgef y) hy
    rw [hds] at hds2 hds3
    rw [← Option.some.inj hds2] at ho
    rw [← Option.some.inj hds3] at he
    exact ⟨ds, hds, hp.symm, ho.symm, he.symm⟩
  have hfwd : ∀ {y : Nat} {ds : HalfedgeD}, mget s.halfedges y = some ds →
      ∃ dt, mget t.halfedges y = some dt ∧ dt.pair = ds.pair ∧
        dt.origin = ds.origin ∧ dt.edge = ds.edge := by
    intro y ds hy
    obtain ⟨dt, hdt, hp⟩ := option_map_some_inv (hpair y).symm hy
    obtain ⟨dt2, hdt2, ho⟩ := option_map_some_inv (horig y).symm hy
    obtain ⟨dt3, hdt3, he⟩ := option_map_some_inv (hedgef y).symm hy
    rw [hdt] at hdt2 hdt3
    rw [← Option.some.inj hdt2] at ho
    rw [← Option.some.inj hdt3] at he
    exact ⟨dt, hdt, hp, ho, he⟩
  refine
    { ndN := by rw [hnodes]; exact w.ndN
      ndH := by rw [hkeys]; exact w.ndH
      ndE := by rw [hedges]; exact w.ndE
      ltN := by
        rw [hnodes]
        intro k hk
        exact lt_of_lt_of_le (w.ltN k hk) hfresh
      ltH := by
        rw [hkeys]
        intro k hk
        exact lt_of_lt_of_le (w.ltH k hk) hfresh
      ltE := by
        rw [hedges]
        intro k hk
        exact lt_of_lt_of_le (w.ltE k hk) hfresh
      pairI := ?_
      pairN := ?_
      npI := hnpI
      pnI := hpnI
      orK := ?_
      orL := ?_
      coh := hcoh
      noL := ?_
      edO := ?_
      edH := ?_
      ndHe := ?_
      iso := ?_
      fan := hfan }
  · intro h d hd
    obtain ⟨ds, hds, hp, -, -⟩ := hext hd
    obtain ⟨dp0, hdp0, hpp⟩ := w.pairI h ds hds
    obtain ⟨dpt, hdpt, hp2, -, -⟩ := hfwd hdp0
    refine ⟨dpt, ?_, ?_⟩
    · rw [hp]
      exact hdpt
    · rw [hp2, hpp]
  · intro h d hd
    obtain ⟨ds, hds, hp, -, -⟩ := hext hd
    rw [hp]
    exact w.pairN h ds hds
  · intro h d hd
    obtain ⟨ds, hds, -, ho, -⟩ := hext hd
    rw [ho]
    exact w.orK h ds hds
  · intro h d hd n hon
    obtain ⟨ds, hds, -, ho, -⟩ := hext hd
    rw [ho] at hon
    obtain ⟨nd, hnd⟩ := w.orL h ds hds n hon
    exact ⟨nd, by rw [hnodes]; exact hnd⟩
  · intro h d dp hd hdp
    obtain ⟨ds, hds, hp, ho, -⟩ := hext hd
    rw [hp] at hdp
    obtain ⟨dps, hdps, hpp, hop, -⟩ := hext hdp
    rw [ho, hop]
    exact w.noL h ds dps hds hdps
  · intro h d hd
    obtain ⟨ds, hds, hp, -, he⟩ := hext hd
    obtain ⟨edd, hedd, hca⟩ := w.edO h ds hds
    refine ⟨edd, ?_, ?_⟩
    · rw [he, hedges]
      exact hedd
    · rw [hp]
      exact hca
  · intro e edd hedd
    rw [hedges] at hedd
    obtain ⟨d1, d2, h1, h2, hp1, hp2, he1, he2⟩ := w.edH e edd hedd
    obtain ⟨dt1, ht1, htp1, -, hte1⟩ := hfwd h1
    obtain ⟨dt2, ht2, htp2, -, hte2⟩ := hfwd h2
    exact ⟨dt1, dt2, ht1, ht2, by rw [htp1]; exact hp1,
      by rw [htp2]; exact hp2, by rw [hte1]; exact he1,
      by rw [hte2]; exact he2⟩
  · intro n nd hnd nh hh
    rw [hnodes] at hnd
    obtain ⟨nhd, hnhd, ho⟩ := w.ndHe n nd hnd nh hh
    obtain ⟨dt, hdt, -, hto, -⟩ := hfwd hnhd
    exact ⟨dt, hdt, by rw [hto]; exact ho⟩
  · intro n nd hnd hni h d hd
    rw [hnodes] at hnd
    obtain ⟨ds, hds, -, ho, -⟩ := hext hd
    rw [ho]
    exact w.iso n nd hnd hni h ds hds

theorem Incoming_of_pointwise {s t : HDS}
    (hpair : ∀ y, (mget t.halfedges y).map (fun r => r.pair) =
      (mget s.halfedges y).map (fun r => r.pair))
    (horig : ∀ y, (mget t.halfedges y).map (fun r => r.origin) =
      (mget s.halfedges y).map (fun r => r.origin)) (n x : Nat) :
    Incoming t n x ↔ Incoming s n x := by
  constructor
  · rintro ⟨dx, hdx, dpx, hdpx, ho⟩
    obtain ⟨ds, hds, hp⟩ := option_map_some_inv (hpair x) hdx
    obtain ⟨dps, hdps, -⟩ := option_map_some_inv (hpair dx.pair) hdpx
    obtain ⟨dps2, hdps2, ho2⟩ := option_map_some_inv (horig dx.pair) hdpx
    rw [hdps] at hdps2
    rw [← Option.some.inj hdps2] at ho2
    refine ⟨ds, hds, dps, ?_, ?_⟩
    · rw [hp]
      exact hdps
    · rw [ho2]
      exact ho
  · rintro ⟨ds, hds, dps, hdps, ho⟩
    obtain ⟨dt, hdt, hp⟩ := option_map_some_inv (hpair x).symm hds
    obtain ⟨dpt, hdpt, -⟩ := option_map_some_inv (hpair ds.pair).symm hdps
    obtain ⟨dpt2, hdpt2, ho2⟩ := option_map_some_inv (horig ds.pair).symm hdps
    rw [hdpt] at hdpt2
    rw [← Option.some.inj hdpt2] at ho2
    refine ⟨dt, hdt, dpt, ?_, ?_⟩
    · rw [hp]
      exact hdpt
    · rw [ho2]
      exact ho

theorem make_adjacent_ok_inv (s : HDS) (inh outh : Nat) (t : HDS) (bl : Bool)
    (hma : make_adjacent s inh outh = Res.ok (t, bl)) :
    (∃ ind, mget s.halfedges inh = some ind ∧ ind.next = outh ∧ t = s) ∨
    (∃ ind outd g gd, mget s.halfedges inh = some ind ∧ ind.next ≠ outh ∧
      mget s.halfedges outh = some outd ∧
      find_free_incident_halfedge_from s outd.pair inh = Res.ok g ∧
      mget s.halfedges g = some gd ∧
      t = (((((s.set_next inh outh).set_prev outh inh).set_next g
        ind.next).set_prev ind.next g).set_next outd.prev gd.next).set_prev
          gd.next outd.prev) := by
  unfold make_adjacent at hma
  cases hin : mget s.halfedges inh with
  | none => simp [HDS.he?, hin] at hma
  | some ind =>
      by_cases hadj : ind.next = outh
      · left
        simp only [HDS.he?, hin, Res.monad_bind, Res.bind_ok, if_pos hadj,
          Res.monad_pure, Res.ok.injEq, Prod.mk.injEq] at hma
        exact ⟨ind, rfl, hadj, hma.1.symm⟩
      · right
        cases hout : mget s.halfedges outh with
        | none => simp [HDS.he?, hin, hout, hadj] at hma
        | some outd =>
            cases hffi : find_free_incident_halfedge_from s outd.pair inh with
            | ok g =>
                cases hgd : mget s.halfedges g with
                | none => simp [HDS.he?, hin, hout, hadj, hffi, hgd] at hma
                | some gd =>
                    simp only [HDS.he?, hin, hout, Res.monad_bind, Res.bind_ok,
                      if_neg hadj, hffi, hgd, Res.monad_pure, Res.ok.injEq,
                      Prod.mk.injEq] at hma
                    exact ⟨ind, outd, g, gd, rfl, hadj, rfl, hffi, hgd,
                      hma.1.symm⟩
            | err e' t' => simp [HDS.he?, hin, hout, hadj, hffi] at hma
            | div => simp [HDS.he?, hin, hout, hadj, hffi] at hma

theorem ffih_from_ok_inv (s : HDS) (he1 he2 g : Nat)
    (h : find_free_incident_halfedge_from s he1 he2 = Res.ok g) :
    ∃ d1 p1 d2 p2, mget s.halfedges he1 = some d1 ∧
      mget s.halfedges d1.pair = some p1 ∧
      mget s.halfedges he2 = some d2 ∧
      mget s.halfedges d2.pair = some p2 ∧ p1.origin = p2.origin ∧
      ffih_bounded_go s he2 he1 (s.halfedges.length + 1) = Res.ok g := by
  unfold find_free_incident_halfedge_from at h
  cases h1 : mget s.halfedges he1 with
  | none => simp [HDS.he?, h1] at h
  | some d1 =>
      cases h2 : mget s.halfedges d1.pair with
      | none => simp [HDS.he?, h1, h2] at h
      | some p1 =>
          cases h3 : mget s.halfedges he2 with
          | none => simp [HDS.he?, h1, h2, h3] at h
          | some d2 =>
              cases h4 : mget s.halfedges d2.pair with
              | none => simp [HDS.he?, h1, h2, h3, h4] at h
              | some p2 =>
                  by_cases h5 : p1.origin = p2.origin
                  · simp only [HDS.he?, h1, h2, h3, h4, Res.monad_bind,
                      Res.bind_ok, ne_eq, h5, not_true_eq_false, if_false] at h
                    exact ⟨d1, p1, d2, p2, rfl, h2, rfl, h4, h5, h⟩
                  · simp [HDS.he?, h1, h2, h3, h4, h5] at h

theorem nextF_some {s : HDS} {h : Nat} {d : HalfedgeD}
    (hd : mget s.halfedges h = some d) : nextF s h = some d.next := by
  unfold nextF
  rw [hd]
  rfl

theorem prevF_some {s : HDS} {h : Nat} {d : HalfedgeD}
    (hd : mget s.halfedges h = some d) : prevF s h = some d.prev := by
  unfold prevF
  rw [hd]
  rfl

theorem pairF_some {s : HDS} {h : Nat} {d : HalfedgeD}
    (hd : mget s.halfedges h = some d) : pairF s h = some d.pair := by
  unfold pairF
  rw [hd]
  rfl

theorem origF_some {s : HDS} {h : Nat} {d : HalfedgeD}
    (hd : mget s.halfedges h = some d) : origF s h = some d.origin := by
  unfold origF
  rw [hd]
  rfl

theorem npI_from_funs {s : HDS}
    (hf : ∀ h y, nextF s h = some y → prevF s y = some h) :
    ∀ h d, mget s.halfedges h = some d →
      ∃ dn, mget s.halfedges d.next = some dn ∧ dn.prev = h := by
  intro h d hd
  have h1 := hf h d.next (nextF_some hd)
  unfold prevF at h1
  cases hm : mget s.halfedges d.next with
  | none => rw [hm] at h1; exact absurd h1 (by simp)
  | some dn =>
      rw [hm] at h1
      exact ⟨dn, rfl, Option.some.inj (by simpa using h1)⟩

theorem pnI_from_funs {s : HDS}
    (hf : ∀ h y, prevF s h = some y → nextF s y = some h) :
    ∀ h d, mget s.halfedges h = some d →
      ∃ dv, mget s.halfedges d.prev = some dv ∧ dv.next = h := by
  intro h d hd
  have h1 := hf h d.prev (prevF_some hd)
  unfold nextF at h1
  cases hm : mget s.halfedges d.prev with
  | none => rw [hm] at h1; exact absurd h1 (by simp)
  | some dv =>
      rw [hm] at h1
      exact ⟨dv, rfl, Option.some.inj (by simpa using h1)⟩

theorem funs_of_npI {s : HDS} {U : Nat → Prop} (w : WFU s U) :
    ∀ h y, nextF s h = some y → prevF s y = some h := by
  intro h y hy
  unfold nextF at hy
  cases hd : mget s.halfedges h with
  | none => rw [hd] at hy; exact absurd hy (by simp)
  | some d =>
      rw [hd] at hy
      have hdy : d.next = y := Option.some.inj (by simpa using hy)
      obtain ⟨dn, hdn, hp⟩ := w.npI h d hd
      rw [← hdy]
      unfold prevF
      rw [hdn]
      simp [hp]

theorem funs_of_pnI {s : HDS} {U : Nat → Prop} (w : WFU s U) :
    ∀ h y, prevF s h = some y → nextF s y = some h := by
  intro h y hy
  unfold prevF at hy
  cases hd : mget s.halfedges h with
  | none => rw [hd] at hy; exact absurd hy (by simp)
  | some d =>
      rw [hd] at hy
      have hdy : d.prev = y := Option.some.inj (by simpa using hy)
      obtain ⟨dv, hdv, hp⟩ := w.pnI h d hd
      rw [← hdy]
      unfold nextF
      rw [hdv]
      simp [hp]

theorem coh_from_funs {s : HDS}
    (hc : ∀ h y z, nextF s h = some y → pairF s h = some z →
      origF s y = origF s z) :
    ∀ h d dn dp, mget s.halfedges h = some d →
      mget s.halfedges d.next = some dn → mget s.halfedges d.pair = some dp →
      dn.origin = dp.origin := by
  intro h d dn dp hd hdn hdp
  have h1 := hc h d.next d.pair (nextF_some hd) (pairF_some hd)
  unfold origF at h1
  rw [hdn, hdp] at h1
  exact Option.some.inj (by simpa using h1)

theorem funs_of_coh {s : HDS} {U : Nat → Prop} (w : WFU s U) :
    ∀ h y z, nextF s h = some y → pairF s h = some z →
      origF s y = origF s z := by
  intro h y z hy hz
  unfold nextF at hy
  unfold pairF at hz
  cases hd : mget s.halfedges h with
  | none => rw [hd] at hy; exact absurd hy (by simp)
  | some d =>
      rw [hd] at hy hz
      have hdy : d.next = y := Option.some.inj (by simpa using hy)
      have hdz : d.pair = z := Option.some.inj (by simpa using hz)
      obtain ⟨dn, hdn, -⟩ := w.npI h d hd
      obtain ⟨dp, hdp, -⟩ := w.pairI h d hd
      rw [← hdy, ← hdz]
      rw [origF_some hdn, origF_some hdp, w.coh h d dn dp hd hdn hdp]

theorem take_append_len {α : Type} : ∀ (l₁ l₂ : List α) (n : Nat),
    (l₁ ++ l₂).take (l₁.length + n) = l₁ ++ l₂.take n
  | [], l₂, n => by simp
  | a :: l₁, l₂, n => by
      simp only [List.cons_append, List.length_cons]
      rw [show l₁.length + 1 + n = (l₁.length + n) + 1 from by omega,
        List.take_succ_cons, take_append_len l₁ l₂ n]

theorem walk_step_funs (s : HDS) (h : Nat) :
    walk_step s h = (nextF s h).bind (fun y => pairF s y) := by
  cases hd : mget s.halfedges h with
  | none =>
      rw [walk_step_none hd]
      unfold nextF
      rw [hd]
      rfl
  | some d =>
      rw [walk_step_some hd, nextF_some hd]
      unfold pairF
      rfl

set_option maxHeartbeats 2000000 in
/-- Preservation of the invariant by `make_adjacent`, under the side
condition (derived from `add_face`'s chain checks) that the bounded walk
does not start at its own stop halfedge. -/
theorem wf_make_adjacent (s : HDS) (inh outh : Nat) (t : HDS) (bl : Bool)
    (w : WF s)
    (houtp : ∀ outd, mget s.halfedges outh = some outd → outd.pair ≠ inh)
    (hma : make_adjacent s inh outh = Res.ok (t, bl)) : WF t := by
  rcases make_adjacent_ok_inv s inh outh t bl hma with
    ⟨ind, hin, hadj, rfl⟩ | ⟨ind, outd, g, gd, hin, hadj, hout, hffi, hgd, heqt⟩
  · exact w
  have hop : outd.pair ≠ inh := houtp outd hout
  have hnoL : ∀ h d dp, mget s.halfedges h = some d →
      mget s.halfedges d.pair = some dp → d.origin ≠ dp.origin := by
    intro h d dp h1 h2
    rcases w.noL h d dp h1 h2 with hx | hx | hx
    · exact absurd ((w.orK h d h1).mp hx) (fun f => f)
    · exact absurd ((w.orK d.pair dp h2).mp hx) (fun f => f)
    · exact hx
  have horn : ∀ h d, mget s.halfedges h = some d → d.origin ≠ none :=
    fun h d hd ho => absurd ((w.orK h d hd).mp ho) (fun f => f)
  obtain ⟨q0, po, d2, p2, hq, hpo, hd2, hp2, horg0, hgo⟩ :=
    ffih_from_ok_inv s outd.pair inh g hffi
  rw [hin] at hd2
  obtain rfl : ind = d2 := Option.some.inj hd2
  obtain ⟨q1, hq1, hq1p⟩ := w.pairI outh outd hout
  rw [hq] at hq1
  obtain rfl : q0 = q1 := Option.some.inj hq1
  rw [hq1p, hout] at hpo
  obtain rfl : outd = po := Option.some.inj hpo
  have horg : outd.origin = p2.origin := horg0
  obtain ⟨n, hn⟩ : ∃ n, outd.origin = some n := by
    cases ho : outd.origin with
    | none => exact absurd ((w.orK outh outd hout).mp ho) (fun f => f)
    | some n => exact ⟨n, rfl⟩
  have hp2n : p2.origin = some n := by rw [← horg]; exact hn
  have hinc_in : Incoming s n inh := ⟨ind, hin, p2, hp2, hp2n⟩
  have hinc_c0 : Incoming s n outd.pair :=
    ⟨q0, hq, outd, by rw [hq1p]; exact hout, hn⟩
  obtain ⟨L, hcyc, hndL, hheadL, hcov⟩ := w.fan n outd.pair hinc_c0
  have hLne : L ≠ [] := hcyc.1
  obtain ⟨T, rfl⟩ : ∃ T, L = outd.pair :: T := by
    cases L with
    | nil => exact absurd rfl hLne
    | cons a T =>
        have ha : a = outd.pair := hheadL
        exact ⟨T, by rw [ha]⟩
  obtain ⟨P, hPne, hPhead, hPlast, hPsteps, hgbd, hPavoid⟩ :=
    ffih_bounded_go_path s inh (s.halfedges.length + 1) outd.pair g hgo
  have hPav : ∀ x ∈ P, x ≠ inh := by
    intro x hx
    by_cases hxc : x = outd.pair
    · rw [hxc]; exact hop
    · exact hPavoid x hx hxc
  have hinT : inh ∈ T := by
    have hmem := (hcov inh).mp hinc_in
    rcases List.mem_cons.mp hmem with h1 | h1
    · exact absurd h1.symm hop
    · exact h1
  obtain ⟨T1, T2, rfl⟩ := List.append_of_mem hinT
  have hstepsL : stepsOK (walk_step s) (outd.pair :: (T1 ++ inh :: T2)) :=
    (stepsOK_append.mp hcyc.2).1
  have htake1 : (outd.pair :: (T1 ++ inh :: T2)).take (T1.length + 1) =
      outd.pair :: T1 := by
    rw [List.take_succ_cons]
    congr 1
    have := take_append_len T1 (inh :: T2) 0
    simpa using this
  have htake2 : (outd.pair :: (T1 ++ inh :: T2)).take (T1.length + 2) =
      outd.pair :: (T1 ++ [inh]) := by
    rw [List.take_succ_cons]
    congr 1
    have := take_append_len T1 (inh :: T2) 1
    simpa using this
  have hlenP : P.length ≤ T1.length + 1 := by
    by_contra hgt
    push_neg at hgt
    have hQ0 : stepsOK (walk_step s) (outd.pair :: (T1 ++ [inh])) := by
      rw [← htake2]
      exact stepsOK_take _ _ hstepsL
    have heq := stepsOK_take_eq (walk_step s) (outd.pair :: (T1 ++ [inh])) P
      hQ0 hPsteps (by rw [hPhead]; exact rfl) (by simp; omega) (by simp)
    have hinP : inh ∈ P := by
      have hmem : inh ∈ outd.pair :: (T1 ++ [inh]) := by simp
      rw [heq] at hmem
      exact List.take_subset _ _ hmem
    exact hPav inh hinP rfl
  have hPpre : P = (outd.pair :: T1).take P.length := by
    refine stepsOK_take_eq (walk_step s) P (outd.pair :: T1) hPsteps ?_ ?_ ?_ hPne
    · rw [← htake1]
      exact stepsOK_take _ _ hstepsL
    · rw [hPhead]
      exact rfl
    · simpa using hlenP
  have hsplit1 : P ++ (outd.pair :: T1).drop P.length = outd.pair :: T1 := by
    have h0 := List.take_append_drop P.length (outd.pair :: T1)
    rw [← hPpre] at h0
    exact h0
  obtain ⟨bd, hbd, hbdp⟩ := w.npI inh ind hin
  obtain ⟨dd, hdd, hddn⟩ := w.pnI outh outd hout
  obtain ⟨hd2, hhd2, hhd2p⟩ := w.npI g gd hgd
  have hwsd : walk_step s outd.prev = some outd.pair := by
    rw [walk_step_some hdd, hddn, hout]
    rfl
  have hlastL : ∀ z, (outd.pair :: (T1 ++ inh :: T2)).getLast? = some z →
      walk_step s z = some outd.pair := by
    intro z hz
    exact (stepsOK_append.mp hcyc.2).2.2 z hz outd.pair rfl
  have hT2ne : T2 ≠ [] := by
    intro hT2e
    subst hT2e
    have hz : (outd.pair :: (T1 ++ inh :: ([] : List Nat))).getLast? =
        some inh := by
      rw [show outd.pair :: (T1 ++ inh :: ([] : List Nat)) =
        (outd.pair :: T1) ++ [inh] by simp]
      exact List.getLast?_concat _
    have hws1 := hlastL inh hz
    have hdi : inh = outd.prev :=
      wf_ws_inj w hin hdd (by rw [hws1, hwsd])
    rw [hdi] at hin
    rw [hin] at hdd
    obtain rfl : ind = dd := Option.some.inj hdd
    exact hadj hddn
  obtain ⟨R2, rfl⟩ : ∃ R2, T2 = R2 ++ [outd.prev] := by
    have hre : outd.pair :: (T1 ++ inh :: T2) =
        (outd.pair :: (T1 ++ inh :: T2.dropLast)) ++ [T2.getLast hT2ne] := by
      conv_lhs => rw [← List.dropLast_append_getLast hT2ne]
      simp
    have hz : (outd.pair :: (T1 ++ inh :: T2)).getLast? =
        some (T2.getLast hT2ne) := by
      rw [hre]
      exact List.getLast?_concat _
    have hws2 := hlastL _ hz
    have hdlmem : T2.getLast hT2ne ∈ outd.pair :: (T1 ++ inh :: T2) :=
      List.mem_cons_of_mem _ (List.mem_append_right _
        (List.mem_cons_of_mem _ (List.getLast_mem hT2ne)))
    obtain ⟨ddl, hddl, -⟩ := (hcov _).mpr hdlmem
    have hdle : T2.getLast hT2ne = outd.prev :=
      wf_ws_inj w hddl hdd (by rw [hws2, hwsd])
    refine ⟨T2.dropLast, ?_⟩
    rw [← hdle]
    exact (List.dropLast_append_getLast hT2ne).symm
  have hLshape : outd.pair :: (T1 ++ inh :: (R2 ++ [outd.prev])) =
      P ++ (((outd.pair :: T1).drop P.length) ++
        inh :: (R2 ++ [outd.prev])) := by
    rw [← List.append_assoc, hsplit1]
    rfl
  have hglastP : P.getLast hPne = g := by
    rw [List.getLast?_eq_getLast P hPne] at hPlast
    exact Option.some.inj hPlast
  have hgmem : g ∈ P := by rw [← hglastP]; exact List.getLast_mem hPne
  have hgin : g ≠ inh := hPav g hgmem
  have hgL : g ∈ outd.pair :: (T1 ++ inh :: (R2 ++ [outd.prev])) := by
    rw [hLshape]
    exact List.mem_append_left _ hgmem
  have hginc : Incoming s n g := (hcov g).mpr hgL
  have hdinc : Incoming s n outd.prev := (hcov outd.prev).mpr (by simp)
  have hndShape : (P ++ (((outd.pair :: T1).drop P.length) ++
      inh :: (R2 ++ [outd.prev]))).Nodup := by
    rw [← hLshape]
    exact hndL
  have hio : inh ≠ outh := by
    intro he
    rw [he] at hin
    rw [hin] at hout
    obtain rfl : ind = outd := Option.some.inj hout
    exact hnoL outh ind p2 hin hp2 horg
  have hbni : ind.next ≠ inh := wf_next_ne_self w hin (horn inh ind hin)
  have hdni : outd.prev ≠ inh := by
    intro he
    rw [he] at hdd
    rw [hin] at hdd
    obtain rfl : ind = dd := Option.some.inj hdd
    exact hadj hddn
  have hgdd : g ≠ outd.prev := by
    intro he
    have hdisj := List.disjoint_of_nodup_append hndShape
    exact hdisj hgmem (by rw [← he]; simp)
  have hginc2 := hginc
  obtain ⟨gd2, hgd2, gp, hgp, hgpn⟩ := hginc2
  rw [hgd] at hgd2
  obtain rfl : gd = gd2 := Option.some.inj hgd2
  have hdinc2 := hdinc
  obtain ⟨dd2, hdd2, dp3, hdp3, hdp3n⟩ := hdinc2
  rw [hdd] at hdd2
  obtain rfl : dd = dd2 := Option.some.inj hdd2
  have hbon : bd.origin = some n := by
    rw [w.coh inh ind bd p2 hin hbd hp2]
    exact hp2n
  have houg : outh ≠ g := by
    intro he
    rw [← he] at hgd
    rw [hout] at hgd
    obtain rfl : outd = gd := Option.some.inj hgd
    exact hnoL outh outd gp hout hgp (by rw [hn, hgpn])
  have houb : outh ≠ ind.next := fun he => hadj he.symm
  have houd : outh ≠ outd.prev := by
    intro he
    rw [← he] at hdd
    rw [hout] at hdd
    obtain rfl : outd = dd := Option.some.inj hdd
    exact wf_next_ne_self w hout (horn outh outd hout) hddn
  have houhv : outh ≠ gd.next := by
    intro he
    exact hgdd (wf_next_inj w hgd hdd (by rw [← he, hddn]))
  have hgb : ind.next ≠ g := by
    intro he
    rw [he] at hbd
    rw [hgd] at hbd
    obtain rfl : gd = bd := Option.some.inj hbd
    exact hnoL g gd gp hgd hgp (by rw [hbon, hgpn])
  have hbdq : ind.next ≠ outd.prev := by
    intro he
    rw [he] at hbd
    rw [hdd] at hbd
    obtain rfl : dd = bd := Option.some.inj hbd
    exact hnoL outd.prev dd dp3 hdd hdp3 (by rw [hbon, hdp3n])
  have hbhv : ind.next ≠ gd.next := by
    intro he
    exact hgin (wf_next_inj w hgd hin he.symm)
  have hinhv : inh ≠ gd.next := by
    intro he
    obtain ⟨z, hz, hzinc⟩ := incoming_step w hginc
    rw [walk_step_some hgd, ← he, hin] at hz
    have hzv : ind.pair = z := Option.some.inj (by simpa using hz)
    obtain ⟨dz, hdz, dpz, hdpz, hdpzn⟩ := hzinc
    rw [← hzv] at hdz
    rw [hp2] at hdz
    obtain rfl : p2 = dz := Option.some.inj hdz
    obtain ⟨p2q, hp2q, hp2qp⟩ := w.pairI inh ind hin
    rw [hp2] at hp2q
    obtain rfl : p2 = p2q := Option.some.inj hp2q
    rw [hp2qp] at hdpz
    rw [hin] at hdpz
    obtain rfl : ind = dpz := Option.some.inj hdpz
    exact hnoL inh ind p2 hin hp2 (by rw [hdpzn, hp2n])
  have hhvg : gd.next ≠ g := wf_next_ne_self w hgd (horn g gd hgd)
  have hdhv : outd.prev ≠ gd.next := by
    intro he
    obtain ⟨z, hz, hzinc⟩ := incoming_step w hginc
    rw [walk_step_some hgd, ← he, hdd] at hz
    have hzv : dd.pair = z := Option.some.inj (by simpa using hz)
    obtain ⟨dz, hdz, dpz, hdpz, hdpzn⟩ := hzinc
    rw [← hzv] at hdz
    rw [hdp3] at hdz
    obtain rfl : dp3 = dz := Option.some.inj hdz
    obtain ⟨u0, hu0, hu0p⟩ := w.pairI outd.prev dd hdd
    rw [hdp3] at hu0
    obtain rfl : dp3 = u0 := Option.some.inj hu0
    rw [hu0p] at hdpz
    rw [hdd] at hdpz
    obtain rfl : dd = dpz := Option.some.inj hdpz
    exact hnoL dd.pair dp3 dd hdp3 (by rw [hu0p]; exact hdd)
      (by rw [hdp3n, hdpzn])
  have hstep : ∀ (m : List (Nat × HalfedgeD)) (a k : Nat)
      (f : HalfedgeD → HalfedgeD),
      mget (mmod m a f) k = if k = a then (mget m k).map f else mget m k := by
    intro m a k f
    by_cases hk : k = a
    · subst hk; rw [mget_mmod_self, if_pos rfl]
    · rw [mget_mmod_ne _ _ _ _ hk, if_neg hk]
  have hmt : ∀ k, mget t.halfedges k =
      if k = inh then some { ind with next := outh }
      else if k = outh then some { outd with prev := inh }
      else if k = g then some { gd with next := ind.next }
      else if k = ind.next then some { bd with prev := g }
      else if k = outd.prev then some { dd with next := gd.next }
      else if k = gd.next then some { hd2 with prev := outd.prev }
      else mget s.halfedges k := by
    intro k
    rw [heqt]
    simp only [set_next_halfedges, set_prev_halfedges]
    rw [hstep, hstep, hstep, hstep, hstep, hstep]
    by_cases k1 : k = inh
    · simp only [k1, eq_self_iff_true, if_true, if_neg hinhv,
        if_neg (Ne.symm hdni), if_neg (Ne.symm hbni), if_neg (Ne.symm hgin),
        if_neg hio, hin, Option.map_some']
    · by_cases k2 : k = outh
      · simp only [k2, eq_self_iff_true, if_true, if_neg houhv, if_neg houd,
          if_neg houb, if_neg houg, if_neg (Ne.symm hio), hout,
          Option.map_some']
      · by_cases k3 : k = g
        · simp only [k3, eq_self_iff_true, if_true, if_neg (Ne.symm hhvg),
            if_neg hgdd, if_neg (Ne.symm hgb), if_neg (Ne.symm houg),
            if_neg hgin, hgd, Option.map_some']
        · by_cases k4 : k = ind.next
          · simp only [k4, eq_self_iff_true, if_true, if_neg hbhv,
              if_neg hbdq, if_neg hgb, if_neg (Ne.symm houb), if_neg hbni,
              hbd, Option.map_some']
          · by_cases k5 : k = outd.prev
            · simp only [k5, eq_self_iff_true, if_true, if_neg hdhv,
                if_neg (Ne.symm hbdq), if_neg (Ne.symm hgdd),
                if_neg (Ne.symm houd), if_neg hdni, hdd, Option.map_some']
            · by_cases k6 : k = gd.next
              · simp only [k6, eq_self_iff_true, if_true,
                  if_neg (Ne.symm hdhv), if_neg (Ne.symm hbhv), if_neg hhvg,
                  if_neg (Ne.symm houhv), if_neg (Ne.symm hinhv), hhd2,
                  Option.map_some']
              · simp only [if_neg k1, if_neg k2, if_neg k3, if_neg k4,
                  if_neg k5, if_neg k6]
  have hpairT : ∀ y, (mget t.halfedges y).map (fun r => r.pair) =
      (mget s.halfedges y).map (fun r => r.pair) := by
    intro y
    rw [hmt y]
    split_ifs with c1 c2 c3 c4 c5 c6
    · subst c1; rw [hin]; rfl
    · subst c2; rw [hout]; rfl
    · subst c3; rw [hgd]; rfl
    · subst c4; rw [hbd]; rfl
    · subst c5; rw [hdd]; rfl
    · subst c6; rw [hhd2]; rfl
    · rfl
  have horigT : ∀ y, (mget t.halfedges y).map (fun r => r.origin) =
      (mget s.halfedges y).map (fun r => r.origin) := by
    intro y
    rw [hmt y]
    split_ifs with c1 c2 c3 c4 c5 c6
    · subst c1; rw [hin]; rfl
    · subst c2; rw [hout]; rfl
    · subst c3; rw [hgd]; rfl
    · subst c4; rw [hbd]; rfl
    · subst c5; rw [hdd]; rfl
    · subst c6; rw [hhd2]; rfl
    · rfl
  have hedgeT : ∀ y, (mget t.halfedges y).map (fun r => r.edge) =
      (mget s.halfedges y).map (fun r => r.edge) := by
    intro y
    rw [hmt y]
    split_ifs with c1 c2 c3 c4 c5 c6
    · subst c1; rw [hin]; rfl
    · subst c2; rw [hout]; rfl
    · subst c3; rw [hgd]; rfl
    · subst c4; rw [hbd]; rfl
    · subst c5; rw [hdd]; rfl
    · subst c6; rw [hhd2]; rfl
    · rfl
  have hpairF : ∀ y, pairF t y = pairF s y := hpairT
  have horigF : ∀ y, origF t y = origF s y := horigT
  have hnextT : ∀ y, nextF t y =
      if y = inh then some outh
      else if y = g then some ind.next
      else if y = outd.prev then some gd.next
      else nextF s y := by
    intro y
    unfold nextF
    rw [hmt y]
    by_cases c1 : y = inh
    · simp only [c1, eq_self_iff_true, if_true, Option.map_some']
    · by_cases c2 : y = outh
      · simp only [c2, eq_self_iff_true, if_true, if_neg (Ne.symm hio),
          if_neg houg, if_neg houd, Option.map_some', hout]
      · by_cases c3 : y = g
        · simp only [c3, eq_self_iff_true, if_true, if_neg hgin,
            if_neg (Ne.symm houg), Option.map_some']
        · by_cases c4 : y = ind.next
          · simp only [c4, eq_self_iff_true, if_true, if_neg hbni,
              if_neg (Ne.symm houb), if_neg hgb, if_neg hbdq,
              Option.map_some', hbd]
          · by_cases c5 : y = outd.prev
            · simp only [c5, eq_self_iff_true, if_true, if_neg hdni,
                if_neg (Ne.symm houd), if_neg (Ne.symm hgdd),
                if_neg (Ne.symm hbdq), Option.map_some']
            · by_cases c6 : y = gd.next
              · simp only [c6, eq_self_iff_true, if_true,
                  if_neg (Ne.symm hinhv), if_neg (Ne.symm houhv),
                  if_neg hhvg, if_neg (Ne.symm hbhv), if_neg (Ne.symm hdhv),
                  Option.map_some', hhd2]
              · simp only [if_neg c1, if_neg c2, if_neg c3, if_neg c4,
                  if_neg c5, if_neg c6]
  have hprevT : ∀ y, prevF t y =
      if y = outh then some inh
      else if y = ind.next then some g
      else if y = gd.next then some outd.prev
      else prevF s y := by
    intro y
    unfold prevF
    rw [hmt y]
    by_cases c1 : y = inh
    · simp only [c1, eq_self_iff_true, if_true, if_neg hio,
        if_neg (Ne.symm hbni), if_neg hinhv, Option.map_some', hin]
    · by_cases c2 : y = outh
      · simp only [c2, eq_self_iff_true, if_true, if_neg (Ne.symm hio),
          Option.map_some']
      · by_cases c3 : y = g
        · simp only [c3, eq_self_iff_true, if_true, if_neg hgin,
            if_neg (Ne.symm houg), if_neg (Ne.symm hgb), if_neg (Ne.symm hhvg),
            Option.map_some', hgd]
        · by_cases c4 : y = ind.next
          · simp only [c4, eq_self_iff_true, if_true, if_neg hbni,
              if_neg (Ne.symm houb), if_neg hgb, Option.map_some']
          · by_cases c5 : y = outd.prev
            · simp only [c5, eq_self_iff_true, if_true, if_neg hdni,
                if_neg (Ne.symm houd), if_neg (Ne.symm hgdd),
                if_neg (Ne.symm hbdq), if_neg hdhv, Option.map_some', hdd]
            · by_cases c6 : y = gd.next
              · simp only [c6, eq_self_iff_true, if_true,
                  if_neg (Ne.symm hinhv), if_neg (Ne.symm houhv),
                  if_neg hhvg, if_neg (Ne.symm hbhv), if_neg (Ne.symm hdhv),
                  Option.map_some']
              · simp only [if_neg c1, if_neg c2, if_neg c3, if_neg c4,
                  if_neg c5, if_neg c6]
  have hwsT : ∀ x, x ≠ inh → x ≠ g → x ≠ outd.prev →
      walk_step t x = walk_step s x := by
    intro x h1 h2 h3
    rw [walk_step_funs t, walk_step_funs s, hnextT x, if_neg h1, if_neg h2,
      if_neg h3]
    cases hnx : nextF s x with
    | none => rfl
    | some y => exact hpairF y
  have hwt1 : walk_step t inh = some outd.pair := by
    rw [walk_step_funs t, hnextT inh, if_pos rfl]
    show pairF t outh = some outd.pair
    rw [hpairF outh, pairF_some hout]
  have hwt2 : walk_step t g = walk_step s inh := by
    rw [walk_step_funs t, walk_step_funs s, hnextT g, if_neg hgin, if_pos rfl,
      nextF_some hin]
    show pairF t ind.next = pairF s ind.next
    exact hpairF ind.next
  have hwt3 : walk_step t outd.prev = walk_step s g := by
    rw [walk_step_funs t, walk_step_funs s, hnextT outd.prev, if_neg hdni,
      if_neg (Ne.symm hgdd), if_pos rfl, nextF_some hgd]
    show pairF t gd.next = pairF s gd.next
    exact hpairF gd.next
  have hcycT : cycOK (walk_step t)
      (inh :: (P ++ ((R2 ++ [outd.prev]) ++
        (outd.pair :: T1).drop P.length))) := by
    refine @cycOK_splice (walk_step s) (walk_step t) P
      ((outd.pair :: T1).drop P.length) R2 inh outd.prev hPne ?_ hndShape
      ?_ ?_ ?_ ?_
    · rw [← hLshape]
      exact hcyc
    · rw [hwt1, hPhead]
    · rw [hglastP]
      exact hwt2
    · rw [hglastP]
      exact hwt3
    · intro x _ hx1 hx2 hx3
      exact hwsT x hx1 (by rw [← hglastP]; exact hx2) hx3
  have hpermT := @splice_perm P ((outd.pair :: T1).drop P.length) R2 inh
    outd.prev
  have hndT : (inh :: (P ++ ((R2 ++ [outd.prev]) ++
      (outd.pair :: T1).drop P.length))).Nodup :=
    hpermT.nodup_iff.mpr hndShape
  have hmemT : ∀ y, y ∈ inh :: (P ++ ((R2 ++ [outd.prev]) ++
      (outd.pair :: T1).drop P.length)) ↔
      y ∈ outd.pair :: (T1 ++ inh :: (R2 ++ [outd.prev])) := by
    intro y
    rw [hpermT.mem_iff, hLshape]
  have hincT : ∀ m x, Incoming t m x ↔ Incoming s m x :=
    Incoming_of_pointwise hpairT horigT
  have hfanT : FanOK t := by
    intro m x hx
    rw [hincT m x] at hx
    by_cases hmn : m = n
    · subst hmn
      have hxL : x ∈ inh :: (P ++ ((R2 ++ [outd.prev]) ++
          (outd.pair :: T1).drop P.length)) :=
        (hmemT x).mpr ((hcov x).mp hx)
      obtain ⟨L1, L2, hLL, hrot⟩ := cycOK_rotate hcycT hxL
      refine ⟨x :: (L2 ++ L1), hrot, ?_, rfl, ?_⟩
      · rw [hLL] at hndT
        exact rotate_nodup hndT
      · intro y
        rw [hincT, hcov y, ← hmemT y, hLL]
        exact rotate_mem.symm
    · obtain ⟨L0, hc0, hnd0, hh0, hcov0⟩ := w.fan m x hx
      refine ⟨L0, ?_, hnd0, hh0, fun y => (hincT m y).trans (hcov0 y)⟩
      refine cycOK_congr ?_ hc0
      intro z hz
      have hzinc : Incoming s m z := (hcov0 z).mpr hz
      refine (hwsT z ?_ ?_ ?_).symm
      · intro he
        rw [he] at hzinc
        exact hmn (incoming_unique hzinc hinc_in)
      · intro he
        rw [he] at hzinc
        exact hmn (incoming_unique hzinc hginc)
      · intro he
        rw [he] at hzinc
        exact hmn (incoming_unique hzinc hdinc)
  have hfun1 : ∀ h y, nextF t h = some y → prevF t y = some h := by
    intro h y hy
    rw [hnextT h] at hy
    split_ifs at hy with c1 c2 c3
    · subst c1
      obtain rfl : outh = y := Option.some.inj hy
      rw [hprevT, if_pos rfl]
    · subst c2
      obtain rfl : ind.next = y := Option.some.inj hy
      rw [hprevT, if_neg (Ne.symm houb), if_pos rfl]
    · subst c3
      obtain rfl : gd.next = y := Option.some.inj hy
      rw [hprevT, if_neg (Ne.symm houhv), if_neg (Ne.symm hbhv), if_pos rfl]
    · have hold := funs_of_npI w h y hy
      rw [hprevT y]
      split_ifs with d1 d2 d3
      · subst d1
        rw [prevF_some hout] at hold
        exact absurd (Option.some.inj hold).symm c3
      · subst d2
        rw [prevF_some hbd, hbdp] at hold
        exact absurd (Option.some.inj hold).symm c1
      · subst d3
        rw [prevF_some hhd2, hhd2p] at hold
        exact absurd (Option.some.inj hold).symm c2
      · exact hold
  have hfun2 : ∀ h y, prevF t h = some y → nextF t y = some h := by
    intro h y hy
    rw [hprevT h] at hy
    split_ifs at hy with c1 c2 c3
    · subst c1
      obtain rfl : inh = y := Option.some.inj hy
      rw [hnextT, if_pos rfl]
    · subst c2
      obtain rfl : g = y := Option.some.inj hy
      rw [hnextT, if_neg hgin, if_pos rfl]
    · subst c3
      obtain rfl : outd.prev = y := Option.some.inj hy
      rw [hnextT, if_neg hdni, if_neg (Ne.symm hgdd), if_pos rfl]
    · have hold := funs_of_pnI w h y hy
      rw [hnextT y]
      split_ifs with d1 d2 d3
      · subst d1
        rw [nextF_some hin] at hold
        exact absurd (Option.some.inj hold).symm c2
      · subst d2
        rw [nextF_some hgd] at hold
        exact absurd (Option.some.inj hold).symm c3
      · subst d3
        rw [nextF_some hdd, hddn] at hold
        exact absurd (Option.some.inj hold).symm c1
      · exact hold
  have hhd2n : hd2.origin = some n := by
    rw [w.coh g gd hd2 gp hgd hhd2 hgp]
    exact hgpn
  have hfun3 : ∀ h y z, nextF t h = some y → pairF t h = some z →
      origF t y = origF t z := by
    intro h y z hy hz
    have hz2 : pairF s h = some z := by rw [← hpairF]; exact hz
    rw [horigF y, horigF z]
    rw [hnextT h] at hy
    split_ifs at hy with c1 c2 c3
    · subst c1
      obtain rfl : outh = y := Option.some.inj hy
      have hzv : ind.pair = z := by
        rw [pairF_some hin] at hz2
        exact Option.some.inj hz2
      rw [← hzv, origF_some hout, origF_some hp2, horg]
    · subst c2
      obtain rfl : ind.next = y := Option.some.inj hy
      have hzv : gd.pair = z := by
        rw [pairF_some hgd] at hz2
        exact Option.some.inj hz2
      rw [← hzv, origF_some hbd, origF_some hgp, hbon, hgpn]
    · subst c3
      obtain rfl : gd.next = y := Option.some.inj hy
      have hzv : dd.pair = z := by
        rw [pairF_some hdd] at hz2
        exact Option.some.inj hz2
      rw [← hzv, origF_some hhd2, origF_some hdp3, hhd2n, hdp3n]
    · exact funs_of_coh w h y z hy hz2
  refine wfu_of_pointwise w hpairT horigT hedgeT ?_ ?_ ?_ ?_
    (npI_from_funs hfun1) (pnI_from_funs hfun2) (coh_from_funs hfun3) hfanT
  · rw [heqt]
    simp only [set_next_halfedges, set_prev_halfedges]
    rw [keysOf_mmod, keysOf_mmod, keysOf_mmod, keysOf_mmod, keysOf_mmod,
      keysOf_mmod]
  · rw [heqt]
    rfl
  · rw [heqt]
    rfl
  · rw [heqt]
    exact le_rfl

theorem mget_mmod_map {α β : Type} (m : List (Nat × α)) (k : Nat) (f : α → α)
    (proj : α → β) (hf : ∀ d, proj (f d) = proj d) (y : Nat) :
    (mget (mmod m k f) y).map proj = (mget m y).map proj := by
  by_cases hy : y = k
  · subst hy
    rw [mget_mmod_self]
    cases mget m y with
    | none => rfl
    | some d =>
        simp only [Option.map_some']
        exact congrArg some (hf d)
  · rw [mget_mmod_ne _ _ _ _ hy]

theorem make_adjacent_ok_pointwise (s : HDS) (a b : Nat) (t : HDS) (bl : Bool)
    (hma : make_adjacent s a b = Res.ok (t, bl)) :
    (∀ y, (mget t.halfedges y).map (fun r => r.pair) =
      (mget s.halfedges y).map (fun r => r.pair)) ∧
    (∀ y, (mget t.halfedges y).map (fun r => r.origin) =
      (mget s.halfedges y).map (fun r => r.origin)) := by
  rcases make_adjacent_ok_inv s a b t bl hma with
    ⟨ind, hin, hadj, rfl⟩ | ⟨ind, outd, g, gd, hin, hadj, hout, hffi, hgd, heqt⟩
  · exact ⟨fun y => rfl, fun y => rfl⟩
  · subst heqt
    refine ⟨?_, ?_⟩ <;> intro y
    · simp only [set_next_halfedges, set_prev_halfedges]
      rw [@mget_mmod_map HalfedgeD Nat _ _ (fun d => { d with prev := outd.prev })
          (fun r => r.pair) (fun _ => rfl) _,
        @mget_mmod_map HalfedgeD Nat _ _ (fun d => { d with next := gd.next })
          (fun r => r.pair) (fun _ => rfl) _,
        @mget_mmod_map HalfedgeD Nat _ _ (fun d => { d with prev := g })
          (fun r => r.pair) (fun _ => rfl) _,
        @mget_mmod_map HalfedgeD Nat _ _ (fun d => { d with next := ind.next })
          (fun r => r.pair) (fun _ => rfl) _,
        @mget_mmod_map HalfedgeD Nat _ _ (fun d => { d with prev := a })
          (fun r => r.pair) (fun _ => rfl) _,
        @mget_mmod_map HalfedgeD Nat _ _ (fun d => { d with next := b })
          (fun r => r.pair) (fun _ => rfl) _]
    · simp only [set_next_halfedges, set_prev_halfedges]
      rw [@mget_mmod_map HalfedgeD (Option Nat) _ _ (fun d => { d with prev := outd.prev })
          (fun r => r.origin) (fun _ => rfl) _,
        @mget_mmod_map HalfedgeD (Option Nat) _ _ (fun d => { d with next := gd.next })
          (fun r => r.origin) (fun _ => rfl) _,
        @mget_mmod_map HalfedgeD (Option Nat) _ _ (fun d => { d with prev := g })
          (fun r => r.origin) (fun _ => rfl) _,
        @mget_mmod_map HalfedgeD (Option Nat) _ _ (fun d => { d with next := ind.next })
          (fun r => r.origin) (fun _ => rfl) _,
        @mget_mmod_map HalfedgeD (Option Nat) _ _ (fun d => { d with prev := a })
          (fun r => r.origin) (fun _ => rfl) _,
        @mget_mmod_map HalfedgeD (Option Nat) _ _ (fun d => { d with next := b })
          (fun r => r.origin) (fun _ => rfl) _]

theorem add_face_ok_inv (s : HDS) (h1 h2 h3 : Nat) (t : HDS) (f : Nat)
    (h : add_face s h1 h2 h3 = Res.ok (t, f)) :
    ∃ d1 d2 d3 p1 p2 p3 sA sB sC,
      mget s.halfedges h1 = some d1 ∧ mget s.halfedges h2 = some d2 ∧
      mget s.halfedges h3 = some d3 ∧
      mget s.halfedges d1.pair = some p1 ∧
      mget s.halfedges d2.pair = some p2 ∧
      mget s.halfedges d3.pair = some p3 ∧
      p1.origin = d2.origin ∧ p2.origin = d3.origin ∧ p3.origin = d1.origin ∧
      make_adjacent s h1 h2 = Res.ok (sA, true) ∧
      make_adjacent sA h2 h3 = Res.ok (sB, true) ∧
      make_adjacent sB h3 h1 = Res.ok (sC, true) ∧
      t = ((((({ sC with
          faces := (sC.fresh, ⟨0⟩) :: sC.faces,
          fresh := sC.fresh + 1 } : HDS).set_face_halfedge sC.fresh
            h1).set_face h1 (some sC.fresh)).set_face h2
              (some sC.fresh)).set_face h3 (some sC.fresh)) := by
  unfold add_face at h
  cases hd1 : mget s.halfedges h1 with
  | none => simp [HDS.he?, hd1] at h
  | some d1 =>
    cases hd2 : mget s.halfedges h2 with
    | none => simp [HDS.he?, hd1, hd2] at h
    | some d2 =>
      cases hd3 : mget s.halfedges h3 with
      | none => simp [HDS.he?, hd1, hd2, hd3] at h
      | some d3 =>
        simp only [HDS.he?, hd1, hd2, hd3, Res.monad_bind, Res.bind_ok] at h
        by_cases hfree : d1.face = none ∧ d2.face = none ∧ d3.face = none
        · rw [if_neg (not_not_intro hfree)] at h
          cases hp1 : mget s.halfedges d1.pair with
          | none => simp [HDS.he?, hp1] at h
          | some p1 =>
            cases hp2 : mget s.halfedges d2.pair with
            | none => simp [HDS.he?, hp1, hp2] at h
            | some p2 =>
              cases hp3 : mget s.halfedges d3.pair with
              | none => simp [HDS.he?, hp1, hp2, hp3] at h
              | some p3 =>
                simp only [HDS.he?, hp1, hp2, hp3, Res.monad_bind,
                  Res.bind_ok] at h
                by_cases hchain : p1.origin = d2.origin ∧
                    p2.origin = d3.origin ∧ p3.origin = d1.origin
                · rw [if_neg (not_not_intro hchain)] at h
                  cases hma1 : make_adjacent s h1 h2 with
                  | err e1 t1 => rw [hma1] at h; simp at h
                  | div => rw [hma1] at h; simp at h
                  | ok pr1 =>
                      obtain ⟨s1, b1⟩ := pr1
                      have hb1 := ma_ok_true _ _ _ _ _ hma1
                      subst hb1
                      rw [hma1] at h
                      simp only [Res.bind_ok, eq_self_iff_true, if_true] at h
                      cases hma2 : make_adjacent s1 h2 h3 with
                      | err e2 t2 => rw [hma2] at h; simp at h
                      | div => rw [hma2] at h; simp at h
                      | ok pr2 =>
                          obtain ⟨s2, b2⟩ := pr2
                          have hb2 := ma_ok_true _ _ _ _ _ hma2
                          subst hb2
                          rw [hma2] at h
                          simp only [Res.bind_ok, eq_self_iff_true, and_self,
                            if_true] at h
                          cases hma3 : make_adjacent s2 h3 h1 with
                          | err e3 t3 => rw [hma3] at h; simp at h
                          | div => rw [hma3] at h; simp at h
                          | ok pr3 =>
                              obtain ⟨s3, b3⟩ := pr3
                              have hb3 := ma_ok_true _ _ _ _ _ hma3
                              subst hb3
                              rw [hma3] at h
                              simp only [Res.bind_ok, eq_self_iff_true,
                                and_self, not_true_eq_false, if_false,
                                Res.monad_pure, Res.ok.injEq,
                                Prod.mk.injEq] at h
                              exact ⟨d1, d2, d3, p1, p2, p3, s1, s2, s3,
                                rfl, rfl, rfl, hp1, hp2, hp3, hchain.1,
                                hchain.2.1, hchain.2.2, rfl, hma2, hma3,
                                h.1.symm⟩
                · rw [if_pos hchain] at h
                  simp at h
        · rw [if_pos hfree] at h
          simp at h

theorem wf_add_face (s : HDS) (h1 h2 h3 : Nat) (t : HDS) (f : Nat) (w : WF s)
    (h : add_face s h1 h2 h3 = Res.ok (t, f)) : WF t := by
  obtain ⟨d1, d2, d3, p1, p2, p3, sA, sB, sC, hd1, hd2, hd3, hp1, hp2, hp3,
    hc1, hc2, hc3, hma1, hma2, hma3, ht⟩ := add_face_ok_inv s h1 h2 h3 t f h
  have hnoL : ∀ hh d dp, mget s.halfedges hh = some d →
      mget s.halfedges d.pair = some dp → d.origin ≠ dp.origin := by
    intro hh d dp hx1 hx2
    rcases w.noL hh d dp hx1 hx2 with hx | hx | hx
    · exact absurd ((w.orK hh d hx1).mp hx) (fun ff => ff)
    · exact absurd ((w.orK d.pair dp hx2).mp hx) (fun ff => ff)
    · exact hx
  have hside1 : ∀ outd, mget s.halfedges h2 = some outd → outd.pair ≠ h1 := by
    intro outd hmo hpp
    rw [hd2] at hmo
    obtain rfl : d2 = outd := Option.some.inj hmo
    rw [hpp, hd1] at hp2
    obtain rfl : d1 = p2 := Option.some.inj hp2
    exact hnoL h3 d3 p3 hd3 hp3 (by rw [hc3]; exact hc2.symm)
  have hwA : WF sA := wf_make_adjacent s h1 h2 sA true w hside1 hma1
  obtain ⟨hApair, hAorig⟩ := make_adjacent_ok_pointwise s h1 h2 sA true hma1
  have hside2 : ∀ outd, mget sA.halfedges h3 = some outd → outd.pair ≠ h2 := by
    intro outd hmo hpp
    have hq := hApair h3
    rw [hmo, hd3] at hq
    have hqq : outd.pair = d3.pair := Option.some.inj hq
    rw [hqq] at hpp
    rw [hpp, hd2] at hp3
    obtain rfl : d2 = p3 := Option.some.inj hp3
    exact hnoL h1 d1 p1 hd1 hp1 (by rw [hc1]; exact hc3.symm)
  have hwB : WF sB := wf_make_adjacent sA h2 h3 sB true hwA hside2 hma2
  obtain ⟨hBpair, hBorig⟩ := make_adjacent_ok_pointwise sA h2 h3 sB true hma2
  have hside3 : ∀ outd, mget sB.halfedges h1 = some outd → outd.pair ≠ h3 := by
    intro outd hmo hpp
    have hq := (hBpair h1).trans (hApair h1)
    rw [hmo, hd1] at hq
    have hqq : outd.pair = d1.pair := Option.some.inj hq
    rw [hqq] at hpp
    rw [hpp, hd3] at hp1
    obtain rfl : d3 = p1 := Option.some.inj hp1
    exact hnoL h2 d2 p2 hd2 hp2 (by rw [hc2]; exact hc1.symm)
  have hwC : WF sC := wf_make_adjacent sB h3 h1 sC true hwB hside3 hma3
  subst ht
  have hstep : ∀ (m : List (Nat × HalfedgeD)) (a k : Nat)
      (ff : HalfedgeD → HalfedgeD),
      mget (mmod m a ff) k = if k = a then (mget m k).map ff
        else mget m k := by
    intro m a k ff
    by_cases hk : k = a
    · subst hk; rw [mget_mmod_self, if_pos rfl]
    · rw [mget_mmod_ne _ _ _ _ hk, if_neg hk]
  refine wfu_transfer hwC
    (fun k d => if k = h1 ∨ k = h2 ∨ k = h3
      then { d with face := some sC.fresh } else d)
    (by intro k d; dsimp only; split <;> rfl)
    (by intro k d; dsimp only; split <;> rfl)
    (by intro k d; dsimp only; split <;> rfl)
    (by intro k d; dsimp only; split <;> rfl)
    (by intro k d; dsimp only; split <;> rfl) ?_ ?_ rfl rfl (Nat.le_succ _)
  · intro k
    show mget (mmod (mmod (mmod sC.halfedges h1
      (fun d => { d with face := some sC.fresh })) h2
      (fun d => { d with face := some sC.fresh })) h3
      (fun d => { d with face := some sC.fresh })) k = _
    rw [hstep, hstep, hstep]
    cases hm : mget sC.halfedges k with
    | none => split_ifs <;> rfl
    | some v =>
        simp only [Option.map_some']
        split_ifs <;> first | rfl | tauto
  · show keysOf (mmod (mmod (mmod sC.halfedges h1
      (fun d => { d with face := some sC.fresh })) h2
      (fun d => { d with face := some sC.fresh })) h3
      (fun d => { d with face := some sC.fresh })) = _
    rw [keysOf_mmod, keysOf_mmod, keysOf_mmod]

/-! ### Preservation by `attach_halfedge_to_node` and `add_edge` -/

theorem WFU_congrU {s : HDS} {U V : Nat → Prop} (w : WFU s U)
    (h : ∀ x, U x ↔ V x) : WFU s V := by
  refine { w with orK := ?_ }
  intro h' d hd
  rw [w.orK h' d hd]
  exact h h'

theorem Incoming_funs (s : HDS) (n x : Nat) :
    Incoming s n x ↔ ∃ p, pairF s x = some p ∧ origF s p = some (some n) := by
  constructor
  · rintro ⟨dx, hdx, dpx, hdpx, ho⟩
    refine ⟨dx.pair, pairF_some hdx, ?_⟩
    rw [origF_some hdpx, ho]
  · rintro ⟨p, hp, ho⟩
    unfold pairF at hp
    cases hdx : mget s.halfedges x with
    | none => rw [hdx] at hp; exact absurd hp (by simp)
    | some dx =>
        rw [hdx] at hp
        have hxp : dx.pair = p := Option.some.inj (by simpa using hp)
        unfold origF at ho
        cases hdp : mget s.halfedges p with
        | none => rw [hdp] at ho; exact absurd ho (by simp)
        | some dp =>
            rw [hdp] at ho
            refine ⟨dx, hdx, dp, ?_, ?_⟩
            · rw [hxp]; exact hdp
            · exact Option.some.inj (by simpa using ho)

theorem ffih_n_ok_inv (s : HDS) (n g : Nat)
    (h : find_free_incident_halfedge_n s n = Res.ok g) :
    ∃ nd nh nhd, mget s.nodes n = some nd ∧ nd.halfedge = some nh ∧
      mget s.halfedges nh = some nhd ∧
      ffih_node_go s nhd.pair nhd.pair (s.halfedges.length + 1) = Res.ok g := by
  unfold find_free_incident_halfedge_n at h
  cases hnd : mget s.nodes n with
  | none => simp [HDS.node?, hnd] at h
  | some nd =>
      cases hniso : nd.halfedge with
      | none => simp [HDS.node?, hnd, hniso] at h
      | some nh =>
          cases hnhd : mget s.halfedges nh with
          | none => simp [HDS.node?, hnd, hniso, HDS.he?, hnhd] at h
          | some nhd =>
              simp only [HDS.node?, hnd, hniso, HDS.he?, hnhd, Res.monad_bind,
                Res.bind_ok] at h
              exact ⟨nd, nh, nhd, rfl, hniso, hnhd, h⟩

theorem attach_ok_inv (s : HDS) (he n : Nat) (t : HDS)
    (h : attach_halfedge_to_node s he n = Res.ok t) :
    ∃ hd nd, mget s.halfedges he = some hd ∧ mget s.nodes n = some nd ∧
      ((nd.halfedge = none ∧
        t = (((s.set_origin he (some n)).set_node_halfedge n
          (some he)).set_prev he hd.pair).set_next hd.pair he) ∨
       (∃ nh g gd, nd.halfedge = some nh ∧
        find_free_incident_halfedge_n (s.set_origin he (some n)) n = Res.ok g ∧
        mget (s.set_origin he (some n)).halfedges g = some gd ∧
        t = ((((s.set_origin he (some n)).set_next g he).set_prev he
          g).set_next hd.pair gd.next).set_prev gd.next hd.pair)) := by
  unfold attach_halfedge_to_node at h
  cases hhd : mget s.halfedges he with
  | none => simp [HDS.he?, hhd] at h
  | some hd =>
      cases hnd : mget s.nodes n with
      | none => simp [HDS.he?, hhd, HDS.node?, hnd] at h
      | some nd =>
          cases hniso : nd.halfedge with
          | none =>
              simp only [HDS.he?, hhd, HDS.node?, set_origin_nodes, hnd, hniso,
                Res.monad_bind, Res.bind_ok, Res.monad_pure, Res.ok.injEq] at h
              exact ⟨hd, nd, rfl, rfl, Or.inl ⟨hniso, h.symm⟩⟩
          | some nh =>
              cases hffi : find_free_incident_halfedge_n
                  (s.set_origin he (some n)) n with
              | ok g =>
                  cases hgd : mget (s.set_origin he (some n)).halfedges g with
                  | none =>
                      simp only [HDS.he?, hhd, HDS.node?, set_origin_nodes, hnd,
                        hniso, hffi, hgd, Res.monad_bind, Res.bind_ok,
                        Res.bind_div] at h
                      exact absurd h (by simp)
                  | some gd =>
                      simp only [HDS.he?, hhd, HDS.node?, set_origin_nodes, hnd,
                        hniso, hffi, hgd, Res.monad_bind, Res.bind_ok,
                        Res.monad_pure, Res.ok.injEq] at h
                      exact ⟨hd, nd, rfl, rfl, Or.inr ⟨nh, g, gd, hniso, rfl,
                        hgd, h.symm⟩⟩
              | err e2 t2 =>
                  simp [HDS.he?, hhd, HDS.node?, hnd, hniso, hffi] at h
              | div => simp [HDS.he?, hhd, HDS.node?, hnd, hniso, hffi] at h

theorem setprev_noop (d : HalfedgeD) (v : Nat) (h : d.prev = v) :
    ({ d with prev := v } : HalfedgeD) = d := by
  subst h
  rfl

theorem setnext_noop (d : HalfedgeD) (v : Nat) (h : d.next = v) :
    ({ d with next := v } : HalfedgeD) = d := by
  subst h
  rfl

/-- Transfer of the invariant along the state change made by a successful
`attach_halfedge_to_node(he, n)`: the origin of `he` becomes `some n` and
every other origin, every pair and every edge field is preserved pointwise;
next/prev may be rewired, the node map changes at `n` only, and node `n`
ends up with a correctly-originated outgoing halfedge.  The rewired
next/prev structure, the coherence condition and the fan condition are
supplied as hypotheses. -/
theorem wfu_attach_transfer {s t : HDS} {U U2 : Nat → Prop} {he n : Nat}
    {hd : HalfedgeD} (w : WFU s U)
    (hhe : mget s.halfedges he = some hd)
    (hU : ∀ x, U x ↔ (x = he ∨ U2 x))
    (hU2he : ¬ U2 he)
    (hpdn : ∀ pd, mget s.halfedges hd.pair = some pd → pd.origin ≠ some n)
    (hpair : ∀ y, pairF t y = pairF s y)
    (hedge : ∀ y, (mget t.halfedges y).map (fun r => r.edge) =
      (mget s.halfedges y).map (fun r => r.edge))
    (horig : ∀ y, origF t y = if y = he then some (some n) else origF s y)
    (hkeys : keysOf t.halfedges = keysOf s.halfedges)
    (hnkeys : keysOf t.nodes = keysOf s.nodes)
    (hedges : t.edges = s.edges)
    (hfresh : t.fresh = s.fresh)
    (hnod : ∀ m, m ≠ n → mget t.nodes m = mget s.nodes m)
    (hnn : ∃ ndt, mget t.nodes n = some ndt ∧ ∃ nh, ndt.halfedge = some nh ∧
      ∃ nhd, mget t.halfedges nh = some nhd ∧ nhd.origin = some n)
    (hnpI : ∀ h d, mget t.halfedges h = some d →
      ∃ dn, mget t.halfedges d.next = some dn ∧ dn.prev = h)
    (hpnI : ∀ h d, mget t.halfedges h = some d →
      ∃ dv, mget t.halfedges d.prev = some dv ∧ dv.next = h)
    (hcoh : ∀ h d dn dp, mget t.halfedges h = some d →
      mget t.halfedges d.next = some dn → mget t.halfedges d.pair = some dp →
      dn.origin = dp.origin)
    (hfan : FanOK t) : WFU t U2 := by
  have hdor : hd.origin = none := (w.orK he hd hhe).mpr ((hU he).mpr (Or.inl rfl))
  have hext : ∀ {y : Nat} {dt : HalfedgeD}, mget t.halfedges y = some dt →
      ∃ ds, mget s.halfedges y = some ds ∧ dt.pair = ds.pair ∧
        dt.edge = ds.edge ∧
        dt.origin = (if y = he then some n else ds.origin) := by
    intro y dt hy
    have hp := hpair y
    unfold pairF at hp
    rw [hy] at hp
    cases hsy : mget s.halfedges y with
    | none => rw [hsy] at hp; exact absurd hp (by simp)
    | some ds =>
        rw [hsy] at hp
        have hpp : dt.pair = ds.pair := Option.some.inj (by simpa using hp)
        have hedg := hedge y
        rw [hy, hsy] at hedg
        have hee : dt.edge = ds.edge := Option.some.inj (by simpa using hedg)
        have hor := horig y
        unfold origF at hor
        rw [hy, hsy] at hor
        by_cases hyh : y = he
        · rw [if_pos hyh] at hor
          refine ⟨ds, rfl, hpp, hee, ?_⟩
          rw [if_pos hyh]
          exact Option.some.inj (by simpa using hor)
        · rw [if_neg hyh] at hor
          refine ⟨ds, rfl, hpp, hee, ?_⟩
          rw [if_neg hyh]
          exact Option.some.inj (by simpa using hor)
  have hfwd : ∀ {y : Nat} {ds : HalfedgeD}, mget s.halfedges y = some ds →
      ∃ dt, mget t.halfedges y = some dt ∧ dt.pair = ds.pair ∧
        dt.edge = ds.edge ∧
        dt.origin = (if y = he then some n else ds.origin) := by
    intro y ds hy
    have hp := (hpair y).symm
    unfold pairF at hp
    rw [hy] at hp
    cases hty : mget t.halfedges y with
    | none => rw [hty] at hp; exact absurd hp (by simp)
    | some dt =>
        obtain ⟨ds2, hds2, h1, h2, h3⟩ := hext hty
        rw [hy] at hds2
        have h4 : ds = ds2 := Option.some.inj hds2
        subst h4
        exact ⟨dt, rfl, h1, h2, h3⟩
  refine
    { ndN := by rw [hnkeys]; exact w.ndN
      ndH := by rw [hkeys]; exact w.ndH
      ndE := by rw [hedges]; exact w.ndE
      ltN := by rw [hnkeys, hfresh]; exact w.ltN
      ltH := by rw [hkeys, hfresh]; exact w.ltH
      ltE := by rw [hedges, hfresh]; exact w.ltE
      pairI := ?_
      pairN := ?_
      npI := hnpI
      pnI := hpnI
      orK := ?_
      orL := ?_
      coh := hcoh
      noL := ?_
      edO := ?_
      edH := ?_
      ndHe := ?_
      iso := ?_
      fan := hfan }
  · intro h d hdx
    obtain ⟨ds, hds, hp, -, -⟩ := hext hdx
    obtain ⟨dp0, hdp0, hpp⟩ := w.pairI h ds hds
    obtain ⟨dpt, hdpt, hp2, -, -⟩ := hfwd hdp0
    refine ⟨dpt, ?_, ?_⟩
    · rw [hp]; exact hdpt
    · rw [hp2, hpp]
  · intro h d hdx
    obtain ⟨ds, hds, hp, -, -⟩ := hext hdx
    rw [hp]
    exact w.pairN h ds hds
  · intro h d hdx
    obtain ⟨ds, hds, -, -, ho⟩ := hext hdx
    by_cases hyh : h = he
    · rw [if_pos hyh] at ho
      rw [ho]
      constructor
      · intro hc
        exact absurd hc (Option.some_ne_none n)
      · intro hc
        rw [hyh] at hc
        exact absurd hc hU2he
    · rw [if_neg hyh] at ho
      rw [ho, w.orK h ds hds, hU h]
      constructor
      · rintro (h1 | h1)
        · exact absurd h1 hyh
        · exact h1
      · exact Or.inr
  · intro h d hdx n0 hon
    obtain ⟨ds, hds, -, -, ho⟩ := hext hdx
    by_cases hyh : h = he
    · rw [if_pos hyh] at ho
      rw [ho] at hon
      have hn0 : n = n0 := Option.some.inj hon
      subst hn0
      obtain ⟨ndt, hndt, -⟩ := hnn
      exact ⟨ndt, hndt⟩
    · rw [if_neg hyh] at ho
      rw [ho] at hon
      obtain ⟨nds, hnds⟩ := w.orL h ds hds n0 hon
      by_cases hn0 : n0 = n
      · subst hn0
        obtain ⟨ndt, hndt, -⟩ := hnn
        exact ⟨ndt, hndt⟩
      · refine ⟨nds, ?_⟩
        rw [hnod n0 hn0]
        exact hnds
  · intro h d dp hdx hdp
    obtain ⟨ds, hds, hp, -, ho⟩ := hext hdx
    rw [hp] at hdp
    obtain ⟨dps, hdps, -, -, hop⟩ := hext hdp
    by_cases hyh : h = he
    · rw [if_pos hyh] at ho
      rw [hyh, hhe] at hds
      have h4 : hd = ds := Option.some.inj hds
      rw [← h4] at hdps hop
      have hpne : hd.pair ≠ he := w.pairN he hd hhe
      rw [if_neg hpne] at hop
      have hpd := hpdn dps hdps
      rw [ho, hop]
      exact Or.inr (Or.inr (fun hc => hpd hc.symm))
    · rw [if_neg hyh] at ho
      by_cases hph : ds.pair = he
      · obtain ⟨dpp, hdpp, hppq⟩ := w.pairI h ds hds
        rw [hph, hhe] at hdpp
        have h4 : hd = dpp := Option.some.inj hdpp
        rw [← h4] at hppq
        have hdso : ds.origin ≠ some n := by
          refine hpdn ds ?_
          rw [hppq]
          exact hds
        rw [if_pos hph] at hop
        rw [ho, hop]
        exact Or.inr (Or.inr hdso)
      · rw [if_neg hph] at hop
        rw [ho, hop]
        exact w.noL h ds dps hds hdps
  · intro h d hdx
    obtain ⟨ds, hds, hp, he2, -⟩ := hext hdx
    obtain ⟨edd, hedd, hca⟩ := w.edO h ds hds
    refine ⟨edd, ?_, ?_⟩
    · rw [he2, hedges]
      exact hedd
    · rw [hp]
      exact hca
  · intro e edd hedd
    rw [hedges] at hedd
    obtain ⟨d1, d2, h1, h2, hp1, hp2, he1, he2⟩ := w.edH e edd hedd
    obtain ⟨dt1, ht1, htp1, hte1, -⟩ := hfwd h1
    obtain ⟨dt2, ht2, htp2, hte2, -⟩ := hfwd h2
    exact ⟨dt1, dt2, ht1, ht2, by rw [htp1]; exact hp1,
      by rw [htp2]; exact hp2, by rw [hte1]; exact he1,
      by rw [hte2]; exact he2⟩
  · intro m ndm hndm nh hh
    by_cases hmn : m = n
    · subst hmn
      obtain ⟨ndt, hndt, nh0, hnh0, nhd, hnhd, hor⟩ := hnn
      rw [hndm] at hndt
      have h4 : ndm = ndt := Option.some.inj hndt
      rw [← h4] at hnh0
      rw [hh] at hnh0
      have h5 : nh = nh0 := Option.some.inj hnh0
      rw [h5]
      exact ⟨nhd, hnhd, hor⟩
    · rw [hnod m hmn] at hndm
      obtain ⟨nhd, hnhd, hor⟩ := w.ndHe m ndm hndm nh hh
      have hnhe : nh ≠ he := by
        intro hc
        rw [hc, hhe] at hnhd
        have h4 : hd = nhd := Option.some.inj hnhd
        rw [← h4, hdor] at hor
        exact Option.noConfusion hor
      obtain ⟨dt, hdt, -, -, ho⟩ := hfwd hnhd
      rw [if_neg hnhe] at ho
      refine ⟨dt, hdt, ?_⟩
      rw [ho]
      exact hor
  · intro m ndm hndm hni h d hdx
    by_cases hmn : m = n
    · subst hmn
      obtain ⟨ndt, hndt, nh0, hnh0, -⟩ := hnn
      rw [hndm] at hndt
      have h4 : ndm = ndt := Option.some.inj hndt
      rw [← h4] at hnh0
      rw [hni] at hnh0
      exact absurd hnh0 (by simp)
    · rw [hnod m hmn] at hndm
      obtain ⟨ds, hds, -, -, ho⟩ := hext hdx
      by_cases hyh : h = he
      · rw [if_pos hyh] at ho
        rw [ho]
        intro hc
        exact hmn (Option.some.inj hc).symm
      · rw [if_neg hyh] at ho
        rw [ho]
        exact w.iso m ndm hndm hni h ds hds

set_option maxHeartbeats 1600000 in
/-- Preservation of the invariant by `attach_halfedge_to_node`, for a stub
halfedge `he` (null origin, `prev = pair`, whose pair points back with
`next = he`) attached to a node that is not the origin of `he.pair`.  `U2`
is the set of stubs remaining afterwards (at most `he.pair`).  The
conclusion also records the resulting records of `he` and `he.pair`. -/
theorem wf_attach (s : HDS) (he n : Nat) (t : HDS) (U2 : Nat → Prop)
    (hd pd : HalfedgeD)
    (w : WFU s (fun h => h = he ∨ U2 h))
    (hU2 : ∀ u, U2 u → u = hd.pair)
    (hhe : mget s.halfedges he = some hd)
    (hpd : mget s.halfedges hd.pair = some pd)
    (hprev : hd.prev = hd.pair)
    (hpdnext : pd.next = he)
    (hpdno : pd.origin ≠ some n)
    (ht : attach_halfedge_to_node s he n = Res.ok t) :
    WFU t U2 ∧
    (∃ hd2, mget t.halfedges he = some hd2 ∧ hd2.origin = some n ∧
      hd2.next = hd.next ∧ hd2.pair = hd.pair) ∧
    (∃ pd2, mget t.halfedges hd.pair = some pd2 ∧ pd2.prev = pd.prev ∧
      pd2.pair = pd.pair) := by
  have hepne : hd.pair ≠ he := w.pairN he hd hhe
  have hU2he : ¬ U2 he := fun hc => hepne ((hU2 he hc).symm)
  have hdor : hd.origin = none := (w.orK he hd hhe).mpr (Or.inl rfl)
  have hpdpair : pd.pair = he := by
    obtain ⟨dp0, hdp0, hpp⟩ := w.pairI he hd hhe
    rw [hpd] at hdp0
    rw [Option.some.inj hdp0]
    exact hpp
  have hpdno2 : ∀ pd2, mget s.halfedges hd.pair = some pd2 →
      pd2.origin ≠ some n := by
    intro pd2 hpd2
    rw [hpd] at hpd2
    rw [← Option.some.inj hpd2]
    exact hpdno
  obtain ⟨hd0, nd0, hhd0, hnd0, hcase⟩ := attach_ok_inv s he n t ht
  rw [hhe] at hhd0
  have h40 : hd = hd0 := Option.some.inj hhd0
  subst h40
  rcases hcase with ⟨hniso, heq⟩ | ⟨nh0, g, gd, hniso, hffi, hgd, heq⟩
  · -- isolated-node branch: the two link writes are value-preserving
    have hmt : ∀ y, mget t.halfedges y =
        if y = he then some { hd with origin := some n }
        else mget s.halfedges y := by
      intro y
      rw [heq]
      simp only [set_next_halfedges, set_prev_halfedges,
        set_node_halfedge_halfedges, set_origin_halfedges]
      by_cases h1 : y = he
      · subst h1
        rw [mget_mmod_ne _ _ _ _ (Ne.symm hepne), mget_mmod_self,
          mget_mmod_self, hhe, if_pos rfl]
        simp only [Option.map_some']
        rw [hprev]
      · rw [if_neg h1]
        by_cases h2 : y = hd.pair
        · subst h2
          rw [mget_mmod_self, mget_mmod_ne _ _ _ _ h1,
            mget_mmod_ne _ _ _ _ h1, hpd]
          simp only [Option.map_some']
          rw [setnext_noop _ _ hpdnext]
        · rw [mget_mmod_ne _ _ _ _ h2, mget_mmod_ne _ _ _ _ h1,
            mget_mmod_ne _ _ _ _ h1]
    have hnodes_t : t.nodes =
        mmod s.nodes n (fun d => { d with halfedge := some he }) := by
      rw [heq]
      rfl
    have hedges_t : t.edges = s.edges := by rw [heq]; rfl
    have hfresh_t : t.fresh = s.fresh := by rw [heq]; rfl
    have hkeys_t : keysOf t.halfedges = keysOf s.halfedges := by
      rw [heq]
      simp only [set_next_halfedges, set_prev_halfedges,
        set_node_halfedge_halfedges, set_origin_halfedges]
      rw [keysOf_mmod, keysOf_mmod, keysOf_mmod]
    have hpairF : ∀ y, pairF t y = pairF s y := by
      intro y
      unfold pairF
      rw [hmt y]
      by_cases h1 : y = he
      · subst h1
        rw [if_pos rfl, hhe]
        simp only [Option.map_some']
      · rw [if_neg h1]
    have hedgeF : ∀ y, (mget t.halfedges y).map (fun r => r.edge) =
        (mget s.halfedges y).map (fun r => r.edge) := by
      intro y
      rw [hmt y]
      by_cases h1 : y = he
      · subst h1
        rw [if_pos rfl, hhe]
        simp only [Option.map_some']
      · rw [if_neg h1]
    have hnextF : ∀ y, nextF t y = nextF s y := by
      intro y
      unfold nextF
      rw [hmt y]
      by_cases h1 : y = he
      · subst h1
        rw [if_pos rfl, hhe]
        simp only [Option.map_some']
      · rw [if_neg h1]
    have hprevF : ∀ y, prevF t y = prevF s y := by
      intro y
      unfold prevF
      rw [hmt y]
      by_cases h1 : y = he
      · subst h1
        rw [if_pos rfl, hhe]
        simp only [Option.map_some']
      · rw [if_neg h1]
    have horigF : ∀ y, origF t y = if y = he then some (some n)
        else origF s y := by
      intro y
      by_cases h1 : y = he
      · rw [if_pos h1]
        unfold origF
        rw [hmt y, if_pos h1]
        simp only [Option.map_some']
      · rw [if_neg h1]
        unfold origF
        rw [hmt y, if_neg h1]
    have hws : walk_step t = walk_step s := by
      funext x
      rw [walk_step_funs, walk_step_funs, hnextF x]
      cases hnx : nextF s x with
      | none => rfl
      | some y =>
          show pairF t y = pairF s y
          exact hpairF y
    have hincn : ∀ x, Incoming t n x ↔ x = hd.pair := by
      intro x
      constructor
      · intro hx
        obtain ⟨p, hp, ho⟩ := (Incoming_funs t n x).mp hx
        rw [hpairF x] at hp
        rw [horigF p] at ho
        by_cases h1 : p = he
        · rw [h1] at hp
          unfold pairF at hp
          cases hdx : mget s.halfedges x with
          | none => rw [hdx] at hp; exact absurd hp (by simp)
          | some dx =>
              rw [hdx] at hp
              have hxp : dx.pair = he := Option.some.inj (by simpa using hp)
              obtain ⟨dpp, hdpp, hppq⟩ := w.pairI x dx hdx
              rw [hxp, hhe] at hdpp
              rw [← Option.some.inj hdpp] at hppq
              exact hppq.symm
        · rw [if_neg h1] at ho
          exfalso
          have hincs : Incoming s n x := (Incoming_funs s n x).mpr ⟨p, hp, ho⟩
          obtain ⟨dx, hdx, dpx, hdpx, ho2⟩ := hincs
          exact w.iso n nd0 hnd0 hniso dx.pair dpx hdpx ho2
      · intro h1
        subst h1
        refine (Incoming_funs t n hd.pair).mpr ⟨pd.pair, ?_, ?_⟩
        · rw [hpairF]
          exact pairF_some hpd
        · rw [horigF, hpdpair, if_pos rfl]
    have hincm : ∀ m, m ≠ n → ∀ x, Incoming t m x ↔ Incoming s m x := by
      intro m hm x
      constructor
      · intro hx
        obtain ⟨p, hp, ho⟩ := (Incoming_funs t m x).mp hx
        rw [hpairF x] at hp
        rw [horigF p] at ho
        by_cases h1 : p = he
        · rw [if_pos h1] at ho
          exact absurd (Option.some.inj (Option.some.inj ho)).symm hm
        · rw [if_neg h1] at ho
          exact (Incoming_funs s m x).mpr ⟨p, hp, ho⟩
      · intro hx
        obtain ⟨p, hp, ho⟩ := (Incoming_funs s m x).mp hx
        refine (Incoming_funs t m x).mpr ⟨p, ?_, ?_⟩
        · rw [hpairF x]
          exact hp
        · rw [horigF p]
          by_cases h1 : p = he
          · exfalso
            rw [h1, origF_some hhe, hdor] at ho
            exact Option.noConfusion (Option.some.inj ho)
          · rw [if_neg h1]
            exact ho
    have hfan : FanOK t := by
      intro m x hx
      by_cases hm : m = n
      · subst hm
        have hxd : x = hd.pair := (hincn x).mp hx
        subst hxd
        refine ⟨[hd.pair], ⟨by simp, ?_⟩, by simp, rfl, ?_⟩
        · rw [hws]
          show stepsOK (walk_step s) [hd.pair, hd.pair]
          refine stepsOK_cons.mpr ⟨?_, stepsOK_single _ _⟩
          rw [walk_step_some hpd, hpdnext, hhe]
          simp only [Option.map_some']
        · intro y
          rw [hincn y]
          simp
      · obtain ⟨L, hc, hnd2, hh, hcov⟩ := w.fan m x ((hincm m hm x).mp hx)
        refine ⟨L, ?_, hnd2, hh, ?_⟩
        · rw [hws]
          exact hc
        · intro y
          rw [hincm m hm y]
          exact hcov y
    have hnod : ∀ m, m ≠ n → mget t.nodes m = mget s.nodes m := by
      intro m hm
      rw [hnodes_t]
      exact mget_mmod_ne _ _ _ _ hm
    have hnn : ∃ ndt, mget t.nodes n = some ndt ∧ ∃ nh, ndt.halfedge = some nh ∧
        ∃ nhd, mget t.halfedges nh = some nhd ∧ nhd.origin = some n := by
      refine ⟨{ nd0 with halfedge := some he }, ?_, he, rfl, ?_⟩
      · rw [hnodes_t, mget_mmod_self, hnd0]
        rfl
      · refine ⟨{ hd with origin := some n }, ?_, rfl⟩
        rw [hmt he, if_pos rfl]
    have hf1 : ∀ x y, nextF t x = some y → prevF t y = some x := by
      intro x y hxy
      rw [hnextF x] at hxy
      rw [hprevF y]
      exact funs_of_npI w x y hxy
    have hf2 : ∀ x y, prevF t x = some y → nextF t y = some x := by
      intro x y hxy
      rw [hprevF x] at hxy
      rw [hnextF y]
      exact funs_of_pnI w x y hxy
    have hcohf : ∀ x y z, nextF t x = some y → pairF t x = some z →
        origF t y = origF t z := by
      intro x y z hy hz
      rw [hnextF x] at hy
      rw [hpairF x] at hz
      rw [horigF y, horigF z]
      by_cases h1 : y = he
      · by_cases h2 : z = he
        · rw [if_pos h1, if_pos h2]
        · exfalso
          rw [h1] at hy
          have hpx := funs_of_npI w x he hy
          rw [prevF_some hhe] at hpx
          have h3 : hd.prev = x := Option.some.inj hpx
          have hxval : x = hd.pair := by
            rw [← h3]
            exact hprev
          rw [hxval, pairF_some hpd, hpdpair] at hz
          exact h2 (Option.some.inj hz).symm
      · by_cases h2 : z = he
        · exfalso
          rw [h2] at hz
          have hxval : x = hd.pair := by
            unfold pairF at hz
            cases hdx : mget s.halfedges x with
            | none => rw [hdx] at hz; exact absurd hz (by simp)
            | some dx =>
                rw [hdx] at hz
                have hxp : dx.pair = he := Option.some.inj (by simpa using hz)
                obtain ⟨dpp, hdpp, hppq⟩ := w.pairI x dx hdx
                rw [hxp, hhe] at hdpp
                rw [← Option.some.inj hdpp] at hppq
                exact hppq.symm
          rw [hxval, nextF_some hpd, hpdnext] at hy
          exact h1 (Option.some.inj hy).symm
        · rw [if_neg h1, if_neg h2]
          exact funs_of_coh w x y z hy hz
    have hwt : WFU t U2 := by
      refine wfu_attach_transfer w hhe (fun x => Iff.rfl) hU2he hpdno2 hpairF
        hedgeF horigF hkeys_t ?_ hedges_t hfresh_t hnod hnn
        (npI_from_funs hf1) (pnI_from_funs hf2) (coh_from_funs hcohf) hfan
      rw [hnodes_t]
      exact keysOf_mmod _ _ _
    refine ⟨hwt, ⟨{ hd with origin := some n }, ?_, rfl, rfl, rfl⟩,
      ⟨pd, ?_, rfl, rfl⟩⟩
    · rw [hmt he, if_pos rfl]
    · rw [hmt hd.pair, if_neg hepne]
      exact hpd
  · -- non-isolated branch: the bounded fan walk found a free halfedge g
    have hs0n : (s.set_origin he (some n)).nodes = s.nodes := rfl
    have hws0 : ∀ x, walk_step (s.set_origin he (some n)) x = walk_step s x :=
      fun x => walk_step_set_origin s he (some n) x
    obtain ⟨ndA, nhA, nhdA, hndA, hhA, hnhdA, hgo⟩ :=
      ffih_n_ok_inv (s.set_origin he (some n)) n g hffi
    rw [hs0n, hnd0] at hndA
    have h41 : nd0 = ndA := Option.some.inj hndA
    subst h41
    rw [hniso] at hhA
    have h42 : nh0 = nhA := Option.some.inj hhA
    subst h42
    obtain ⟨nhd, hnhd, hnho⟩ := w.ndHe n nd0 hnd0 nh0 hniso
    have hnh0ne : nh0 ≠ he := by
      intro hc
      rw [hc, hhe] at hnhd
      rw [← Option.some.inj hnhd, hdor] at hnho
      exact Option.noConfusion hnho
    have hs0get : ∀ y, y ≠ he → mget (s.set_origin he (some n)).halfedges y =
        mget s.halfedges y := by
      intro y hy
      simp only [set_origin_halfedges]
      exact mget_mmod_ne _ _ _ _ hy
    rw [hs0get nh0 hnh0ne, hnhd] at hnhdA
    have h43 : nhd = nhdA := Option.some.inj hnhdA
    subst h43
    have hstart : Incoming s n nhd.pair := by
      obtain ⟨dpp, hdpp, hppq⟩ := w.pairI nh0 nhd hnhd
      refine ⟨dpp, hdpp, nhd, ?_, hnho⟩
      rw [hppq]
      exact hnhd
    have hQstep : ∀ x, Incoming s n x → ∀ y,
        walk_step (s.set_origin he (some n)) x = some y → Incoming s n y := by
      intro x hx y hy
      rw [hws0 x] at hy
      obtain ⟨y2, hy2, hy3⟩ := incoming_step w hx
      rw [hy2] at hy
      rw [← Option.some.inj hy]
      exact hy3
    obtain ⟨hQg, gd2, hgd2, hgf⟩ :=
      ffih_node_go_ok (s.set_origin he (some n)) nhd.pair (Incoming s n)
        hQstep ((s.set_origin he (some n)).halfedges.length + 1) nhd.pair g
        hstart hgo
    have hghe : g ≠ he := by
      intro hc
      rw [hc] at hQg
      obtain ⟨dx, hdx, dpx, hdpx, ho2⟩ := hQg
      rw [hhe] at hdx
      rw [← Option.some.inj hdx] at hdpx
      rw [hpd] at hdpx
      rw [← Option.some.inj hdpx] at ho2
      exact hpdno ho2
    have hgep : g ≠ hd.pair := by
      intro hc
      rw [hc] at hQg
      obtain ⟨dx, hdx, dpx, hdpx, ho2⟩ := hQg
      rw [hpd] at hdx
      rw [← Option.some.inj hdx] at hdpx
      rw [hpdpair, hhe] at hdpx
      rw [← Option.some.inj hdpx, hdor] at ho2
      exact Option.noConfusion ho2
    rw [hs0get g hghe] at hgd
    rw [hs0get g hghe, hgd] at hgd2
    have h44 : gd = gd2 := Option.some.inj hgd2
    subst h44
    have hgor : gd.origin ≠ none := by
      intro hc
      rcases (w.orK g gd hgd).mp hc with h5 | h5
      · exact hghe h5
      · exact hgep (hU2 g h5)
    have hwne : gd.next ≠ g := wf_next_ne_self w hgd hgor
    obtain ⟨wd, hwd, hwdp⟩ := w.npI g gd hgd
    have hwhe : gd.next ≠ he := by
      intro hc
      rw [hc, hhe] at hwd
      rw [← Option.some.inj hwd, hprev] at hwdp
      exact hgep hwdp.symm
    have hwep : gd.next ≠ hd.pair := by
      intro hc
      obtain ⟨dx, hdx, dpx, hdpx, ho2⟩ := hQg
      rw [hgd] at hdx
      rw [← Option.some.inj hdx] at hdpx
      have hcoh0 := w.coh g gd wd dpx hgd hwd hdpx
      rw [hc, hpd] at hwd
      rw [← Option.some.inj hwd] at hcoh0
      rw [ho2] at hcoh0
      exact hpdno hcoh0
    have hepg : hd.pair ≠ g := fun hc => hgep hc.symm
    have hepw : hd.pair ≠ gd.next := fun hc => hwep hc.symm
    have hhew : he ≠ gd.next := fun hc => hwhe hc.symm
    have hheg : he ≠ g := fun hc => hghe hc.symm
    have hmt : ∀ y, mget t.halfedges y =
        if y = he then some { hd with origin := some n, prev := g }
        else if y = g then some { gd with next := he }
        else if y = hd.pair then some { pd with next := gd.next }
        else if y = gd.next then some { wd with prev := hd.pair }
        else mget s.halfedges y := by
      intro y
      rw [heq]
      simp only [set_next_halfedges, set_prev_halfedges, set_origin_halfedges]
      by_cases h1 : y = he
      · subst h1
        rw [mget_mmod_ne _ _ _ _ hhew, mget_mmod_ne _ _ _ _ (Ne.symm hepne),
          mget_mmod_self, mget_mmod_ne _ _ _ _ hheg, mget_mmod_self, hhe,
          if_pos rfl]
        simp only [Option.map_some']
      · rw [if_neg h1]
        by_cases h2 : y = g
        · subst h2
          rw [mget_mmod_ne _ _ _ _ (Ne.symm hwne), mget_mmod_ne _ _ _ _ hgep,
            mget_mmod_ne _ _ _ _ hghe, mget_mmod_self,
            mget_mmod_ne _ _ _ _ hghe, hgd, if_pos rfl]
          simp only [Option.map_some']
        · rw [if_neg h2]
          by_cases h3 : y = hd.pair
          · subst h3
            rw [mget_mmod_ne _ _ _ _ hepw, mget_mmod_self,
              mget_mmod_ne _ _ _ _ hepne, mget_mmod_ne _ _ _ _ hepg,
              mget_mmod_ne _ _ _ _ hepne, hpd, if_pos rfl]
            simp only [Option.map_some']
          · rw [if_neg h3]
            by_cases h4 : y = gd.next
            · subst h4
              rw [mget_mmod_self, mget_mmod_ne _ _ _ _ h3,
                mget_mmod_ne _ _ _ _ h1, mget_mmod_ne _ _ _ _ h2,
                mget_mmod_ne _ _ _ _ h1, hwd, if_pos rfl]
              simp only [Option.map_some']
            · rw [if_neg h4, mget_mmod_ne _ _ _ _ h4,
                mget_mmod_ne _ _ _ _ h3, mget_mmod_ne _ _ _ _ h1,
                mget_mmod_ne _ _ _ _ h2, mget_mmod_ne _ _ _ _ h1]
    have hnodes_t : t.nodes = s.nodes := by rw [heq]; rfl
    have hedges_t : t.edges = s.edges := by rw [heq]; rfl
    have hfresh_t : t.fresh = s.fresh := by rw [heq]; rfl
    have hkeys_t : keysOf t.halfedges = keysOf s.halfedges := by
      rw [heq]
      simp only [set_next_halfedges, set_prev_halfedges, set_origin_halfedges]
      rw [keysOf_mmod, keysOf_mmod, keysOf_mmod, keysOf_mmod, keysOf_mmod]
    have hpairF : ∀ y, pairF t y = pairF s y := by
      intro y
      unfold pairF
      rw [hmt y]
      by_cases h1 : y = he
      · subst h1
        rw [if_pos rfl, hhe]
        simp only [Option.map_some']
      · rw [if_neg h1]
        by_cases h2 : y = g
        · subst h2
          rw [if_pos rfl, hgd]
          simp only [Option.map_some']
        · rw [if_neg h2]
          by_cases h3 : y = hd.pair
          · subst h3
            rw [if_pos rfl, hpd]
            simp only [Option.map_some']
          · rw [if_neg h3]
            by_cases h4 : y = gd.next
            · subst h4
              rw [if_pos rfl, hwd]
              simp only [Option.map_some']
            · rw [if_neg h4]
    have hedgeF : ∀ y, (mget t.halfedges y).map (fun r => r.edge) =
        (mget s.halfedges y).map (fun r => r.edge) := by
      intro y
      rw [hmt y]
      by_cases h1 : y = he
      · subst h1
        rw [if_pos rfl, hhe]
        simp only [Option.map_some']
      · rw [if_neg h1]
        by_cases h2 : y = g
        · subst h2
          rw [if_pos rfl, hgd]
          simp only [Option.map_some']
        · rw [if_neg h2]
          by_cases h3 : y = hd.pair
          · subst h3
            rw [if_pos rfl, hpd]
            simp only [Option.map_some']
          · rw [if_neg h3]
            by_cases h4 : y = gd.next
            · subst h4
              rw [if_pos rfl, hwd]
              simp only [Option.map_some']
            · rw [if_neg h4]
    have horigF : ∀ y, origF t y = if y = he then some (some n)
        else origF s y := by
      intro y
      by_cases h1 : y = he
      · rw [if_pos h1]
        unfold origF
        rw [hmt y, if_pos h1]
        simp only [Option.map_some']
      · rw [if_neg h1]
        unfold origF
        rw [hmt y, if_neg h1]
        by_cases h2 : y = g
        · subst h2
          rw [if_pos rfl, hgd]
          simp only [Option.map_some']
        · rw [if_neg h2]
          by_cases h3 : y = hd.pair
          · subst h3
            rw [if_pos rfl, hpd]
            simp only [Option.map_some']
          · rw [if_neg h3]
            by_cases h4 : y = gd.next
            · subst h4
              rw [if_pos rfl, hwd]
              simp only [Option.map_some']
            · rw [if_neg h4]
    have hnextFt : ∀ y, nextF t y =
        if y = g then some he
        else if y = hd.pair then some gd.next
        else nextF s y := by
      intro y
      unfold nextF
      rw [hmt y]
      by_cases h1 : y = he
      · subst h1
        simp only [eq_self_iff_true, if_true, if_neg hheg,
          if_neg (Ne.symm hepne), hhe, Option.map_some']
      · rw [if_neg h1]
        by_cases h2 : y = g
        · subst h2
          simp only [eq_self_iff_true, if_true, Option.map_some']
        · rw [if_neg h2, if_neg h2]
          by_cases h3 : y = hd.pair
          · subst h3
            simp only [eq_self_iff_true, if_true, Option.map_some']
          · rw [if_neg h3, if_neg h3]
            by_cases h4 : y = gd.next
            · subst h4
              rw [if_pos rfl, hwd]
              simp only [Option.map_some']
            · rw [if_neg h4]
    have hprevFt : ∀ y, prevF t y =
        if y = he then some g
        else if y = gd.next then some hd.pair
        else prevF s y := by
      intro y
      unfold prevF
      rw [hmt y]
      by_cases h1 : y = he
      · subst h1
        simp only [eq_self_iff_true, if_true, Option.map_some']
      · rw [if_neg h1, if_neg h1]
        by_cases h2 : y = g
        · subst h2
          rw [if_pos rfl, if_neg (Ne.symm hwne), hgd]
          simp only [Option.map_some']
        · rw [if_neg h2]
          by_cases h3 : y = hd.pair
          · subst h3
            rw [if_pos rfl, if_neg hepw, hpd]
            simp only [Option.map_some']
          · rw [if_neg h3]
            by_cases h4 : y = gd.next
            · subst h4
              rw [if_pos rfl, if_pos rfl]
              simp only [Option.map_some']
            · rw [if_neg h4, if_neg h4]
    have hf1 : ∀ x y, nextF t x = some y → prevF t y = some x := by
      intro x y hxy
      rw [hnextFt x] at hxy
      rw [hprevFt y]
      by_cases h2 : x = g
      · rw [if_pos h2] at hxy
        have hy : y = he := (Option.some.inj hxy).symm
        rw [if_pos hy, h2]
      · rw [if_neg h2] at hxy
        by_cases h3 : x = hd.pair
        · rw [if_pos h3] at hxy
          have hy : y = gd.next := (Option.some.inj hxy).symm
          have hyne : y ≠ he := by rw [hy]; exact hwhe
          rw [if_neg hyne, if_pos hy, h3]
        · rw [if_neg h3] at hxy
          have hps := funs_of_npI w x y hxy
          by_cases h4 : y = he
          · exfalso
            rw [h4, prevF_some hhe, hprev] at hps
            exact h3 (Option.some.inj hps).symm
          · rw [if_neg h4]
            by_cases h5 : y = gd.next
            · exfalso
              rw [h5, prevF_some hwd] at hps
              rw [hwdp] at hps
              exact h2 (Option.some.inj hps).symm
            · rw [if_neg h5]
              exact hps
    have hf2 : ∀ x y, prevF t x = some y → nextF t y = some x := by
      intro x y hxy
      rw [hprevFt x] at hxy
      rw [hnextFt y]
      by_cases h2 : x = he
      · rw [if_pos h2] at hxy
        have hy : y = g := (Option.some.inj hxy).symm
        rw [if_pos hy, h2]
      · rw [if_neg h2] at hxy
        by_cases h3 : x = gd.next
        · rw [if_pos h3] at hxy
          have hy : y = hd.pair := (Option.some.inj hxy).symm
          have hyne : y ≠ g := by rw [hy]; exact hepg
          rw [if_neg hyne, if_pos hy, h3]
        · rw [if_neg h3] at hxy
          have hns := funs_of_pnI w x y hxy
          by_cases h4 : y = g
          · exfalso
            rw [h4, nextF_some hgd] at hns
            exact h3 (Option.some.inj hns).symm
          · rw [if_neg h4]
            by_cases h5 : y = hd.pair
            · exfalso
              rw [h5, nextF_some hpd, hpdnext] at hns
              exact h2 (Option.some.inj hns).symm
            · rw [if_neg h5]
              exact hns
    have hcohf : ∀ x y z, nextF t x = some y → pairF t x = some z →
        origF t y = origF t z := by
      intro x y z hy hz
      rw [hnextFt x] at hy
      rw [hpairF x] at hz
      rw [horigF y, horigF z]
      by_cases h2 : x = g
      · rw [if_pos h2] at hy
        have hye : y = he := (Option.some.inj hy).symm
        rw [if_pos hye]
        rw [h2, pairF_some hgd] at hz
        have hze : z = gd.pair := (Option.some.inj hz).symm
        have hzne : z ≠ he := by
          rw [hze]
          intro hc
          obtain ⟨dpp, hdpp, hppq⟩ := w.pairI g gd hgd
          rw [hc, hhe] at hdpp
          rw [← Option.some.inj hdpp] at hppq
          exact hgep hppq.symm
        rw [if_neg hzne, hze]
        obtain ⟨dx, hdx, dpx, hdpx, ho2⟩ := hQg
        rw [hgd] at hdx
        rw [← Option.some.inj hdx] at hdpx
        rw [origF_some hdpx, ho2]
      · rw [if_neg h2] at hy
        by_cases h3 : x = hd.pair
        · rw [if_pos h3] at hy
          have hye : y = gd.next := (Option.some.inj hy).symm
          have hyne : y ≠ he := by rw [hye]; exact hwhe
          rw [if_neg hyne, hye]
          rw [h3, pairF_some hpd, hpdpair] at hz
          have hze : z = he := (Option.some.inj hz).symm
          rw [if_pos hze]
          obtain ⟨dx, hdx, dpx, hdpx, ho2⟩ := hQg
          rw [hgd] at hdx
          rw [← Option.some.inj hdx] at hdpx
          have hcoh0 := w.coh g gd wd dpx hgd hwd hdpx
          rw [origF_some hwd, hcoh0, ho2]
        · rw [if_neg h3] at hy
          by_cases h4 : y = he
          · exfalso
            have hps := funs_of_npI w x y hy
            rw [h4, prevF_some hhe, hprev] at hps
            exact h3 (Option.some.inj hps).symm
          · rw [if_neg h4]
            by_cases h5 : z = he
            · exfalso
              rw [h5] at hz
              unfold pairF at hz
              cases hdx : mget s.halfedges x with
              | none => rw [hdx] at hz; exact absurd hz (by simp)
              | some dx =>
                  rw [hdx] at hz
                  have hxp : dx.pair = he :=
                    Option.some.inj (by simpa using hz)
                  obtain ⟨dpp, hdpp, hppq⟩ := w.pairI x dx hdx
                  rw [hxp, hhe] at hdpp
                  rw [← Option.some.inj hdpp] at hppq
                  exact h3 hppq.symm
            · rw [if_neg h5]
              exact funs_of_coh w x y z hy hz
    have hwst : ∀ x, x ≠ g → x ≠ hd.pair → walk_step t x = walk_step s x := by
      intro x hx1 hx2
      rw [walk_step_funs, walk_step_funs, hnextFt x, if_neg hx1, if_neg hx2]
      cases hnx : nextF s x with
      | none => rfl
      | some y =>
          show pairF t y = pairF s y
          exact hpairF y
    have hwsg : walk_step t g = some hd.pair := by
      rw [walk_step_funs, hnextFt g, if_pos rfl]
      show pairF t he = some hd.pair
      rw [hpairF he, pairF_some hhe]
    have hwsep : walk_step t hd.pair = walk_step s g := by
      rw [walk_step_funs, hnextFt hd.pair, if_neg hepg, if_pos rfl,
        walk_step_funs, nextF_some hgd]
      show pairF t gd.next = pairF s gd.next
      exact hpairF gd.next
    have hincn : ∀ x, Incoming t n x ↔ (Incoming s n x ∨ x = hd.pair) := by
      intro x
      constructor
      · intro hx
        obtain ⟨p, hp, ho⟩ := (Incoming_funs t n x).mp hx
        rw [hpairF x] at hp
        rw [horigF p] at ho
        by_cases h1 : p = he
        · right
          rw [h1] at hp
          unfold pairF at hp
          cases hdx : mget s.halfedges x with
          | none => rw [hdx] at hp; exact absurd hp (by simp)
          | some dx =>
              rw [hdx] at hp
              have hxp : dx.pair = he := Option.some.inj (by simpa using hp)
              obtain ⟨dpp, hdpp, hppq⟩ := w.pairI x dx hdx
              rw [hxp, hhe] at hdpp
              rw [← Option.some.inj hdpp] at hppq
              exact hppq.symm
        · rw [if_neg h1] at ho
          exact Or.inl ((Incoming_funs s n x).mpr ⟨p, hp, ho⟩)
      · intro hx
        rcases hx with hx | hx
        · obtain ⟨p, hp, ho⟩ := (Incoming_funs s n x).mp hx
          refine (Incoming_funs t n x).mpr ⟨p, ?_, ?_⟩
          · rw [hpairF x]
            exact hp
          · rw [horigF p]
            by_cases h1 : p = he
            · exfalso
              rw [h1, origF_some hhe, hdor] at ho
              exact Option.noConfusion (Option.some.inj ho)
            · rw [if_neg h1]
              exact ho
        · subst hx
          refine (Incoming_funs t n hd.pair).mpr ⟨pd.pair, ?_, ?_⟩
          · rw [hpairF]
            exact pairF_some hpd
          · rw [horigF, hpdpair, if_pos rfl]
    have hincm : ∀ m, m ≠ n → ∀ x, Incoming t m x ↔ Incoming s m x := by
      intro m hm x
      constructor
      · intro hx
        obtain ⟨p, hp, ho⟩ := (Incoming_funs t m x).mp hx
        rw [hpairF x] at hp
        rw [horigF p] at ho
        by_cases h1 : p = he
        · rw [if_pos h1] at ho
          exact absurd (Option.some.inj (Option.some.inj ho)).symm hm
        · rw [if_neg h1] at ho
          exact (Incoming_funs s m x).mpr ⟨p, hp, ho⟩
      · intro hx
        obtain ⟨p, hp, ho⟩ := (Incoming_funs s m x).mp hx
        refine (Incoming_funs t m x).mpr ⟨p, ?_, ?_⟩
        · rw [hpairF x]
          exact hp
        · rw [horigF p]
          by_cases h1 : p = he
          · exfalso
            rw [h1, origF_some hhe, hdor] at ho
            exact Option.noConfusion (Option.some.inj ho)
          · rw [if_neg h1]
            exact ho
    have hepnotinc : ∀ m, ¬ Incoming s m hd.pair := by
      intro m hc
      obtain ⟨dx, hdx, dpx, hdpx, ho2⟩ := hc
      rw [hpd] at hdx
      rw [← Option.some.inj hdx] at hdpx
      rw [hpdpair, hhe] at hdpx
      rw [← Option.some.inj hdpx, hdor] at ho2
      exact Option.noConfusion ho2
    have hfan : FanOK t := by
      intro m x hx
      by_cases hm : m = n
      · subst hm
        obtain ⟨L, hc, hndL, hhL, hcov⟩ := w.fan m g hQg
        obtain ⟨T, hT⟩ : ∃ T, L = g :: T := by
          cases L with
          | nil => exact absurd rfl hc.1
          | cons a T =>
              refine ⟨T, ?_⟩
              rw [← hhL]
              rfl
        subst hT
        have hnc : cycOK (walk_step t) (g :: hd.pair :: T) := by
          refine cycOK_insert hc hndL hwsg hwsep ?_
          intro x2 hx2
          have hx2g : x2 ≠ g := by
            intro hcx
            rw [hcx] at hx2
            exact (List.nodup_cons.mp hndL).1 hx2
          have hx2e : x2 ≠ hd.pair := by
            intro hcx
            rw [hcx] at hx2
            exact hepnotinc m
              ((hcov hd.pair).mpr (List.mem_cons_of_mem g hx2))
          exact hwst x2 hx2g hx2e
        have hndn : (g :: hd.pair :: T).Nodup := by
          refine List.nodup_cons.mpr ⟨?_, List.nodup_cons.mpr
            ⟨?_, (List.nodup_cons.mp hndL).2⟩⟩
          · intro hcx
            rcases List.mem_cons.mp hcx with h5 | h5
            · exact hgep h5
            · exact (List.nodup_cons.mp hndL).1 h5
          · intro hcx
            exact hepnotinc m
              ((hcov hd.pair).mpr (List.mem_cons_of_mem g hcx))
        have hcovn : ∀ y, Incoming t m y ↔ y ∈ g :: hd.pair :: T := by
          intro y
          rw [hincn y]
          constructor
          · rintro (h5 | h5)
            · rcases List.mem_cons.mp ((hcov y).mp h5) with h6 | h6
              · rw [h6]
                exact List.mem_cons_self _ _
              · exact List.mem_cons_of_mem _ (List.mem_cons_of_mem _ h6)
            · rw [h5]
              exact List.mem_cons_of_mem _ (List.mem_cons_self _ _)
          · intro h5
            rcases List.mem_cons.mp h5 with h6 | h6
            · rw [h6]
              exact Or.inl hQg
            · rcases List.mem_cons.mp h6 with h7 | h7
              · exact Or.inr h7
              · exact Or.inl ((hcov y).mpr (List.mem_cons_of_mem _ h7))
        have hxmem : x ∈ g :: hd.pair :: T := (hcovn x).mp hx
        obtain ⟨L1, L2, hsplit, hrot⟩ := cycOK_rotate hnc hxmem
        refine ⟨x :: (L2 ++ L1), hrot, ?_, rfl, ?_⟩
        · refine rotate_nodup ?_
          rw [← hsplit]
          exact hndn
        · intro y
          rw [hcovn y, hsplit]
          exact rotate_mem.symm
      · obtain ⟨L, hcL, hndL, hhL, hcov⟩ := w.fan m x ((hincm m hm x).mp hx)
        refine ⟨L, ?_, hndL, hhL, ?_⟩
        · refine cycOK_congr ?_ hcL
          intro y hy
          have hy1 : y ≠ g := by
            intro hcx
            rw [hcx] at hy
            exact hm (incoming_unique ((hcov g).mpr hy) hQg)
          have hy2 : y ≠ hd.pair := by
            intro hcx
            rw [hcx] at hy
            exact hepnotinc m ((hcov hd.pair).mpr hy)
          exact (hwst y hy1 hy2).symm
        · intro y
          rw [hincm m hm y]
          exact hcov y
    have hnod : ∀ m, m ≠ n → mget t.nodes m = mget s.nodes m := by
      intro m hm
      rw [hnodes_t]
    have hnn : ∃ ndt, mget t.nodes n = some ndt ∧ ∃ nh, ndt.halfedge = some nh ∧
        ∃ nhd, mget t.halfedges nh = some nhd ∧ nhd.origin = some n := by
      refine ⟨nd0, by rw [hnodes_t]; exact hnd0, nh0, hniso, ?_⟩
      have h5 := horigF nh0
      rw [if_neg hnh0ne, origF_some hnhd, hnho] at h5
      unfold origF at h5
      cases h6 : mget t.halfedges nh0 with
      | none => rw [h6] at h5; exact absurd h5 (by simp)
      | some nhd2 =>
          rw [h6] at h5
          exact ⟨nhd2, rfl, Option.some.inj (by simpa using h5)⟩
    have hwt : WFU t U2 := by
      refine wfu_attach_transfer w hhe (fun x => Iff.rfl) hU2he hpdno2 hpairF
        hedgeF horigF hkeys_t ?_ hedges_t hfresh_t hnod hnn
        (npI_from_funs hf1) (pnI_from_funs hf2) (coh_from_funs hcohf) hfan
      rw [hnodes_t]
    refine ⟨hwt, ⟨{ hd with origin := some n, prev := g }, ?_, rfl, rfl, rfl⟩,
      ⟨{ pd with next := gd.next }, ?_, rfl, rfl⟩⟩
    · rw [hmt he, if_pos rfl]
    · rw [hmt hd.pair, if_neg hepne, if_neg hepg, if_pos rfl]

set_option maxHeartbeats 1000000 in
/-- Allocating a fresh edge inserts two pristine stub halfedges; the
invariant holds with the two stubs tracked as unattached. -/
theorem wf_get_new_edge (s : HDS) (w : WF s) :
    WFU (s.get_new_edge).1 (fun h => h = s.fresh ∨ h = s.fresh + 1) := by
  have hAh : (s.get_new_edge).1.halfedges =
      (s.fresh, ⟨none, s.fresh + 1, s.fresh + 1, s.fresh + 1, s.fresh + 2,
        none⟩) ::
      (s.fresh + 1, ⟨none, s.fresh, s.fresh, s.fresh, s.fresh + 2, none⟩) ::
      s.halfedges := rfl
  have hAe : (s.get_new_edge).1.edges =
      (s.fresh + 2, ⟨s.fresh, s.fresh + 1⟩) :: s.edges := rfl
  have hAn : (s.get_new_edge).1.nodes = s.nodes := rfl
  have hAf : (s.get_new_edge).1.fresh = s.fresh + 3 := rfl
  have hH : ∀ y, mget (s.get_new_edge).1.halfedges y =
      if y = s.fresh then
        some ⟨none, s.fresh + 1, s.fresh + 1, s.fresh + 1, s.fresh + 2, none⟩
      else if y = s.fresh + 1 then
        some ⟨none, s.fresh, s.fresh, s.fresh, s.fresh + 2, none⟩
      else mget s.halfedges y := by
    intro y
    rw [hAh]
    by_cases h1 : y = s.fresh
    · subst h1
      rw [if_pos rfl]
      simp [mget]
    · rw [if_neg h1]
      by_cases h2 : y = s.fresh + 1
      · subst h2
        rw [if_pos rfl, mget_cons_ne _ _ _ _ (by omega)]
        simp [mget]
      · rw [if_neg h2, mget_cons_ne _ _ _ _ (fun hc => h1 hc.symm),
          mget_cons_ne _ _ _ _ (fun hc => h2 hc.symm)]
  have hE : ∀ y, mget (s.get_new_edge).1.edges y =
      if y = s.fresh + 2 then some ⟨s.fresh, s.fresh + 1⟩
      else mget s.edges y := by
    intro y
    rw [hAe]
    by_cases h1 : y = s.fresh + 2
    · subst h1
      rw [if_pos rfl]
      simp [mget]
    · rw [if_neg h1, mget_cons_ne _ _ _ _ (fun hc => h1 hc.symm)]
  have hieq : ∀ m x, Incoming (s.get_new_edge).1 m x ↔ Incoming s m x := by
    intro m x
    constructor
    · rintro ⟨dx, hdx, dpx, hdpx, ho⟩
      rw [hH x] at hdx
      by_cases h1 : x = s.fresh
      · rw [if_pos h1] at hdx
        obtain rfl := Option.some.inj hdx
        have hdpx2 : mget (s.get_new_edge).1.halfedges (s.fresh + 1) =
            some dpx := hdpx
        rw [hH, if_neg (by omega), if_pos rfl] at hdpx2
        obtain rfl := Option.some.inj hdpx2
        exact absurd ho (by simp)
      · rw [if_neg h1] at hdx
        by_cases h2 : x = s.fresh + 1
        · rw [if_pos h2] at hdx
          obtain rfl := Option.some.inj hdx
          have hdpx2 : mget (s.get_new_edge).1.halfedges s.fresh =
              some dpx := hdpx
          rw [hH, if_pos rfl] at hdpx2
          obtain rfl := Option.some.inj hdpx2
          exact absurd ho (by simp)
        · rw [if_neg h2] at hdx
          obtain ⟨dp0, hdp0, -⟩ := w.pairI x dx hdx
          have hlt := w.ltH dx.pair (mem_keysOf_of_mget hdp0)
          rw [hH, if_neg (by omega), if_neg (by omega)] at hdpx
          exact ⟨dx, hdx, dpx, hdpx, ho⟩
    · rintro ⟨dx, hdx, dpx, hdpx, ho⟩
      have hltx := w.ltH x (mem_keysOf_of_mget hdx)
      have hltp := w.ltH dx.pair (mem_keysOf_of_mget hdpx)
      refine ⟨dx, ?_, dpx, ?_, ho⟩
      · rw [hH, if_neg (by omega), if_neg (by omega)]
        exact hdx
      · rw [hH, if_neg (by omega), if_neg (by omega)]
        exact hdpx
  have hwalk : ∀ x dx, mget s.halfedges x = some dx →
      walk_step (s.get_new_edge).1 x = walk_step s x := by
    intro x dx hdx
    have hltx := w.ltH x (mem_keysOf_of_mget hdx)
    have hx2 : mget (s.get_new_edge).1.halfedges x = some dx := by
      rw [hH, if_neg (by omega), if_neg (by omega)]
      exact hdx
    obtain ⟨dn, hdn, -⟩ := w.npI x dx hdx
    have hltn := w.ltH dx.next (mem_keysOf_of_mget hdn)
    rw [walk_step_some hx2, walk_step_some hdx]
    rw [hH, if_neg (by omega), if_neg (by omega)]
  refine
    { ndN := ?_
      ndH := ?_
      ndE := ?_
      ltN := ?_
      ltH := ?_
      ltE := ?_
      pairI := ?_
      pairN := ?_
      npI := ?_
      pnI := ?_
      orK := ?_
      orL := ?_
      coh := ?_
      noL := ?_
      edO := ?_
      edH := ?_
      ndHe := ?_
      iso := ?_
      fan := ?_ }
  · rw [hAn]
    exact w.ndN
  · rw [hAh]
    show (s.fresh :: (s.fresh + 1) :: keysOf s.halfedges).Nodup
    refine List.nodup_cons.mpr ⟨?_, List.nodup_cons.mpr ⟨?_, w.ndH⟩⟩
    · intro hc
      rcases List.mem_cons.mp hc with h5 | h5
      · omega
      · have := w.ltH _ h5
        omega
    · intro hc
      have := w.ltH _ hc
      omega
  · rw [hAe]
    show ((s.fresh + 2) :: keysOf s.edges).Nodup
    refine List.nodup_cons.mpr ⟨?_, w.ndE⟩
    intro hc
    have := w.ltE _ hc
    omega
  · rw [hAn, hAf]
    intro k hk
    have := w.ltN k hk
    omega
  · rw [hAf]
    intro k hk
    have hk2 : k = s.fresh ∨ k = s.fresh + 1 ∨ k ∈ keysOf s.halfedges := by
      simpa [hAh, keysOf] using hk
    rcases hk2 with h5 | h5 | h5
    · omega
    · omega
    · have := w.ltH k h5
      omega
  · rw [hAf]
    intro k hk
    have hk2 : k = s.fresh + 2 ∨ k ∈ keysOf s.edges := by
      simpa [hAe, keysOf] using hk
    rcases hk2 with h5 | h5
    · omega
    · have := w.ltE k h5
      omega
  · intro h d hd
    rw [hH h] at hd
    by_cases h1 : h = s.fresh
    · rw [if_pos h1] at hd
      obtain rfl := Option.some.inj hd
      refine ⟨⟨none, s.fresh, s.fresh, s.fresh, s.fresh + 2, none⟩, ?_, ?_⟩
      · show mget (s.get_new_edge).1.halfedges (s.fresh + 1) = _
        rw [hH, if_neg (by omega), if_pos rfl]
      · show s.fresh = h
        omega
    · rw [if_neg h1] at hd
      by_cases h2 : h = s.fresh + 1
      · rw [if_pos h2] at hd
        obtain rfl := Option.some.inj hd
        refine ⟨⟨none, s.fresh + 1, s.fresh + 1, s.fresh + 1, s.fresh + 2,
          none⟩, ?_, ?_⟩
        · show mget (s.get_new_edge).1.halfedges s.fresh = _
          rw [hH, if_pos rfl]
        · show s.fresh + 1 = h
          omega
      · rw [if_neg h2] at hd
        obtain ⟨dp, hdp, hpp⟩ := w.pairI h d hd
        have hlt := w.ltH d.pair (mem_keysOf_of_mget hdp)
        refine ⟨dp, ?_, hpp⟩
        rw [hH, if_neg (by omega), if_neg (by omega)]
        exact hdp
  · intro h d hd
    rw [hH h] at hd
    by_cases h1 : h = s.fresh
    · rw [if_pos h1] at hd
      obtain rfl := Option.some.inj hd
      show s.fresh + 1 ≠ h
      omega
    · rw [if_neg h1] at hd
      by_cases h2 : h = s.fresh + 1
      · rw [if_pos h2] at hd
        obtain rfl := Option.some.inj hd
        show s.fresh ≠ h
        omega
      · rw [if_neg h2] at hd
        exact w.pairN h d hd
  · intro h d hd
    rw [hH h] at hd
    by_cases h1 : h = s.fresh
    · rw [if_pos h1] at hd
      obtain rfl := Option.some.inj hd
      refine ⟨⟨none, s.fresh, s.fresh, s.fresh, s.fresh + 2, none⟩, ?_, ?_⟩
      · show mget (s.get_new_edge).1.halfedges (s.fresh + 1) = _
        rw [hH, if_neg (by omega), if_pos rfl]
      · show s.fresh = h
        omega
    · rw [if_neg h1] at hd
      by_cases h2 : h = s.fresh + 1
      · rw [if_pos h2] at hd
        obtain rfl := Option.some.inj hd
        refine ⟨⟨none, s.fresh + 1, s.fresh + 1, s.fresh + 1, s.fresh + 2,
          none⟩, ?_, ?_⟩
        · show mget (s.get_new_edge).1.halfedges s.fresh = _
          rw [hH, if_pos rfl]
        · show s.fresh + 1 = h
          omega
      · rw [if_neg h2] at hd
        obtain ⟨dn, hdn, hp⟩ := w.npI h d hd
        have hlt := w.ltH d.next (mem_keysOf_of_mget hdn)
        refine ⟨dn, ?_, hp⟩
        rw [hH, if_neg (by omega), if_neg (by omega)]
        exact hdn
  · intro h d hd
    rw [hH h] at hd
    by_cases h1 : h = s.fresh
    · rw [if_pos h1] at hd
      obtain rfl := Option.some.inj hd
      refine ⟨⟨none, s.fresh, s.fresh, s.fresh, s.fresh + 2, none⟩, ?_, ?_⟩
      · show mget (s.get_new_edge).1.halfedges (s.fresh + 1) = _
        rw [hH, if_neg (by omega), if_pos rfl]
      · show s.fresh = h
        omega
    · rw [if_neg h1] at hd
      by_cases h2 : h = s.fresh + 1
      · rw [if_pos h2] at hd
        obtain rfl := Option.some.inj hd
        refine ⟨⟨none, s.fresh + 1, s.fresh + 1, s.fresh + 1, s.fresh + 2,
          none⟩, ?_, ?_⟩
        · show mget (s.get_new_edge).1.halfedges s.fresh = _
          rw [hH, if_pos rfl]
        · show s.fresh + 1 = h
          omega
      · rw [if_neg h2] at hd
        obtain ⟨dv, hdv, hp⟩ := w.pnI h d hd
        have hlt := w.ltH d.prev (mem_keysOf_of_mget hdv)
        refine ⟨dv, ?_, hp⟩
        rw [hH, if_neg (by omega), if_neg (by omega)]
        exact hdv
  · intro h d hd
    rw [hH h] at hd
    by_cases h1 : h = s.fresh
    · rw [if_pos h1] at hd
      obtain rfl := Option.some.inj hd
      exact ⟨fun _ => Or.inl h1, fun _ => rfl⟩
    · rw [if_neg h1] at hd
      by_cases h2 : h = s.fresh + 1
      · rw [if_pos h2] at hd
        obtain rfl := Option.some.inj hd
        exact ⟨fun _ => Or.inr h2, fun _ => rfl⟩
      · rw [if_neg h2] at hd
        have hlt := w.ltH h (mem_keysOf_of_mget hd)
        constructor
        · intro hc
          exact ((w.orK h d hd).mp hc).elim
        · intro hc
          rcases hc with h5 | h5 <;> omega
  · intro h d hd
    rw [hH h] at hd
    by_cases h1 : h = s.fresh
    · rw [if_pos h1] at hd
      obtain rfl := Option.some.inj hd
      intro n0 hon
      exact absurd hon (by simp)
    · rw [if_neg h1] at hd
      by_cases h2 : h = s.fresh + 1
      · rw [if_pos h2] at hd
        obtain rfl := Option.some.inj hd
        intro n0 hon
        exact absurd hon (by simp)
      · rw [if_neg h2] at hd
        intro n0 hon
        obtain ⟨nd, hnd⟩ := w.orL h d hd n0 hon
        refine ⟨nd, ?_⟩
        rw [hAn]
        exact hnd
  · intro h d dn dp hd hdn hdp
    rw [hH h] at hd
    by_cases h1 : h = s.fresh
    · rw [if_pos h1] at hd
      obtain rfl := Option.some.inj hd
      have hdn2 : mget (s.get_new_edge).1.halfedges (s.fresh + 1) =
          some dn := hdn
      have hdp2 : mget (s.get_new_edge).1.halfedges (s.fresh + 1) =
          some dp := hdp
      rw [hH, if_neg (by omega), if_pos rfl] at hdn2 hdp2
      obtain rfl := Option.some.inj hdn2
      obtain rfl := Option.some.inj hdp2
      rfl
    · rw [if_neg h1] at hd
      by_cases h2 : h = s.fresh + 1
      · rw [if_pos h2] at hd
        obtain rfl := Option.some.inj hd
        have hdn2 : mget (s.get_new_edge).1.halfedges s.fresh = some dn := hdn
        have hdp2 : mget (s.get_new_edge).1.halfedges s.fresh = some dp := hdp
        rw [hH, if_pos rfl] at hdn2 hdp2
        obtain rfl := Option.some.inj hdn2
        obtain rfl := Option.some.inj hdp2
        rfl
      · rw [if_neg h2] at hd
        obtain ⟨dn0, hdn0, -⟩ := w.npI h d hd
        have hltn := w.ltH d.next (mem_keysOf_of_mget hdn0)
        obtain ⟨dp0, hdp0, -⟩ := w.pairI h d hd
        have hltp := w.ltH d.pair (mem_keysOf_of_mget hdp0)
        rw [hH, if_neg (by omega), if_neg (by omega)] at hdn
        rw [hH, if_neg (by omega), if_neg (by omega)] at hdp
        exact w.coh h d dn dp hd hdn hdp
  · intro h d dp hd hdp
    rw [hH h] at hd
    by_cases h1 : h = s.fresh
    · rw [if_pos h1] at hd
      obtain rfl := Option.some.inj hd
      exact Or.inl rfl
    · rw [if_neg h1] at hd
      by_cases h2 : h = s.fresh + 1
      · rw [if_pos h2] at hd
        obtain rfl := Option.some.inj hd
        exact Or.inl rfl
      · rw [if_neg h2] at hd
        obtain ⟨dp0, hdp0, -⟩ := w.pairI h d hd
        have hltp := w.ltH d.pair (mem_keysOf_of_mget hdp0)
        rw [hH, if_neg (by omega), if_neg (by omega)] at hdp
        exact w.noL h d dp hd hdp
  · intro h d hd
    rw [hH h] at hd
    by_cases h1 : h = s.fresh
    · rw [if_pos h1] at hd
      obtain rfl := Option.some.inj hd
      refine ⟨⟨s.fresh, s.fresh + 1⟩, ?_, Or.inl ⟨?_, rfl⟩⟩
      · show mget (s.get_new_edge).1.edges (s.fresh + 2) = _
        rw [hE, if_pos rfl]
      · show s.fresh = h
        omega
    · rw [if_neg h1] at hd
      by_cases h2 : h = s.fresh + 1
      · rw [if_pos h2] at hd
        obtain rfl := Option.some.inj hd
        refine ⟨⟨s.fresh, s.fresh + 1⟩, ?_, Or.inr ⟨rfl, ?_⟩⟩
        · show mget (s.get_new_edge).1.edges (s.fresh + 2) = _
          rw [hE, if_pos rfl]
        · show s.fresh + 1 = h
          omega
      · rw [if_neg h2] at hd
        obtain ⟨edd, hedd, hca⟩ := w.edO h d hd
        have hlt := w.ltE d.edge (mem_keysOf_of_mget hedd)
        refine ⟨edd, ?_, hca⟩
        rw [hE, if_neg (by omega)]
        exact hedd
  · intro e edd hedd
    rw [hE e] at hedd
    by_cases h1 : e = s.fresh + 2
    · rw [if_pos h1] at hedd
      obtain rfl := Option.some.inj hedd
      refine ⟨⟨none, s.fresh + 1, s.fresh + 1, s.fresh + 1, s.fresh + 2, none⟩,
        ⟨none, s.fresh, s.fresh, s.fresh, s.fresh + 2, none⟩, ?_, ?_, rfl,
        rfl, ?_, ?_⟩
      · show mget (s.get_new_edge).1.halfedges s.fresh = _
        rw [hH, if_pos rfl]
      · show mget (s.get_new_edge).1.halfedges (s.fresh + 1) = _
        rw [hH, if_neg (by omega), if_pos rfl]
      · show s.fresh + 2 = e
        omega
      · show s.fresh + 2 = e
        omega
    · rw [if_neg h1] at hedd
      obtain ⟨d1, d2, hl1, hl2, hp1, hp2, he1, he2⟩ := w.edH e edd hedd
      have hlt1 := w.ltH edd.he1 (mem_keysOf_of_mget hl1)
      have hlt2 := w.ltH edd.he2 (mem_keysOf_of_mget hl2)
      refine ⟨d1, d2, ?_, ?_, hp1, hp2, he1, he2⟩
      · rw [hH, if_neg (by omega), if_neg (by omega)]
        exact hl1
      · rw [hH, if_neg (by omega), if_neg (by omega)]
        exact hl2
  · intro n nd hnd nh hh
    rw [hAn] at hnd
    obtain ⟨nhd, hnhd, ho⟩ := w.ndHe n nd hnd nh hh
    have hlt := w.ltH nh (mem_keysOf_of_mget hnhd)
    refine ⟨nhd, ?_, ho⟩
    rw [hH, if_neg (by omega), if_neg (by omega)]
    exact hnhd
  · intro n nd hnd hni h d hd
    rw [hAn] at hnd
    rw [hH h] at hd
    by_cases h1 : h = s.fresh
    · rw [if_pos h1] at hd
      obtain rfl := Option.some.inj hd
      intro hc
      exact Option.noConfusion hc
    · rw [if_neg h1] at hd
      by_cases h2 : h = s.fresh + 1
      · rw [if_pos h2] at hd
        obtain rfl := Option.some.inj hd
        intro hc
        exact Option.noConfusion hc
      · rw [if_neg h2] at hd
        exact w.iso n nd hnd hni h d hd
  · intro m x hx
    obtain ⟨L, hc, hndL, hhL, hcov⟩ := w.fan m x ((hieq m x).mp hx)
    refine ⟨L, ?_, hndL, hhL, ?_⟩
    · refine cycOK_congr ?_ hc
      intro y hy
      obtain ⟨dy, hdy, -⟩ := (hcov y).mpr hy
      exact (hwalk y dy hdy).symm
    · intro y
      rw [hieq m y]
      exact hcov y

set_option maxHeartbeats 1000000 in
/-- Preservation of the invariant by `add_edge`: allocate a fresh stub edge
and attach its two halfedges to the two distinct nodes. -/
theorem wf_add_edge (s : HDS) (n1 n2 : Nat) (t : HDS) (hres : Nat) (w : WF s)
    (h : add_edge s n1 n2 = Res.ok (t, hres)) : WF t := by
  unfold add_edge at h
  by_cases hne : n1 = n2
  · rw [if_pos hne] at h
    simp at h
  · rw [if_neg hne] at h
    have hge : s.get_new_edge =
        ({ s with
            halfedges := (s.fresh, ⟨none, s.fresh + 1, s.fresh + 1, s.fresh + 1,
              s.fresh + 2, none⟩) :: (s.fresh + 1, ⟨none, s.fresh, s.fresh,
              s.fresh, s.fresh + 2, none⟩) :: s.halfedges,
            edges := (s.fresh + 2, ⟨s.fresh, s.fresh + 1⟩) :: s.edges,
            fresh := s.fresh + 3 }, s.fresh + 2) := rfl
    rw [hge] at h
    simp only [HDS.edge?, mget, eq_self_iff_true, if_true, Res.monad_bind,
      Res.bind_ok] at h
    cases hat1 : attach_halfedge_to_node
        ({ s with
            halfedges := (s.fresh, ⟨none, s.fresh + 1, s.fresh + 1, s.fresh + 1,
              s.fresh + 2, none⟩) :: (s.fresh + 1, ⟨none, s.fresh, s.fresh,
              s.fresh, s.fresh + 2, none⟩) :: s.halfedges,
            edges := (s.fresh + 2, ⟨s.fresh, s.fresh + 1⟩) :: s.edges,
            fresh := s.fresh + 3 }) s.fresh n1 with
    | ok s1 =>
        rw [hat1] at h
        simp only [Res.bind_ok] at h
        cases hat2 : attach_halfedge_to_node s1 (s.fresh + 1) n2 with
        | ok s2 =>
            rw [hat2] at h
            simp only [Res.bind_ok, Res.monad_pure, Res.ok.injEq,
              Prod.mk.injEq] at h
            obtain ⟨ht2, -⟩ := h
            subst ht2
            have hwA := wf_get_new_edge s w
            have hA1 : mget (s.get_new_edge).1.halfedges s.fresh =
                some ⟨none, s.fresh + 1, s.fresh + 1, s.fresh + 1,
                  s.fresh + 2, none⟩ := by
              show mget ((s.fresh, ⟨none, s.fresh + 1, s.fresh + 1,
                s.fresh + 1, s.fresh + 2, none⟩) :: (s.fresh + 1, ⟨none,
                s.fresh, s.fresh, s.fresh, s.fresh + 2, none⟩) ::
                s.halfedges) s.fresh = _
              simp [mget]
            have hA2 : mget (s.get_new_edge).1.halfedges (s.fresh + 1) =
                some ⟨none, s.fresh, s.fresh, s.fresh, s.fresh + 2, none⟩ := by
              show mget ((s.fresh, ⟨none, s.fresh + 1, s.fresh + 1,
                s.fresh + 1, s.fresh + 2, none⟩) :: (s.fresh + 1, ⟨none,
                s.fresh, s.fresh, s.fresh, s.fresh + 2, none⟩) ::
                s.halfedges) (s.fresh + 1) = _
              rw [mget_cons_ne _ _ _ _ (by omega)]
              simp [mget]
            have hB := wf_attach (s.get_new_edge).1 s.fresh n1 s1
              (fun h2 => h2 = s.fresh + 1)
              ⟨none, s.fresh + 1, s.fresh + 1, s.fresh + 1, s.fresh + 2, none⟩
              ⟨none, s.fresh, s.fresh, s.fresh, s.fresh + 2, none⟩
              hwA (fun u hu => hu) hA1 hA2 rfl rfl
              (fun hc => Option.noConfusion hc) hat1
            obtain ⟨hwB, ⟨hd2, hhd2, hd2o, hd2n, hd2p⟩,
              ⟨pd2, hpd2, hpd2v, hpd2p⟩⟩ := hB
            have hpdC : mget s1.halfedges pd2.pair = some hd2 := by
              rw [hpd2p]
              exact hhd2
            have hprevC : pd2.prev = pd2.pair := by
              rw [hpd2v, hpd2p]
            have hpdnoC : hd2.origin ≠ some n2 := by
              rw [hd2o]
              intro hc
              exact hne (Option.some.inj hc)
            have hC := wf_attach s1 (s.fresh + 1) n2 s2 (fun _ => False)
              pd2 hd2
              (WFU_congrU hwB (fun x => ⟨fun hx => Or.inl hx,
                fun hx => hx.elim id False.elim⟩))
              (fun u hu => hu.elim) hpd2 hpdC hprevC hd2n hpdnoC hat2
            exact hC.1
        | err e2 t2 =>
            rw [hat2] at h
            simp at h
        | div =>
            rw [hat2] at h
            simp at h
    | err e2 t2 =>
        rw [hat1] at h
        simp at h
    | div =>
        rw [hat1] at h
        simp at h

/-! ### Preservation by `remove_edge` -/

theorem detach_ok_inv (s : HDS) (he : Nat) (t : HDS)
    (h : detach_edge s he = Res.ok t) :
    ∃ hd n nd pd, mget s.halfedges he = some hd ∧ hd.origin = some n ∧
      mget s.nodes n = some nd ∧ mget s.halfedges hd.pair = some pd ∧
      t = ((if nd.halfedge = some he then
              if pd.next ≠ he then s.set_node_halfedge n (some pd.next)
              else s.set_node_halfedge n none
            else s).set_next hd.prev pd.next).set_prev pd.next hd.prev := by
  unfold detach_edge at h
  cases hhd : mget s.halfedges he with
  | none => simp [HDS.he?, hhd] at h
  | some hd =>
      cases hor : hd.origin with
      | none => simp [HDS.he?, hhd, hor, nonNull] at h
      | some n =>
          cases hnd : mget s.nodes n with
          | none => simp [HDS.he?, hhd, hor, nonNull, HDS.node?, hnd] at h
          | some nd =>
              cases hpd : mget s.halfedges hd.pair with
              | none =>
                  simp [HDS.he?, hhd, hor, nonNull, HDS.node?, hnd, hpd] at h
              | some pd =>
                  simp only [HDS.he?, hhd, hor, nonNull, HDS.node?, hnd, hpd,
                    Res.monad_bind, Res.bind_ok, Res.monad_pure,
                    Res.ok.injEq] at h
                  exact ⟨hd, n, nd, pd, rfl, hor, hnd, hpd, h.symm⟩

theorem remove_face_edges (s : HDS) (f : Nat) (s2 : HDS)
    (h : remove_face s f = Res.ok s2) : s2.edges = s.edges := by
  obtain ⟨fd, hd, -, -, heq⟩ := remove_face_ok_shape s f s2 h
  rw [heq]
  rfl

theorem delete_edge_ok (s : HDS) (e : Nat) (ed : EdgeD)
    (h : mget s.edges e = some ed) :
    s.delete_edge e = { s with edges := merase s.edges e,
                                halfedges :=
                                  merase (merase s.halfedges ed.he1) ed.he2 } := by
  unfold HDS.delete_edge
  rw [h]

theorem cycOK_self_singleton {f : Nat → Option Nat} {L : List Nat} {x : Nat}
    (hc : cycOK f L) (hnd : L.Nodup) (hx : x ∈ L) (hself : f x = some x) :
    L = [x] := by
  obtain ⟨L1, L2, hsplit, hrot⟩ := cycOK_rotate hc hx
  have hnd2 : (x :: (L2 ++ L1)).Nodup := rotate_nodup (hsplit ▸ hnd)
  cases hL : L2 ++ L1 with
  | nil =>
      obtain ⟨hL2, hL1⟩ := List.append_eq_nil.mp hL
      rw [hsplit, hL1, hL2]
      rfl
  | cons a r =>
      rw [hL] at hnd2
      have hsteps2 : stepsOK f (x :: a :: (r ++ [x])) := by
        have h0 := hrot.2
        rw [hL] at h0
        simpa using h0
      have hfa : f x = some a := (stepsOK_cons.mp hsteps2).1
      rw [hself] at hfa
      have hax : a = x := (Option.some.inj hfa).symm
      subst hax
      exact absurd (List.mem_cons_self a r) (List.nodup_cons.mp hnd2).1

theorem cyc_last_step {f : Nat → Option Nat} {a : Nat} {T : List Nat}
    (hc : cycOK f (a :: T)) (hT : T ≠ []) :
    f (T.getLast hT) = some a := by
  obtain ⟨-, hsteps⟩ := hc
  have h2 : stepsOK f ((a :: T) ++ [a]) := by simpa using hsteps
  obtain ⟨-, -, link⟩ := stepsOK_append.mp h2
  refine link _ ?_ a ?_
  · rw [List.getLast?_eq_getLast _ (by simp)]
    simp only [Option.mem_def, Option.some.injEq]
    exact List.getLast_cons hT
  · simp

set_option maxHeartbeats 1600000 in
/-- State computation for the two `detach_edge` calls of `remove_edge`:
pointwise field maps of the doubly-detached store, and the node updates. -/
theorem detach2_state (s : HDS) (e : Nat) (ed : EdgeD) (s1 s2 : HDS)
    (w : WF s) (hed : mget s.edges e = some ed)
    (h1 : detach_edge s ed.he1 = Res.ok s1)
    (h2 : detach_edge s1 ed.he2 = Res.ok s2) :
    ∃ D1 D2 n1 n2 nd1 nd2,
      mget s.halfedges ed.he1 = some D1 ∧
      mget s.halfedges ed.he2 = some D2 ∧
      D1.pair = ed.he2 ∧ D2.pair = ed.he1 ∧ D1.edge = e ∧ D2.edge = e ∧
      D1.origin = some n1 ∧ D2.origin = some n2 ∧ n1 ≠ n2 ∧
      mget s.nodes n1 = some nd1 ∧ mget s.nodes n2 = some nd2 ∧
      (∀ y, nextF s2 y = if y = D2.prev then some D1.next
          else if y = D1.prev then some D2.next else nextF s y) ∧
      (∀ y, prevF s2 y = if y = D1.next then some D2.prev
          else if y = D2.next then some D1.prev else prevF s y) ∧
      (∀ y, pairF s2 y = pairF s y) ∧
      (∀ y, origF s2 y = origF s y) ∧
      (∀ y, (mget s2.halfedges y).map (fun r => r.edge) =
        (mget s.halfedges y).map (fun r => r.edge)) ∧
      keysOf s2.halfedges = keysOf s.halfedges ∧
      s2.edges = s.edges ∧ s2.fresh = s.fresh ∧
      (∀ m, m ≠ n1 → m ≠ n2 → mget s2.nodes m = mget s.nodes m) ∧
      keysOf s2.nodes = keysOf s.nodes ∧
      (∃ v1, mget s2.nodes n1 = some { nd1 with halfedge := v1 } ∧
        ((v1 = nd1.halfedge ∧ nd1.halfedge ≠ some ed.he1) ∨
         (nd1.halfedge = some ed.he1 ∧
           ((v1 = some D2.next ∧ D2.next ≠ ed.he1) ∨
            (v1 = none ∧ D2.next = ed.he1))))) ∧
      (∃ v2, mget s2.nodes n2 = some { nd2 with halfedge := v2 } ∧
        ((v2 = nd2.halfedge ∧ nd2.halfedge ≠ some ed.he2) ∨
         (nd2.halfedge = some ed.he2 ∧
           ((v2 = some D1.next ∧ D1.next ≠ ed.he2) ∨
            (v2 = none ∧ D1.next = ed.he2))))) := by
  obtain ⟨D1, D2, hD1, hD2, hp12, hp21, hedge1, hedge2⟩ := w.edH e ed hed
  have hne12 : ed.he1 ≠ ed.he2 := by
    intro hc
    have h5 := w.pairN ed.he1 D1 hD1
    rw [hp12] at h5
    exact h5 hc.symm
  have hq1ne : D1.next ≠ ed.he1 :=
    wf_next_ne_self w hD1 (fun hc => (w.orK _ _ hD1).mp hc)
  have hq2ne : D2.next ≠ ed.he2 :=
    wf_next_ne_self w hD2 (fun hc => (w.orK _ _ hD2).mp hc)
  obtain ⟨dq1, hdq1, hq1prev⟩ := w.npI ed.he1 D1 hD1
  obtain ⟨dq2, hdq2, hq2prev⟩ := w.npI ed.he2 D2 hD2
  obtain ⟨dp1, hdp1, hp1next⟩ := w.pnI ed.he1 D1 hD1
  obtain ⟨dp2, hdp2, hp2next⟩ := w.pnI ed.he2 D2 hD2
  have hp1ne : D1.prev ≠ ed.he1 := by
    intro hc
    rw [hc, hD1] at hdp1
    rw [← Option.some.inj hdp1] at hp1next
    exact hq1ne hp1next
  have hp2ne : D2.prev ≠ ed.he2 := by
    intro hc
    rw [hc, hD2] at hdp2
    rw [← Option.some.inj hdp2] at hp2next
    exact hq2ne hp2next
  have hB1 : D1.prev = ed.he2 ↔ D2.next = ed.he1 := by
    constructor
    · intro hc
      rw [hc, hD2] at hdp1
      rw [← Option.some.inj hdp1] at hp1next
      exact hp1next
    · intro hc
      rw [hc, hD1] at hdq2
      rw [← Option.some.inj hdq2] at hq2prev
      exact hq2prev
  have hpp : D1.prev ≠ D2.prev := fun hc => hne12 (wf_prev_inj w hD1 hD2 hc)
  have hqq : D1.next ≠ D2.next := fun hc => hne12 (wf_next_inj w hD1 hD2 hc)
  obtain ⟨hd1x, n1, nd1, pd1x, hhd1x, hor1, hnd1, hpd1x, heq1⟩ :=
    detach_ok_inv s ed.he1 s1 h1
  rw [hD1] at hhd1x
  obtain rfl := Option.some.inj hhd1x
  rw [hp12, hD2] at hpd1x
  obtain rfl := Option.some.inj hpd1x
  have hs1H : s1.halfedges = mmod (mmod s.halfedges D1.prev
      (fun d => { d with next := D2.next })) D2.next
      (fun d => { d with prev := D1.prev }) := by
    rw [heq1]
    by_cases hc : nd1.halfedge = some ed.he1
    · rw [if_pos hc]
      by_cases hc2 : D2.next ≠ ed.he1
      · rw [if_pos hc2]
        rfl
      · rw [if_neg hc2]
        rfl
    · rw [if_neg hc]
      rfl
  have hs1N : s1.nodes = (if nd1.halfedge = some ed.he1 then
      (if D2.next ≠ ed.he1 then
        mmod s.nodes n1 (fun d => { d with halfedge := some D2.next })
       else mmod s.nodes n1 (fun d => { d with halfedge := none }))
      else s.nodes) := by
    rw [heq1]
    by_cases hc : nd1.halfedge = some ed.he1
    · rw [if_pos hc, if_pos hc]
      by_cases hc2 : D2.next ≠ ed.he1
      · rw [if_pos hc2, if_pos hc2]
        rfl
      · rw [if_neg hc2, if_neg hc2]
        rfl
    · rw [if_neg hc, if_neg hc]
      rfl
  have hs1E : s1.edges = s.edges := by
    rw [heq1]
    by_cases hc : nd1.halfedge = some ed.he1
    · rw [if_pos hc]
      by_cases hc2 : D2.next ≠ ed.he1
      · rw [if_pos hc2]
        rfl
      · rw [if_neg hc2]
        rfl
    · rw [if_neg hc]
      rfl
  have hs1F : s1.fresh = s.fresh := by
    rw [heq1]
    by_cases hc : nd1.halfedge = some ed.he1
    · rw [if_pos hc]
      by_cases hc2 : D2.next ≠ ed.he1
      · rw [if_pos hc2]
        rfl
      · rw [if_neg hc2]
        rfl
    · rw [if_neg hc]
      rfl
  have hD1s1 : mget s1.halfedges ed.he1 = some D1 := by
    rw [hs1H]
    by_cases hb : D2.next = ed.he1
    · have hbp : D1.prev = ed.he2 := hB1.mpr hb
      rw [← hb, mget_mmod_self,
        mget_mmod_ne _ _ _ _ (show D2.next ≠ D1.prev from by
          rw [hb, hbp]; exact hne12),
        hb, hD1]
      simp only [Option.map_some']
    · rw [mget_mmod_ne _ _ _ _ (fun hc => hb hc.symm),
        mget_mmod_ne _ _ _ _ (fun hc => hp1ne hc.symm)]
      exact hD1
  have hD2s1 : mget s1.halfedges ed.he2 = some D2 := by
    rw [hs1H]
    by_cases hb : D1.prev = ed.he2
    · rw [mget_mmod_ne _ _ _ _ (fun hc => hq2ne hc.symm), ← hb,
        mget_mmod_self, hb, hD2]
      simp only [Option.map_some']
    · rw [mget_mmod_ne _ _ _ _ (fun hc => hq2ne hc.symm),
        mget_mmod_ne _ _ _ _ (fun hc => hb hc.symm)]
      exact hD2
  have hs1next : ∀ y, nextF s1 y =
      if y = D1.prev then some D2.next else nextF s y := by
    intro y
    unfold nextF
    rw [hs1H, @mget_mmod_map HalfedgeD Nat _ _
      (fun d => { d with prev := D1.prev }) (fun r => r.next)
      (fun _ => rfl) _]
    by_cases hy : y = D1.prev
    · subst hy
      rw [if_pos rfl, mget_mmod_self, hdp1]
      simp only [Option.map_some']
    · rw [if_neg hy, mget_mmod_ne _ _ _ _ hy]
  have hs1prev : ∀ y, prevF s1 y =
      if y = D2.next then some D1.prev else prevF s y := by
    intro y
    unfold prevF
    rw [hs1H]
    by_cases hy : y = D2.next
    · subst hy
      rw [if_pos rfl, mget_mmod_self]
      cases hm : mget (mmod s.halfedges D1.prev
          (fun d => { d with next := D2.next })) D2.next with
      | none =>
          exfalso
          by_cases hz : D2.next = D1.prev
          · rw [hz, mget_mmod_self, hdp1] at hm
            exact Option.noConfusion hm
          · rw [mget_mmod_ne _ _ _ _ hz, hdq2] at hm
            exact Option.noConfusion hm
      | some dv =>
          simp only [Option.map_some']
    · rw [if_neg hy, mget_mmod_ne _ _ _ _ hy,
        @mget_mmod_map HalfedgeD Nat _ _
          (fun d => { d with next := D2.next }) (fun r => r.prev)
          (fun _ => rfl) _]
  have hs1pair : ∀ y, pairF s1 y = pairF s y := by
    intro y
    unfold pairF
    rw [hs1H, @mget_mmod_map HalfedgeD Nat _ _
      (fun d => { d with prev := D1.prev }) (fun r => r.pair)
      (fun _ => rfl) _,
      @mget_mmod_map HalfedgeD Nat _ _
      (fun d => { d with next := D2.next }) (fun r => r.pair)
      (fun _ => rfl) _]
  have hs1orig : ∀ y, origF s1 y = origF s y := by
    intro y
    unfold origF
    rw [hs1H, @mget_mmod_map HalfedgeD (Option Nat) _ _
      (fun d => { d with prev := D1.prev }) (fun r => r.origin)
      (fun _ => rfl) _,
      @mget_mmod_map HalfedgeD (Option Nat) _ _
      (fun d => { d with next := D2.next }) (fun r => r.origin)
      (fun _ => rfl) _]
  have hs1edge : ∀ y, (mget s1.halfedges y).map (fun r => r.edge) =
      (mget s.halfedges y).map (fun r => r.edge) := by
    intro y
    rw [hs1H, @mget_mmod_map HalfedgeD Nat _ _
      (fun d => { d with prev := D1.prev }) (fun r => r.edge)
      (fun _ => rfl) _,
      @mget_mmod_map HalfedgeD Nat _ _
      (fun d => { d with next := D2.next }) (fun r => r.edge)
      (fun _ => rfl) _]
  have hs1keys : keysOf s1.halfedges = keysOf s.halfedges := by
    rw [hs1H, keysOf_mmod, keysOf_mmod]
  obtain ⟨hd2x, n2, nd2, pd2x, hhd2x, hor2, hnd2, hpd2x, heq2⟩ :=
    detach_ok_inv s1 ed.he2 s2 h2
  rw [hD2s1] at hhd2x
  obtain rfl := Option.some.inj hhd2x
  rw [hp21, hD1s1] at hpd2x
  obtain rfl := Option.some.inj hpd2x
  have hn12 : n1 ≠ n2 := by
    intro hc
    rcases w.noL ed.he1 D1 D2 hD1 (by rw [hp12]; exact hD2) with h5 | h5 | h5
    · rw [hor1] at h5
      exact Option.noConfusion h5
    · rw [hor2] at h5
      exact Option.noConfusion h5
    · rw [hor1, hor2, hc] at h5
      exact h5 rfl
  have hnd2s : mget s.nodes n2 = some nd2 := by
    rw [hs1N] at hnd2
    by_cases hc : nd1.halfedge = some ed.he1
    · rw [if_pos hc] at hnd2
      by_cases hc2 : D2.next ≠ ed.he1
      · rw [if_pos hc2, mget_mmod_ne _ _ _ _ (fun hcc => hn12 hcc.symm)]
          at hnd2
        exact hnd2
      · rw [if_neg hc2, mget_mmod_ne _ _ _ _ (fun hcc => hn12 hcc.symm)]
          at hnd2
        exact hnd2
    · rw [if_neg hc] at hnd2
      exact hnd2
  have hs2H : s2.halfedges = mmod (mmod s1.halfedges D2.prev
      (fun d => { d with next := D1.next })) D1.next
      (fun d => { d with prev := D2.prev }) := by
    rw [heq2]
    by_cases hc : nd2.halfedge = some ed.he2
    · rw [if_pos hc]
      by_cases hc2 : D1.next ≠ ed.he2
      · rw [if_pos hc2]
        rfl
      · rw [if_neg hc2]
        rfl
    · rw [if_neg hc]
      rfl
  have hs2N : s2.nodes = (if nd2.halfedge = some ed.he2 then
      (if D1.next ≠ ed.he2 then
        mmod s1.nodes n2 (fun d => { d with halfedge := some D1.next })
       else mmod s1.nodes n2 (fun d => { d with halfedge := none }))
      else s1.nodes) := by
    rw [heq2]
    by_cases hc : nd2.halfedge = some ed.he2
    · rw [if_pos hc, if_pos hc]
      by_cases hc2 : D1.next ≠ ed.he2
      · rw [if_pos hc2, if_pos hc2]
        rfl
      · rw [if_neg hc2, if_neg hc2]
        rfl
    · rw [if_neg hc, if_neg hc]
      rfl
  have hs2E : s2.edges = s.edges := by
    rw [heq2]
    by_cases hc : nd2.halfedge = some ed.he2
    · rw [if_pos hc]
      by_cases hc2 : D1.next ≠ ed.he2
      · rw [if_pos hc2]
        exact hs1E
      · rw [if_neg hc2]
        exact hs1E
    · rw [if_neg hc]
      exact hs1E
  have hs2F : s2.fresh = s.fresh := by
    rw [heq2]
    by_cases hc : nd2.halfedge = some ed.he2
    · rw [if_pos hc]
      by_cases hc2 : D1.next ≠ ed.he2
      · rw [if_pos hc2]
        exact hs1F
      · rw [if_neg hc2]
        exact hs1F
    · rw [if_neg hc]
      exact hs1F
  have hnextT : ∀ y, nextF s2 y = if y = D2.prev then some D1.next
      else if y = D1.prev then some D2.next else nextF s y := by
    intro y
    have hstep : nextF s2 y =
        if y = D2.prev then some D1.next else nextF s1 y := by
      unfold nextF
      rw [hs2H, @mget_mmod_map HalfedgeD Nat _ _
        (fun d => { d with prev := D2.prev }) (fun r => r.next)
        (fun _ => rfl) _]
      by_cases hy : y = D2.prev
      · subst hy
        rw [if_pos rfl, mget_mmod_self]
        cases hm : mget s1.halfedges D2.prev with
        | none =>
            exfalso
            have h5 := hs1next D2.prev
            unfold nextF at h5
            rw [hm, if_neg (fun hcc => hpp hcc.symm), hdp2] at h5
            exact Option.noConfusion h5
        | some dv =>
            simp only [Option.map_some']
      · rw [if_neg hy, mget_mmod_ne _ _ _ _ hy]
    rw [hstep, hs1next y]
  have hprevT : ∀ y, prevF s2 y = if y = D1.next then some D2.prev
      else if y = D2.next then some D1.prev else prevF s y := by
    intro y
    have hstep : prevF s2 y =
        if y = D1.next then some D2.prev else prevF s1 y := by
      unfold prevF
      rw [hs2H]
      by_cases hy : y = D1.next
      · subst hy
        rw [if_pos rfl, mget_mmod_self]
        cases hm : mget (mmod s1.halfedges D2.prev
            (fun d => { d with next := D1.next })) D1.next with
        | none =>
            exfalso
            by_cases hz : D1.next = D2.prev
            · rw [hz, mget_mmod_self] at hm
              have h5 := hs1next D2.prev
              unfold nextF at h5
              cases hm2 : mget s1.halfedges D2.prev with
              | none =>
                  rw [hm2, if_neg (fun hcc => hpp hcc.symm), hdp2] at h5
                  exact Option.noConfusion h5
              | some dv =>
                  rw [hm2] at hm
                  exact Option.noConfusion hm
            · rw [mget_mmod_ne _ _ _ _ hz] at hm
              have h5 := hs1prev D1.next
              unfold prevF at h5
              rw [hm] at h5
              by_cases hz2 : D1.next = D2.next
              · exact hqq hz2
              · rw [if_neg hz2, hdq1] at h5
                exact Option.noConfusion h5
        | some dv =>
            simp only [Option.map_some']
      · rw [if_neg hy, mget_mmod_ne _ _ _ _ hy,
          @mget_mmod_map HalfedgeD Nat _ _
            (fun d => { d with next := D1.next }) (fun r => r.prev)
            (fun _ => rfl) _]
    rw [hstep, hs1prev y]
  have hpairT : ∀ y, pairF s2 y = pairF s y := by
    intro y
    have hstep : pairF s2 y = pairF s1 y := by
      unfold pairF
      rw [hs2H, @mget_mmod_map HalfedgeD Nat _ _
        (fun d => { d with prev := D2.prev }) (fun r => r.pair)
        (fun _ => rfl) _,
        @mget_mmod_map HalfedgeD Nat _ _
        (fun d => { d with next := D1.next }) (fun r => r.pair)
        (fun _ => rfl) _]
    rw [hstep, hs1pair y]
  have horigT : ∀ y, origF s2 y = origF s y := by
    intro y
    have hstep : origF s2 y = origF s1 y := by
      unfold origF
      rw [hs2H, @mget_mmod_map HalfedgeD (Option Nat) _ _
        (fun d => { d with prev := D2.prev }) (fun r => r.origin)
        (fun _ => rfl) _,
        @mget_mmod_map HalfedgeD (Option Nat) _ _
        (fun d => { d with next := D1.next }) (fun r => r.origin)
        (fun _ => rfl) _]
    rw [hstep, hs1orig y]
  have hedgeT : ∀ y, (mget s2.halfedges y).map (fun r => r.edge) =
      (mget s.halfedges y).map (fun r => r.edge) := by
    intro y
    have hstep : (mget s2.halfedges y).map (fun r => r.edge) =
        (mget s1.halfedges y).map (fun r => r.edge) := by
      rw [hs2H, @mget_mmod_map HalfedgeD Nat _ _
        (fun d => { d with prev := D2.prev }) (fun r => r.edge)
        (fun _ => rfl) _,
        @mget_mmod_map HalfedgeD Nat _ _
        (fun d => { d with next := D1.next }) (fun r => r.edge)
        (fun _ => rfl) _]
    rw [hstep, hs1edge y]
  have hkeysT : keysOf s2.halfedges = keysOf s.halfedges := by
    rw [hs2H, keysOf_mmod, keysOf_mmod]
    exact hs1keys
  have hnodO : ∀ m, m ≠ n1 → m ≠ n2 → mget s2.nodes m = mget s.nodes m := by
    intro m hm1 hm2
    have hstep : mget s2.nodes m = mget s1.nodes m := by
      rw [hs2N]
      by_cases hc : nd2.halfedge = some ed.he2
      · rw [if_pos hc]
        by_cases hc2 : D1.next ≠ ed.he2
        · rw [if_pos hc2]
          exact mget_mmod_ne _ _ _ _ hm2
        · rw [if_neg hc2]
          exact mget_mmod_ne _ _ _ _ hm2
      · rw [if_neg hc]
    rw [hstep, hs1N]
    by_cases hc : nd1.halfedge = some ed.he1
    · rw [if_pos hc]
      by_cases hc2 : D2.next ≠ ed.he1
      · rw [if_pos hc2]
        exact mget_mmod_ne _ _ _ _ hm1
      · rw [if_neg hc2]
        exact mget_mmod_ne _ _ _ _ hm1
    · rw [if_neg hc]
  have hnkeys : keysOf s2.nodes = keysOf s.nodes := by
    have hstep : keysOf s2.nodes = keysOf s1.nodes := by
      rw [hs2N]
      by_cases hc : nd2.halfedge = some ed.he2
      · rw [if_pos hc]
        by_cases hc2 : D1.next ≠ ed.he2
        · rw [if_pos hc2]
          exact keysOf_mmod _ _ _
        · rw [if_neg hc2]
          exact keysOf_mmod _ _ _
      · rw [if_neg hc]
    rw [hstep, hs1N]
    by_cases hc : nd1.halfedge = some ed.he1
    · rw [if_pos hc]
      by_cases hc2 : D2.next ≠ ed.he1
      · rw [if_pos hc2]
        exact keysOf_mmod _ _ _
      · rw [if_neg hc2]
        exact keysOf_mmod _ _ _
    · rw [if_neg hc]
  have hs2n1 : mget s2.nodes n1 = mget s1.nodes n1 := by
    rw [hs2N]
    by_cases hc : nd2.halfedge = some ed.he2
    · rw [if_pos hc]
      by_cases hc2 : D1.next ≠ ed.he2
      · rw [if_pos hc2]
        exact mget_mmod_ne _ _ _ _ hn12
      · rw [if_neg hc2]
        exact mget_mmod_ne _ _ _ _ hn12
    · rw [if_neg hc]
  have hv1 : ∃ v1, mget s2.nodes n1 = some { nd1 with halfedge := v1 } ∧
      ((v1 = nd1.halfedge ∧ nd1.halfedge ≠ some ed.he1) ∨
       (nd1.halfedge = some ed.he1 ∧
         ((v1 = some D2.next ∧ D2.next ≠ ed.he1) ∨
          (v1 = none ∧ D2.next = ed.he1)))) := by
    rw [hs2n1, hs1N]
    by_cases hc : nd1.halfedge = some ed.he1
    · rw [if_pos hc]
      by_cases hc2 : D2.next ≠ ed.he1
      · rw [if_pos hc2]
        refine ⟨some D2.next, ?_, Or.inr ⟨hc, Or.inl ⟨rfl, hc2⟩⟩⟩
        rw [mget_mmod_self, hnd1]
        rfl
      · rw [if_neg hc2]
        refine ⟨none, ?_, Or.inr ⟨hc, Or.inr ⟨rfl, not_not.mp hc2⟩⟩⟩
        rw [mget_mmod_self, hnd1]
        rfl
    · rw [if_neg hc]
      exact ⟨nd1.halfedge, hnd1, Or.inl ⟨rfl, hc⟩⟩
  have hv2 : ∃ v2, mget s2.nodes n2 = some { nd2 with halfedge := v2 } ∧
      ((v2 = nd2.halfedge ∧ nd2.halfedge ≠ some ed.he2) ∨
       (nd2.halfedge = some ed.he2 ∧
         ((v2 = some D1.next ∧ D1.next ≠ ed.he2) ∨
          (v2 = none ∧ D1.next = ed.he2)))) := by
    rw [hs2N]
    by_cases hc : nd2.halfedge = some ed.he2
    · rw [if_pos hc]
      by_cases hc2 : D1.next ≠ ed.he2
      · rw [if_pos hc2]
        refine ⟨some D1.next, ?_, Or.inr ⟨hc, Or.inl ⟨rfl, hc2⟩⟩⟩
        rw [mget_mmod_self, hnd2]
        rfl
      · rw [if_neg hc2]
        refine ⟨none, ?_, Or.inr ⟨hc, Or.inr ⟨rfl, not_not.mp hc2⟩⟩⟩
        rw [mget_mmod_self, hnd2]
        rfl
    · rw [if_neg hc]
      exact ⟨nd2.halfedge, hnd2, Or.inl ⟨rfl, hc⟩⟩
  exact ⟨D1, D2, n1, n2, nd1, nd2, hD1, hD2, hp12, hp21, hedge1, hedge2,
    hor1, hor2, hn12, hnd1, hnd2s, hnextT, hprevT, hpairT, horigT, hedgeT,
    hkeysT, hs2E, hs2F, hnodO, hnkeys, hv1, hv2⟩

set_option maxHeartbeats 1600000 in
/-- Well-formedness is preserved by the body of a successful `remove_edge`:
the two `detach_edge` calls followed by `delete_edge`. -/
theorem wf_detach2_delete (s : HDS) (e : Nat) (ed : EdgeD) (s1 s2 : HDS)
    (w : WF s) (hed : mget s.edges e = some ed)
    (h1 : detach_edge s ed.he1 = Res.ok s1)
    (h2 : detach_edge s1 ed.he2 = Res.ok s2) :
    WF (s2.delete_edge e) := by
  obtain ⟨D1, D2, n1, n2, nd1, nd2, hD1, hD2, hp12, hp21, hedge1, hedge2,
    hor1, hor2, hn12, hnd1, hnd2, hnextT, hprevT, hpairT, horigT, hedgeT,
    hkeysT, hs2E, hs2F, hnodO, hnkeys, ⟨v1, hv1l, hv1s⟩, ⟨v2, hv2l, hv2s⟩⟩ :=
    detach2_state s e ed s1 s2 w hed h1 h2
  have hne12 : ed.he1 ≠ ed.he2 := by
    intro hc
    have h5 := w.pairN ed.he1 D1 hD1
    rw [hp12] at h5
    exact h5 hc.symm
  have hq1ne : D1.next ≠ ed.he1 :=
    wf_next_ne_self w hD1 (fun hc => (w.orK _ _ hD1).mp hc)
  have hq2ne : D2.next ≠ ed.he2 :=
    wf_next_ne_self w hD2 (fun hc => (w.orK _ _ hD2).mp hc)
  obtain ⟨dq1, hdq1, hq1prev⟩ := w.npI ed.he1 D1 hD1
  obtain ⟨dq2, hdq2, hq2prev⟩ := w.npI ed.he2 D2 hD2
  obtain ⟨dp1, hdp1, hp1next⟩ := w.pnI ed.he1 D1 hD1
  obtain ⟨dp2, hdp2, hp2next⟩ := w.pnI ed.he2 D2 hD2
  have hp1ne : D1.prev ≠ ed.he1 := by
    intro hc
    rw [hc, hD1] at hdp1
    rw [← Option.some.inj hdp1] at hp1next
    exact hq1ne hp1next
  have hp2ne : D2.prev ≠ ed.he2 := by
    intro hc
    rw [hc, hD2] at hdp2
    rw [← Option.some.inj hdp2] at hp2next
    exact hq2ne hp2next
  have hB1 : D1.prev = ed.he2 ↔ D2.next = ed.he1 := by
    constructor
    · intro hc
      rw [hc, hD2] at hdp1
      rw [← Option.some.inj hdp1] at hp1next
      exact hp1next
    · intro hc
      rw [hc, hD1] at hdq2
      rw [← Option.some.inj hdq2] at hq2prev
      exact hq2prev
  have hB2 : D2.prev = ed.he1 ↔ D1.next = ed.he2 := by
    constructor
    · intro hc
      rw [hc, hD1] at hdp2
      rw [← Option.some.inj hdp2] at hp2next
      exact hp2next
    · intro hc
      rw [hc, hD2] at hdq1
      rw [← Option.some.inj hdq1] at hq1prev
      exact hq1prev
  have hpp : D1.prev ≠ D2.prev := fun hc => hne12 (wf_prev_inj w hD1 hD2 hc)
  have hqq : D1.next ≠ D2.next := fun hc => hne12 (wf_next_inj w hD1 hD2 hc)
  have hinc2n1 : Incoming s n1 ed.he2 :=
    ⟨D2, hD2, D1, by rw [hp21]; exact hD1, hor1⟩
  have hinc1n2 : Incoming s n2 ed.he1 :=
    ⟨D1, hD1, D2, by rw [hp12]; exact hD2, hor2⟩
  have hincp1 : Incoming s n1 D1.prev := by
    obtain ⟨dppr, hdppr, -⟩ := w.pairI D1.prev dp1 hdp1
    have hcoh0 := w.coh D1.prev dp1 D1 dppr hdp1
      (by rw [hp1next]; exact hD1) hdppr
    exact ⟨dp1, hdp1, dppr, hdppr, by rw [← hcoh0]; exact hor1⟩
  have hincp2 : Incoming s n2 D2.prev := by
    obtain ⟨dppr, hdppr, -⟩ := w.pairI D2.prev dp2 hdp2
    have hcoh0 := w.coh D2.prev dp2 D2 dppr hdp2
      (by rw [hp2next]; exact hD2) hdppr
    exact ⟨dp2, hdp2, dppr, hdppr, by rw [← hcoh0]; exact hor2⟩
  have hedS2 : mget s2.edges e = some ed := by rw [hs2E]; exact hed
  have htH : (s2.delete_edge e).halfedges =
      merase (merase s2.halfedges ed.he1) ed.he2 := by
    simp only [delete_edge_ok s2 e ed hedS2]
  have htE : (s2.delete_edge e).edges = merase s2.edges e := by
    simp only [delete_edge_ok s2 e ed hedS2]
  have htN : (s2.delete_edge e).nodes = s2.nodes := by
    simp only [delete_edge_ok s2 e ed hedS2]
  have htF : (s2.delete_edge e).fresh = s2.fresh := by
    simp only [delete_edge_ok s2 e ed hedS2]
  have hndH2 : (keysOf s2.halfedges).Nodup := by
    rw [hkeysT]
    exact w.ndH
  have hgetT : ∀ y, y ≠ ed.he1 → y ≠ ed.he2 →
      mget (merase (merase s2.halfedges ed.he1) ed.he2) y =
        mget s2.halfedges y := by
    intro y hy1 hy2
    rw [mget_merase_ne _ _ _ hy2, mget_merase_ne _ _ _ hy1]
  have hgone1 : mget (merase (merase s2.halfedges ed.he1) ed.he2) ed.he1 =
      none := by
    rw [mget_merase_ne _ _ _ hne12]
    exact mget_merase_self hndH2
  have hgone2 : mget (merase (merase s2.halfedges ed.he1) ed.he2) ed.he2 =
      none := mget_merase_self (keysOf_merase_nodup _ hndH2)
  have hrec : ∀ y dy, y ≠ ed.he1 → y ≠ ed.he2 →
      mget s.halfedges y = some dy →
      ∃ dy2, mget (merase (merase s2.halfedges ed.he1) ed.he2) y = some dy2 ∧
        dy2.pair = dy.pair ∧ dy2.origin = dy.origin ∧ dy2.edge = dy.edge ∧
        dy2.next = (if y = D2.prev then D1.next
          else if y = D1.prev then D2.next else dy.next) ∧
        dy2.prev = (if y = D1.next then D2.prev
          else if y = D2.next then D1.prev else dy.prev) := by
    intro y dy hy1 hy2 hdy
    rw [hgetT y hy1 hy2]
    have hp := hpairT y
    unfold pairF at hp
    rw [hdy] at hp
    cases hm : mget s2.halfedges y with
    | none =>
        rw [hm] at hp
        exact absurd hp (by simp)
    | some dy2 =>
        rw [hm] at hp
        refine ⟨dy2, rfl, ?_, ?_, ?_, ?_, ?_⟩
        · simpa using hp
        · have ho := horigT y
          unfold origF at ho
          rw [hdy, hm] at ho
          simpa using ho
        · have hedg := hedgeT y
          rw [hdy, hm] at hedg
          simpa using hedg
        · have hn := hnextT y
          unfold nextF at hn
          rw [hdy, hm] at hn
          by_cases c1 : y = D2.prev
          · rw [if_pos c1] at hn
            rw [if_pos c1]
            simpa using hn
          · rw [if_neg c1] at hn
            rw [if_neg c1]
            by_cases c2 : y = D1.prev
            · rw [if_pos c2] at hn
              rw [if_pos c2]
              simpa using hn
            · rw [if_neg c2] at hn
              rw [if_neg c2]
              simpa using hn
        · have hv := hprevT y
          unfold prevF at hv
          rw [hdy, hm] at hv
          by_cases c1 : y = D1.next
          · rw [if_pos c1] at hv
            rw [if_pos c1]
            simpa using hv
          · rw [if_neg c1] at hv
            rw [if_neg c1]
            by_cases c2 : y = D2.next
            · rw [if_pos c2] at hv
              rw [if_pos c2]
              simpa using hv
            · rw [if_neg c2] at hv
              rw [if_neg c2]
              simpa using hv
  have hrecT : ∀ y dy2,
      mget (merase (merase s2.halfedges ed.he1) ed.he2) y = some dy2 →
      ∃ dy, y ≠ ed.he1 ∧ y ≠ ed.he2 ∧ mget s.halfedges y = some dy ∧
        dy2.pair = dy.pair ∧ dy2.origin = dy.origin ∧ dy2.edge = dy.edge ∧
        dy2.next = (if y = D2.prev then D1.next
          else if y = D1.prev then D2.next else dy.next) ∧
        dy2.prev = (if y = D1.next then D2.prev
          else if y = D2.next then D1.prev else dy.prev) := by
    intro y dy2 hy
    have hy1 : y ≠ ed.he1 := by
      intro hc
      rw [hc, hgone1] at hy
      exact Option.noConfusion hy
    have hy2 : y ≠ ed.he2 := by
      intro hc
      rw [hc, hgone2] at hy
      exact Option.noConfusion hy
    rw [hgetT y hy1 hy2] at hy
    have hp := hpairT y
    unfold pairF at hp
    rw [hy] at hp
    cases hm : mget s.halfedges y with
    | none =>
        rw [hm] at hp
        exact absurd hp (by simp)
    | some dy =>
        obtain ⟨dy2b, hb, r1, r2, r3, r4, r5⟩ := hrec y dy hy1 hy2 hm
        rw [hgetT y hy1 hy2, hy] at hb
        obtain rfl := Option.some.inj hb
        exact ⟨dy, hy1, hy2, rfl, r1, r2, r3, r4, r5⟩
  have hpairS : ∀ y dy, mget s.halfedges y = some dy → y ≠ ed.he1 →
      y ≠ ed.he2 → dy.pair ≠ ed.he1 ∧ dy.pair ≠ ed.he2 := by
    intro y dy hdy hy1 hy2
    obtain ⟨dpp, hdpp, hppq⟩ := w.pairI y dy hdy
    constructor
    · intro hc
      rw [hc, hD1] at hdpp
      rw [← Option.some.inj hdpp] at hppq
      rw [hp12] at hppq
      exact hy2 hppq.symm
    · intro hc
      rw [hc, hD2] at hdpp
      rw [← Option.some.inj hdpp] at hppq
      rw [hp21] at hppq
      exact hy1 hppq.symm
  have hincT : ∀ m y, Incoming (s2.delete_edge e) m y ↔
      (Incoming s m y ∧ y ≠ ed.he1 ∧ y ≠ ed.he2) := by
    intro m y
    constructor
    · rintro ⟨dy2, hdy2, dp2r, hdp2r, ho⟩
      rw [htH] at hdy2 hdp2r
      obtain ⟨dy, hy1, hy2, hdy, hpr, -, -, -, -⟩ := hrecT y dy2 hdy2
      obtain ⟨dpz, -, -, hdpz, -, hoz, -, -, -⟩ := hrecT dy2.pair dp2r hdp2r
      refine ⟨⟨dy, hdy, dpz, ?_, ?_⟩, hy1, hy2⟩
      · rw [← hpr]
        exact hdpz
      · rw [← hoz]
        exact ho
    · rintro ⟨⟨dy, hdy, dpr, hdpr, ho⟩, hy1, hy2⟩
      obtain ⟨hz1, hz2⟩ := hpairS y dy hdy hy1 hy2
      obtain ⟨dy2, hdy2, hprq, -, -, -, -⟩ := hrec y dy hy1 hy2 hdy
      obtain ⟨dp2r, hdp2r, -, hor2r, -, -, -⟩ := hrec dy.pair dpr hz1 hz2 hdpr
      refine ⟨dy2, by rw [htH]; exact hdy2, dp2r, ?_, ?_⟩
      · rw [htH, hprq]
        exact hdp2r
      · rw [hor2r]
        exact ho
  have hnextFt : ∀ y, y ≠ ed.he1 → y ≠ ed.he2 →
      nextF (s2.delete_edge e) y = nextF s2 y := by
    intro y hy1 hy2
    unfold nextF
    rw [htH, hgetT y hy1 hy2]
  have hpairFt : ∀ y, y ≠ ed.he1 → y ≠ ed.he2 →
      pairF (s2.delete_edge e) y = pairF s y := by
    intro y hy1 hy2
    unfold pairF
    rw [htH, hgetT y hy1 hy2]
    exact hpairT y
  have hwalkT : ∀ y dy, mget s.halfedges y = some dy → y ≠ ed.he1 →
      y ≠ ed.he2 → y ≠ D2.prev → y ≠ D1.prev →
      walk_step (s2.delete_edge e) y = walk_step s y := by
    intro y dy hdy hy1 hy2 hyp2 hyp1
    obtain ⟨dnr, hdnr, hdnrp⟩ := w.npI y dy hdy
    have hn1 : dy.next ≠ ed.he1 := by
      intro hc
      rw [hc, hD1] at hdnr
      rw [← Option.some.inj hdnr] at hdnrp
      exact hyp1 hdnrp.symm
    have hn2 : dy.next ≠ ed.he2 := by
      intro hc
      rw [hc, hD2] at hdnr
      rw [← Option.some.inj hdnr] at hdnrp
      exact hyp2 hdnrp.symm
    rw [walk_step_funs, walk_step_funs]
    rw [hnextFt y hy1 hy2, hnextT y, if_neg hyp2, if_neg hyp1]
    rw [nextF_some hdy]
    show pairF (s2.delete_edge e) dy.next = pairF s dy.next
    exact hpairFt dy.next hn1 hn2
  have hwalkp1v : D1.prev ≠ ed.he2 →
      walk_step (s2.delete_edge e) D1.prev = walk_step s ed.he2 := by
    intro hcne
    have hq2s1 : D2.next ≠ ed.he1 := fun hcc => hcne (hB1.mpr hcc)
    rw [walk_step_funs, walk_step_funs]
    rw [hnextFt D1.prev hp1ne hcne, hnextT D1.prev, if_neg hpp, if_pos rfl]
    rw [nextF_some hD2]
    show pairF (s2.delete_edge e) D2.next = pairF s D2.next
    exact hpairFt D2.next hq2s1 hq2ne
  have hwalkp2v : D2.prev ≠ ed.he1 →
      walk_step (s2.delete_edge e) D2.prev = walk_step s ed.he1 := by
    intro hcne
    have hq1s2 : D1.next ≠ ed.he2 := fun hcc => hcne (hB2.mpr hcc)
    rw [walk_step_funs, walk_step_funs]
    rw [hnextFt D2.prev hcne hp2ne, hnextT D2.prev, if_pos rfl]
    rw [nextF_some hD1]
    show pairF (s2.delete_edge e) D1.next = pairF s D1.next
    exact hpairFt D1.next hq1ne hq1s2
  show WFU (s2.delete_edge e) (fun _ => False)
  refine
    { ndN := ?_
      ndH := ?_
      ndE := ?_
      ltN := ?_
      ltH := ?_
      ltE := ?_
      pairI := ?_
      pairN := ?_
      npI := ?_
      pnI := ?_
      orK := ?_
      orL := ?_
      coh := ?_
      noL := ?_
      edO := ?_
      edH := ?_
      ndHe := ?_
      iso := ?_
      fan := ?_ }
  · rw [htN, hnkeys]
    exact w.ndN
  · rw [htH]
    exact keysOf_merase_nodup _ (keysOf_merase_nodup _ hndH2)
  · rw [htE]
    refine keysOf_merase_nodup _ ?_
    rw [hs2E]
    exact w.ndE
  · rw [htN, htF, hs2F]
    intro k hk
    rw [hnkeys] at hk
    exact w.ltN k hk
  · rw [htH, htF, hs2F]
    intro k hk
    have hk2 := mem_keysOf_merase (mem_keysOf_merase hk)
    rw [hkeysT] at hk2
    exact w.ltH k hk2
  · rw [htE, htF, hs2F]
    intro k hk
    have hk2 := mem_keysOf_merase hk
    rw [hs2E] at hk2
    exact w.ltE k hk2
  · intro h d hd
    rw [htH] at hd
    obtain ⟨dy, hy1, hy2, hdy, hpr, -, -, -, -⟩ := hrecT h d hd
    obtain ⟨hz1, hz2⟩ := hpairS h dy hdy hy1 hy2
    obtain ⟨dpp, hdpp, hppq⟩ := w.pairI h dy hdy
    obtain ⟨dpt, hdpt, hprt, -, -, -, -⟩ := hrec dy.pair dpp hz1 hz2 hdpp
    refine ⟨dpt, ?_, ?_⟩
    · rw [htH, hpr]
      exact hdpt
    · rw [hprt]
      exact hppq
  · intro h d hd
    rw [htH] at hd
    obtain ⟨dy, -, -, hdy, hpr, -, -, -, -⟩ := hrecT h d hd
    rw [hpr]
    exact w.pairN h dy hdy
  · intro h d hd
    rw [htH] at hd
    obtain ⟨dy, hy1, hy2, hdy, -, -, -, hnx, -⟩ := hrecT h d hd
    by_cases c1 : h = D2.prev
    · rw [if_pos c1] at hnx
      have ht1 : D1.next ≠ ed.he2 := by
        intro hc
        exact hy1 (c1.trans (hB2.mpr hc))
      obtain ⟨dt, hdt, -, -, -, -, hpv⟩ := hrec D1.next dq1 hq1ne ht1 hdq1
      refine ⟨dt, ?_, ?_⟩
      · rw [htH, hnx]
        exact hdt
      · rw [hpv, if_pos rfl]
        exact c1.symm
    · rw [if_neg c1] at hnx
      by_cases c2 : h = D1.prev
      · rw [if_pos c2] at hnx
        have ht1 : D2.next ≠ ed.he1 := by
          intro hc
          exact hy2 (c2.trans (hB1.mpr hc))
        obtain ⟨dt, hdt, -, -, -, -, hpv⟩ := hrec D2.next dq2 ht1 hq2ne hdq2
        refine ⟨dt, ?_, ?_⟩
        · rw [htH, hnx]
          exact hdt
        · rw [hpv, if_neg (fun hcc => hqq hcc.symm), if_pos rfl]
          exact c2.symm
      · rw [if_neg c2] at hnx
        obtain ⟨dn, hdn, hdnp⟩ := w.npI h dy hdy
        have hn1 : dy.next ≠ ed.he1 := by
          intro hc
          rw [hc, hD1] at hdn
          rw [← Option.some.inj hdn] at hdnp
          exact c2 hdnp.symm
        have hn2 : dy.next ≠ ed.he2 := by
          intro hc
          rw [hc, hD2] at hdn
          rw [← Option.some.inj hdn] at hdnp
          exact c1 hdnp.symm
        have g1 : dy.next ≠ D1.next := fun hc => hy1 (wf_next_inj w hdy hD1 hc)
        have g2 : dy.next ≠ D2.next := fun hc => hy2 (wf_next_inj w hdy hD2 hc)
        obtain ⟨dt, hdt, -, -, -, -, hpv⟩ := hrec dy.next dn hn1 hn2 hdn
        refine ⟨dt, ?_, ?_⟩
        · rw [htH, hnx]
          exact hdt
        · rw [hpv, if_neg g1, if_neg g2]
          exact hdnp
  · intro h d hd
    rw [htH] at hd
    obtain ⟨dy, hy1, hy2, hdy, -, -, -, -, hpv⟩ := hrecT h d hd
    by_cases c1 : h = D1.next
    · rw [if_pos c1] at hpv
      have ht2 : D2.prev ≠ ed.he1 := by
        intro hc
        exact hy2 (c1.trans (hB2.mp hc))
      obtain ⟨dt, hdt, -, -, -, hnx2, -⟩ := hrec D2.prev dp2 ht2 hp2ne hdp2
      refine ⟨dt, ?_, ?_⟩
      · rw [htH, hpv]
        exact hdt
      · rw [hnx2, if_pos rfl]
        exact c1.symm
    · rw [if_neg c1] at hpv
      by_cases c2 : h = D2.next
      · rw [if_pos c2] at hpv
        have ht2 : D1.prev ≠ ed.he2 := by
          intro hc
          exact hy1 (c2.trans (hB1.mp hc))
        obtain ⟨dt, hdt, -, -, -, hnx2, -⟩ := hrec D1.prev dp1 hp1ne ht2 hdp1
        refine ⟨dt, ?_, ?_⟩
        · rw [htH, hpv]
          exact hdt
        · rw [hnx2, if_neg hpp, if_pos rfl]
          exact c2.symm
      · rw [if_neg c2] at hpv
        obtain ⟨dv, hdv, hdvn⟩ := w.pnI h dy hdy
        have hn1 : dy.prev ≠ ed.he1 := by
          intro hc
          rw [hc, hD1] at hdv
          rw [← Option.some.inj hdv] at hdvn
          exact c1 hdvn.symm
        have hn2 : dy.prev ≠ ed.he2 := by
          intro hc
          rw [hc, hD2] at hdv
          rw [← Option.some.inj hdv] at hdvn
          exact c2 hdvn.symm
        have g1 : dy.prev ≠ D2.prev := fun hc => hy2 (wf_prev_inj w hdy hD2 hc)
        have g2 : dy.prev ≠ D1.prev := fun hc => hy1 (wf_prev_inj w hdy hD1 hc)
        obtain ⟨dt, hdt, -, -, -, hnx2, -⟩ := hrec dy.prev dv hn1 hn2 hdv
        refine ⟨dt, ?_, ?_⟩
        · rw [htH, hpv]
          exact hdt
        · rw [hnx2, if_neg g1, if_neg g2]
          exact hdvn
  · intro h d hd
    rw [htH] at hd
    obtain ⟨dy, -, -, hdy, -, hor, -, -, -⟩ := hrecT h d hd
    rw [hor]
    exact w.orK h dy hdy
  · intro h d hd n0 hon
    rw [htH] at hd
    obtain ⟨dy, -, -, hdy, -, hor, -, -, -⟩ := hrecT h d hd
    rw [hor] at hon
    rw [htN]
    by_cases hc1 : n0 = n1
    · obtain rfl := hc1.symm
      exact ⟨_, hv1l⟩
    · by_cases hc2 : n0 = n2
      · obtain rfl := hc2.symm
        exact ⟨_, hv2l⟩
      · rw [hnodO n0 hc1 hc2]
        exact w.orL h dy hdy n0 hon
  · intro h d dn dp hd hdn hdp
    rw [htH] at hd hdn hdp
    obtain ⟨dy, hy1, hy2, hdy, hpr, -, -, hnx, -⟩ := hrecT h d hd
    obtain ⟨dnn, -, -, hdnn, -, horn, -, -, -⟩ := hrecT d.next dn hdn
    obtain ⟨dpp2, -, -, hdpp2, -, horp, -, -, -⟩ := hrecT d.pair dp hdp
    rw [hpr] at hdpp2
    rw [horn, horp]
    by_cases c1 : h = D2.prev
    · rw [if_pos c1] at hnx
      rw [hnx, hdq1] at hdnn
      obtain rfl := Option.some.inj hdnn
      rw [c1, hdp2] at hdy
      obtain rfl := Option.some.inj hdy
      obtain ⟨dppr, hdppr, -⟩ := w.pairI D2.prev dp2 hdp2
      rw [hdppr] at hdpp2
      obtain rfl := Option.some.inj hdpp2
      have hcoh1 := w.coh ed.he1 D1 dq1 D2 hD1 hdq1 (by rw [hp12]; exact hD2)
      have hcoh2 := w.coh D2.prev dp2 D2 dppr hdp2
        (by rw [hp2next]; exact hD2) hdppr
      rw [hcoh1]
      exact hcoh2
    · rw [if_neg c1] at hnx
      by_cases c2 : h = D1.prev
      · rw [if_pos c2] at hnx
        rw [hnx, hdq2] at hdnn
        obtain rfl := Option.some.inj hdnn
        rw [c2, hdp1] at hdy
        obtain rfl := Option.some.inj hdy
        obtain ⟨dppr, hdppr, -⟩ := w.pairI D1.prev dp1 hdp1
        rw [hdppr] at hdpp2
        obtain rfl := Option.some.inj hdpp2
        have hcoh1 := w.coh ed.he2 D2 dq2 D1 hD2 hdq2 (by rw [hp21]; exact hD1)
        have hcoh2 := w.coh D1.prev dp1 D1 dppr hdp1
          (by rw [hp1next]; exact hD1) hdppr
        rw [hcoh1]
        exact hcoh2
      · rw [if_neg c2] at hnx
        rw [hnx] at hdnn
        obtain ⟨dppr, hdppr, -⟩ := w.pairI h dy hdy
        rw [hdppr] at hdpp2
        obtain rfl := Option.some.inj hdpp2
        exact w.coh h dy dnn dppr hdy hdnn hdppr
  · intro h d dp hd hdp
    rw [htH] at hd hdp
    obtain ⟨dy, -, -, hdy, hpr, hor, -, -, -⟩ := hrecT h d hd
    obtain ⟨dpz, -, -, hdpz, -, horp, -, -, -⟩ := hrecT d.pair dp hdp
    rw [hpr] at hdpz
    rw [hor, horp]
    exact w.noL h dy dpz hdy hdpz
  · intro h d hd
    rw [htH] at hd
    obtain ⟨dy, hy1, hy2, hdy, hpr, -, hedg, -, -⟩ := hrecT h d hd
    obtain ⟨edd, hedd, hca⟩ := w.edO h dy hdy
    have hedne : dy.edge ≠ e := by
      intro hc
      rw [hc, hed] at hedd
      rw [← Option.some.inj hedd] at hca
      rcases hca with ⟨ha, -⟩ | ⟨-, hb⟩
      · exact hy1 ha.symm
      · exact hy2 hb.symm
    refine ⟨edd, ?_, ?_⟩
    · rw [htE, hedg, mget_merase_ne _ _ _ hedne, hs2E]
      exact hedd
    · rw [hpr]
      exact hca
  · intro e2 edd hedd
    rw [htE] at hedd
    have he2ne : e2 ≠ e := by
      intro hc
      rw [hc, mget_merase_self (by rw [hs2E]; exact w.ndE)] at hedd
      exact Option.noConfusion hedd
    rw [mget_merase_ne _ _ _ he2ne, hs2E] at hedd
    obtain ⟨d1x, d2x, hl1, hl2, hpa1, hpa2, hee1, hee2⟩ := w.edH e2 edd hedd
    have hs1x : edd.he1 ≠ ed.he1 := by
      intro hc
      rw [hc, hD1] at hl1
      rw [← Option.some.inj hl1] at hee1
      rw [hedge1] at hee1
      exact he2ne hee1.symm
    have hs2x : edd.he1 ≠ ed.he2 := by
      intro hc
      rw [hc, hD2] at hl1
      rw [← Option.some.inj hl1] at hee1
      rw [hedge2] at hee1
      exact he2ne hee1.symm
    have hs3x : edd.he2 ≠ ed.he1 := by
      intro hc
      rw [hc, hD1] at hl2
      rw [← Option.some.inj hl2] at hee2
      rw [hedge1] at hee2
      exact he2ne hee2.symm
    have hs4x : edd.he2 ≠ ed.he2 := by
      intro hc
      rw [hc, hD2] at hl2
      rw [← Option.some.inj hl2] at hee2
      rw [hedge2] at hee2
      exact he2ne hee2.symm
    obtain ⟨dt1, hdt1, hprt1, -, hedt1, -, -⟩ := hrec edd.he1 d1x hs1x hs2x hl1
    obtain ⟨dt2, hdt2, hprt2, -, hedt2, -, -⟩ := hrec edd.he2 d2x hs3x hs4x hl2
    refine ⟨dt1, dt2, ?_, ?_, ?_, ?_, ?_, ?_⟩
    · rw [htH]
      exact hdt1
    · rw [htH]
      exact hdt2
    · rw [hprt1]
      exact hpa1
    · rw [hprt2]
      exact hpa2
    · rw [hedt1]
      exact hee1
    · rw [hedt2]
      exact hee2
  · intro m ndm hndm nh hh
    rw [htN] at hndm
    by_cases hc1 : m = n1
    · obtain rfl := hc1.symm
      rw [hv1l] at hndm
      obtain rfl := Option.some.inj hndm
      have hh2 : v1 = some nh := hh
      rcases hv1s with ⟨hveq, hvne⟩ | ⟨hcond, ⟨hveq, hvne⟩ | ⟨hveq, -⟩⟩
      · have hh3 : nd1.halfedge = some nh := by
          rw [← hveq]
          exact hh2
        obtain ⟨nhd, hnhd, hno⟩ := w.ndHe n1 nd1 hnd1 nh hh3
        have hnh1 : nh ≠ ed.he1 := by
          intro hc
          rw [hc] at hh3
          exact hvne hh3
        have hnh2 : nh ≠ ed.he2 := by
          intro hc
          rw [hc, hD2] at hnhd
          rw [← Option.some.inj hnhd] at hno
          rw [hor2] at hno
          exact hn12 (Option.some.inj hno).symm
        obtain ⟨dt, hdt, -, hot, -, -, -⟩ := hrec nh nhd hnh1 hnh2 hnhd
        refine ⟨dt, by rw [htH]; exact hdt, ?_⟩
        rw [hot]
        exact hno
      · rw [hveq] at hh2
        obtain rfl := Option.some.inj hh2
        have hcoh1 := w.coh ed.he2 D2 dq2 D1 hD2 hdq2 (by rw [hp21]; exact hD1)
        obtain ⟨dt, hdt, -, hot, -, -, -⟩ := hrec D2.next dq2 hvne hq2ne hdq2
        refine ⟨dt, by rw [htH]; exact hdt, ?_⟩
        rw [hot, hcoh1, hor1]
      · rw [hveq] at hh2
        exact Option.noConfusion hh2
    · by_cases hc2 : m = n2
      · obtain rfl := hc2.symm
        rw [hv2l] at hndm
        obtain rfl := Option.some.inj hndm
        have hh2 : v2 = some nh := hh
        rcases hv2s with ⟨hveq, hvne⟩ | ⟨hcond, ⟨hveq, hvne⟩ | ⟨hveq, -⟩⟩
        · have hh3 : nd2.halfedge = some nh := by
            rw [← hveq]
            exact hh2
          obtain ⟨nhd, hnhd, hno⟩ := w.ndHe n2 nd2 hnd2 nh hh3
          have hnh2 : nh ≠ ed.he2 := by
            intro hc
            rw [hc] at hh3
            exact hvne hh3
          have hnh1 : nh ≠ ed.he1 := by
            intro hc
            rw [hc, hD1] at hnhd
            rw [← Option.some.inj hnhd] at hno
            rw [hor1] at hno
            exact hn12 (Option.some.inj hno)
          obtain ⟨dt, hdt, -, hot, -, -, -⟩ := hrec nh nhd hnh1 hnh2 hnhd
          refine ⟨dt, by rw [htH]; exact hdt, ?_⟩
          rw [hot]
          exact hno
        · rw [hveq] at hh2
          obtain rfl := Option.some.inj hh2
          have hcoh1 := w.coh ed.he1 D1 dq1 D2 hD1 hdq1
            (by rw [hp12]; exact hD2)
          obtain ⟨dt, hdt, -, hot, -, -, -⟩ := hrec D1.next dq1 hq1ne hvne hdq1
          refine ⟨dt, by rw [htH]; exact hdt, ?_⟩
          rw [hot, hcoh1, hor2]
        · rw [hveq] at hh2
          exact Option.noConfusion hh2
      · rw [hnodO m hc1 hc2] at hndm
        obtain ⟨nhd, hnhd, hno⟩ := w.ndHe m ndm hndm nh hh
        have hnh1 : nh ≠ ed.he1 := by
          intro hc
          rw [hc, hD1] at hnhd
          rw [← Option.some.inj hnhd] at hno
          rw [hor1] at hno
          exact hc1 (Option.some.inj hno).symm
        have hnh2 : nh ≠ ed.he2 := by
          intro hc
          rw [hc, hD2] at hnhd
          rw [← Option.some.inj hnhd] at hno
          rw [hor2] at hno
          exact hc2 (Option.some.inj hno).symm
        obtain ⟨dt, hdt, -, hot, -, -, -⟩ := hrec nh nhd hnh1 hnh2 hnhd
        refine ⟨dt, by rw [htH]; exact hdt, ?_⟩
        rw [hot]
        exact hno
  · intro m ndm hndm hni h d hd
    rw [htN] at hndm
    rw [htH] at hd
    obtain ⟨dy, hy1, hy2, hdy, -, hor, -, -, -⟩ := hrecT h d hd
    rw [hor]
    by_cases hc1 : m = n1
    · obtain rfl := hc1.symm
      rw [hv1l] at hndm
      obtain rfl := Option.some.inj hndm
      have hni2 : v1 = none := hni
      rcases hv1s with ⟨hveq, -⟩ | ⟨-, ⟨hveq, -⟩ | ⟨-, hveq2⟩⟩
      · have h5 : nd1.halfedge = none := by
          rw [← hveq]
          exact hni2
        exact absurd hor1 (w.iso n1 nd1 hnd1 h5 ed.he1 D1 hD1)
      · rw [hveq] at hni2
        exact Option.noConfusion hni2
      · intro hoc
        obtain ⟨dpp, hdpp, hppq⟩ := w.pairI h dy hdy
        have hincp : Incoming s n1 dy.pair :=
          ⟨dpp, hdpp, dy, by rw [hppq]; exact hdy, hoc⟩
        obtain ⟨L, hcL, hndL, -, hcov⟩ := w.fan n1 ed.he2 hinc2n1
        have hself : walk_step s ed.he2 = some ed.he2 := by
          rw [walk_step_some hD2, hveq2, hD1]
          simp only [Option.map_some']
          rw [hp12]
        have hLx : L = [ed.he2] :=
          cycOK_self_singleton hcL hndL ((hcov ed.he2).mp hinc2n1) hself
        have hmem := (hcov dy.pair).mp hincp
        rw [hLx] at hmem
        have hdppair : dy.pair = ed.he2 := by simpa using hmem
        rw [hdppair, hD2] at hdpp
        rw [← Option.some.inj hdpp] at hppq
        rw [hp21] at hppq
        exact hy1 hppq.symm
    · by_cases hc2 : m = n2
      · obtain rfl := hc2.symm
        rw [hv2l] at hndm
        obtain rfl := Option.some.inj hndm
        have hni2 : v2 = none := hni
        rcases hv2s with ⟨hveq, -⟩ | ⟨-, ⟨hveq, -⟩ | ⟨-, hveq2⟩⟩
        · have h5 : nd2.halfedge = none := by
            rw [← hveq]
            exact hni2
          exact absurd hor2 (w.iso n2 nd2 hnd2 h5 ed.he2 D2 hD2)
        · rw [hveq] at hni2
          exact Option.noConfusion hni2
        · intro hoc
          obtain ⟨dpp, hdpp, hppq⟩ := w.pairI h dy hdy
          have hincp : Incoming s n2 dy.pair :=
            ⟨dpp, hdpp, dy, by rw [hppq]; exact hdy, hoc⟩
          obtain ⟨L, hcL, hndL, -, hcov⟩ := w.fan n2 ed.he1 hinc1n2
          have hself : walk_step s ed.he1 = some ed.he1 := by
            rw [walk_step_some hD1, hveq2, hD2]
            simp only [Option.map_some']
            rw [hp21]
          have hLx : L = [ed.he1] :=
            cycOK_self_singleton hcL hndL ((hcov ed.he1).mp hinc1n2) hself
          have hmem := (hcov dy.pair).mp hincp
          rw [hLx] at hmem
          have hdppair : dy.pair = ed.he1 := by simpa using hmem
          rw [hdppair, hD1] at hdpp
          rw [← Option.some.inj hdpp] at hppq
          rw [hp12] at hppq
          exact hy2 hppq.symm
      · rw [hnodO m hc1 hc2] at hndm
        exact w.iso m ndm hndm hni h dy hdy
  · intro m x hx
    obtain ⟨hxs, hx1, hx2⟩ := (hincT m x).mp hx
    by_cases hm1 : m = n1
    · obtain rfl := hm1.symm
      obtain ⟨L, hcL, hndL, -, hcov⟩ := w.fan n1 ed.he2 hinc2n1
      obtain ⟨L1, L2, hsplit, hrot⟩ :=
        cycOK_rotate hcL ((hcov ed.he2).mp hinc2n1)
      have hndrot : (ed.he2 :: (L2 ++ L1)).Nodup :=
        rotate_nodup (hsplit ▸ hndL)
      have hcovrot : ∀ y, Incoming s n1 y ↔ y ∈ ed.he2 :: (L2 ++ L1) := by
        intro y
        rw [hcov y, hsplit]
        exact rotate_mem.symm
      have hxL : x ∈ ed.he2 :: (L2 ++ L1) := (hcovrot x).mp hxs
      have hxT : x ∈ L2 ++ L1 := by
        rcases List.mem_cons.mp hxL with h6 | h6
        · exact absurd h6 hx2
        · exact h6
      have hTne : L2 ++ L1 ≠ [] := List.ne_nil_of_mem hxT
      have hlast := cyc_last_step hrot hTne
      obtain ⟨dlast, hdlast, -⟩ := (hcovrot _).mpr
        (List.mem_cons_of_mem _ (List.getLast_mem hTne))
      obtain ⟨dnl, hdnl, hwl⟩ := wf_walk_step w hdlast
      rw [hlast] at hwl
      have hpq : dnl.pair = ed.he2 := (Option.some.inj hwl).symm
      have hnxl : dlast.next = ed.he1 :=
        wf_pair_inj w hdnl hD1 (by rw [hpq, hp12])
      have hlid : (L2 ++ L1).getLast hTne = D1.prev :=
        wf_next_inj w hdlast hdp1 (by rw [hnxl, hp1next])
      have hp1he2 : D1.prev ≠ ed.he2 := by
        intro hc
        have h5 := List.getLast_mem hTne
        rw [hlid, hc] at h5
        exact (List.nodup_cons.mp hndrot).1 h5
      have hndT : (L2 ++ L1).Nodup := (List.nodup_cons.mp hndrot).2
      have hnewc : cycOK (walk_step (s2.delete_edge e)) (L2 ++ L1) := by
        refine cycOK_delete hrot hTne ?_ ?_
        · rw [hlid]
          exact hwalkp1v hp1he2
        · intro y hy
          have hymem : y ∈ L2 ++ L1 :=
            List.Sublist.subset (List.dropLast_sublist _) hy
          have hyinc : Incoming s n1 y :=
            (hcovrot y).mpr (List.mem_cons_of_mem _ hymem)
          obtain ⟨dyy, hdyy, -⟩ := (hcovrot y).mpr
            (List.mem_cons_of_mem _ hymem)
          have hy1c : y ≠ ed.he1 := by
            intro hc
            rw [hc] at hyinc
            exact hn12 (incoming_unique hyinc hinc1n2)
          have hy2c : y ≠ ed.he2 := by
            intro hc
            rw [hc] at hymem
            exact (List.nodup_cons.mp hndrot).1 hymem
          have hyp1 : y ≠ D1.prev := by
            intro hc
            rw [← hlid] at hc
            exact dropLast_ne_getLast hTne hndT hy hc
          have hyp2 : y ≠ D2.prev := by
            intro hc
            rw [hc] at hyinc
            exact hn12 (incoming_unique hyinc hincp2)
          exact hwalkT y dyy hdyy hy1c hy2c hyp2 hyp1
      have hcovT : ∀ y, Incoming (s2.delete_edge e) n1 y ↔ y ∈ L2 ++ L1 := by
        intro y
        rw [hincT n1 y]
        constructor
        · rintro ⟨hyinc, hy1c, hy2c⟩
          have h5 := (hcovrot y).mp hyinc
          rcases List.mem_cons.mp h5 with h6 | h6
          · exact absurd h6 hy2c
          · exact h6
        · intro h5
          have hyinc := (hcovrot y).mpr (List.mem_cons_of_mem _ h5)
          refine ⟨hyinc, ?_, ?_⟩
          · intro hc
            rw [hc] at hyinc
            exact hn12 (incoming_unique hyinc hinc1n2)
          · intro hc
            rw [hc] at h5
            exact (List.nodup_cons.mp hndrot).1 h5
      obtain ⟨R1, R2, hsp2, hrot2⟩ := cycOK_rotate hnewc hxT
      refine ⟨x :: (R2 ++ R1), hrot2, rotate_nodup (hsp2 ▸ hndT), rfl, ?_⟩
      intro y
      rw [hcovT y, hsp2]
      exact rotate_mem.symm
    · by_cases hm2 : m = n2
      · obtain rfl := hm2.symm
        obtain ⟨L, hcL, hndL, -, hcov⟩ := w.fan n2 ed.he1 hinc1n2
        obtain ⟨L1, L2, hsplit, hrot⟩ :=
          cycOK_rotate hcL ((hcov ed.he1).mp hinc1n2)
        have hndrot : (ed.he1 :: (L2 ++ L1)).Nodup :=
          rotate_nodup (hsplit ▸ hndL)
        have hcovrot : ∀ y, Incoming s n2 y ↔ y ∈ ed.he1 :: (L2 ++ L1) := by
          intro y
          rw [hcov y, hsplit]
          exact rotate_mem.symm
        have hxL : x ∈ ed.he1 :: (L2 ++ L1) := (hcovrot x).mp hxs
        have hxT : x ∈ L2 ++ L1 := by
          rcases List.mem_cons.mp hxL with h6 | h6
          · exact absurd h6 hx1
          · exact h6
        have hTne : L2 ++ L1 ≠ [] := List.ne_nil_of_mem hxT
        have hlast := cyc_last_step hrot hTne
        obtain ⟨dlast, hdlast, -⟩ := (hcovrot _).mpr
          (List.mem_cons_of_mem _ (List.getLast_mem hTne))
        obtain ⟨dnl, hdnl, hwl⟩ := wf_walk_step w hdlast
        rw [hlast] at hwl
        have hpq : dnl.pair = ed.he1 := (Option.some.inj hwl).symm
        have hnxl : dlast.next = ed.he2 :=
          wf_pair_inj w hdnl hD2 (by rw [hpq, hp21])
        have hlid : (L2 ++ L1).getLast hTne = D2.prev :=
          wf_next_inj w hdlast hdp2 (by rw [hnxl, hp2next])
        have hp2he1 : D2.prev ≠ ed.he1 := by
          intro hc
          have h5 := List.getLast_mem hTne
          rw [hlid, hc] at h5
          exact (List.nodup_cons.mp hndrot).1 h5
        have hndT : (L2 ++ L1).Nodup := (List.nodup_cons.mp hndrot).2
        have hnewc : cycOK (walk_step (s2.delete_edge e)) (L2 ++ L1) := by
          refine cycOK_delete hrot hTne ?_ ?_
          · rw [hlid]
            exact hwalkp2v hp2he1
          · intro y hy
            have hymem : y ∈ L2 ++ L1 :=
              List.Sublist.subset (List.dropLast_sublist _) hy
            have hyinc : Incoming s n2 y :=
              (hcovrot y).mpr (List.mem_cons_of_mem _ hymem)
            obtain ⟨dyy, hdyy, -⟩ := (hcovrot y).mpr
              (List.mem_cons_of_mem _ hymem)
            have hy1c : y ≠ ed.he1 := by
              intro hc
              rw [hc] at hymem
              exact (List.nodup_cons.mp hndrot).1 hymem
            have hy2c : y ≠ ed.he2 := by
              intro hc
              rw [hc] at hyinc
              exact hn12 (incoming_unique hyinc hinc2n1).symm
            have hyp2 : y ≠ D2.prev := by
              intro hc
              rw [← hlid] at hc
              exact dropLast_ne_getLast hTne hndT hy hc
            have hyp1 : y ≠ D1.prev := by
              intro hc
              rw [hc] at hyinc
              exact hn12 (incoming_unique hyinc hincp1).symm
            exact hwalkT y dyy hdyy hy1c hy2c hyp2 hyp1
        have hcovT : ∀ y, Incoming (s2.delete_edge e) n2 y ↔
            y ∈ L2 ++ L1 := by
          intro y
          rw [hincT n2 y]
          constructor
          · rintro ⟨hyinc, hy1c, hy2c⟩
            have h5 := (hcovrot y).mp hyinc
            rcases List.mem_cons.mp h5 with h6 | h6
            · exact absurd h6 hy1c
            · exact h6
          · intro h5
            have hyinc := (hcovrot y).mpr (List.mem_cons_of_mem _ h5)
            refine ⟨hyinc, ?_, ?_⟩
            · intro hc
              rw [hc] at h5
              exact (List.nodup_cons.mp hndrot).1 h5
            · intro hc
              rw [hc] at hyinc
              exact hn12 (incoming_unique hyinc hinc2n1).symm
        obtain ⟨R1, R2, hsp2, hrot2⟩ := cycOK_rotate hnewc hxT
        refine ⟨x :: (R2 ++ R1), hrot2, rotate_nodup (hsp2 ▸ hndT), rfl, ?_⟩
        intro y
        rw [hcovT y, hsp2]
        exact rotate_mem.symm
      · obtain ⟨L, hcL, hndL, hhL, hcov⟩ := w.fan m x hxs
        refine ⟨L, cycOK_congr ?_ hcL, hndL, hhL, ?_⟩
        · intro y hy
          have hyinc := (hcov y).mpr hy
          obtain ⟨dyy, hdyy, -⟩ := (hcov y).mpr hy
          have hy1c : y ≠ ed.he1 := fun hc =>
            hm2 (incoming_unique (hc ▸ hyinc) hinc1n2)
          have hy2c : y ≠ ed.he2 := fun hc =>
            hm1 (incoming_unique (hc ▸ hyinc) hinc2n1)
          have hyp1 : y ≠ D1.prev := fun hc =>
            hm1 (incoming_unique (hc ▸ hyinc) hincp1)
          have hyp2 : y ≠ D2.prev := fun hc =>
            hm2 (incoming_unique (hc ▸ hyinc) hincp2)
          exact (hwalkT y dyy hdyy hy1c hy2c hyp2 hyp1).symm
        · intro y
          rw [hincT m y]
          constructor
          · rintro ⟨h5, -, -⟩
            exact (hcov y).mp h5
          · intro h5
            have hyinc := (hcov y).mpr h5
            refine ⟨hyinc, ?_, ?_⟩
            · intro hc
              exact hm2 (incoming_unique (hc ▸ hyinc) hinc1n2)
            · intro hc
              exact hm1 (incoming_unique (hc ▸ hyinc) hinc2n1)

/-- Inversion of the final two `detach_edge` binds of `remove_edge`. -/
theorem remove_edge_detach_tail (sB : HDS) (e : Nat) (ed : EdgeD) (t : HDS)
    (h : Res.bind (detach_edge sB ed.he1) (fun s2 =>
      Res.bind (detach_edge s2 ed.he2) (fun s3 =>
      pure (s3.delete_edge e))) = Res.ok t) :
    ∃ s1 s2, detach_edge sB ed.he1 = Res.ok s1 ∧
      detach_edge s1 ed.he2 = Res.ok s2 ∧ t = s2.delete_edge e := by
  cases hde1 : detach_edge sB ed.he1 with
  | ok s1 =>
      rw [hde1] at h
      simp only [Res.bind_ok] at h
      cases hde2 : detach_edge s1 ed.he2 with
      | ok s2 =>
          rw [hde2] at h
          simp only [Res.bind_ok, Res.monad_pure, Res.ok.injEq] at h
          exact ⟨s1, s2, rfl, hde2, h.symm⟩
      | err e2 s3 =>
          rw [hde2] at h
          simp at h
      | div =>
          rw [hde2] at h
          simp at h
  | err e2 s3 =>
      rw [hde1] at h
      simp at h
  | div =>
      rw [hde1] at h
      simp at h

/-- Second half of `remove_edge`: the boundary re-check of `he2`, the
optional second face removal, and the two detaches plus deletion. -/
theorem remove_edge_stageB (sA : HDS) (e : Nat) (ed : EdgeD) (t : HDS)
    (wA : WF sA) (hedA : mget sA.edges e = some ed)
    (h : Res.bind (sA.he? ed.he2) (fun d2 =>
      match d2.face with
      | some f => Res.bind (remove_face sA f) (fun sB =>
          Res.bind (detach_edge sB ed.he1) (fun s2 =>
          Res.bind (detach_edge s2 ed.he2) (fun s3 =>
          pure (s3.delete_edge e))))
      | none => Res.bind (detach_edge sA ed.he1) (fun s2 =>
          Res.bind (detach_edge s2 ed.he2) (fun s3 =>
          pure (s3.delete_edge e)))) = Res.ok t) : WF t := by
  cases hd2m : mget sA.halfedges ed.he2 with
  | none =>
      simp [HDS.he?, hd2m] at h
  | some d2 =>
      simp only [HDS.he?, hd2m, Res.bind_ok] at h
      cases hfc2 : d2.face with
      | none =>
          rw [hfc2] at h
          simp only at h
          obtain ⟨s1, s2, hde1, hde2, ht⟩ := remove_edge_detach_tail sA e ed t h
          subst ht
          exact wf_detach2_delete sA e ed s1 s2 wA hedA hde1 hde2
      | some f2 =>
          rw [hfc2] at h
          simp only at h
          cases hrf2 : remove_face sA f2 with
          | ok sB =>
              rw [hrf2] at h
              simp only [Res.bind_ok] at h
              obtain ⟨s1, s2, hde1, hde2, ht⟩ :=
                remove_edge_detach_tail sB e ed t h
              subst ht
              have wB := wf_remove_face sA f2 sB wA hrf2
              have hedB : mget sB.edges e = some ed := by
                rw [remove_face_edges sA f2 sB hrf2]
                exact hedA
              exact wf_detach2_delete sB e ed s1 s2 wB hedB hde1 hde2
          | err e2 s3 =>
              rw [hrf2] at h
              simp at h
          | div =>
              rw [hrf2] at h
              simp at h

/-- Well-formedness is preserved by a successful `remove_edge`. -/
theorem wf_remove_edge (s : HDS) (e : Nat) (t : HDS) (w : WF s)
    (h : remove_edge s e = Res.ok t) : WF t := by
  unfold remove_edge at h
  cases hed : mget s.edges e with
  | none =>
      simp [HDS.edge?, hed] at h
  | some ed =>
      simp only [HDS.edge?, hed, Res.monad_bind, Res.bind_ok] at h
      cases hd1m : mget s.halfedges ed.he1 with
      | none =>
          simp [HDS.he?, hd1m] at h
      | some d1 =>
          simp only [HDS.he?, hd1m, Res.bind_ok] at h
          cases hfc1 : d1.face with
          | none =>
              rw [hfc1] at h
              simp only [Res.monad_pure, Res.bind_ok] at h
              exact remove_edge_stageB s e ed t w hed h
          | some f =>
              rw [hfc1] at h
              simp only at h
              cases hrf : remove_face s f with
              | ok sA =>
                  rw [hrf] at h
                  simp only [Res.bind_ok] at h
                  have wA := wf_remove_face s f sA w hrf
                  have hedA : mget sA.edges e = some ed := by
                    rw [remove_face_edges s f sA hrf]
                    exact hed
                  exact remove_edge_stageB sA e ed t wA hedA h
              | err e2 s3 =>
                  rw [hrf] at h
                  simp at h
              | div =>
                  rw [hrf] at h
                  simp at h

/-- Deleting an isolated node (no incident halfedge, per the `iso` clause)
preserves well-formedness. -/
theorem wf_delete_node (s : HDS) (n : Nat) (nd : NodeD) (w : WF s)
    (hnd : mget s.nodes n = some nd) (hno : nd.halfedge = none) :
    WF (s.delete_node n) := by
  have hnone : ∀ h d, mget s.halfedges h = some d → d.origin ≠ some n :=
    w.iso n nd hnd hno
  show WFU (s.delete_node n) (fun _ => False)
  refine
    { ndN := ?_
      ndH := ?_
      ndE := ?_
      ltN := ?_
      ltH := ?_
      ltE := ?_
      pairI := ?_
      pairN := ?_
      npI := ?_
      pnI := ?_
      orK := ?_
      orL := ?_
      coh := ?_
      noL := ?_
      edO := ?_
      edH := ?_
      ndHe := ?_
      iso := ?_
      fan := ?_ }
  · exact keysOf_merase_nodup _ w.ndN
  · exact w.ndH
  · exact w.ndE
  · intro k hk
    exact w.ltN k (mem_keysOf_merase hk)
  · exact w.ltH
  · exact w.ltE
  · exact w.pairI
  · exact w.pairN
  · exact w.npI
  · exact w.pnI
  · exact w.orK
  · intro h d hd n0 hon
    have hne : n0 ≠ n := fun hc => hnone h d hd (hc ▸ hon)
    obtain ⟨ndx, hndx⟩ := w.orL h d hd n0 hon
    refine ⟨ndx, ?_⟩
    show mget (merase s.nodes n) n0 = some ndx
    rw [mget_merase_ne _ _ _ hne]
    exact hndx
  · exact w.coh
  · exact w.noL
  · exact w.edO
  · exact w.edH
  · intro m ndm hndm nh hhm
    have h5 : mget (merase s.nodes n) m = some ndm := hndm
    by_cases hc : m = n
    · rw [hc, mget_merase_self w.ndN] at h5
      exact Option.noConfusion h5
    · rw [mget_merase_ne _ _ _ hc] at h5
      exact w.ndHe m ndm h5 nh hhm
  · intro m ndm hndm hni h d hd
    have h5 : mget (merase s.nodes n) m = some ndm := hndm
    by_cases hc : m = n
    · rw [hc, mget_merase_self w.ndN] at h5
      exact Option.noConfusion h5
    · rw [mget_merase_ne _ _ _ hc] at h5
      exact w.iso m ndm h5 hni h d hd
  · exact FanOK_congr rfl w.fan

/-- Well-formedness is preserved by the edge-removal loop of `remove_node`. -/
theorem wf_remove_node_go (n : Nat) : ∀ (fuel : Nat) (s : HDS)
    (nxt : Option Nat) (t : HDS), WF s →
    remove_node_go s n nxt fuel = Res.ok t → WF t := by
  intro fuel
  induction fuel with
  | zero =>
      intro s nxt t w h
      exact absurd h (by simp [remove_node_go])
  | succ fuel ih =>
      intro s nxt t w h
      unfold remove_node_go at h
      cases hnd : mget s.nodes n with
      | none =>
          simp [HDS.node?, hnd] at h
      | some nd =>
          simp only [HDS.node?, hnd, Res.monad_bind, Res.bind_ok] at h
          cases hh : nd.halfedge with
          | none =>
              rw [hh] at h
              simp only [Res.monad_pure, Res.ok.injEq] at h
              subst h
              exact wf_delete_node s n nd w hnd hh
          | some cur0 =>
              rw [hh] at h
              simp only at h
              cases nxt with
              | none =>
                  simp [nonNull] at h
              | some cur =>
                  simp only [nonNull, Res.monad_bind, Res.bind_ok] at h
                  cases hcd : mget s.halfedges cur with
                  | none =>
                      simp [HDS.he?, hcd] at h
                  | some cd =>
                      simp only [HDS.he?, hcd, Res.bind_ok] at h
                      cases hpd : mget s.halfedges cd.pair with
                      | none =>
                          simp [HDS.he?, hpd] at h
                      | some pd =>
                          simp only [HDS.he?, hpd, Res.bind_ok] at h
                          cases hre : remove_edge s cd.edge with
                          | ok s2 =>
                              rw [hre] at h
                              simp only [Res.bind_ok] at h
                              exact ih s2 (some pd.next) t
                                (wf_remove_edge s cd.edge s2 w hre) h
                          | err e2 s3 =>
                              rw [hre] at h
                              simp at h
                          | div =>
                              rw [hre] at h
                              simp at h

/-- Well-formedness is preserved by a successful `remove_node`. -/
theorem wf_remove_node (s : HDS) (n : Nat) (t : HDS) (w : WF s)
    (h : remove_node s n = Res.ok t) : WF t := by
  unfold remove_node at h
  cases hnd : mget s.nodes n with
  | none =>
      simp [HDS.node?, hnd] at h
  | some nd =>
      simp only [HDS.node?, hnd, Res.monad_bind, Res.bind_ok] at h
      exact wf_remove_node_go n (s.edges.length + 1) s nd.halfedge t w h

/-- Second face block of `split_edge` plus the final return: preserves
well-formedness. -/
theorem split_edge_stageF2 (s : HDS) (nN h1v h2v : Nat)
    (F2 : Option (Nat × Nat × Option Nat)) (t : HDS) (nres : Nat)
    (w : WF s)
    (h : Res.bind (match F2 with
      | none => pure s
      | some (h7, h8, n4o) => do
          let n4 ← nonNull n4o
          let (s, h4) ← add_edge s nN n4
          let d4 ← s.he? h4
          let (s, _) ← add_face s h1v h7 d4.pair
          let dh2 ← s.he? h2v
          let (s, _) ← add_face s h4 h8 dh2.pair
          pure s) (fun s => pure (s, nN)) = Res.ok (t, nres)) : WF t := by
  cases F2 with
  | none =>
      simp only [Res.monad_pure, Res.bind_ok, Res.ok.injEq,
        Prod.mk.injEq] at h
      obtain ⟨ht, -⟩ := h
      subst ht
      exact w
  | some tup =>
      obtain ⟨h7v, h8v, n4o⟩ := tup
      simp only [Res.monad_bind] at h
      cases n4o with
      | none =>
          simp [nonNull] at h
      | some n4 =>
          simp only [nonNull, Res.bind_ok] at h
          cases hae4 : add_edge s nN n4 with
          | ok r4 =>
              cases r4 with
              | mk s2 h4v =>
                  rw [hae4] at h
                  simp only [Res.bind_ok] at h
                  have w2 := wf_add_edge s nN n4 s2 h4v w hae4
                  cases hd4 : mget s2.halfedges h4v with
                  | none =>
                      simp [HDS.he?, hd4] at h
                  | some d4 =>
                      simp only [HDS.he?, hd4, Res.bind_ok] at h
                      cases haf1 : add_face s2 h1v h7v d4.pair with
                      | ok rf1 =>
                          cases rf1 with
                          | mk s3 fv1 =>
                              rw [haf1] at h
                              simp only [Res.bind_ok] at h
                              have w3 := wf_add_face s2 h1v h7v d4.pair s3
                                fv1 w2 haf1
                              cases hdh2 : mget s3.halfedges h2v with
                              | none =>
                                  simp [HDS.he?, hdh2] at h
                              | some dh2 =>
                                  simp only [HDS.he?, hdh2, Res.bind_ok] at h
                                  cases haf2 : add_face s3 h4v h8v dh2.pair with
                                  | ok rf2 =>
                                      cases rf2 with
                                      | mk s4 fv2 =>
                                          rw [haf2] at h
                                          simp only [Res.bind_ok,
                                            Res.monad_pure, Res.ok.injEq,
                                            Prod.mk.injEq] at h
                                          obtain ⟨ht, -⟩ := h
                                          subst ht
                                          exact wf_add_face s3 h4v h8v
                                            dh2.pair s4 fv2 w3 haf2
                                  | err e2 sx =>
                                      rw [haf2] at h
                                      simp at h
                                  | div =>
                                      rw [haf2] at h
                                      simp at h
                      | err e2 sx =>
                          rw [haf1] at h
                          simp at h
                      | div =>
                          rw [haf1] at h
                          simp at h
          | err e2 sx =>
              rw [hae4] at h
              simp at h
          | div =>
              rw [hae4] at h
              simp at h

/-- Tail of `split_edge` after the two face-data snapshots: edge removal,
node insertion, the two spoke edges and the optional face rebuilds preserve
well-formedness. -/
theorem split_edge_tail (s0 : HDS) (e : Nat) (p : Point2) (n1 n2 : Nat)
    (F1 F2 : Option (Nat × Nat × Option Nat)) (t : HDS) (nres : Nat)
    (w : WF s0)
    (h : Res.bind (remove_edge s0 e) (fun s => do
      let (s, n_new) := add_node s p
      let (s, h1) ← add_edge s n_new n1
      let (s, h2) ← add_edge s n_new n2
      let s ← (match F1 with
        | none => pure s
        | some (h5, h6, n3o) => do
            let n3 ← nonNull n3o
            let (s, h3) ← add_edge s n_new n3
            let d3 ← s.he? h3
            let (s, _) ← add_face s h2 h5 d3.pair
            let dh1 ← s.he? h1
            let (s, _) ← add_face s h3 h6 dh1.pair
            pure s)
      let s ← (match F2 with
        | none => pure s
        | some (h7, h8, n4o) => do
            let n4 ← nonNull n4o
            let (s, h4) ← add_edge s n_new n4
            let d4 ← s.he? h4
            let (s, _) ← add_face s h1 h7 d4.pair
            let dh2 ← s.he? h2
            let (s, _) ← add_face s h4 h8 dh2.pair
            pure s)
      pure (s, n_new)) = Res.ok (t, nres)) : WF t := by
  simp only [Res.monad_bind] at h
  cases hre : remove_edge s0 e with
  | ok sR =>
      rw [hre] at h
      simp only [Res.bind_ok] at h
      have wR := wf_remove_edge s0 e sR w hre
      cases han : add_node sR p with
      | mk sN nN =>
          rw [han] at h
          simp only at h
          have wN : WF sN := by
            have h5 := wf_add_node sR p wR
            rw [han] at h5
            exact h5
          cases hae1 : add_edge sN nN n1 with
          | ok r1 =>
              cases r1 with
              | mk sE1 h1v =>
                  rw [hae1] at h
                  simp only [Res.bind_ok] at h
                  have wE1 := wf_add_edge sN nN n1 sE1 h1v wN hae1
                  cases hae2 : add_edge sE1 nN n2 with
                  | ok r2 =>
                      cases r2 with
                      | mk sE2 h2v =>
                          rw [hae2] at h
                          simp only [Res.bind_ok] at h
                          have wE2 := wf_add_edge sE1 nN n2 sE2 h2v wE1 hae2
                          cases F1 with
                          | none =>
                              simp only [Res.monad_pure, Res.bind_ok] at h
                              exact split_edge_stageF2 sE2 nN h1v h2v F2 t
                                nres wE2 h
                          | some tup1 =>
                              obtain ⟨h5v, h6v, n3o⟩ := tup1
                              simp only at h
                              cases n3o with
                              | none =>
                                  simp [nonNull] at h
                              | some n3 =>
                                  simp only [nonNull, Res.bind_ok] at h
                                  cases hae3 : add_edge sE2 nN n3 with
                                  | ok r3 =>
                                      cases r3 with
                                      | mk sE3 h3v =>
                                          rw [hae3] at h
                                          simp only [Res.bind_ok] at h
                                          have wE3 := wf_add_edge sE2 nN n3
                                            sE3 h3v wE2 hae3
                                          cases hd3 : mget sE3.halfedges h3v with
                                          | none =>
                                              simp [HDS.he?, hd3] at h
                                          | some d3 =>
                                              simp only [HDS.he?, hd3,
                                                Res.bind_ok] at h
                                              cases haf1 : add_face sE3 h2v h5v
                                                  d3.pair with
                                              | ok rf1 =>
                                                  cases rf1 with
                                                  | mk sF1 fv1 =>
                                                      rw [haf1] at h
                                                      simp only [Res.bind_ok] at h
                                                      have wF1 := wf_add_face sE3
                                                        h2v h5v d3.pair sF1 fv1
                                                        wE3 haf1
                                                      cases hdh1 : mget
                                                          sF1.halfedges h1v with
                                                      | none =>
                                                          simp [HDS.he?, hdh1] at h
                                                      | some dh1 =>
                                                          simp only [HDS.he?,
                                                            hdh1, Res.bind_ok] at h
                                                          cases haf2 : add_face sF1
                                                              h3v h6v dh1.pair with
                                                          | ok rf2 =>
                                                              cases rf2 with
                                                              | mk sF2 fv2 =>
                                                                  rw [haf2] at h
                                                                  simp only
                                                                    [Res.bind_ok,
                                                                    Res.monad_pure] at h
                                                                  have wF2 :=
                                                                    wf_add_face sF1
                                                                    h3v h6v dh1.pair
                                                                    sF2 fv2 wF1 haf2
                                                                  exact
                                                                    split_edge_stageF2
                                                                    sF2 nN h1v h2v
                                                                    F2 t nres wF2 h
                                                          | err e2 sx =>
                                                              rw [haf2] at h
                                                              simp at h
                                                          | div =>
                                                              rw [haf2] at h
                                                              simp at h
                                              | err e2 sx =>
                                                  rw [haf1] at h
                                                  simp at h
                                              | div =>
                                                  rw [haf1] at h
                                                  simp at h
                                  | err e2 sx =>
                                      rw [hae3] at h
                                      simp at h
                                  | div =>
                                      rw [hae3] at h
                                      simp at h
                  | err e2 sx =>
                      rw [hae2] at h
                      simp at h
                  | div =>
                      rw [hae2] at h
                      simp at h
          | err e2 sx =>
              rw [hae1] at h
              simp at h
          | div =>
              rw [hae1] at h
              simp at h
  | err e2 sx =>
      rw [hre] at h
      simp at h
  | div =>
      rw [hre] at h
      simp at h

/-- Well-formedness is preserved by a successful `split_edge`. -/
theorem wf_split_edge (s : HDS) (e : Nat) (p : Point2) (t : HDS) (nres : Nat)
    (w : WF s) (h : split_edge s e p = Res.ok (t, nres)) : WF t := by
  unfold split_edge at h
  cases hed : mget s.edges e with
  | none =>
      simp [HDS.edge?, hed] at h
  | some ed =>
      simp only [HDS.edge?, hed, Res.monad_bind, Res.bind_ok] at h
      cases hd1 : mget s.halfedges ed.he1 with
      | none =>
          simp [HDS.he?, hd1] at h
      | some d1 =>
          simp only [HDS.he?, hd1, Res.bind_ok] at h
          cases hd2 : mget s.halfedges ed.he2 with
          | none =>
              simp [HDS.he?, hd2] at h
          | some d2 =>
              simp only [HDS.he?, hd2, Res.bind_ok] at h
              cases ho1 : d1.origin with
              | none =>
                  rw [ho1] at h
                  simp [nonNull] at h
              | some n1 =>
                  rw [ho1] at h
                  simp only [nonNull, Res.bind_ok] at h
                  cases ho2 : d2.origin with
                  | none =>
                      rw [ho2] at h
                      simp [nonNull] at h
                  | some n2 =>
                      rw [ho2] at h
                      simp only [nonNull, Res.bind_ok] at h
                      by_cases hf1 : d1.face = none
                      · rw [if_neg (not_not_intro hf1)] at h
                        simp only [Res.monad_pure, Res.bind_ok] at h
                        by_cases hf2 : d2.face = none
                        · rw [if_neg (not_not_intro hf2)] at h
                          simp only [Res.monad_pure, Res.bind_ok] at h
                          exact split_edge_tail s e p n1 n2 none none t nres w h
                        · rw [if_pos hf2] at h
                          cases hd8 : mget s.halfedges d2.prev with
                          | none =>
                              simp [HDS.he?, hd8] at h
                          | some d8 =>
                              simp only [HDS.he?, hd8, Res.monad_bind,
                                Res.bind_ok, Res.monad_pure] at h
                              exact split_edge_tail s e p n1 n2 none
                                (some (d2.next, d2.prev, d8.origin)) t nres w h
                      · rw [if_pos hf1] at h
                        cases hd6 : mget s.halfedges d1.prev with
                        | none =>
                            simp [HDS.he?, hd6] at h
                        | some d6 =>
                            simp only [HDS.he?, hd6, Res.monad_bind,
                              Res.bind_ok, Res.monad_pure] at h
                            by_cases hf2 : d2.face = none
                            · rw [if_neg (not_not_intro hf2)] at h
                              simp only [Res.monad_pure, Res.bind_ok] at h
                              exact split_edge_tail s e p n1 n2
                                (some (d1.next, d1.prev, d6.origin)) none t
                                nres w h
                            · rw [if_pos hf2] at h
                              cases hd8 : mget s.halfedges d2.prev with
                              | none =>
                                  simp [HDS.he?, hd8] at h
                              | some d8 =>
                                  simp only [HDS.he?, hd8, Res.monad_bind,
                                    Res.bind_ok, Res.monad_pure] at h
                                  exact split_edge_tail s e p n1 n2
                                    (some (d1.next, d1.prev, d6.origin))
                                    (some (d2.next, d2.prev, d8.origin)) t
                                    nres w h

set_option maxHeartbeats 800000 in
/-- Well-formedness is preserved by a successful `split_face`. -/
theorem wf_split_face (s : HDS) (f : Nat) (p : Point2) (t : HDS) (nres : Nat)
    (w : WF s) (h : split_face s f p = Res.ok (t, nres)) : WF t := by
  unfold split_face at h
  cases hfd : mget s.faces f with
  | none =>
      simp [HDS.face?, hfd] at h
  | some fd =>
      simp only [HDS.face?, hfd, Res.monad_bind, Res.bind_ok] at h
      cases hd1 : mget s.halfedges fd.halfedge with
      | none =>
          simp [HDS.he?, hd1] at h
      | some d1 =>
          simp only [HDS.he?, hd1, Res.bind_ok] at h
          cases hrf : remove_face s f with
          | ok sA =>
              rw [hrf] at h
              simp only [Res.bind_ok] at h
              have wA := wf_remove_face s f sA w hrf
              cases han : add_node sA p with
              | mk sN nN =>
                  rw [han] at h
                  simp only at h
                  have wN : WF sN := by
                    have h5 := wf_add_node sA p wA
                    rw [han] at h5
                    exact h5
                  cases ho1 : mget sN.halfedges fd.halfedge with
                  | none =>
                      simp [HDS.he?, ho1] at h
                  | some o1 =>
                      simp only [HDS.he?, ho1, Res.bind_ok] at h
                      cases hm1 : o1.origin with
                      | none =>
                          rw [hm1] at h
                          simp [nonNull] at h
                      | some m1 =>
                          rw [hm1] at h
                          simp only [nonNull, Res.bind_ok] at h
                          cases hae1 : add_edge sN nN m1 with
                          | ok r1 =>
                              cases r1 with
                              | mk sE1 h4v =>
                                  rw [hae1] at h
                                  simp only [Res.bind_ok] at h
                                  have wE1 := wf_add_edge sN nN m1 sE1 h4v wN hae1
                                  cases ho2 : mget sE1.halfedges d1.next with
                                  | none =>
                                      simp [HDS.he?, ho2] at h
                                  | some o2 =>
                                      simp only [HDS.he?, ho2, Res.bind_ok] at h
                                      cases hm2 : o2.origin with
                                      | none =>
                                          rw [hm2] at h
                                          simp [nonNull] at h
                                      | some m2 =>
                                          rw [hm2] at h
                                          simp only [nonNull, Res.bind_ok] at h
                                          cases hae2 : add_edge sE1 nN m2 with
                                          | ok r2 =>
                                              cases r2 with
                                              | mk sE2 h5v =>
                                                  rw [hae2] at h
                                                  simp only [Res.bind_ok] at h
                                                  have wE2 := wf_add_edge sE1 nN m2 sE2 h5v wE1 hae2
                                                  cases ho3 : mget sE2.halfedges d1.prev with
                                                  | none =>
                                                      simp [HDS.he?, ho3] at h
                                                  | some o3 =>
                                                      simp only [HDS.he?, ho3, Res.bind_ok] at h
                                                      cases hm3 : o3.origin with
                                                      | none =>
                                                          rw [hm3] at h
                                                          simp [nonNull] at h
                                                      | some m3 =>
                                                          rw [hm3] at h
                                                          simp only [nonNull, Res.bind_ok] at h
                                                          cases hae3 : add_edge sE2 nN m3 with
                                                          | ok r3 =>
                                                              cases r3 with
                                                              | mk sE3 h6v =>
                                                                  rw [hae3] at h
                                                                  simp only [Res.bind_ok] at h
                                                                  have wE3 := wf_add_edge sE2 nN m3 sE3 h6v wE2 hae3
                                                                  cases hd5 : mget sE3.halfedges h5v with
                                                                  | none =>
                                                                      simp [HDS.he?, hd5] at h
                                                                  | some d5 =>
                                                                      simp only [HDS.he?, hd5, Res.bind_ok] at h
                                                                      cases haf1 : add_face sE3 h4v fd.halfedge d5.pair with
                                                                      | ok rf1 =>
                                                                          cases rf1 with
                                                                          | mk sF1 fv1 =>
                                                                              rw [haf1] at h
                                                                              simp only [Res.bind_ok] at h
                                                                              have wF1 := wf_add_face sE3 h4v fd.halfedge d5.pair sF1 fv1 wE3 haf1
                                                                              cases hd6 : mget sF1.halfedges h6v with
                                                                              | none =>
                                                                                  simp [HDS.he?, hd6] at h
                                                                              | some d6 =>
                                                                                  simp only [HDS.he?, hd6, Res.bind_ok] at h
                                                                                  cases haf2 : add_face sF1 h5v d1.next d6.pair with
                                                                                  | ok rf2 =>
                                                                                      cases rf2 with
                                                                                      | mk sF2 fv2 =>
                                                                                          rw [haf2] at h
                                                                                          simp only [Res.bind_ok] at h
                                                                                          have wF2 := wf_add_face sF1 h5v d1.next d6.pair sF2 fv2 wF1 haf2
                                                                                          cases hd4 : mget sF2.halfedges h4v with
                                                                                          | none =>
                                                                                              simp [HDS.he?, hd4] at h
                                                                                          | some d4 =>
                                                                                              simp only [HDS.he?, hd4, Res.bind_ok] at h
                                                                                              cases haf3 : add_face sF2 h6v d1.prev d4.pair with
                                                                                              | ok rf3 =>
                                                                                                  cases rf3 with
                                                                                                  | mk sF3 fv3 =>
                                                                                                      rw [haf3] at h
                                                                                                      simp only [Res.bind_ok, Res.monad_pure, Res.ok.injEq, Prod.mk.injEq] at h
                                                                                                      obtain ⟨ht, -⟩ := h
                                                                                                      subst ht
                                                                                                      exact wf_add_face sF2 h6v d1.prev d4.pair sF3 fv3 wF2 haf3
                                                                                              | err e2 sx =>
                                                                                                  rw [haf3] at h
                                                                                                  simp at h
                                                                                              | div =>
                                                                                                  rw [haf3] at h
                                                                                                  simp at h
                                                                                  | err e2 sx =>
                                                                                      rw [haf2] at h
                                                                                      simp at h
                                                                                  | div =>
                                                                                      rw [haf2] at h
                                                                                      simp at h
                                                                      | err e2 sx =>
                                                                          rw [haf1] at h
                                                                          simp at h
                                                                      | div =>
                                                                          rw [haf1] at h
                                                                          simp at h
                                                          | err e2 sx =>
                                                              rw [hae3] at h
                                                              simp at h
                                                          | div =>
                                                              rw [hae3] at h
                                                              simp at h
                                          | err e2 sx =>
                                              rw [hae2] at h
                                              simp at h
                                          | div =>
                                              rw [hae2] at h
                                              simp at h
                          | err e2 sx =>
                              rw [hae1] at h
                              simp at h
                          | div =>
                              rw [hae1] at h
                              simp at h
          | err e2 sx =>
              rw [hrf] at h
              simp at h
          | div =>
              rw [hrf] at h
              simp at h

/-- The empty store is well-formed. -/
theorem wf_empty : WF HDS.empty := by
  refine
    { ndN := ?_
      ndH := ?_
      ndE := ?_
      ltN := ?_
      ltH := ?_
      ltE := ?_
      pairI := ?_
      pairN := ?_
      npI := ?_
      pnI := ?_
      orK := ?_
      orL := ?_
      coh := ?_
      noL := ?_
      edO := ?_
      edH := ?_
      ndHe := ?_
      iso := ?_
      fan := ?_ }
  · simp [HDS.empty, keysOf]
  · simp [HDS.empty, keysOf]
  · simp [HDS.empty, keysOf]
  · intro k hk
    simp [HDS.empty, keysOf] at hk
  · intro k hk
    simp [HDS.empty, keysOf] at hk
  · intro k hk
    simp [HDS.empty, keysOf] at hk
  · intro h d hd
    simp [HDS.empty, mget] at hd
  · intro h d hd
    simp [HDS.empty, mget] at hd
  · intro h d hd
    simp [HDS.empty, mget] at hd
  · intro h d hd
    simp [HDS.empty, mget] at hd
  · intro h d hd
    simp [HDS.empty, mget] at hd
  · intro h d hd
    simp [HDS.empty, mget] at hd
  · intro h d dn dp hd hdn hdp
    simp [HDS.empty, mget] at hd
  · intro h d dp hd hdp
    simp [HDS.empty, mget] at hd
  · intro h d hd
    simp [HDS.empty, mget] at hd
  · intro e edd hedd
    simp [HDS.empty, mget] at hedd
  · intro n nd hnd nh hh
    simp [HDS.empty, mget] at hnd
  · intro n nd hnd hni h d hd
    simp [HDS.empty, mget] at hd
  · intro n x hx
    obtain ⟨dx, hdx, -⟩ := hx
    simp [HDS.empty, mget] at hdx

/-- Every state reachable by successful public mutations is well-formed. -/
theorem reachable_wf (s : HDS) (h : Reachable s) : WF s := by
  induction h with
  | empty => exact wf_empty
  | step s t hR hst ih =>
      cases hst with
      | addNode p => exact wf_add_node s p ih
      | removeNode n t2 hop => exact wf_remove_node s n t ih hop
      | addEdge n1 n2 t2 hv hop => exact wf_add_edge s n1 n2 t hv ih hop
      | removeEdge e t2 hop => exact wf_remove_edge s e t ih hop
      | addFace h1 h2 h3 t2 fv hop => exact wf_add_face s h1 h2 h3 t fv ih hop
      | removeFace fv t2 hop => exact wf_remove_face s fv t ih hop
      | splitEdge e p t2 n hop => exact wf_split_edge s e p t n ih hop
      | splitFace fv p t2 n hop => exact wf_split_face s fv p t n ih hop

/-- C1: in every reachable state (after every successful public mutation
`add_node`, `remove_node`, `add_edge`, `remove_edge`, `add_face`,
`remove_face`, `split_edge`, `split_face`) and for every halfedge `h` in the
store, the involution and linking invariants hold: `h.pair.pair = h`,
`h.next.prev = h`, `h.prev.next = h`, and `h.next.origin = h.pair.origin`
(all four neighbour handles being live in the store). -/
theorem halfedge_invariants (s : HDS) (hr : Reachable s) (h : Nat)
    (d : HalfedgeD) (hd : mget s.halfedges h = some d) :
    (∃ dp, mget s.halfedges d.pair = some dp ∧ dp.pair = h) ∧
    (∃ dn, mget s.halfedges d.next = some dn ∧ dn.prev = h) ∧
    (∃ dv, mget s.halfedges d.prev = some dv ∧ dv.next = h) ∧
    (∃ dn dp, mget s.halfedges d.next = some dn ∧
      mget s.halfedges d.pair = some dp ∧ dn.origin = dp.origin) := by
  have w := reachable_wf s hr
  refine ⟨w.pairI h d hd, w.npI h d hd, w.pnI h d hd, ?_⟩
  obtain ⟨dn, hdn, -⟩ := w.npI h d hd
  obtain ⟨dp, hdp, -⟩ := w.pairI h d hd
  exact ⟨dn, dp, hdn, hdp, w.coh h d dn dp hd hdn hdp⟩

/-- Witness for C1: in the reachable two-node one-edge store `OneEdge`,
halfedge `2` satisfies all four invariants. -/
theorem halfedge_invariants_check :
    (∃ dp, mget OneEdge.halfedges 3 = some dp ∧ dp.pair = 2) ∧
    (∃ dn, mget OneEdge.halfedges 3 = some dn ∧ dn.prev = 2) ∧
    (∃ dv, mget OneEdge.halfedges 3 = some dv ∧ dv.next = 2) ∧
    (∃ dn dp, mget OneEdge.halfedges 3 = some dn ∧
      mget OneEdge.halfedges 3 = some dp ∧ dn.origin = dp.origin) :=
  halfedge_invariants OneEdge
    (Reachable.step _ _ (Reachable.step _ _ (Reachable.step _ _
      Reachable.empty (MStep.addNode HDS.empty ⟨0, 0⟩))
      (MStep.addNode (add_node HDS.empty ⟨0, 0⟩).1 ⟨1, 0⟩))
      (MStep.addEdge (add_node (add_node HDS.empty ⟨0, 0⟩).1 ⟨1, 0⟩).1 0 1
        OneEdge 2 rfl))
    2 ⟨some 0, 3, 3, 3, 4, none⟩ rfl

end Umeshu
